import Mathlib

/-!
Verification of the `space-partitioning` library (quadtree, interval tree,
indexed free list) against its specification.  All definitions are shallow
embeddings of the Rust source; machine integers are modelled as `Int`/`Nat`
with explicit wrapping where overflow can occur.
-/

set_option maxHeartbeats 1000000

namespace SP

/-! ## Interval tree: `src/interval_tree/interval.rs` -/

/-- `Interval<T>` from `interval.rs`, with the canonical integral domain
(`i32`) modelled as `Int`.  The source field `end` is a Lean keyword and is
written `«end»` here. -/
structure Interval where
  start : Int
  «end» : Int
deriving Repr, DecidableEq

/-- `Interval::overlaps_with`: `(self.start <= other.end) && (other.start <= self.end)`. -/
def Interval.overlaps_with (self other : Interval) : Bool :=
  decide (self.start ≤ other.«end») && decide (other.start ≤ self.«end»)

/-! ## Interval tree: `src/interval_tree/interval_tree_entry.rs`,
`interval_tree_node.rs`, `inorder_iterator.rs`, `interval_tree.rs` -/

/-- `IntervalTreeEntry<T, D>`: an interval together with its payload. -/
structure IntervalTreeEntry (D : Type) where
  interval : Interval
  data : D
deriving Repr, DecidableEq

/-- `IntervalTreeNode<T, D>`: entry, `max` augmentation and the two optional
boxed children (`ChildNode<T, D> = Option<Box<IntervalTreeNode<T, D>>>`). -/
inductive IntervalTreeNode (D : Type) : Type where
  | mk : IntervalTreeEntry D → Int → Option (IntervalTreeNode D) →
      Option (IntervalTreeNode D) → IntervalTreeNode D

namespace IntervalTreeNode

variable {D : Type}

/-- Field accessor for `entry`. -/
def entry : IntervalTreeNode D → IntervalTreeEntry D
  | .mk e _ _ _ => e

/-- Field accessor for `max`. -/
def max : IntervalTreeNode D → Int
  | .mk _ m _ _ => m

/-- Field accessor for `left`. -/
def left : IntervalTreeNode D → Option (IntervalTreeNode D)
  | .mk _ _ l _ => l

/-- Field accessor for `right`. -/
def right : IntervalTreeNode D → Option (IntervalTreeNode D)
  | .mk _ _ _ r => r

/-- `IntervalTreeNode::new`: a fresh leaf whose `max` is its own interval end. -/
def new (entry : IntervalTreeEntry D) : IntervalTreeNode D :=
  .mk entry entry.interval.«end» none none

/-- `IntervalTreeNode::len`: subtree size. -/
def len : IntervalTreeNode D → Nat
  | .mk _ _ l r =>
    1 + (match l with | some lt => lt.len | none => 0)
      + (match r with | some rt => rt.len | none => 0)

/-- `IntervalTreeNode::insert`, translated functionally (the Rust method
mutates `self` in place and the new node descends by `interval.start`,
ties to the right).  Note the `max` update compares `self.max` with
`high = self.entry.interval.end`, exactly as in the source. -/
def insert : IntervalTreeNode D → IntervalTreeNode D → IntervalTreeNode D
  | .mk entry maxv l r, node =>
    let low := entry.interval.start
    let high := entry.interval.«end»
    let lr :=
      if node.entry.interval.start < low then
        match l with
        | some lt => (some (lt.insert node), r)
        | none => (some node, r)
      else
        match r with
        | some rt => (l, some (rt.insert node))
        | none => (l, some node)
    let maxv' := if maxv < high then high else maxv
    .mk entry maxv' lr.1 lr.2

/-- `IntervalTreeNode::overlap_search`. -/
def overlap_search : IntervalTreeNode D → Interval → Option Interval
  | .mk entry _ l r, interval =>
    if entry.interval.overlaps_with interval then
      some entry.interval
    else
      match l with
      | some lt =>
        if lt.max ≥ interval.start then
          lt.overlap_search interval
        else
          match r with
          | some rt => rt.overlap_search interval
          | none => none
      | none =>
        match r with
        | some rt => rt.overlap_search interval
        | none => none

end IntervalTreeNode

/-! `State` of `InorderIterator` (`inorder_iterator.rs`) together with the
iterator itself; the two types are mutually recursive because the emitting
states hold a boxed sub-iterator. -/
mutual
/-- The `State` enum of `inorder_iterator.rs`. -/
inductive InorderState (D : Type) : Type where
  | initial : InorderState D
  | emitLeft : InorderIterator D → InorderState D
  | emitSelf : InorderState D
  | emitRight : InorderIterator D → InorderState D
  | done : InorderState D

/-- The `InorderIterator` struct of `inorder_iterator.rs`. -/
inductive InorderIterator (D : Type) : Type where
  | mk : Option (IntervalTreeNode D) → InorderState D → InorderIterator D
end

namespace InorderIterator

variable {D : Type}

/-- `InorderIterator::new`. -/
def new (root : IntervalTreeNode D) : InorderIterator D :=
  .mk (some root) .initial

/-- `InorderIterator::empty`. -/
def empty : InorderIterator D :=
  .mk none .done

/-- Termination measure for `next`: each loop iteration of the Rust `next`
either recurses into a strictly smaller sub-iterator or into a state with a
strictly smaller measure. -/
def iterMeasure : InorderIterator D → Nat
  | .mk none _ => 0
  | .mk (some t) .initial => 2 * t.len + 2
  | .mk (some _) (.emitLeft sub) => iterMeasure sub + 1
  | .mk (some _) .emitSelf => 0
  | .mk (some _) (.emitRight sub) => iterMeasure sub + 1
  | .mk (some _) .done => 0

/-- `Iterator::next` for `InorderIterator`: the explicit state machine.  The
Rust `loop` is rendered as recursive calls for the state transitions that do
not return; transitions that return an item update the stored state. -/
def next : InorderIterator D → Option (IntervalTreeNode D) × InorderIterator D
  | .mk none s => (none, .mk none s)
  | .mk (some (.mk e m (some l) r)) .initial =>
    next (.mk (some (.mk e m (some l) r)) (.emitLeft (.mk (some l) .initial)))
  | .mk (some (.mk e m none r)) .initial =>
    next (.mk (some (.mk e m none r)) .emitSelf)
  | .mk (some root) (.emitLeft sub) =>
    (match next sub with
     | (some v, sub') => (some v, .mk (some root) (.emitLeft sub'))
     | (none, _) => next (.mk (some root) .emitSelf))
  | .mk (some (.mk e m l (some r))) .emitSelf =>
    (some (.mk e m l (some r)),
      .mk (some (.mk e m l (some r))) (.emitRight (.mk (some r) .initial)))
  | .mk (some (.mk e m l none)) .emitSelf =>
    (some (.mk e m l none), .mk (some (.mk e m l none)) .done)
  | .mk (some root) (.emitRight sub) =>
    (match next sub with
     | (some v, sub') => (some v, .mk (some root) (.emitRight sub'))
     | (none, _) => (none, .mk (some root) .done))
  | .mk (some root) .done => (none, .mk (some root) .done)
termination_by iter => iterMeasure iter
decreasing_by
  all_goals simp only [iterMeasure]
  all_goals try omega
  all_goals cases r <;> simp [IntervalTreeNode.len] <;> omega

/-- `Iterator::size_hint` for `InorderIterator`. -/
def size_hint : InorderIterator D → Nat × Option Nat
  | .mk none _ => (0, none)
  | .mk (some t) _ => (t.len, some t.len)

end InorderIterator

/-- `IntervalTree<T, D>` (`interval_tree.rs`): an optional root node. -/
structure IntervalTree (D : Type) where
  root : Option (IntervalTreeNode D)

namespace IntervalTree

variable {D : Type}

/-- `IntervalTree::default`. -/
def default : IntervalTree D := ⟨none⟩

/-- `IntervalTree::new_from_entry`. -/
def new_from_entry (entry : IntervalTreeEntry D) : IntervalTree D :=
  ⟨some (IntervalTreeNode.new entry)⟩

/-- `IntervalTree::insert`. -/
def insert (self : IntervalTree D) (entry : IntervalTreeEntry D) : IntervalTree D :=
  let node := IntervalTreeNode.new entry
  match self.root with
  | none => ⟨some node⟩
  | some r => ⟨some (r.insert node)⟩

/-- `IntervalTree::len`. -/
def len (self : IntervalTree D) : Nat :=
  match self.root with
  | some node => node.len
  | none => 0

/-- `IntervalTree::overlap_search` (delegating to the node-level search,
which returns the found interval). -/
def overlap_search (self : IntervalTree D) (interval : Interval) : Option Interval :=
  match self.root with
  | some node => node.overlap_search interval
  | none => none

/-- `IntervalTree::iter_inorder`. -/
def iter_inorder (self : IntervalTree D) : InorderIterator D :=
  match self.root with
  | some node => InorderIterator.new node
  | none => InorderIterator.empty

/-- `FromIterator` / any sequence of inserts starting from the empty tree. -/
def ofList (entries : List (IntervalTreeEntry D)) : IntervalTree D :=
  entries.foldl insert default

end IntervalTree

/-! ### Observation helpers for the interval tree -/

namespace IntervalTreeNode

variable {D : Type}

/-- Size of an optional subtree. -/
def lenOpt : Option (IntervalTreeNode D) → Nat
  | some t => t.len
  | none => 0

/-- Nodes of an optional subtree in left-to-right in-order (the order of
`collect_inorder` in the `inorder_iterator.rs` tests). -/
def inorderOpt : Option (IntervalTreeNode D) → List (IntervalTreeNode D)
  | none => []
  | some (.mk e m l r) => inorderOpt l ++ (.mk e m l r : IntervalTreeNode D) :: inorderOpt r

/-- Nodes of an optional subtree, root first; the reference enumeration of
the entries stored in the tree. -/
def nodesOpt : Option (IntervalTreeNode D) → List (IntervalTreeNode D)
  | none => []
  | some (.mk e m l r) => (.mk e m l r : IntervalTreeNode D) :: (nodesOpt l ++ nodesOpt r)

/-- The maximum of `interval.end` over all entries in a subtree: the value
the `max` augmentation is supposed to hold. -/
def subtreeMaxEnd : IntervalTreeNode D → Int
  | .mk e _ l r =>
    let m0 := e.interval.«end»
    let m1 := match l with | some lt => Max.max m0 lt.subtreeMaxEnd | none => m0
    match r with | some rt => Max.max m1 rt.subtreeMaxEnd | none => m1

/-- All entries of an optional subtree satisfy `p`. -/
def allNodesOpt (p : IntervalTreeEntry D → Prop) : Option (IntervalTreeNode D) → Prop
  | none => True
  | some (.mk e _ l r) => p e ∧ allNodesOpt p l ∧ allNodesOpt p r

/-- The binary-search-tree ordering that `insert` maintains: strictly
smaller starts to the left, ties and larger starts to the right. -/
def isBSTOpt : Option (IntervalTreeNode D) → Prop
  | none => True
  | some (.mk e _ l r) =>
    allNodesOpt (fun x => x.interval.start < e.interval.start) l ∧
    allNodesOpt (fun x => e.interval.start ≤ x.interval.start) r ∧
    isBSTOpt l ∧ isBSTOpt r

end IntervalTreeNode

namespace InorderIterator

variable {D : Type}

/-- Number of items the iterator has yet to emit. -/
def remaining : InorderIterator D → Nat
  | .mk none _ => 0
  | .mk (some t) .initial => t.len
  | .mk (some t) (.emitLeft sub) => remaining sub + 1 + IntervalTreeNode.lenOpt t.right
  | .mk (some t) .emitSelf => 1 + IntervalTreeNode.lenOpt t.right
  | .mk (some _) (.emitRight sub) => remaining sub
  | .mk (some _) .done => 0

/-- Fuelled enumeration of the iterator; `remaining` fuel is always enough,
as proved below. -/
def emitsFuel : Nat → InorderIterator D → List (IntervalTreeNode D)
  | 0, _ => []
  | fuel + 1, iter =>
    match next iter with
    | (some v, iter') => v :: emitsFuel fuel iter'
    | (none, _) => []

/-- The full sequence of items produced by repeatedly calling `next`. -/
def emits (iter : InorderIterator D) : List (IntervalTreeNode D) :=
  emitsFuel (remaining iter) iter

end InorderIterator

/-- The entries currently stored in an interval tree, root first. -/
def IntervalTree.storedEntries {D : Type} (self : IntervalTree D) : List (IntervalTreeEntry D) :=
  (IntervalTreeNode.nodesOpt self.root).map IntervalTreeNode.entry

/-! ## Indexed free list: `src/quadtree/free_list.rs` -/

/-- `free_list::SENTINEL = IndexType::MAX` (`IndexType = u32`). -/
def SENTINEL : Nat := 4294967295

/-- The cell union `FreeElement<T>`: either a live value or the index of the
next free cell.  The Rust union is untagged; the tag here records which field
was last written, which is exactly the information the free-chain discipline
relies on. -/
inductive FreeElement (T : Type) where
  | element (value : T)
  | next (idx : Nat)
deriving Repr, DecidableEq

/-- `FreeList<T>`: a vector of cells and the index of the most recently freed
element (`SENTINEL` when none). -/
structure FreeList (T : Type) where
  data : List (FreeElement T)
  first_free : Nat
deriving Repr, DecidableEq

namespace FreeList

variable {T : Type}

/-- `FreeList::default`. -/
def default : FreeList T := ⟨[], SENTINEL⟩

/-- `FreeList::insert`.  Reading `.next` of a cell that holds a live value is
undefined behaviour in the source; that unreachable read is modelled as
`SENTINEL`, and an out-of-bounds read (a panic in Rust) likewise. -/
def insert (self : FreeList T) (element : T) : Nat × FreeList T :=
  if self.first_free ≠ SENTINEL then
    let index := self.first_free
    let ff :=
      match self.data.getD index (.next SENTINEL) with
      | .next n => n
      | .element _ => SENTINEL
    (index, ⟨self.data.set index (.element element), ff⟩)
  else
    (self.data.length, ⟨self.data ++ [.element element], self.first_free⟩)

/-- `FreeList::erase`: the method first sets `first_free = SENTINEL`, then (if
the vector is non-empty) drops the value at `n`, writes the current
`first_free` (now `SENTINEL`) into the cell's `next` field and points
`first_free` at `n`.  (`List.set` ignores an out-of-bounds `n`, which in Rust
would be an index panic; all call sites use in-bounds handles.) -/
def erase (self : FreeList T) (n : Nat) : FreeList T :=
  let self1 : FreeList T := ⟨self.data, SENTINEL⟩
  if self1.data.isEmpty then self1
  else ⟨self1.data.set n (.next self1.first_free), n⟩

/-- `FreeList::at` (named `atIdx` because `at` is a Lean keyword): read the
live value at a handle; erased or out-of-bounds handles are undefined in the
source and modelled as `none`. -/
def atIdx (self : FreeList T) (index : Nat) : Option T :=
  match self.data.getD index (.next SENTINEL) with
  | .element v => some v
  | .next _ => none

end FreeList

/-! ## Geometry: `src/quadtree/point.rs`, `aabb.rs`, `quad_rect.rs` -/

/-- `Point`: two `i32` coordinates, modelled as `Int`. -/
structure Point where
  x : Int
  y : Int
deriving Repr, DecidableEq

/-- `AABB`: top-left and bottom-right corners. -/
structure AABB where
  tl : Point
  br : Point
deriving Repr, DecidableEq

/-- `AABB::new(x1, y1, x2, y2)`. -/
def AABB.new (x1 y1 x2 y2 : Int) : AABB := ⟨⟨x1, y1⟩, ⟨x2, y2⟩⟩

/-- `AABB::intersects_with` (`intersections::IntersectsWith<AABB> for AABB`):
strict per-axis overlap for the plain case, relaxed non-strict overlap when
either input is degenerate on either axis. -/
def AABB.intersects_with (self other : AABB) : Bool :=
  let x1_max := Max.max self.tl.x other.tl.x
  let x2_min := Min.min self.br.x other.br.x
  let y1_max := Max.max self.tl.y other.tl.y
  let y2_min := Min.min self.br.y other.br.y
  let a := decide (x1_max < x2_min)
  let b := decide (y1_max < y2_min)
  let intersects := a && b
  let d_a := decide (x1_max ≤ x2_min)
  let d_b := decide (y1_max ≤ y2_min)
  let degenerate_x := decide (other.tl.x = other.br.x) || decide (self.tl.x = self.br.x)
  let degenerate_y := decide (other.tl.y = other.br.y) || decide (self.tl.y = self.br.y)
  let is_degenerate := degenerate_x || degenerate_y
  let d_intersects := is_degenerate && d_a && d_b
  intersects || d_intersects

/-- Wrap an integer into the `i32` range, modelling release-mode two's
complement overflow of `i32` arithmetic. -/
def wrap32 (x : Int) : Int := (x + 2 ^ 31) % 2 ^ 32 - 2 ^ 31

/-- Arithmetic shift right by one of an `i32` value: floor division by two. -/
def asr1 (x : Int) : Int := Int.fdiv x 2

/-- `QuadRect`: left, top, width, height of the tree bounds. -/
structure QuadRect where
  l : Int
  t : Int
  hx : Int
  hy : Int
deriving Repr, DecidableEq

/-- `QuadRect::new(left, top, width, height)`. -/
def QuadRect.new (left top width height : Int) : QuadRect := ⟨left, top, width, height⟩

/-- `QuadRect::contains`: note the source computes the **midpoint** of the
rectangle (`(tl + br) >> 1` per axis, with wrapping `i32` addition and an
arithmetic shift) and only checks that this midpoint lies in the closed
root rectangle. -/
def QuadRect.contains (self : QuadRect) (rect : AABB) : Bool :=
  let mx := asr1 (wrap32 (rect.tl.x + rect.br.x))
  let my := asr1 (wrap32 (rect.tl.y + rect.br.y))
  let r := wrap32 (self.l + self.hx)
  let b := wrap32 (self.t + self.hy)
  decide (mx ≥ self.l) && decide (mx ≤ r) && decide (my ≥ self.t) && decide (my ≤ b)

/-- `QuadRect` converted to an `AABB` (`impl Into<AABB> for QuadRect`). -/
def QuadRect.toAABB (self : QuadRect) : AABB :=
  AABB.new self.l self.t (wrap32 (self.l + self.hx)) (wrap32 (self.t + self.hy))

/-! ### Specification-side geometry observations (for claim statements) -/

/-- A point lies in the closed integer point set covered by a rectangle. -/
def pointInClosed (p : Point) (r : AABB) : Prop :=
  r.tl.x ≤ p.x ∧ p.x ≤ r.br.x ∧ r.tl.y ≤ p.y ∧ p.y ≤ r.br.y

/-- The closed integer point sets of two rectangles share at least one point. -/
def sharesClosedPoint (a b : AABB) : Prop :=
  ∃ p : Point, pointInClosed p a ∧ pointInClosed p b

/-- A rectangle is non-empty: top-left not beyond bottom-right on both axes
(degenerate zero-extent rectangles are allowed). -/
def nonEmptyRect (r : AABB) : Prop :=
  r.tl.x ≤ r.br.x ∧ r.tl.y ≤ r.br.y

/-- The source's degeneracy test: either input has zero extent on either axis. -/
def degeneratePair (a b : AABB) : Prop :=
  b.tl.x = b.br.x ∨ a.tl.x = a.br.x ∨ b.tl.y = b.br.y ∨ a.tl.y = a.br.y

/-- Strict per-axis overlap: the shared region has positive extent on both
axes. -/
def strictOverlap (a b : AABB) : Prop :=
  Max.max a.tl.x b.tl.x < Min.min a.br.x b.br.x ∧
  Max.max a.tl.y b.tl.y < Min.min a.br.y b.br.y

/-- Full containment of a rectangle in a `QuadRect`, as the specification's
words describe it ("the element's rectangle is not contained in the root
rectangle"). -/
def specFullyContained (root : QuadRect) (rect : AABB) : Prop :=
  root.l ≤ rect.tl.x ∧ root.t ≤ rect.tl.y ∧
  rect.br.x ≤ wrap32 (root.l + root.hx) ∧ rect.br.y ≤ wrap32 (root.t + root.hy)

/-! ## Quadtree: `src/quadtree/quadrants.rs` -/

/-- `Quadrants`: the 5-bit set `{this=1, TL=2, TR=4, BL=8, BR=16}`. -/
structure Quadrants where
  code : Nat
deriving Repr, DecidableEq

namespace Quadrants

/-- `Quadrants::from_tests`. -/
def from_tests (explore_left explore_top explore_right explore_bottom : Bool) : Quadrants :=
  let covers_many := (explore_left && explore_right) || (explore_top && explore_bottom)
  let this := covers_many.toNat
  let top_left := (explore_top && explore_left).toNat <<< 1
  let top_right := (explore_top && explore_right).toNat <<< 2
  let bottom_left := (explore_bottom && explore_left).toNat <<< 3
  let bottom_right := (explore_bottom && explore_right).toNat <<< 4
  ⟨this + top_left + top_right + bottom_left + bottom_right⟩

/-- `Quadrants::all`. -/
def all : Quadrants := ⟨1 + 2 + 4 + 8 + 16⟩

/-- `Quadrants::this` (Lean keyword, hence guillemets). -/
def «this» (self : Quadrants) : Bool := self.code &&& 1 == 1

/-- `Quadrants::top_left`. -/
def top_left (self : Quadrants) : Bool := self.code &&& 2 == 2

/-- `Quadrants::top_right`. -/
def top_right (self : Quadrants) : Bool := self.code &&& 4 == 4

/-- `Quadrants::bottom_left`, translated verbatim: the source compares
`self.code & 8` against `5`, not `8`. -/
def bottom_left (self : Quadrants) : Bool := self.code &&& 8 == 5

/-- `Quadrants::bottom_right`, translated verbatim: the source compares
`self.code & 16` against `6`, not `16`. -/
def bottom_right (self : Quadrants) : Bool := self.code &&& 16 == 6

/-- `Quadrants::at` (named `atIdx`: `at` is a Lean keyword). -/
def atIdx (self : Quadrants) (index : Nat) : Bool :=
  let value := 1 <<< index
  self.code &&& value == value

end Quadrants

/-! ## Quadtree: `src/quadtree/centered_aabb.rs` -/

/-- `CenteredAABB`: center and half extents. -/
structure CenteredAABB where
  center_x : Int
  center_y : Int
  half_width : Int
  half_height : Int
deriving Repr, DecidableEq

namespace CenteredAABB

/-- `CenteredAABB::from_ltwh`. -/
def from_ltwh (left top width height : Int) : CenteredAABB :=
  let hx := asr1 width
  let hy := asr1 height
  ⟨wrap32 (left + hx), wrap32 (top + hy), hx, hy⟩

/-- `CenteredAABB::explore_quadrants_aabb`: the four half-plane tests, with
the center lines belonging to the top/left halves. -/
def explore_quadrants_aabb (self : CenteredAABB) (other : AABB) : Quadrants :=
  Quadrants.from_tests
    (decide (other.tl.x ≤ self.center_x))
    (decide (other.tl.y ≤ self.center_y))
    (decide (other.br.x > self.center_x))
    (decide (other.br.y > self.center_y))

/-- Modelled from the spec: the five-slot child-cell array used by the
descent (`split_quadrants(&self) -> [CenteredAABB; 5]` is referenced from
`quadtree.rs` but missing from the provided sources, which only contain the
four-quadrant revision).  Per the spec, slot 0 — the straddler slot — shares
the parent's cell, and slots 1..4 are the TL, TR, BL, BR quadrant cells,
computed with the same arithmetic as the four-quadrant `split_quadrants` in
`centered_aabb.rs`. -/
def split_child (self : CenteredAABB) (offset : Nat) : CenteredAABB :=
  let hx := asr1 self.half_width
  let hy := asr1 self.half_height
  let mx := wrap32 (self.center_x - hx)
  let my := wrap32 (self.center_y - hy)
  let mx2 := wrap32 (wrap32 (self.center_x + self.half_width) - hx)
  let my2 := wrap32 (wrap32 (self.center_y + self.half_height) - hy)
  match offset with
  | 0 => self
  | 1 => ⟨mx, my, hx, hy⟩
  | 2 => ⟨mx2, my, hx, hy⟩
  | 3 => ⟨mx, my2, hx, hy⟩
  | _ => ⟨mx2, my2, hx, hy⟩

end CenteredAABB

/-! ## Quadtree: `src/quadtree/node.rs`, `node_data.rs`, `quadtree_element.rs`,
`error.rs` -/

/-- `NODE_IS_BRANCH = NodeElementCountType::MAX` (`u32`). -/
def NODE_IS_BRANCH : Nat := 4294967295

/-- `Node`: `first_child_or_element` and `element_count`. -/
structure Node where
  first_child_or_element : Nat
  element_count : Nat
deriving Repr, DecidableEq

namespace Node

/-- `Node::default`: an empty leaf. -/
def default : Node := ⟨SENTINEL, 0⟩

/-- `Node::is_empty`. -/
def is_empty (self : Node) : Bool := self.element_count == 0

/-- `Node::is_branch`. -/
def is_branch (self : Node) : Bool := self.element_count == NODE_IS_BRANCH

/-- `Node::is_leaf`. -/
def is_leaf (self : Node) : Bool := !self.is_branch

/-- `Node::get_first_child_node_index`. -/
def get_first_child_node_index (self : Node) : Nat := self.first_child_or_element

/-- `Node::get_first_element_node_index`. -/
def get_first_element_node_index (self : Node) : Nat := self.first_child_or_element

/-- `Node::make_empty_leaf`. -/
def make_empty_leaf : Node := ⟨SENTINEL, 0⟩

/-- `Node::make_branch`. -/
def make_branch (first_child : Nat) : Node := ⟨first_child, NODE_IS_BRANCH⟩

end Node

/-- `NodeData` (`node_data.rs`): a stack frame of the traversals.  The
`NodeFlags` bitfield holds only the `CAN_SPLIT_FLAG` bit and is modelled as
the `can_split` Bool.  Depth is a `u8` in the source; it never exceeds
`max_depth + 1` in any code path that reads it. -/
structure NodeData where
  crect : CenteredAABB
  index : Nat
  depth : Nat
  can_split : Bool
deriving Repr, DecidableEq

namespace NodeData

/-- The `NodeData::new` overload taking a prebuilt cell, as called from
`quadtree.rs` (the provided `node_data.rs` revision only has the
`(l, t, hx, hy, …)` form; the cell-taking form is a plain field
constructor). -/
def new (crect : CenteredAABB) (index : Nat) (depth : Nat) (can_split : Bool) : NodeData :=
  ⟨crect, index, depth, can_split⟩

/-- `NodeData::new_from_root`. -/
def new_from_root (root_rect : QuadRect) (can_split : Bool) : NodeData :=
  ⟨CenteredAABB.from_ltwh root_rect.l root_rect.t root_rect.hx root_rect.hy, 0, 0, can_split⟩

/-- `NodeData::can_subdivide`: at least `smallest_size` in half-width **or**
half-height (the `u32` is cast to `i32` in the source comparison). -/
def can_subdivide (self : NodeData) (smallest_size : Nat) : Bool :=
  decide (self.crect.half_width ≥ wrap32 smallest_size) ||
  decide (self.crect.half_height ≥ wrap32 smallest_size)

/-- `NodeData::can_split_further`. -/
def can_split_further (self : NodeData) (smallest_size : Nat) (max_depth : Nat) : Bool :=
  self.can_split && self.can_subdivide smallest_size && decide (self.depth < max_depth)

end NodeData

/-- `QuadTreeElement` with the canonical `u32` element id modelled as `Nat`. -/
structure QuadTreeElement where
  rect : AABB
  id : Nat
deriving Repr, DecidableEq

/-- `QuadTreeElementNode`: one reference to an element from one leaf. -/
structure QuadTreeElementNode where
  next : Nat
  element_idx : Nat
deriving Repr, DecidableEq

/-- `InsertError` (`error.rs`). -/
inductive InsertError where
  | OutOfBounds
deriving Repr, DecidableEq

/-- `FindLeafHint` (`quadtree.rs`). -/
inductive FindLeafHint where
  | Query
  | Mutate
deriving Repr, DecidableEq

/-! ## Quadtree store and traversal: `src/quadtree/quadtree.rs` -/

/-- The `QuadTree` store.  `NodeList`s and work stacks appear only inside the
operations.  Element ids are the canonical `u32`, modelled as `Nat`. -/
structure QuadTree where
  element_ids : FreeList Nat
  element_rects : FreeList AABB
  element_nodes : FreeList QuadTreeElementNode
  nodes : List Node
  root_rect : QuadRect
  free_node : Nat
  max_num_elements : Nat
  smallest_cell_size : Nat
  max_depth : Nat
deriving Repr, DecidableEq

namespace QuadTree

/-- `QuadTree::new`: `None` models the panics of the two `assert!`s on the
configuration knobs; otherwise the initial state is a single empty leaf and
an empty free-node-group list. -/
def new (root_rect : QuadRect) (max_depth : Nat) (max_num_elements : Nat)
    (smallest_cell_size : Nat) : Option QuadTree :=
  if max_num_elements > 0 then
    if smallest_cell_size > 0 then
      some
        { element_ids := FreeList.default
          element_rects := FreeList.default
          element_nodes := FreeList.default
          nodes := [Node.default]
          root_rect := root_rect
          free_node := SENTINEL
          max_depth := max_depth
          max_num_elements := max_num_elements
          smallest_cell_size := smallest_cell_size }
    else none
  else none

/-- `self.nodes[i]` (a Rust index panic out of bounds; all reachable reads
are in bounds). -/
def nodeAt (self : QuadTree) (i : Nat) : Node := self.nodes.getD i Node.default

/-- Write `self.nodes[i]`. -/
def setNode (self : QuadTree) (i : Nat) (n : Node) : QuadTree :=
  { self with nodes := self.nodes.set i n }

/-- `QuadTree::get_root_node_data`. -/
def get_root_node_data (self : QuadTree) : NodeData :=
  NodeData.new_from_root self.root_rect true

/-- `QuadTree::collect_relevant_quadrants_for_mutation`: push exactly one
frame.  The offset if-chain and the broken `bottom_left`/`bottom_right`
accessors are translated verbatim.  Returned list is in stack order (head =
next pop). -/
def collect_relevant_quadrants_for_mutation (depth : Nat) (first_child_id : Nat)
    (quadrants : Quadrants) (split_quadrants : Nat → CenteredAABB) : List NodeData :=
  let offset : Nat :=
    if quadrants.this then 0
    else if quadrants.top_left then 1
    else if quadrants.top_right then 2
    else if quadrants.bottom_left then 3
    else 4
  let can_split := offset > 0
  let child_depth := if offset = 0 then 0 else depth + 1
  [NodeData.new (split_quadrants offset) (first_child_id + offset) child_depth can_split]

/-- `QuadTree::collect_relevant_quadrants_for_query`: the source pushes the
marked quadrants in the order 4, 3, 2, 1 and then always pushes the "this"
slot; popping therefore visits "this" first, then quadrants 1..4.  The
returned list is in stack order (head = next pop). -/
def collect_relevant_quadrants_for_query (depth : Nat) (first_child_id : Nat)
    (quadrants : Quadrants) (split_quadrants : Nat → CenteredAABB) : List NodeData :=
  let child_depth := depth + 1
  NodeData.new (split_quadrants 0) (first_child_id + 0) depth false ::
    (List.range 4).filterMap fun k =>
      let offset := k + 1
      if quadrants.atIdx offset then
        some (NodeData.new (split_quadrants offset) (first_child_id + offset) child_depth true)
      else none

/-- `QuadTree::collect_relevant_quadrants` (the dispatcher). -/
def collect_relevant_quadrants (nd : NodeData) (first_child_id : Nat)
    (quadrants : Quadrants) (hint : FindLeafHint) : List NodeData :=
  let split_quadrants := nd.crect.split_child
  match hint with
  | .Query => collect_relevant_quadrants_for_query nd.depth first_child_id quadrants
      split_quadrants
  | .Mutate => collect_relevant_quadrants_for_mutation nd.depth first_child_id quadrants
      split_quadrants

/-- The loop of `QuadTree::find_leaves_aabb`.  Both the work stack
`to_process` and the result `leaves` are LIFO stacks whose head is the back
(the next pop).  `fuel` bounds the number of pops; every reachable state
finishes within `nodes.length + 1` pops. -/
def find_leaves_loop (self : QuadTree) (rect : AABB) (hint : FindLeafHint) :
    Nat → List NodeData → List NodeData → List NodeData
  | 0, _, leaves => leaves
  | _ + 1, [], leaves => leaves
  | fuel + 1, nd :: rest, leaves =>
    if (self.nodeAt nd.index).is_leaf then
      find_leaves_loop self rect hint fuel rest (nd :: leaves)
    else
      let fc := (self.nodeAt nd.index).get_first_child_node_index
      let quadrants := nd.crect.explore_quadrants_aabb rect
      find_leaves_loop self rect hint fuel
        (collect_relevant_quadrants nd fc quadrants hint ++ rest) leaves

/-- `QuadTree::find_leaves_aabb`. -/
def find_leaves_aabb (self : QuadTree) (root : NodeData) (rect : AABB)
    (hint : FindLeafHint) : List NodeData :=
  find_leaves_loop self rect hint (self.nodes.length + 1) [root] []

end QuadTree

/-! ## Quadtree mutation and queries: `src/quadtree/quadtree.rs` -/

namespace QuadTree

/-- `QuadTree::ensure_child_nodes_exist`: recycle a five-node group from the
free list, or append five default leaves. -/
def ensure_child_nodes_exist (self : QuadTree) : Nat × QuadTree :=
  if self.free_node ≠ SENTINEL then
    let node_index := self.free_node
    let next_free_node := (self.nodeAt node_index).first_child_or_element
    (node_index,
      { self with nodes := self.nodes.set node_index Node.default,
                  free_node := next_free_node })
  else
    let node_index := self.nodes.length
    (node_index,
      { self with nodes := self.nodes ++
          [Node.default, Node.default, Node.default, Node.default, Node.default] })

/-- `QuadTree::insert_element_in_child_node`. -/
def insert_element_in_child_node (self : QuadTree) (child_index : Nat)
    (element : Nat) : QuadTree :=
  let node := self.nodeAt child_index
  let r := self.element_nodes.insert ⟨node.first_child_or_element, element⟩
  { self with
    element_nodes := r.2,
    nodes := self.nodes.set child_index ⟨r.1, node.element_count + 1⟩ }

/-- `QuadTree::assign_element_to_child_nodes`: straddlers go to the slot at
offset 0, otherwise the single quadrant per the half-plane tests.  A final
fall-through (impossible for well-oriented rectangles) leaves the tree
unchanged, as the Rust if-chain does. -/
def assign_element_to_child_nodes (self : QuadTree) (mx my : Int)
    (first_child_index : Nat) (element_index : Nat) (element_rect : AABB) : QuadTree :=
  let insert_left := decide (element_rect.tl.x ≤ mx)
  let insert_right := decide (element_rect.br.x > mx)
  let insert_top := decide (element_rect.tl.y ≤ my)
  let insert_bottom := decide (element_rect.br.y > my)
  let covers_many := (insert_top && insert_bottom) || (insert_left && insert_right)
  if covers_many then
    self.insert_element_in_child_node (first_child_index + 0) element_index
  else if insert_top && insert_left then
    self.insert_element_in_child_node (first_child_index + 1) element_index
  else if insert_top && insert_right then
    self.insert_element_in_child_node (first_child_index + 2) element_index
  else if insert_bottom && insert_left then
    self.insert_element_in_child_node (first_child_index + 3) element_index
  else if insert_bottom && insert_right then
    self.insert_element_in_child_node (first_child_index + 4) element_index
  else
    self

/-- The element-list walk of `QuadTree::distribute_elements_to_child_nodes`.
Unsafe free-list reads of erased cells cannot occur on reachable states; they
are modelled by junk defaults.  `fuel` bounds the walk; a chain is never
longer than the backing vector. -/
def distribute_loop (mx my : Int) (first_child_index : Nat) :
    Nat → QuadTree → Nat → QuadTree
  | 0, t, _ => t
  | fuel + 1, t, element_node_index =>
    if element_node_index = SENTINEL then t
    else
      let element_node :=
        (t.element_nodes.atIdx element_node_index).getD ⟨SENTINEL, SENTINEL⟩
      let element := (t.element_rects.atIdx element_node.element_idx).getD
        (AABB.new 0 0 0 0)
      let t := t.assign_element_to_child_nodes mx my first_child_index
        element_node.element_idx element
      let t := { t with element_nodes := t.element_nodes.erase element_node_index }
      distribute_loop mx my first_child_index fuel t element_node.next

/-- `QuadTree::distribute_elements_to_child_nodes`. -/
def distribute_elements_to_child_nodes (self : QuadTree) (parent : NodeData) : QuadTree :=
  let r := self.ensure_child_nodes_exist
  let first_child_index := r.1
  let t := r.2
  let node := t.nodeAt parent.index
  let element_node_index := node.get_first_element_node_index
  let t := t.setNode parent.index (Node.make_branch first_child_index)
  let mx := parent.crect.center_x
  let my := parent.crect.center_y
  distribute_loop mx my first_child_index (t.element_nodes.data.length + 1) t
    element_node_index

/-- The per-leaf body of `QuadTree::insert`'s inner `while` (store the
element or split the leaf).  Returns the updated tree and the frames pushed
back onto the outer work stack. -/
def insert_leaves_loop (rect : AABB) (element_idx : Nat) :
    Nat → QuadTree → List NodeData → List NodeData → QuadTree × List NodeData
  | 0, t, _, pushes => (t, pushes)
  | _ + 1, t, [], pushes => (t, pushes)
  | fuel + 1, t, leaf :: leaves_rest, pushes =>
    let node := t.nodeAt leaf.index
    let element_count := node.element_count
    let first_child_or_element := node.first_child_or_element
    let can_split := leaf.can_split_further t.smallest_cell_size t.max_depth
    let node_is_full := element_count ≥ t.max_num_elements
    let must_store_element := !node_is_full || !can_split
    if must_store_element then
      let r := t.element_nodes.insert ⟨first_child_or_element, element_idx⟩
      let t := { t with
        element_nodes := r.2,
        nodes := t.nodes.set leaf.index ⟨r.1, element_count + 1⟩ }
      insert_leaves_loop rect element_idx fuel t leaves_rest pushes
    else
      let t := t.distribute_elements_to_child_nodes leaf
      insert_leaves_loop rect element_idx fuel t leaves_rest (leaf :: pushes)

/-- The outer work-stack loop of `QuadTree::insert`.  One split strictly
increases the depth at which the next target leaf is found, so
`max_depth + 3` rounds always suffice on reachable states. -/
def insert_main_loop (rect : AABB) (element_idx : Nat) :
    Nat → QuadTree → List NodeData → QuadTree
  | 0, t, _ => t
  | _ + 1, t, [] => t
  | fuel + 1, t, node_data :: rest =>
    let leaves := t.find_leaves_aabb node_data rect .Mutate
    let r := insert_leaves_loop rect element_idx (leaves.length + 1) t leaves []
    insert_main_loop rect element_idx fuel r.1 (r.2 ++ rest)

/-- `QuadTree::insert`.  Returns the `Result` together with the tree after
the call (`&mut self` in Rust). -/
def insert (self : QuadTree) (element : QuadTreeElement) :
    Except InsertError Unit × QuadTree :=
  if !(self.root_rect.contains element.rect) then
    (Except.error InsertError.OutOfBounds, self)
  else
    let r1 := self.element_ids.insert element.id
    let element_idx := r1.1
    let r2 := self.element_rects.insert element.rect
    let t := { self with element_ids := r1.2, element_rects := r2.2 }
    (Except.ok (),
      insert_main_loop element.rect element_idx (t.max_depth + 3) t
        [t.get_root_node_data])

/-- The element-node scan of `QuadTree::remove` inside one leaf.  Release
semantics: the walk stops after the first match.  Returns the updated tree,
the found element index (or `SENTINEL`), whether a reference was found, and
the leaf's new head pointer. -/
def remove_scan (target_id : Nat) (leaf_head : Nat) :
    Nat → QuadTree → Nat → Nat → Nat → Nat → QuadTree × Nat × Bool × Nat
  | 0, t, _, _, new_first, found_idx => (t, found_idx, false, new_first)
  | fuel + 1, t, element_node_idx, prev_element_node_idx, new_first, found_idx =>
    if element_node_idx = SENTINEL then (t, found_idx, false, new_first)
    else
      let elem_node := (t.element_nodes.atIdx element_node_idx).getD ⟨SENTINEL, SENTINEL⟩
      let elem_id := (t.element_ids.atIdx elem_node.element_idx).getD 0
      if elem_id = target_id then
        let new_first :=
          if leaf_head = element_node_idx then elem_node.next else new_first
        let t :=
          if element_node_idx ≠ prev_element_node_idx then
            let prev := (t.element_nodes.atIdx prev_element_node_idx).getD
              ⟨SENTINEL, SENTINEL⟩
            { t with element_nodes :=
                ⟨t.element_nodes.data.set prev_element_node_idx
                  (.element ⟨elem_node.next, prev.element_idx⟩),
                 t.element_nodes.first_free⟩ }
          else t
        let t := { t with element_nodes := t.element_nodes.erase element_node_idx }
        (t, elem_node.element_idx, true, new_first)
      else
        remove_scan target_id leaf_head fuel t elem_node.next element_node_idx
          new_first found_idx

/-- The per-leaf loop of `QuadTree::remove`. -/
def remove_leaves_loop (target_id : Nat) :
    Nat → QuadTree → List NodeData → Nat → QuadTree × Nat
  | 0, t, _, found_idx => (t, found_idx)
  | _ + 1, t, [], found_idx => (t, found_idx)
  | fuel + 1, t, leaf :: leaves_rest, found_idx =>
    let leaf_node_data := t.nodeAt leaf.index
    if leaf_node_data.element_count = 0 then
      remove_leaves_loop target_id fuel t leaves_rest found_idx
    else
      let head := leaf_node_data.first_child_or_element
      let r := remove_scan target_id head (t.element_nodes.data.length + 1) t
        head head head found_idx
      let t := r.1
      let element_found := r.2.2.1
      let new_first_child_or_element := r.2.2.2
      let found_idx := if element_found then r.2.1 else found_idx
      let node := t.nodeAt leaf.index
      let node := { node with first_child_or_element := new_first_child_or_element }
      let node :=
        if element_found then { node with element_count := node.element_count - 1 }
        else node
      remove_leaves_loop target_id fuel (t.setNode leaf.index node) leaves_rest found_idx

/-- `QuadTree::remove`: locate the element's single leaf via mutate-mode
descent, unlink the matching element node, then free the element records. -/
def remove (self : QuadTree) (element : QuadTreeElement) : Bool × QuadTree :=
  let root := self.get_root_node_data
  let leaves := self.find_leaves_aabb root element.rect .Mutate
  let r := remove_leaves_loop element.id (leaves.length + 1) self leaves SENTINEL
  let t := r.1
  let found_element_idx := r.2
  if found_element_idx ≠ SENTINEL then
    (true,
      { t with element_ids := t.element_ids.erase found_element_idx,
               element_rects := t.element_rects.erase found_element_idx })
  else
    (false, t)

/-- One pop of the `QuadTree::cleanup` stack loop: count empty-leaf children,
push branch children, and fold a fully empty group back onto the free list. -/
def cleanup_loop : Nat → QuadTree → Bool → List Nat → QuadTree × Bool
  | 0, t, compacted, _ => (t, compacted)
  | _ + 1, t, compacted, [] => (t, compacted)
  | fuel + 1, t, compacted, node_index :: rest =>
    let first_child_index := (t.nodeAt node_index).get_first_child_node_index
    let children := [first_child_index, first_child_index + 1, first_child_index + 2,
      first_child_index + 3, first_child_index + 4]
    let num_empty_leaves := (children.filter fun c => (t.nodeAt c).is_empty).length
    let pushes := (children.filter fun c => (t.nodeAt c).is_branch).reverse
    if num_empty_leaves = 5 then
      let t := t.setNode first_child_index
        { (t.nodeAt first_child_index) with first_child_or_element := t.free_node }
      let t := { t with free_node := first_child_index }
      let t := t.setNode node_index Node.make_empty_leaf
      cleanup_loop fuel t true (pushes ++ rest)
    else
      cleanup_loop fuel t compacted (pushes ++ rest)

/-- `QuadTree::cleanup`. -/
def cleanup (self : QuadTree) : Bool × QuadTree :=
  if (self.nodeAt 0).is_leaf then (false, self)
  else
    let r := cleanup_loop (self.nodes.length + 1) self false [0]
    (r.2, r.1)

/-- The element-node walk of `QuadTree::intersect_from_leaves` for one leaf,
collecting the ids of candidates whose stored rectangle intersects the query
shape (here: an `AABB`).  Collection order follows the callback order. -/
def intersect_leaf_loop (self : QuadTree) (rect : AABB) :
    Nat → Nat → List Nat → List Nat
  | 0, _, acc => acc
  | fuel + 1, elem_node_idx, acc =>
    if elem_node_idx = SENTINEL then acc
    else
      let elem_node := (self.element_nodes.atIdx elem_node_idx).getD ⟨SENTINEL, SENTINEL⟩
      let elem_rect := (self.element_rects.atIdx elem_node.element_idx).getD
        (AABB.new 0 0 0 0)
      let acc :=
        if rect.intersects_with elem_rect then
          acc ++ [(self.element_ids.atIdx elem_node.element_idx).getD 0]
        else acc
      intersect_leaf_loop self rect fuel elem_node.next acc

/-- `QuadTree::intersect_from_leaves` (AABB query shape), with the candidate
ids accumulated in callback order. -/
def intersect_from_leaves (self : QuadTree) (rect : AABB) :
    Nat → List NodeData → List Nat → List Nat
  | 0, _, acc => acc
  | _ + 1, [], acc => acc
  | fuel + 1, leaf :: leaves_rest, acc =>
    let leaf_node := self.nodeAt leaf.index
    let acc := self.intersect_leaf_loop rect (self.element_nodes.data.length + 1)
      leaf_node.first_child_or_element acc
    self.intersect_from_leaves rect fuel leaves_rest acc

/-- `QuadTree::intersect_aabb`, as the list of candidate ids in callback
order; the source deduplicates them through a `HashSet`, so claims about the
result compare the induced finite sets. -/
def intersect_aabb (self : QuadTree) (rect : AABB) : List Nat :=
  let root := self.get_root_node_data
  let leaves := self.find_leaves_aabb root rect .Query
  self.intersect_from_leaves rect (leaves.length + 1) leaves []

/-- `QuadTree::collect_ids`: a full-tree query over the root rectangle. -/
def collect_ids (self : QuadTree) : List Nat :=
  self.intersect_aabb self.root_rect.toAABB

end QuadTree

/-! ## Abstract view of the node vector (for the structural invariants) -/

/-- The abstract shape of the node forest: a leaf keeps its raw `Node`
record, a branch keeps the index of its first child and the five decoded
child subtrees. -/
inductive QTree where
  | leaf (node : Node) : QTree
  | branch (fc : Nat) (c0 c1 c2 c3 c4 : QTree) : QTree
deriving Repr, DecidableEq

namespace QTree

/-- Indices of the node vector occupied by a subtree rooted at index `i`. -/
def spans : Nat → QTree → List Nat
  | i, .leaf _ => [i]
  | i, .branch fc c0 c1 c2 c3 c4 =>
    i :: (spans fc c0 ++ spans (fc + 1) c1 ++ spans (fc + 2) c2 ++
      spans (fc + 3) c3 ++ spans (fc + 4) c4)

/-- Number of branch nodes in a subtree. -/
def branchCount : QTree → Nat
  | .leaf _ => 0
  | .branch _ c0 c1 c2 c3 c4 =>
    1 + (branchCount c0 + branchCount c1 + branchCount c2 + branchCount c3 +
      branchCount c4)

/-- Every leaf of the subtree has element count zero. -/
def leavesEmpty : QTree → Bool
  | .leaf node => node.element_count == 0
  | .branch _ c0 c1 c2 c3 c4 =>
    leavesEmpty c0 && leavesEmpty c1 && leavesEmpty c2 && leavesEmpty c3 &&
      leavesEmpty c4

/-- Replace the subtree rooted at node-vector index `s` by the empty leaf
(the effect of a `cleanup` fold on the abstract tree). -/
def foldAt (s : Nat) : Nat → QTree → QTree
  | i, .leaf node => if i = s then .leaf ⟨SENTINEL, 0⟩ else .leaf node
  | i, .branch fc c0 c1 c2 c3 c4 =>
    if i = s then .leaf ⟨SENTINEL, 0⟩
    else .branch fc (foldAt s fc c0) (foldAt s (fc + 1) c1) (foldAt s (fc + 2) c2)
      (foldAt s (fc + 3) c3) (foldAt s (fc + 4) c4)

end QTree

/-- Decode the subtree rooted at index `i` of the node vector.  `fuel`
bounds the recursion depth; `nodes.length + 1` is always enough for an
acyclic vector, and a cyclic or dangling structure decodes to `none`. -/
def decodeTree (nodes : List Node) : Nat → Nat → Option QTree
  | 0, _ => none
  | fuel + 1, i =>
    match nodes[i]? with
    | none => none
    | some node =>
      if node.element_count = NODE_IS_BRANCH then
        match decodeTree nodes fuel node.first_child_or_element,
            decodeTree nodes fuel (node.first_child_or_element + 1),
            decodeTree nodes fuel (node.first_child_or_element + 2),
            decodeTree nodes fuel (node.first_child_or_element + 3),
            decodeTree nodes fuel (node.first_child_or_element + 4) with
        | some c0, some c1, some c2, some c3, some c4 =>
          some (.branch node.first_child_or_element c0 c1 c2 c3 c4)
        | _, _, _, _, _ => none
      else some (.leaf node)

/-- Decode the free-node-group chain threaded through
`first_child_or_element` of the group heads, starting at `free_node`. -/
def freeChainList (nodes : List Node) : Nat → Nat → Option (List Nat)
  | 0, _ => none
  | fuel + 1, g =>
    if g = SENTINEL then some []
    else
      match nodes[g]? with
      | none => none
      | some node =>
        (freeChainList nodes fuel node.first_child_or_element).map (g :: ·)

/-- The five node indices of the group whose head is `g`. -/
def groupIdxs (g : Nat) : List Nat := [g, g + 1, g + 2, g + 3, g + 4]

namespace QuadTree

/-- Structural well-formedness of the node vector: the root decodes to a
tree, the free-node-group list decodes to a chain, and together they cover
every node index exactly once. -/
def nodesWF (t : QuadTree) : Bool :=
  match decodeTree t.nodes (t.nodes.length + 1) 0,
      freeChainList t.nodes (t.nodes.length + 1) t.free_node with
  | some T, some chain =>
    let covered := QTree.spans 0 T ++ chain.flatMap groupIdxs
    decide covered.Nodup && covered.all (· < t.nodes.length) &&
      (List.range t.nodes.length).all (· ∈ covered)
  | _, _ => false

/-- Every reachable leaf is empty (decoded view). -/
def reachableLeavesEmpty (t : QuadTree) : Bool :=
  match decodeTree t.nodes (t.nodes.length + 1) 0 with
  | some T => T.leavesEmpty
  | none => false

/-- Iterated `cleanup` (the "call cleanup repeatedly" of the spec). -/
def iterateCleanup : Nat → QuadTree → QuadTree
  | 0, t => t
  | n + 1, t => iterateCleanup n (t.cleanup).2

end QuadTree

/-- The conjunction of structural facts behind `nodesWF`, with the decoded
tree and chain exposed. -/
def NodesOK (t : QuadTree) (T : QTree) (chain : List Nat) : Prop :=
  decodeTree t.nodes (t.nodes.length + 1) 0 = some T ∧
  freeChainList t.nodes (t.nodes.length + 1) t.free_node = some chain ∧
  (QTree.spans 0 T ++ chain.flatMap groupIdxs).Nodup ∧
  (∀ i ∈ QTree.spans 0 T ++ chain.flatMap groupIdxs, i < t.nodes.length) ∧
  (∀ i < t.nodes.length, i ∈ QTree.spans 0 T ++ chain.flatMap groupIdxs)

/-- The decoded subtree rooted at node index `s` (standard fuel). -/
def decodedAt (t : QuadTree) (s : Nat) : Option QTree :=
  decodeTree t.nodes (t.nodes.length + 1) s

/-- The node-vector indices occupied by the decoded subtree at `s`. -/
def spansAt (t : QuadTree) (s : Nat) : List Nat :=
  match decodedAt t s with
  | some S => QTree.spans s S
  | none => []

/-- Number of branch nodes of the decoded subtree at `s`. -/
def branchCountAt (t : QuadTree) (s : Nat) : Nat :=
  match decodedAt t s with
  | some S => S.branchCount
  | none => 0

/-- The decoded subtree at `s` exists and is a branch. -/
def isBranchAt (t : QuadTree) (s : Nat) : Prop :=
  ∃ fc c0 c1 c2 c3 c4, decodedAt t s = some (QTree.branch fc c0 c1 c2 c3 c4)

/-- Invariant of the `cleanup` work stack: every entry decodes to a branch
subtree lying inside the root tree `T`, and the spans of the entries are
pairwise disjoint (their concatenation has no duplicates). -/
def StackOK (t : QuadTree) (T : QTree) (stack : List Nat) : Prop :=
  (∀ s ∈ stack, isBranchAt t s ∧ s ∈ QTree.spans 0 T) ∧
  (stack.flatMap (spansAt t)).Nodup

/-- Total number of branch nodes below the stack entries; each iteration of
`cleanup_loop` decreases it by exactly one. -/
def stackMeasure (t : QuadTree) (stack : List Nat) : Nat :=
  (stack.map (branchCountAt t)).sum

/-- Decode the element-node chain starting at handle `h`: the list of
element-node handles, or `none` on a dangling or cyclic chain. -/
def elemChain (en : FreeList QuadTreeElementNode) : Nat → Nat → Option (List Nat)
  | 0, _ => none
  | fuel + 1, h =>
    if h = SENTINEL then some []
    else
      match en.atIdx h with
      | none => none
      | some node => (elemChain en fuel node.next).map (h :: ·)

namespace QTree

/-- The node-vector indices of the leaves of a decoded subtree rooted at
index `i`, in child order. -/
def leafIdxs : Nat → QTree → List Nat
  | i, .leaf _ => [i]
  | _, .branch fc c0 c1 c2 c3 c4 =>
    leafIdxs fc c0 ++ leafIdxs (fc + 1) c1 ++ leafIdxs (fc + 2) c2 ++
      leafIdxs (fc + 3) c3 ++ leafIdxs (fc + 4) c4

end QTree

/-- The element-node chains of the given leaf indices, paired with their
leaves. -/
def chainsOf (t : QuadTree) : List Nat → Option (List (Nat × List Nat))
  | [] => some []
  | i :: is =>
    match elemChain t.element_nodes (t.element_nodes.data.length + 1)
        ((t.nodeAt i).first_child_or_element) with
    | none => none
    | some hs => (chainsOf t is).map ((i, hs) :: ·)

/-- The per-leaf element-node chains of the whole tree. -/
def storedState (t : QuadTree) : Option (List (Nat × List Nat)) :=
  match decodedAt t 0 with
  | none => none
  | some T => chainsOf t (QTree.leafIdxs 0 T)

/-- The element-record index referenced by an element-node handle. -/
def handleIdx (t : QuadTree) (h : Nat) : Nat :=
  ((t.element_nodes.atIdx h).getD ⟨SENTINEL, SENTINEL⟩).element_idx

/-- The rectangle stored for element-record index `j`. -/
def rectAt (t : QuadTree) (j : Nat) : AABB :=
  (t.element_rects.atIdx j).getD (AABB.new 0 0 0 0)

/-- The id stored for element-record index `j`. -/
def idAt (t : QuadTree) (j : Nat) : Nat :=
  (t.element_ids.atIdx j).getD 0

/-- A cell of a free list holds a live value. -/
def liveAt {T : Type} (fl : FreeList T) (j : Nat) : Bool :=
  (fl.atIdx j).isSome

/-- The observable shape every reachable free list has (because `erase`
resets the chain): `first_free` is the sentinel, or points at a single freed
cell whose stored next-pointer is the sentinel. -/
def ffOK {T : Type} (fl : FreeList T) : Bool :=
  if fl.first_free = SENTINEL then true
  else
    if h : fl.first_free < fl.data.length then
      match fl.data.get ⟨fl.first_free, h⟩ with
      | .next n => n == SENTINEL
      | .element _ => false
    else false

/-- The rectangle is well oriented (top-left not beyond bottom-right). -/
def rectOriented (r : AABB) : Bool :=
  decide (r.tl.x ≤ r.br.x) && decide (r.tl.y ≤ r.br.y)

/-- Closed containment of a rectangle in the root rectangle. -/
def rectInRoot (root : QuadRect) (r : AABB) : Bool :=
  decide (root.l ≤ r.tl.x) && decide (root.t ≤ r.tl.y) &&
  decide (r.br.x ≤ wrap32 (root.l + root.hx)) &&
  decide (r.br.y ≤ wrap32 (root.t + root.hy))

/-- A coordinate small enough that the midpoint arithmetic of
`QuadRect::contains` cannot overflow. -/
def coordOK (v : Int) : Bool := decide (-(2 ^ 30) ≤ v) && decide (v < 2 ^ 30)

/-- All four corner coordinates are small. -/
def rectCoordsOK (r : AABB) : Bool :=
  coordOK r.tl.x && coordOK r.tl.y && coordOK r.br.x && coordOK r.br.y

/-- The root rectangle has nonnegative extents and small coordinates. -/
def rootOK (root : QuadRect) : Bool :=
  coordOK root.l && coordOK root.t && decide (0 ≤ root.hx) &&
  decide (0 ≤ root.hy) && coordOK (root.l + root.hx) && coordOK (root.t + root.hy)

/-- The element-storage well-formedness invariant of a quadtree state: the
node vector is well formed, the free lists have the reachable shape, every
leaf's element chain decodes, handles and element-record indices are unique
and live, leaf element counts match their chains, the id/rect lists run in
lockstep and hold exactly the stored records, stored rectangles are well
oriented, inside the root and small, and free node groups are reset. -/
def elemsWF (t : QuadTree) : Bool :=
  t.nodesWF &&
  decide (t.nodes.length ≤ SENTINEL) &&
  decide (t.element_nodes.data.length ≤ SENTINEL) &&
  decide (t.element_ids.data.length ≤ SENTINEL) &&
  (t.element_rects.data.length == t.element_ids.data.length) &&
  (t.element_ids.first_free == t.element_rects.first_free) &&
  ffOK t.element_ids && ffOK t.element_rects && ffOK t.element_nodes &&
  rootOK t.root_rect &&
  (match storedState t with
   | none => false
   | some chains =>
     let handles := chains.flatMap Prod.snd
     let idxs := handles.map (handleIdx t)
     decide handles.Nodup &&
     handles.all (fun h => liveAt t.element_nodes h) &&
     chains.all (fun p => (t.nodeAt p.1).element_count == p.2.length) &&
     decide idxs.Nodup &&
     idxs.all (fun j => liveAt t.element_ids j && liveAt t.element_rects j &&
       rectOriented (rectAt t j) && rectInRoot t.root_rect (rectAt t j) &&
       rectCoordsOK (rectAt t j)) &&
     (List.range t.element_ids.data.length).all
       (fun j => liveAt t.element_ids j == liveAt t.element_rects j) &&
     (List.range t.element_ids.data.length).all
       (fun j => liveAt t.element_ids j == decide (j ∈ idxs)) &&
     (List.range t.element_nodes.data.length).all
       (fun h => liveAt t.element_nodes h == decide (h ∈ handles))) &&
  (match freeChainList t.nodes (t.nodes.length + 1) t.free_node with
   | none => false
   | some chain => chain.all (fun g =>
       ((t.nodeAt g).element_count == 0) &&
       (t.nodeAt (g + 1) == Node.default) && (t.nodeAt (g + 2) == Node.default) &&
       (t.nodeAt (g + 3) == Node.default) && (t.nodeAt (g + 4) == Node.default)))

/-- The stored ids of a quadtree state (in storage order). -/
def storedIds (t : QuadTree) : List Nat :=
  match storedState t with
  | none => []
  | some chains => (chains.flatMap Prod.snd).map (fun h => idAt t (handleIdx t h))

/-- The abstract query traversal: the leaves (with their path-determined
cells) visited by `find_leaves_aabb` in `Query` mode, as a recursive
function of the node vector. -/
def qVisits (nodes : List Node) (rect : AABB) : Nat → CenteredAABB → Nat →
    List (Nat × CenteredAABB)
  | 0, _, _ => []
  | fuel + 1, cell, i =>
    match nodes[i]? with
    | none => []
    | some nd =>
      if nd.element_count = NODE_IS_BRANCH then
        let fc := nd.first_child_or_element
        let q := cell.explore_quadrants_aabb rect
        qVisits nodes rect fuel (cell.split_child 0) fc ++
        (if q.atIdx 1 then qVisits nodes rect fuel (cell.split_child 1) (fc + 1) else []) ++
        (if q.atIdx 2 then qVisits nodes rect fuel (cell.split_child 2) (fc + 2) else []) ++
        (if q.atIdx 3 then qVisits nodes rect fuel (cell.split_child 3) (fc + 3) else []) ++
        (if q.atIdx 4 then qVisits nodes rect fuel (cell.split_child 4) (fc + 4) else [])
      else [(i, cell)]

/-- The abstract mutate-mode descent: the single leaf frame that
`find_leaves_aabb` in `Mutate` mode reaches. -/
def mTarget (nodes : List Node) (rect : AABB) : Nat → NodeData → Option NodeData
  | 0, _ => none
  | fuel + 1, nd =>
    match nodes[nd.index]? with
    | none => none
    | some node =>
      if node.element_count = NODE_IS_BRANCH then
        let fc := node.first_child_or_element
        let q := nd.crect.explore_quadrants_aabb rect
        let offset : Nat :=
          if q.this then 0
          else if q.top_left then 1
          else if q.top_right then 2
          else if q.bottom_left then 3
          else 4
        let can_split := offset > 0
        let child_depth := if offset = 0 then 0 else nd.depth + 1
        mTarget nodes rect fuel
          (NodeData.new (nd.crect.split_child offset) (fc + offset) child_depth can_split)
      else some nd

/-- The ids contributed by one visited leaf to an AABB query: the ids of
the chain elements whose stored rectangle passes `intersects_with`. -/
def leafContrib (t : QuadTree) (rect : AABB) (i : Nat) : List Nat :=
  match elemChain t.element_nodes (t.element_nodes.data.length + 1)
      ((t.nodeAt i).first_child_or_element) with
  | none => []
  | some hs => (hs.filter (fun h => rect.intersects_with (rectAt t (handleIdx t h)))).map
      (fun h => idAt t (handleIdx t h))

/-- A concrete post-removal state used to exercise the cleanup claims: a
root branch at index 0 whose five children (indices 1–5) are empty leaves,
with an empty free-node-group list. -/
def cleanupWitnessTree : QuadTree :=
  { element_ids := FreeList.default
    element_rects := FreeList.default
    element_nodes := FreeList.default
    nodes := [⟨1, NODE_IS_BRANCH⟩, ⟨SENTINEL, 0⟩, ⟨SENTINEL, 0⟩, ⟨SENTINEL, 0⟩,
      ⟨SENTINEL, 0⟩, ⟨SENTINEL, 0⟩]
    root_rect := QuadRect.new 0 0 10 10
    free_node := SENTINEL
    max_num_elements := 16
    smallest_cell_size := 1
    max_depth := 8 }

/-- The decoded element-node chain hanging off leaf `i`. -/
def chainAt (t : QuadTree) (i : Nat) : Option (List Nat) :=
  elemChain t.element_nodes (t.element_nodes.data.length + 1)
    ((t.nodeAt i).first_child_or_element)

/-- `chainAt` with the empty default. -/
def chainD (t : QuadTree) (i : Nat) : List Nat := (chainAt t i).getD []

/-- All element-node handles stored below the given leaf indices. -/
def handlesOf (t : QuadTree) (L : List Nat) : List Nat := L.flatMap (chainD t)

/-- The root descent cell (shared by every traversal). -/
def rootCellOf (t : QuadTree) : CenteredAABB := (t.get_root_node_data).crect

/-- The query traversal of the whole tree for the full-root query. -/
def qVis (t : QuadTree) : List (Nat × CenteredAABB) :=
  qVisits t.nodes t.root_rect.toAABB (t.nodes.length + 1) (rootCellOf t) 0

/-- Leaf `i` is visited by the full-root query. -/
def visitedIdx (t : QuadTree) (i : Nat) : Bool :=
  (qVis t).any (fun p => p.1 == i)

/-- The visibility invariant of a reachable state: every leaf holding at
least one element is visited by the full-root query.  (Insertions only ever
route elements into explored children, so this is maintained by the
operations; it is exactly what makes a full-tree query see every stored
element.) -/
def visOK (t : QuadTree) : Bool :=
  match decodedAt t 0 with
  | none => false
  | some T => (QTree.leafIdxs 0 T).all
      (fun i => ((t.nodeAt i).element_count == 0) || visitedIdx t i)

/-- Propositional form of `visOK`. -/
def VisP (t : QuadTree) : Prop :=
  ∀ T, decodedAt t 0 = some T → ∀ i ∈ QTree.leafIdxs 0 T,
    (t.nodeAt i).element_count ≠ 0 → ∃ c, (i, c) ∈ qVis t

/-- `VisP` weakened at one handle: a nonempty leaf is visited unless its
chain is exactly the singleton `[hE]` (the element just inserted, which the
buggy mutate routing may park in an unexplored child). -/
def VisPExcept (t : QuadTree) (hE : Nat) : Prop :=
  ∀ T, decodedAt t 0 = some T → ∀ i ∈ QTree.leafIdxs 0 T,
    (t.nodeAt i).element_count ≠ 0 →
      (∃ c, (i, c) ∈ qVis t) ∨ chainD t i = [hE]

/-- Replace the leaf at node-vector index `g` by a fresh branch whose five
children (at `fc`..`fc + 4`) are empty default leaves: the abstract effect of
a split on the decoded tree. -/
def graftAt (g fc : Nat) : Nat → QTree → QTree
  | i, .leaf n =>
    if i = g then
      .branch fc (.leaf Node.default) (.leaf Node.default) (.leaf Node.default)
        (.leaf Node.default) (.leaf Node.default)
    else .leaf n
  | _, .branch f c0 c1 c2 c3 c4 =>
    .branch f (graftAt g fc f c0) (graftAt g fc (f + 1) c1) (graftAt g fc (f + 2) c2)
      (graftAt g fc (f + 3) c3) (graftAt g fc (f + 4) c4)

/-- Replace the raw record of the leaf at index `g`: the abstract effect of
updating a leaf's element count or chain head. -/
def setLeafAt (g : Nat) (x : Node) : Nat → QTree → QTree
  | i, .leaf n => if i = g then .leaf x else .leaf n
  | _, .branch f c0 c1 c2 c3 c4 =>
    .branch f (setLeafAt g x f c0) (setLeafAt g x (f + 1) c1) (setLeafAt g x (f + 2) c2)
      (setLeafAt g x (f + 3) c3) (setLeafAt g x (f + 4) c4)

/-- The child offset `assign_element_to_child_nodes` selects, as a function
of the parent center and the element rectangle. -/
def routeOffset (mx my : Int) (r : AABB) : Nat :=
  let insert_left := decide (r.tl.x ≤ mx)
  let insert_right := decide (r.br.x > mx)
  let insert_top := decide (r.tl.y ≤ my)
  let insert_bottom := decide (r.br.y > my)
  if (insert_top && insert_bottom) || (insert_left && insert_right) then 0
  else if insert_top && insert_left then 1
  else if insert_top && insert_right then 2
  else if insert_bottom && insert_left then 3
  else 4

/-- The element-storage invariant of a reachable quadtree state, with the
decoded tree and free-group chain exposed.  This is the propositional
counterpart of `elemsWF`. -/
structure ElemsOK (t : QuadTree) (T : QTree) (chain : List Nat) : Prop where
  dec0 : decodedAt t 0 = some T
  fchain : freeChainList t.nodes (t.nodes.length + 1) t.free_node = some chain
  cover_nodup : (QTree.spans 0 T ++ chain.flatMap groupIdxs).Nodup
  cover_lt : ∀ i ∈ QTree.spans 0 T ++ chain.flatMap groupIdxs, i < t.nodes.length
  cover_all : ∀ i < t.nodes.length, i ∈ QTree.spans 0 T ++ chain.flatMap groupIdxs
  len_nodes : t.nodes.length ≤ SENTINEL
  len_en : t.element_nodes.data.length ≤ SENTINEL
  len_ids : t.element_ids.data.length ≤ SENTINEL
  len_eq : t.element_rects.data.length = t.element_ids.data.length
  ff_eq : t.element_ids.first_free = t.element_rects.first_free
  ffok_ids : ffOK t.element_ids = true
  ffok_rects : ffOK t.element_rects = true
  ffok_en : ffOK t.element_nodes = true
  rootok : rootOK t.root_rect = true
  chains_some : ∀ i ∈ QTree.leafIdxs 0 T, (chainAt t i).isSome
  handles_nodup : (handlesOf t (QTree.leafIdxs 0 T)).Nodup
  handles_live : ∀ h ∈ handlesOf t (QTree.leafIdxs 0 T),
    liveAt t.element_nodes h = true
  counts : ∀ i ∈ QTree.leafIdxs 0 T, (t.nodeAt i).element_count = (chainD t i).length
  idxs_nodup : ((handlesOf t (QTree.leafIdxs 0 T)).map (handleIdx t)).Nodup
  idxs_good : ∀ j ∈ (handlesOf t (QTree.leafIdxs 0 T)).map (handleIdx t),
    liveAt t.element_ids j = true ∧ liveAt t.element_rects j = true ∧
    rectOriented (rectAt t j) = true ∧ rectInRoot t.root_rect (rectAt t j) = true ∧
    rectCoordsOK (rectAt t j) = true
  live_lockstep : ∀ j < t.element_ids.data.length,
    liveAt t.element_ids j = liveAt t.element_rects j
  live_iff : ∀ j < t.element_ids.data.length,
    (liveAt t.element_ids j = true ↔
      j ∈ (handlesOf t (QTree.leafIdxs 0 T)).map (handleIdx t))
  en_live_iff : ∀ h < t.element_nodes.data.length,
    (liveAt t.element_nodes h = true ↔ h ∈ handlesOf t (QTree.leafIdxs 0 T))
  freegroups : ∀ g ∈ chain, (t.nodeAt g).element_count = 0 ∧
    t.nodeAt (g + 1) = Node.default ∧ t.nodeAt (g + 2) = Node.default ∧
    t.nodeAt (g + 3) = Node.default ∧ t.nodeAt (g + 4) = Node.default

/-- Tree-level view of the Query descent: the `(index, cell)` pairs of the
leaves `find_leaves_aabb` visits, as a structural recursion over the decoded
tree. -/
def qVisitsT (rect : AABB) : CenteredAABB → Nat → QTree → List (Nat × CenteredAABB)
  | cell, i, .leaf _ => [(i, cell)]
  | cell, _, .branch fc c0 c1 c2 c3 c4 =>
    let q := cell.explore_quadrants_aabb rect
    qVisitsT rect (cell.split_child 0) fc c0 ++
    (if q.atIdx 1 then qVisitsT rect (cell.split_child 1) (fc + 1) c1 else []) ++
    (if q.atIdx 2 then qVisitsT rect (cell.split_child 2) (fc + 2) c2 else []) ++
    (if q.atIdx 3 then qVisitsT rect (cell.split_child 3) (fc + 3) c3 else []) ++
    (if q.atIdx 4 then qVisitsT rect (cell.split_child 4) (fc + 4) c4 else [])

/-- Tree-level view of the Mutate descent: the frame of the single leaf it
reaches (the offset chain is the verbatim translation, including the broken
`bottom_left` accessor). -/
def mTargetT (rect : AABB) : NodeData → QTree → NodeData
  | nd, .leaf _ => nd
  | nd, .branch fc c0 c1 c2 c3 c4 =>
    let q := nd.crect.explore_quadrants_aabb rect
    if q.this then
      mTargetT rect (NodeData.new (nd.crect.split_child 0) (fc + 0) 0 false) c0
    else if q.top_left then
      mTargetT rect (NodeData.new (nd.crect.split_child 1) (fc + 1) (nd.depth + 1) true) c1
    else if q.top_right then
      mTargetT rect (NodeData.new (nd.crect.split_child 2) (fc + 2) (nd.depth + 1) true) c2
    else if q.bottom_left then
      mTargetT rect (NodeData.new (nd.crect.split_child 3) (fc + 3) (nd.depth + 1) true) c3
    else
      mTargetT rect (NodeData.new (nd.crect.split_child 4) (fc + 4) (nd.depth + 1) true) c4

/-! # Theorems -/

namespace IntervalTreeNode

variable {D : Type}

theorem len_eq (t : IntervalTreeNode D) : t.len = 1 + lenOpt t.left + lenOpt t.right := by
  obtain ⟨e, m, l, r⟩ := t
  cases l <;> cases r <;> simp [len, lenOpt, left, right]

theorem len_mk (e : IntervalTreeEntry D) (m : Int) (l r : Option (IntervalTreeNode D)) :
    (IntervalTreeNode.mk e m l r).len = 1 + lenOpt l + lenOpt r := by
  cases l <;> cases r <;> simp [len, lenOpt]

theorem right_mk (e : IntervalTreeEntry D) (m : Int) (l r : Option (IntervalTreeNode D)) :
    (IntervalTreeNode.mk e m l r).right = r := rfl

theorem left_mk (e : IntervalTreeEntry D) (m : Int) (l r : Option (IntervalTreeNode D)) :
    (IntervalTreeNode.mk e m l r).left = l := rfl

theorem lenOpt_some (t : IntervalTreeNode D) : lenOpt (some t) = t.len := rfl

theorem lenOpt_none : lenOpt (none : Option (IntervalTreeNode D)) = 0 := rfl

end IntervalTreeNode

namespace InorderIterator

variable {D : Type}

open IntervalTreeNode in
theorem next_remaining (iter : InorderIterator D) :
    match next iter with
    | (some _, iter') => remaining iter = remaining iter' + 1
    | (none, _) => remaining iter = 0 := by
  induction iter using next.induct with
  | case1 s => simp [next, remaining]
  | case2 e m l r ih =>
    rcases hn : next (.mk (some l) (.initial : InorderState D)) with ⟨fst, snd⟩
    rcases h2 : next (.mk (some (.mk e m (some l) r)) (.emitSelf : InorderState D)) with ⟨fst2, snd2⟩
    simp only [next] at ih ⊢
    rw [hn] at ih ⊢
    rw [h2] at ih ⊢
    cases fst <;> cases fst2 <;> simp_all [remaining, len_mk, lenOpt, right_mk] <;> omega
  | case3 e m r ih =>
    rcases hn : next (.mk (some (.mk e m none r)) (.emitSelf : InorderState D)) with ⟨fst, snd⟩
    simp only [next] at ih ⊢
    rw [hn] at ih ⊢
    cases fst <;> simp_all [remaining, len_mk, lenOpt, right_mk] <;> omega
  | case4 root sub v sub' hx ih =>
    simp only [next] at ih ⊢
    rw [hx] at ih ⊢
    simp only at ih ⊢
    simp_all [remaining]
    omega
  | case5 root sub snd hx ih ihSelf =>
    rcases hn : next (.mk (some root) (.emitSelf : InorderState D)) with ⟨fst, snd2⟩
    simp only [next] at ih ihSelf ⊢
    rw [hx] at ih ⊢
    rw [hn] at ihSelf ⊢
    simp only at ih ihSelf ⊢
    cases fst <;> simp_all [remaining] <;> omega
  | case6 e m l r =>
    simp [next, remaining, len_mk, lenOpt, right_mk]
    omega
  | case7 e m l =>
    simp [next, remaining, len_mk, lenOpt, right_mk]
  | case8 root sub v sub' hx ih =>
    simp only [next] at ih ⊢
    rw [hx] at ih ⊢
    simp only at ih ⊢
    simp_all [remaining]
  | case9 root sub snd hx ih =>
    simp only [next] at ih ⊢
    rw [hx] at ih ⊢
    simp only at ih ⊢
    simp_all [remaining]
  | case10 root => simp [next, remaining]

open IntervalTreeNode in
theorem emits_eq (iter : InorderIterator D) :
    emits iter = match next iter with
      | (some v, iter') => v :: emits iter'
      | (none, _) => [] := by
  have h := next_remaining iter
  rcases hn : next iter with ⟨fst, snd⟩
  rw [hn] at h
  cases fst with
  | none =>
    simp only at h
    simp only [emits, h, emitsFuel]
  | some v =>
    simp only at h
    simp only [emits, h, emitsFuel, hn]

theorem emits_congr {i1 i2 : InorderIterator D} (h : next i1 = next i2) :
    emits i1 = emits i2 := by
  rw [emits_eq i1, emits_eq i2, h]

theorem emits_root_none (s : InorderState D) : emits (.mk none s) = [] := by
  rw [emits_eq]
  simp [next]

theorem emits_done (root : IntervalTreeNode D) :
    emits (.mk (some root) .done) = [] := by
  rw [emits_eq]
  simp [next]

open IntervalTreeNode in
theorem emits_emitRight (n : Nat) (sub : InorderIterator D) (root : IntervalTreeNode D)
    (hn : remaining sub ≤ n) :
    emits (.mk (some root) (.emitRight sub)) = emits sub := by
  induction n generalizing sub with
  | zero =>
    have h := next_remaining sub
    rcases hx : next sub with ⟨fst, snd⟩
    rw [hx] at h
    cases fst with
    | none =>
      rw [emits_eq, emits_eq sub]
      simp only [next, hx]
    | some v =>
      simp only at h
      omega
  | succ k ih =>
    have h := next_remaining sub
    rcases hx : next sub with ⟨fst, snd⟩
    rw [hx] at h
    cases fst with
    | none =>
      rw [emits_eq, emits_eq sub]
      simp only [next, hx]
    | some v =>
      simp only at h
      rw [emits_eq, emits_eq sub]
      simp only [next, hx]
      rw [ih snd (by omega)]

open IntervalTreeNode in
theorem emits_emitSelf (root : IntervalTreeNode D) :
    emits (.mk (some root) .emitSelf)
      = root :: (match root.right with
          | some rt => emits (.mk (some rt) .initial)
          | none => []) := by
  obtain ⟨e, m, l, r⟩ := root
  cases r with
  | none =>
    rw [emits_eq]
    simp only [next, right_mk]
    rw [emits_done]
  | some rt =>
    rw [emits_eq]
    simp only [next, right_mk]
    rw [emits_emitRight (remaining (.mk (some rt) (.initial : InorderState D)))
      (.mk (some rt) .initial) _ (Nat.le_refl _)]

open IntervalTreeNode in
theorem emits_emitLeft (n : Nat) (sub : InorderIterator D) (root : IntervalTreeNode D)
    (hn : remaining sub ≤ n) :
    emits (.mk (some root) (.emitLeft sub))
      = emits sub ++ emits (.mk (some root) .emitSelf) := by
  induction n generalizing sub with
  | zero =>
    have h := next_remaining sub
    rcases hx : next sub with ⟨fst, snd⟩
    rw [hx] at h
    cases fst with
    | none =>
      have : emits (.mk (some root) (.emitLeft sub)) = emits (.mk (some root) .emitSelf) := by
        apply emits_congr
        simp only [next, hx]
      rw [this, emits_eq sub]
      simp only [hx]
      simp
    | some v =>
      simp only at h
      omega
  | succ k ih =>
    have h := next_remaining sub
    rcases hx : next sub with ⟨fst, snd⟩
    rw [hx] at h
    cases fst with
    | none =>
      have : emits (.mk (some root) (.emitLeft sub)) = emits (.mk (some root) .emitSelf) := by
        apply emits_congr
        simp only [next, hx]
      rw [this, emits_eq sub]
      simp only [hx]
      simp
    | some v =>
      simp only at h
      rw [emits_eq, emits_eq sub]
      simp only [next, hx]
      rw [ih snd (by omega)]
      simp

open IntervalTreeNode in
theorem emits_initial (n : Nat) (t : IntervalTreeNode D) (hn : t.len ≤ n) :
    emits (.mk (some t) .initial) = inorderOpt (some t) := by
  induction n generalizing t with
  | zero =>
    obtain ⟨e, m, l, r⟩ := t
    rw [len_mk] at hn
    omega
  | succ k ih =>
    obtain ⟨e, m, l, r⟩ := t
    rw [len_mk] at hn
    cases l with
    | none =>
      have h1 : emits (.mk (some (.mk e m none r)) (.initial : InorderState D))
          = emits (.mk (some (.mk e m none r)) .emitSelf) := by
        apply emits_congr
        simp only [next]
      rw [h1, emits_emitSelf]
      simp only [right_mk, inorderOpt]
      cases r with
      | none => simp [inorderOpt]
      | some rt =>
        simp only [inorderOpt]
        rw [ih rt (by simp [lenOpt] at hn; omega)]
        simp [inorderOpt]
    | some lt =>
      have h1 : emits (.mk (some (.mk e m (some lt) r)) (.initial : InorderState D))
          = emits (.mk (some (.mk e m (some lt) r)) (.emitLeft (.mk (some lt) .initial))) := by
        apply emits_congr
        simp only [next]
      rw [h1,
        emits_emitLeft (remaining (.mk (some lt) (.initial : InorderState D))) _ _ (Nat.le_refl _),
        emits_emitSelf]
      simp only [right_mk, inorderOpt]
      have hllen : lt.len ≤ k := by simp [lenOpt] at hn; omega
      rw [ih lt hllen]
      cases r with
      | none => simp [inorderOpt]
      | some rt =>
        simp only [inorderOpt]
        rw [ih rt (by simp [lenOpt] at hn; omega)]

end InorderIterator

namespace IntervalTreeNode

variable {D : Type}

theorem allNodesOpt_new (p : IntervalTreeEntry D → Prop) (e : IntervalTreeEntry D)
    (h : p e) : allNodesOpt p (some (new e)) := by
  simp [new, allNodesOpt, h]

theorem insert_mk (e : IntervalTreeEntry D) (maxv : Int) (l r : Option (IntervalTreeNode D))
    (node : IntervalTreeNode D) :
    (IntervalTreeNode.mk e maxv l r).insert node =
      .mk e (if maxv < e.interval.«end» then e.interval.«end» else maxv)
        (if node.entry.interval.start < e.interval.start then
          (match l with | some lt => some (lt.insert node) | none => some node)
        else l)
        (if node.entry.interval.start < e.interval.start then r
        else (match r with | some rt => some (rt.insert node) | none => some node)) := by
  cases l <;> cases r <;>
    by_cases hc : node.entry.interval.start < e.interval.start <;>
    simp [insert, hc]

theorem insert_allNodes (n : Nat) (t node : IntervalTreeNode D)
    (p : IntervalTreeEntry D → Prop) (hsz : t.len ≤ n)
    (ht : allNodesOpt p (some t)) (hnode : allNodesOpt p (some node)) :
    allNodesOpt p (some (t.insert node)) := by
  induction n generalizing t with
  | zero =>
    obtain ⟨e, m, l, r⟩ := t
    rw [len_mk] at hsz
    omega
  | succ k ih =>
    obtain ⟨e, m, l, r⟩ := t
    rw [len_mk] at hsz
    simp only [allNodesOpt] at ht
    by_cases hc : node.entry.interval.start < e.interval.start
    · cases l with
      | none =>
        rw [insert_mk, if_pos hc, if_pos hc]
        simp only [allNodesOpt]
        exact ⟨ht.1, hnode, ht.2.2⟩
      | some lt =>
        rw [insert_mk, if_pos hc, if_pos hc]
        simp only [allNodesOpt]
        exact ⟨ht.1, ih lt (by rw [lenOpt_some] at hsz; omega) ht.2.1, ht.2.2⟩
    · cases r with
      | none =>
        rw [insert_mk, if_neg hc, if_neg hc]
        simp only [allNodesOpt]
        exact ⟨ht.1, ht.2.1, hnode⟩
      | some rt =>
        rw [insert_mk, if_neg hc, if_neg hc]
        simp only [allNodesOpt]
        exact ⟨ht.1, ht.2.1, ih rt (by rw [lenOpt_some] at hsz; omega) ht.2.2⟩

theorem insert_isBST (n : Nat) (t : IntervalTreeNode D) (e' : IntervalTreeEntry D)
    (hsz : t.len ≤ n) (h : isBSTOpt (some t)) :
    isBSTOpt (some (t.insert (new e'))) := by
  induction n generalizing t with
  | zero =>
    obtain ⟨e, m, l, r⟩ := t
    rw [len_mk] at hsz
    omega
  | succ k ih =>
    obtain ⟨e, m, l, r⟩ := t
    rw [len_mk] at hsz
    simp only [isBSTOpt] at h
    have hstart : (new e').entry.interval.start = e'.interval.start := rfl
    by_cases hc : (new e').entry.interval.start < e.interval.start
    · cases l with
      | none =>
        rw [insert_mk, if_pos hc, if_pos hc]
        simp only [isBSTOpt]
        refine ⟨?_, h.2.1, ?_, h.2.2.2⟩
        · exact allNodesOpt_new _ _ (by rw [hstart] at hc; exact hc)
        · simp [new, isBSTOpt, allNodesOpt]
      | some lt =>
        rw [insert_mk, if_pos hc, if_pos hc]
        simp only [isBSTOpt]
        refine ⟨?_, h.2.1, ?_, h.2.2.2⟩
        · exact insert_allNodes k lt (new e') _ (by rw [lenOpt_some] at hsz; omega) h.1
            (allNodesOpt_new _ _ (by rw [hstart] at hc; exact hc))
        · exact ih lt (by rw [lenOpt_some] at hsz; omega) h.2.2.1
    · cases r with
      | none =>
        rw [insert_mk, if_neg hc, if_neg hc]
        simp only [isBSTOpt]
        refine ⟨h.1, ?_, h.2.2.1, ?_⟩
        · refine allNodesOpt_new _ _ ?_
          rw [hstart] at hc
          omega
        · simp [new, isBSTOpt, allNodesOpt]
      | some rt =>
        rw [insert_mk, if_neg hc, if_neg hc]
        simp only [isBSTOpt]
        refine ⟨h.1, ?_, h.2.2.1, ?_⟩
        · refine insert_allNodes k rt (new e') _ (by rw [lenOpt_some] at hsz; omega) h.2.1
            (allNodesOpt_new _ _ ?_)
          rw [hstart] at hc
          omega
        · exact ih rt (by rw [lenOpt_some] at hsz; omega) h.2.2.2

theorem mem_inorder_all (n : Nat) (o : Option (IntervalTreeNode D))
    (p : IntervalTreeEntry D → Prop) (hsz : lenOpt o ≤ n) (h : allNodesOpt p o) :
    ∀ x ∈ inorderOpt o, p x.entry := by
  induction n generalizing o with
  | zero =>
    cases o with
    | none => simp [inorderOpt]
    | some t =>
      obtain ⟨e, m, l, r⟩ := t
      rw [lenOpt_some, len_mk] at hsz
      omega
  | succ k ih =>
    cases o with
    | none => simp [inorderOpt]
    | some t =>
      obtain ⟨e, m, l, r⟩ := t
      rw [lenOpt_some, len_mk] at hsz
      simp only [allNodesOpt] at h
      intro x hx
      simp only [inorderOpt, List.mem_append, List.mem_cons] at hx
      rcases hx with hx | hx | hx
      · exact ih l (by omega) h.2.1 x hx
      · subst hx
        exact h.1
      · exact ih r (by omega) h.2.2 x hx

theorem inorder_pairwise (n : Nat) (o : Option (IntervalTreeNode D))
    (hsz : lenOpt o ≤ n) (h : isBSTOpt o) :
    List.Pairwise (fun a b : IntervalTreeNode D =>
      a.entry.interval.start ≤ b.entry.interval.start) (inorderOpt o) := by
  induction n generalizing o with
  | zero =>
    cases o with
    | none => simp [inorderOpt]
    | some t =>
      obtain ⟨e, m, l, r⟩ := t
      rw [lenOpt_some, len_mk] at hsz
      omega
  | succ k ih =>
    cases o with
    | none => simp [inorderOpt]
    | some t =>
      obtain ⟨e, m, l, r⟩ := t
      rw [lenOpt_some, len_mk] at hsz
      simp only [isBSTOpt] at h
      simp only [inorderOpt, List.pairwise_append, List.pairwise_cons]
      have hentry : (IntervalTreeNode.mk e m l r).entry = e := rfl
      refine ⟨ih l (by omega) h.2.2.1, ⟨?_, ih r (by omega) h.2.2.2⟩, ?_⟩
      · intro b hb
        have := mem_inorder_all k r _ (by omega) h.2.1 b hb
        rw [hentry]
        exact this
      · intro a ha b hb
        simp only [List.mem_cons] at hb
        have hal := mem_inorder_all k l _ (by omega) h.1 a ha
        rcases hb with hb | hb
        · subst hb
          rw [hentry]
          omega
        · have hbr := mem_inorder_all k r _ (by omega) h.2.1 b hb
          omega

theorem inorder_perm_nodes (n : Nat) (o : Option (IntervalTreeNode D))
    (hsz : lenOpt o ≤ n) : (inorderOpt o).Perm (nodesOpt o) := by
  induction n generalizing o with
  | zero =>
    cases o with
    | none => simp [inorderOpt, nodesOpt]
    | some t =>
      obtain ⟨e, m, l, r⟩ := t
      rw [lenOpt_some, len_mk] at hsz
      omega
  | succ k ih =>
    cases o with
    | none => simp [inorderOpt, nodesOpt]
    | some t =>
      obtain ⟨e, m, l, r⟩ := t
      rw [lenOpt_some, len_mk] at hsz
      simp only [inorderOpt, nodesOpt]
      have h1 : (inorderOpt l ++ (IntervalTreeNode.mk e m l r) :: inorderOpt r).Perm
          ((IntervalTreeNode.mk e m l r) :: (inorderOpt l ++ inorderOpt r)) :=
        List.perm_middle
      refine h1.trans (List.Perm.cons _ ?_)
      exact List.Perm.append (ih l (by omega)) (ih r (by omega))

end IntervalTreeNode


namespace IntervalTree

variable {D : Type}

open IntervalTreeNode in
theorem insert_isBST_tree (t : IntervalTree D) (e : IntervalTreeEntry D)
    (h : isBSTOpt t.root) : isBSTOpt (t.insert e).root := by
  obtain ⟨root⟩ := t
  cases root with
  | none => simp [insert, new, isBSTOpt, allNodesOpt]
  | some r =>
    simp only [insert]
    exact IntervalTreeNode.insert_isBST r.len r e (Nat.le_refl _) h

open IntervalTreeNode in
theorem ofList_isBST (es : List (IntervalTreeEntry D)) : isBSTOpt (ofList es).root := by
  have main : ∀ (l : List (IntervalTreeEntry D)) (t : IntervalTree D), isBSTOpt t.root →
      isBSTOpt (l.foldl insert t).root := by
    intro l
    induction l with
    | nil => intro t h; exact h
    | cons e rest ih =>
      intro t h
      exact ih _ (insert_isBST_tree t e h)
  exact main es default (by simp [default, isBSTOpt])

end IntervalTree

/-- **C9.**  For every interval tree built by any sequence of inserts, iterating
`iter_inorder()` yields every stored entry exactly once (the emitted entries are
a permutation of the stored entries), in non-decreasing order of
`interval.start`; on the empty tree it yields zero items and its `size_hint`
is `(0, None)`. -/
theorem C9_iter_inorder {D : Type} (es : List (IntervalTreeEntry D)) :
    ((InorderIterator.emits (IntervalTree.ofList es).iter_inorder).map
        IntervalTreeNode.entry).Perm (IntervalTree.ofList es).storedEntries ∧
    List.Pairwise (fun a b : IntervalTreeEntry D => a.interval.start ≤ b.interval.start)
      ((InorderIterator.emits (IntervalTree.ofList es).iter_inorder).map
        IntervalTreeNode.entry) ∧
    InorderIterator.emits (IntervalTree.default : IntervalTree D).iter_inorder = [] ∧
    InorderIterator.size_hint (IntervalTree.default : IntervalTree D).iter_inorder
      = (0, none) := by
  have hbst := IntervalTree.ofList_isBST es
  have hempty : InorderIterator.emits (IntervalTree.default : IntervalTree D).iter_inorder
      = [] := by
    show InorderIterator.emits (.mk none .done) = []
    exact InorderIterator.emits_root_none _
  refine ⟨?_, ?_, hempty, rfl⟩
  · cases h : (IntervalTree.ofList es).root with
    | none =>
      simp only [IntervalTree.iter_inorder, h, IntervalTree.storedEntries,
        IntervalTreeNode.nodesOpt]
      rw [show (InorderIterator.empty : InorderIterator D) = .mk none .done from rfl]
      rw [InorderIterator.emits_root_none]
    | some t =>
      simp only [IntervalTree.iter_inorder, h, IntervalTree.storedEntries,
        InorderIterator.new]
      rw [InorderIterator.emits_initial t.len t (Nat.le_refl _)]
      exact (IntervalTreeNode.inorder_perm_nodes (IntervalTreeNode.lenOpt (some t))
        (some t) (Nat.le_refl _)).map _
  · cases h : (IntervalTree.ofList es).root with
    | none =>
      simp only [IntervalTree.iter_inorder, h]
      rw [show (InorderIterator.empty : InorderIterator D) = .mk none .done from rfl]
      rw [InorderIterator.emits_root_none]
      simp
    | some t =>
      simp only [IntervalTree.iter_inorder, h, InorderIterator.new]
      rw [InorderIterator.emits_initial t.len t (Nat.le_refl _)]
      rw [List.pairwise_map]
      rw [h] at hbst
      exact IntervalTreeNode.inorder_pairwise (IntervalTreeNode.lenOpt (some t))
        (some t) (Nat.le_refl _) hbst

/-- **C4.**  The claim states that after any sequence of inserts every node's
`max` equals the maximum of `interval.end` over its subtree.  The code
contradicts this: `IntervalTreeNode::insert` compares `self.max` against the
node's **own** end (`high = self.entry.interval.end`) instead of the inserted
entry's end, so an ancestor's `max` is never raised.  Inserting `[0,1]` and
then `[0,5]` leaves the root's `max` at `1` although the subtree maximum end
is `5`. -/
theorem C4_max_end_stale :
    (IntervalTree.ofList [⟨⟨0, 1⟩, ()⟩, ⟨⟨0, 5⟩, ()⟩]).root.map IntervalTreeNode.max
      = some 1 ∧
    (IntervalTree.ofList [⟨⟨0, 1⟩, ()⟩, ⟨⟨0, 5⟩, ()⟩]).root.map IntervalTreeNode.subtreeMaxEnd
      = some 5 := by
  constructor <;> rfl

/-- **C5.**  The claim states that `overlap_search` finds an overlapping entry
whenever one exists.  Because `insert` never updates ancestors' `max`
(see C4), the left-subtree pruning test `left.max >= interval.start` can
wrongly skip a subtree that contains an overlap.  With inserts
`[50,51], [10,11], [5,100]` and query `[60,70]`, the stored interval `[5,100]`
overlaps the query but `overlap_search` returns `None`. -/
theorem C5_overlap_search_miss :
    (IntervalTree.ofList
        [⟨⟨50, 51⟩, ()⟩, ⟨⟨10, 11⟩, ()⟩, ⟨⟨5, 100⟩, ()⟩]).overlap_search ⟨60, 70⟩ = none ∧
    (⟨⟨5, 100⟩, ()⟩ : IntervalTreeEntry Unit) ∈
      (IntervalTree.ofList
        [⟨⟨50, 51⟩, ()⟩, ⟨⟨10, 11⟩, ()⟩, ⟨⟨5, 100⟩, ()⟩]).storedEntries ∧
    Interval.overlaps_with ⟨5, 100⟩ ⟨60, 70⟩ = true := by
  refine ⟨rfl, ?_, rfl⟩
  simp [IntervalTree.ofList, IntervalTree.storedEntries, IntervalTree.default,
    IntervalTree.insert, IntervalTreeNode.new, IntervalTreeNode.insert,
    IntervalTreeNode.nodesOpt, IntervalTreeNode.entry]

/-- **C6.**  The claim states that `FreeList::insert` reuses a previously
erased, not-since-reused handle whenever one exists (LIFO), and appends only
when no erased handle exists.  The code contradicts its own documentation of
`first_free` ("the index of the most recently freed element, or SENTINEL if
no element is free"): `erase` begins with `self.first_free = SENTINEL`,
discarding the whole free chain, so at most the single most recently erased
handle is ever reusable.  After `insert 10; insert 11; erase 0; erase 1`,
the next insert correctly reuses handle 1, but the one after that appends a
new slot 2 although handle 0 is erased and was never reused (its cell still
holds the free-chain tag). -/
theorem C6_freelist_insert_reuse :
    (((FreeList.default : FreeList Nat).insert 10).1 = 0) ∧
    (((((FreeList.default : FreeList Nat).insert 10).2.insert 11)).1 = 1) ∧
    (((((FreeList.default : FreeList Nat).insert 10).2.insert 11).2.erase 0).first_free = 0) ∧
    ((((((FreeList.default : FreeList Nat).insert 10).2.insert 11).2.erase 0).erase 1).first_free
      = 1) ∧
    ((((((FreeList.default : FreeList Nat).insert 10).2.insert 11).2.erase 0).erase 1).insert
      12).1 = 1 ∧
    (((((((FreeList.default : FreeList Nat).insert 10).2.insert 11).2.erase 0).erase 1).insert
      12).2.first_free = SENTINEL) ∧
    (((((((FreeList.default : FreeList Nat).insert 10).2.insert 11).2.erase 0).erase 1).insert
      12).2.data.get? 0 = some (.next SENTINEL)) ∧
    ((((((((FreeList.default : FreeList Nat).insert 10).2.insert 11).2.erase 0).erase 1).insert
      12).2.insert 13).1 = 2) := by
  decide

theorem sharesClosedPoint_iff (a b : AABB) :
    sharesClosedPoint a b ↔
      (Max.max a.tl.x b.tl.x ≤ Min.min a.br.x b.br.x ∧
       Max.max a.tl.y b.tl.y ≤ Min.min a.br.y b.br.y) := by
  constructor
  · rintro ⟨p, ⟨ha1, ha2, ha3, ha4⟩, ⟨hb1, hb2, hb3, hb4⟩⟩
    constructor <;> [skip; skip] <;>
      simp only [max_le_iff, le_min_iff] <;> omega
  · rintro ⟨hx, hy⟩
    refine ⟨⟨Max.max a.tl.x b.tl.x, Max.max a.tl.y b.tl.y⟩, ?_, ?_⟩ <;>
      simp only [pointInClosed] <;>
      simp only [max_le_iff, le_min_iff] at hx hy <;>
      constructor <;> try constructor
    all_goals simp [le_max_iff, le_refl]
    all_goals omega
  
/-- **C7 (counterexample).**  The claim states `intersects_with` is true iff
the closed integer point sets share a point, for all non-empty rectangles.
The rectangles `(0,0)-(2,2)` and `(2,0)-(3,3)` are non-empty and share the
closed boundary point `(2,0)`, yet `intersects_with` returns `false` (the
source — and its own unit test — requires strict overlap for non-degenerate
inputs). -/
theorem C7_closed_sets_counterexample :
    nonEmptyRect (AABB.new 0 0 2 2) ∧ nonEmptyRect (AABB.new 2 0 3 3) ∧
    sharesClosedPoint (AABB.new 0 0 2 2) (AABB.new 2 0 3 3) ∧
    AABB.intersects_with (AABB.new 0 0 2 2) (AABB.new 2 0 3 3) = false := by
  refine ⟨by simp [nonEmptyRect, AABB.new], by simp [nonEmptyRect, AABB.new],
    ⟨⟨2, 0⟩, by simp [pointInClosed, AABB.new], by simp [pointInClosed, AABB.new]⟩,
    by decide⟩

/-- **C7 (amended).**  For non-empty rectangles, `intersects_with a b` is true
iff the closed integer point sets of `a` and `b` share a point **and**,
additionally, either at least one input is degenerate on some axis, or the
overlap is strict on both axes.  (Equivalently: strict overlap for plain
rectangles, closed-set sharing once either input is a line or point.) -/
theorem C7_intersects_with_closed_sets (a b : AABB)
    (ha : nonEmptyRect a) (hb : nonEmptyRect b) :
    AABB.intersects_with a b = true ↔
      (sharesClosedPoint a b ∧ (degeneratePair a b ∨ strictOverlap a b)) := by
  rw [sharesClosedPoint_iff]
  simp only [AABB.intersects_with, degeneratePair, strictOverlap,
    Bool.or_eq_true, Bool.and_eq_true, decide_eq_true_eq]
  constructor
  · rintro (⟨h1, h2⟩ | ⟨⟨hd, h1⟩, h2⟩)
    · exact ⟨⟨le_of_lt h1, le_of_lt h2⟩, Or.inr ⟨h1, h2⟩⟩
    · refine ⟨⟨h1, h2⟩, Or.inl ?_⟩
      rcases hd with (h | h) | (h | h)
      · exact Or.inl h
      · exact Or.inr (Or.inl h)
      · exact Or.inr (Or.inr (Or.inl h))
      · exact Or.inr (Or.inr (Or.inr h))
  · rintro ⟨⟨h1, h2⟩, hd | ⟨hs1, hs2⟩⟩
    · refine Or.inr ⟨⟨?_, h1⟩, h2⟩
      rcases hd with h | h | h | h
      · exact Or.inl (Or.inl h)
      · exact Or.inl (Or.inr h)
      · exact Or.inr (Or.inl h)
      · exact Or.inr (Or.inr h)
    · exact Or.inl ⟨hs1, hs2⟩

/-- Witness for C7 (amended): evaluated at two overlapping unit squares. -/
theorem C7_intersects_with_closed_sets_witness :
    AABB.intersects_with (AABB.new 0 0 2 2) (AABB.new 1 1 3 3) = true ↔
      (sharesClosedPoint (AABB.new 0 0 2 2) (AABB.new 1 1 3 3) ∧
        (degeneratePair (AABB.new 0 0 2 2) (AABB.new 1 1 3 3) ∨
          strictOverlap (AABB.new 0 0 2 2) (AABB.new 1 1 3 3))) :=
  C7_intersects_with_closed_sets (AABB.new 0 0 2 2) (AABB.new 1 1 3 3)
    (by simp [nonEmptyRect, AABB.new]) (by simp [nonEmptyRect, AABB.new])

/-- **C10.**  `QuadTree::new` guards its configuration with unconditional
`assert!`s (modelled as `none`): construction fails exactly when
`max_num_elements = 0` or `smallest_cell_size = 0`; for every other
configuration it succeeds with a single empty leaf at index 0 and an empty
free-node-group list. -/
theorem C10_quadtree_new (root_rect : QuadRect) (max_depth max_num_elements
    smallest_cell_size : Nat) :
    (QuadTree.new root_rect max_depth max_num_elements smallest_cell_size = none ↔
      max_num_elements = 0 ∨ smallest_cell_size = 0) ∧
    (∀ t, QuadTree.new root_rect max_depth max_num_elements smallest_cell_size = some t →
      t.nodes = [Node.default] ∧ (t.nodeAt 0).is_leaf = true ∧
      (t.nodeAt 0).element_count = 0 ∧ t.free_node = SENTINEL ∧
      t.root_rect = root_rect ∧ t.max_depth = max_depth ∧
      t.max_num_elements = max_num_elements ∧
      t.smallest_cell_size = smallest_cell_size ∧
      t.element_ids = FreeList.default ∧ t.element_rects = FreeList.default ∧
      t.element_nodes = FreeList.default) := by
  unfold QuadTree.new
  by_cases h1 : max_num_elements > 0 <;> by_cases h2 : smallest_cell_size > 0 <;>
    simp [h1, h2] <;> try omega
  refine ⟨⟨by omega, by omega⟩, ?_, ?_⟩ <;>
    simp [QuadTree.nodeAt, Node.default, Node.is_leaf, Node.is_branch, NODE_IS_BRANCH]

/-- Witness for C10: evaluated at a concrete valid configuration. -/
theorem C10_quadtree_new_witness :
    (QuadTree.new (QuadRect.new 0 0 10 10) 8 16 1 = none ↔ (16 = 0 ∨ 1 = 0)) ∧
    ({ element_ids := FreeList.default, element_rects := FreeList.default,
       element_nodes := FreeList.default, nodes := [Node.default],
       root_rect := QuadRect.new 0 0 10 10, free_node := SENTINEL,
       max_num_elements := 16, smallest_cell_size := 1, max_depth := 8 } :
        QuadTree).nodes = [Node.default] :=
  ⟨(C10_quadtree_new (QuadRect.new 0 0 10 10) 8 16 1).1,
   ((C10_quadtree_new (QuadRect.new 0 0 10 10) 8 16 1).2 _ rfl).1⟩

/-- **C2.**  The claim states that mutate-mode descent chooses the straddler
slot (offset 0) for straddlers and otherwise the single quadrant the
rectangle falls into (bottom-left = offset 3).  The code contradicts its own
bit-field documentation (`8: Bottom Left`), its `at`/`mutation_index`
accessors and the `debug_assert!` xor in
`collect_relevant_quadrants_for_mutation`: `Quadrants::bottom_left` tests
`code & 8 == 5`, which is always false, so a rectangle lying solely in the
bottom-left quadrant (classifier code 8) falls through to the `else` branch
and is routed to child offset 4 — the bottom-right slot — while the xor
assertion evaluates to false (a panic in debug builds). -/
theorem C2_mutation_routing_bottom_left :
    (CenteredAABB.explore_quadrants_aabb ⟨0, 0, 20, 20⟩ (AABB.new (-15) 5 (-5) 15)).code
      = 8 ∧
    Quadrants.atIdx ⟨8⟩ 3 = true ∧
    Quadrants.bottom_left ⟨8⟩ = false ∧
    ((((Quadrants.this ⟨8⟩).xor (Quadrants.top_left ⟨8⟩)).xor
      (Quadrants.top_right ⟨8⟩)).xor ((Quadrants.bottom_left ⟨8⟩)) ).xor
      (Quadrants.bottom_right ⟨8⟩) = false ∧
    (QuadTree.collect_relevant_quadrants_for_mutation 0 1 ⟨8⟩
      (CenteredAABB.split_child ⟨0, 0, 20, 20⟩)).map NodeData.index = [5] := by
  decide

/-- **C1 (counterexample).**  The claim states that `insert` returns
`OutOfBounds` iff the element's rectangle is not fully contained in the root
rectangle.  `QuadRect::contains` only tests the rectangle's midpoint, so the
rectangle `(-5,-5)-(15,15)`, which sticks out of the root `(0,0)-(10,10)` on
all sides but has its midpoint `(5,5)` inside, is accepted. -/
theorem C1_out_of_bounds_counterexample :
    ((({ element_ids := FreeList.default, element_rects := FreeList.default,
         element_nodes := FreeList.default, nodes := [Node.default],
         root_rect := QuadRect.new 0 0 10 10, free_node := SENTINEL,
         max_num_elements := 16, smallest_cell_size := 1, max_depth := 8 } :
          QuadTree).insert ⟨AABB.new (-5) (-5) 15 15, 1⟩).1 = Except.ok ()) ∧
    ¬ specFullyContained (QuadRect.new 0 0 10 10) (AABB.new (-5) (-5) 15 15) := by
  constructor
  · rfl
  · unfold specFullyContained
    decide

/-- **C1 (amended).**  `insert` returns `OutOfBounds` iff the element
rectangle's integer midpoint (`(tl + br) >> 1` per axis, with wrapping `i32`
arithmetic) lies outside the closed root rectangle — i.e. iff
`QuadRect::contains` is false — and whenever `OutOfBounds` is returned the
tree state is completely unchanged. -/
theorem C1_out_of_bounds_iff (t : QuadTree) (element : QuadTreeElement) :
    ((t.insert element).1 = Except.error InsertError.OutOfBounds ↔
      t.root_rect.contains element.rect = false) ∧
    ((t.insert element).1 = Except.error InsertError.OutOfBounds →
      (t.insert element).2 = t) := by
  unfold QuadTree.insert
  by_cases h : t.root_rect.contains element.rect <;> simp [h]

/-- Witness for C1 (amended): evaluated at a concrete out-of-bounds insert
(midpoint `(50,50)` outside the root `(0,0)-(10,10)`), discharging the
implication's hypothesis. -/
theorem C1_out_of_bounds_iff_witness :
    ((({ element_ids := FreeList.default, element_rects := FreeList.default,
         element_nodes := FreeList.default, nodes := [Node.default],
         root_rect := QuadRect.new 0 0 10 10, free_node := SENTINEL,
         max_num_elements := 16, smallest_cell_size := 1, max_depth := 8 } :
          QuadTree).insert ⟨AABB.new 40 40 60 60, 1⟩).2
      = { element_ids := FreeList.default, element_rects := FreeList.default,
          element_nodes := FreeList.default, nodes := [Node.default],
          root_rect := QuadRect.new 0 0 10 10, free_node := SENTINEL,
          max_num_elements := 16, smallest_cell_size := 1, max_depth := 8 }) :=
  (C1_out_of_bounds_iff _ _).2 (by rfl)

/-! ### Structural lemmas about `decodeTree` and `freeChainList` -/

theorem decode_leaf_inv (nodes : List Node) (fuel i : Nat) (n : Node)
    (h : decodeTree nodes (fuel + 1) i = some (.leaf n)) :
    nodes[i]? = some n ∧ n.element_count ≠ NODE_IS_BRANCH := by
  simp only [decodeTree] at h
  cases hg : nodes[i]? with
  | none => rw [hg] at h; simp at h
  | some node =>
    rw [hg] at h
    by_cases hb : node.element_count = NODE_IS_BRANCH
    · simp only [hb, if_pos rfl, if_true] at h
      split at h <;> simp_all
    · simp only [if_neg hb] at h
      simp only [Option.some.injEq, QTree.leaf.injEq] at h
      subst h
      exact ⟨rfl, hb⟩

theorem decode_branch_inv (nodes : List Node) (fuel i : Nat) (fc : Nat)
    (c0 c1 c2 c3 c4 : QTree)
    (h : decodeTree nodes (fuel + 1) i = some (.branch fc c0 c1 c2 c3 c4)) :
    nodes[i]? = some ⟨fc, NODE_IS_BRANCH⟩ ∧
    decodeTree nodes fuel fc = some c0 ∧
    decodeTree nodes fuel (fc + 1) = some c1 ∧
    decodeTree nodes fuel (fc + 2) = some c2 ∧
    decodeTree nodes fuel (fc + 3) = some c3 ∧
    decodeTree nodes fuel (fc + 4) = some c4 := by
  simp only [decodeTree] at h
  cases hg : nodes[i]? with
  | none => rw [hg] at h; simp at h
  | some node =>
    rw [hg] at h
    simp only [] at h
    by_cases hb : node.element_count = NODE_IS_BRANCH
    · rw [if_pos hb] at h
      cases h0 : decodeTree nodes fuel node.first_child_or_element with
      | none => rw [h0] at h; simp at h
      | some d0 =>
        rw [h0] at h
        cases h1 : decodeTree nodes fuel (node.first_child_or_element + 1) with
        | none => rw [h1] at h; simp at h
        | some d1 =>
          rw [h1] at h
          cases h2 : decodeTree nodes fuel (node.first_child_or_element + 2) with
          | none => rw [h2] at h; simp at h
          | some d2 =>
            rw [h2] at h
            cases h3 : decodeTree nodes fuel (node.first_child_or_element + 3) with
            | none => rw [h3] at h; simp at h
            | some d3 =>
              rw [h3] at h
              cases h4 : decodeTree nodes fuel (node.first_child_or_element + 4) with
              | none => rw [h4] at h; simp at h
              | some d4 =>
                rw [h4] at h
                simp only [Option.some.injEq, QTree.branch.injEq] at h
                obtain ⟨hfc, e0, e1, e2, e3, e4⟩ := h
                subst hfc e0 e1 e2 e3 e4
                obtain ⟨nf, nc⟩ := node
                simp only at hb
                subst hb
                refine ⟨?_, h0, h1, h2, h3, h4⟩
                simp [hg]

    · rw [if_neg hb] at h
      simp at h

theorem decode_mono (nodes : List Node) :
    ∀ fuel fuel2 i T, fuel ≤ fuel2 → decodeTree nodes fuel i = some T →
      decodeTree nodes fuel2 i = some T := by
  intro fuel
  induction fuel with
  | zero => intro fuel2 i T _ h; simp [decodeTree] at h
  | succ k ih =>
    intro fuel2 i T hle h
    obtain ⟨m, rfl⟩ : ∃ m, fuel2 = m + 1 := ⟨fuel2 - 1, by omega⟩
    cases T with
    | leaf n =>
      obtain ⟨hg, hb⟩ := decode_leaf_inv nodes k i n h
      simp [decodeTree, hg, hb]
    | branch fc c0 c1 c2 c3 c4 =>
      obtain ⟨hg, h0, h1, h2, h3, h4⟩ := decode_branch_inv nodes k i fc c0 c1 c2 c3 c4 h
      have hm : k ≤ m := by omega
      simp [decodeTree, hg, ih m _ _ hm h0, ih m _ _ hm h1, ih m _ _ hm h2,
        ih m _ _ hm h3, ih m _ _ hm h4, NODE_IS_BRANCH]

theorem decode_frame (j : Nat) (x : Node) (nodes : List Node) :
    ∀ fuel i T, decodeTree nodes fuel i = some T → j ∉ QTree.spans i T →
      decodeTree (nodes.set j x) fuel i = some T := by
  intro fuel
  induction fuel with
  | zero => intro i T h; simp [decodeTree] at h
  | succ k ih =>
    intro i T h hj
    cases T with
    | leaf n =>
      obtain ⟨hg, hb⟩ := decode_leaf_inv nodes k i n h
      simp only [QTree.spans, List.mem_singleton] at hj
      have : (nodes.set j x)[i]? = some n := by
        rw [List.getElem?_set_ne (by omega)]
        exact hg
      simp [decodeTree, this, hb]
    | branch fc c0 c1 c2 c3 c4 =>
      obtain ⟨hg, h0, h1, h2, h3, h4⟩ := decode_branch_inv nodes k i fc c0 c1 c2 c3 c4 h
      simp only [QTree.spans, List.mem_cons, List.mem_append] at hj
      push_neg at hj
      obtain ⟨hji, ⟨⟨⟨hj0, hj1⟩, hj2⟩, hj3⟩, hj4⟩ := hj
      have hgi : (nodes.set j x)[i]? = some ⟨fc, NODE_IS_BRANCH⟩ := by
        rw [List.getElem?_set_ne (by omega)]
        exact hg
      have e0 := ih fc c0 h0 hj0
      have e1 := ih (fc + 1) c1 h1 hj1
      have e2 := ih (fc + 2) c2 h2 hj2
      have e3 := ih (fc + 3) c3 h3 hj3
      have e4 := ih (fc + 4) c4 h4 hj4
      simp [decodeTree, hgi, e0, e1, e2, e3, e4, NODE_IS_BRANCH]

theorem freeChain_mono (nodes : List Node) :
    ∀ fuel fuel2 g chain, fuel ≤ fuel2 → freeChainList nodes fuel g = some chain →
      freeChainList nodes fuel2 g = some chain := by
  intro fuel
  induction fuel with
  | zero => intro fuel2 g chain _ h; simp [freeChainList] at h
  | succ k ih =>
    intro fuel2 g chain hle h
    obtain ⟨m, rfl⟩ : ∃ m, fuel2 = m + 1 := ⟨fuel2 - 1, by omega⟩
    simp only [freeChainList] at h ⊢
    by_cases hs : g = SENTINEL
    · simp_all
    · simp only [hs, if_false, if_neg hs] at h ⊢
      cases hg : nodes[g]? with
      | none => rw [hg] at h; simp at h
      | some node =>
        rw [hg] at h
        simp only [Option.map_eq_some'] at h
        obtain ⟨rest, hrest, rfl⟩ := h
        simp [ih m _ _ (by omega) hrest]

theorem freeChain_inv (nodes : List Node) (fuel g : Nat) (chain : List Nat)
    (h : freeChainList nodes (fuel + 1) g = some chain) (hg : g ≠ SENTINEL) :
    ∃ node rest, nodes[g]? = some node ∧ chain = g :: rest ∧
      freeChainList nodes fuel node.first_child_or_element = some rest := by
  simp only [freeChainList, if_neg hg] at h
  cases hn : nodes[g]? with
  | none => rw [hn] at h; simp at h
  | some node =>
    rw [hn] at h
    simp only [Option.map_eq_some'] at h
    obtain ⟨rest, hrest, rfl⟩ := h
    exact ⟨node, rest, rfl, rfl, hrest⟩

theorem freeChain_frame (j : Nat) (x : Node) (nodes : List Node) :
    ∀ fuel g chain, freeChainList nodes fuel g = some chain → j ∉ chain →
      freeChainList (nodes.set j x) fuel g = some chain := by
  intro fuel
  induction fuel with
  | zero => intro g chain h; simp [freeChainList] at h
  | succ k ih =>
    intro g chain h hj
    by_cases hs : g = SENTINEL
    · subst hs
      simp only [freeChainList, if_pos rfl] at h ⊢
      exact h
    · obtain ⟨node, rest, hg, rfl, hrest⟩ := freeChain_inv nodes k g chain h hs
      simp only [List.mem_cons] at hj
      push_neg at hj
      obtain ⟨hj1, hj2⟩ := hj
      have hgj : (nodes.set j x)[g]? = some node := by
        rw [List.getElem?_set_ne (by omega)]
        exact hg
      simp only [freeChainList, if_neg hs, hgj]
      simp [ih _ _ hrest hj2]

theorem perm_flatMap {l1 l2 : List Nat} (f : Nat → List Nat) (h : l1.Perm l2) :
    (l1.flatMap f).Perm (l2.flatMap f) := by
  rw [List.flatMap_def, List.flatMap_def]
  exact (h.map f).flatten

theorem sublist_flatMap {l1 l2 : List Nat} (f : Nat → List Nat) (h : l1.Sublist l2) :
    (l1.flatMap f).Sublist (l2.flatMap f) := by
  induction h with
  | slnil => simp
  | cons a h ih =>
    simp only [List.flatMap_cons]
    exact ih.trans (List.sublist_append_right _ _)
  | cons₂ a h ih =>
    simp only [List.flatMap_cons]
    exact ih.append_left _

theorem flatMap_congr_mem {l : List Nat} {f g : Nat → List Nat}
    (h : ∀ a ∈ l, f a = g a) : l.flatMap f = l.flatMap g := by
  induction l with
  | nil => rfl
  | cons a l ih =>
    simp only [List.flatMap_cons, h a (by simp),
      ih (fun b hb => h b (by simp [hb]))]

theorem map_congr_mem {l : List Nat} {f g : Nat → Nat}
    (h : ∀ a ∈ l, f a = g a) : l.map f = l.map g := by
  induction l with
  | nil => rfl
  | cons a l ih =>
    simp only [List.map_cons, h a (by simp), ih (fun b hb => h b (by simp [hb]))]

theorem sum_map_filter_eq (l : List Nat) (q : Nat → Bool) (f : Nat → Nat)
    (h : ∀ a ∈ l, q a = false → f a = 0) :
    ((l.filter q).map f).sum = (l.map f).sum := by
  induction l with
  | nil => simp
  | cons a l ih =>
    have ih' := ih (fun b hb hq => h b (by simp [hb]) hq)
    cases hq : q a with
    | true => simp [List.filter_cons, hq, ih']
    | false => simp [List.filter_cons, hq, ih', h a (by simp) hq]

theorem filter_full (l : List Nat) (p : Nat → Bool)
    (h : (l.filter p).length = l.length) : ∀ a ∈ l, p a = true := by
  have he := List.Sublist.eq_of_length (List.filter_sublist l) h
  intro a ha
  rw [← he] at ha
  exact List.of_mem_filter ha

theorem flatMap_groupIdxs_length (chain : List Nat) :
    (chain.flatMap groupIdxs).length = 5 * chain.length := by
  induction chain with
  | nil => simp
  | cons g rest ih => simp [groupIdxs, ih]; omega

theorem mem_flatMap_groupIdxs_self {g : Nat} {chain : List Nat} (h : g ∈ chain) :
    g ∈ chain.flatMap groupIdxs :=
  List.mem_flatMap_of_mem h (by simp [groupIdxs])

theorem spans_root_mem (i : Nat) (U : QTree) : i ∈ QTree.spans i U := by
  cases U <;> simp [QTree.spans]

theorem mem_spans_branch (i fc : Nat) (c0 c1 c2 c3 c4 : QTree) (x : Nat)
    (h : x ∈ QTree.spans fc c0 ∨ x ∈ QTree.spans (fc + 1) c1 ∨
      x ∈ QTree.spans (fc + 2) c2 ∨ x ∈ QTree.spans (fc + 3) c3 ∨
      x ∈ QTree.spans (fc + 4) c4) :
    x ∈ QTree.spans i (QTree.branch fc c0 c1 c2 c3 c4) := by
  simp only [QTree.spans, List.mem_cons, List.mem_append]
  tauto

theorem spans_branch_cases (i fc : Nat) (c0 c1 c2 c3 c4 : QTree) (x : Nat)
    (h : x ∈ QTree.spans i (QTree.branch fc c0 c1 c2 c3 c4)) :
    x = i ∨ x ∈ QTree.spans fc c0 ∨ x ∈ QTree.spans (fc + 1) c1 ∨
      x ∈ QTree.spans (fc + 2) c2 ∨ x ∈ QTree.spans (fc + 3) c3 ∨
      x ∈ QTree.spans (fc + 4) c4 := by
  simp only [QTree.spans, List.mem_cons, List.mem_append] at h
  tauto

theorem spans_branch_nodup_parts (i fc : Nat) (c0 c1 c2 c3 c4 : QTree)
    (h : (QTree.spans i (QTree.branch fc c0 c1 c2 c3 c4)).Nodup) :
    (i ∉ QTree.spans fc c0 ∧ i ∉ QTree.spans (fc + 1) c1 ∧
      i ∉ QTree.spans (fc + 2) c2 ∧ i ∉ QTree.spans (fc + 3) c3 ∧
      i ∉ QTree.spans (fc + 4) c4) ∧
    ((QTree.spans fc c0).Nodup ∧ (QTree.spans (fc + 1) c1).Nodup ∧
      (QTree.spans (fc + 2) c2).Nodup ∧ (QTree.spans (fc + 3) c3).Nodup ∧
      (QTree.spans (fc + 4) c4).Nodup) ∧
    ((QTree.spans fc c0).Disjoint (QTree.spans (fc + 1) c1) ∧
      (QTree.spans fc c0).Disjoint (QTree.spans (fc + 2) c2) ∧
      (QTree.spans fc c0).Disjoint (QTree.spans (fc + 3) c3) ∧
      (QTree.spans fc c0).Disjoint (QTree.spans (fc + 4) c4) ∧
      (QTree.spans (fc + 1) c1).Disjoint (QTree.spans (fc + 2) c2) ∧
      (QTree.spans (fc + 1) c1).Disjoint (QTree.spans (fc + 3) c3) ∧
      (QTree.spans (fc + 1) c1).Disjoint (QTree.spans (fc + 4) c4) ∧
      (QTree.spans (fc + 2) c2).Disjoint (QTree.spans (fc + 3) c3) ∧
      (QTree.spans (fc + 2) c2).Disjoint (QTree.spans (fc + 4) c4) ∧
      (QTree.spans (fc + 3) c3).Disjoint (QTree.spans (fc + 4) c4)) := by
  simp only [QTree.spans, List.nodup_cons, List.nodup_append, List.mem_append,
    List.disjoint_append_left, List.disjoint_append_right] at h
  tauto

theorem decode_unique (nodes : List Node) (f f2 i : Nat) (A B : QTree)
    (hA : decodeTree nodes f i = some A) (hB : decodeTree nodes f2 i = some B) :
    A = B := by
  have h2 := decode_mono nodes f2 (f + f2) i B (by omega) hB
  rw [decode_mono nodes f (f + f2) i A (by omega) hA] at h2
  exact Option.some.inj h2

theorem foldAt_id (s : Nat) : ∀ (i : Nat) (U : QTree), s ∉ QTree.spans i U →
    QTree.foldAt s i U = U := by
  intro i U
  induction U generalizing i with
  | leaf n =>
    intro h
    simp only [QTree.spans, List.mem_singleton] at h
    simp [QTree.foldAt, Ne.symm h]
  | branch fc c0 c1 c2 c3 c4 ih0 ih1 ih2 ih3 ih4 =>
    intro h
    simp only [QTree.spans, List.mem_cons, List.mem_append] at h
    push_neg at h
    obtain ⟨hi, ⟨⟨⟨h0, h1⟩, h2⟩, h3⟩, h4⟩ := h
    simp [QTree.foldAt, Ne.symm hi, ih0 _ h0, ih1 _ h1, ih2 _ h2, ih3 _ h3,
      ih4 _ h4]

theorem leavesEmpty_foldAt (s : Nat) : ∀ (i : Nat) (U : QTree),
    U.leavesEmpty = true → (QTree.foldAt s i U).leavesEmpty = true := by
  intro i U
  induction U generalizing i with
  | leaf n =>
    intro h
    by_cases hi : i = s <;> simp_all [QTree.foldAt, QTree.leavesEmpty]
  | branch fc c0 c1 c2 c3 c4 ih0 ih1 ih2 ih3 ih4 =>
    intro h
    simp only [QTree.leavesEmpty, Bool.and_eq_true] at h
    obtain ⟨⟨⟨⟨h0, h1⟩, h2⟩, h3⟩, h4⟩ := h
    by_cases hi : i = s
    · simp [QTree.foldAt, hi, QTree.leavesEmpty]
    · simp [QTree.foldAt, hi, QTree.leavesEmpty, ih0 _ h0, ih1 _ h1, ih2 _ h2,
        ih3 _ h3, ih4 _ h4]

theorem branchCount_le_spans_length : ∀ (i : Nat) (U : QTree),
    U.branchCount ≤ (QTree.spans i U).length := by
  intro i U
  induction U generalizing i with
  | leaf n => simp [QTree.branchCount, QTree.spans]
  | branch fc c0 c1 c2 c3 c4 ih0 ih1 ih2 ih3 ih4 =>
    have g0 := ih0 fc
    have g1 := ih1 (fc + 1)
    have g2 := ih2 (fc + 2)
    have g3 := ih3 (fc + 3)
    have g4 := ih4 (fc + 4)
    simp only [QTree.branchCount, QTree.spans, List.length_cons, List.length_append]
    omega

theorem freeChain_fuel_min (nodes : List Node) :
    ∀ f g chain, freeChainList nodes f g = some chain →
      ∀ f2, chain.length < f2 → freeChainList nodes f2 g = some chain := by
  intro f
  induction f with
  | zero => intro g chain h; simp [freeChainList] at h
  | succ k ih =>
    intro g chain h f2 hf2
    by_cases hs : g = SENTINEL
    · subst hs
      simp only [freeChainList, if_true, eq_self_iff_true, Option.some.injEq] at h
      subst h
      cases f2 with
      | zero => omega
      | succ m => simp [freeChainList]
    · obtain ⟨node, rest, hg, rfl, hrest⟩ := freeChain_inv nodes k g chain h hs
      cases f2 with
      | zero => simp at hf2
      | succ m =>
        have hm : rest.length < m := by simp at hf2; omega
        simp [freeChainList, hs, hg, ih _ _ hrest m hm]

theorem nodeAt_of_decode_leaf (t : QuadTree) (f i : Nat) (n : Node)
    (h : decodeTree t.nodes f i = some (QTree.leaf n)) : t.nodeAt i = n := by
  cases f with
  | zero => simp [decodeTree] at h
  | succ k =>
    obtain ⟨hg, _⟩ := decode_leaf_inv t.nodes k i n h
    simp [QuadTree.nodeAt, hg]

theorem nodeAt_of_decode_branch (t : QuadTree) (f i fc : Nat)
    (c0 c1 c2 c3 c4 : QTree)
    (h : decodeTree t.nodes f i = some (QTree.branch fc c0 c1 c2 c3 c4)) :
    t.nodeAt i = ⟨fc, NODE_IS_BRANCH⟩ := by
  cases f with
  | zero => simp [decodeTree] at h
  | succ k =>
    obtain ⟨hg, _⟩ := decode_branch_inv t.nodes k i fc c0 c1 c2 c3 c4 h
    simp [QuadTree.nodeAt, hg]

theorem spans_subset_of_decode (nodes : List Node) (s f2 : Nat) (S : QTree)
    (hS : decodeTree nodes f2 s = some S) :
    ∀ f i U, decodeTree nodes f i = some U → s ∈ QTree.spans i U →
      ∀ x ∈ QTree.spans s S, x ∈ QTree.spans i U := by
  intro f
  induction f with
  | zero => intro i U h; simp [decodeTree] at h
  | succ k ih =>
    intro i U h hmem
    cases U with
    | leaf n =>
      simp only [QTree.spans, List.mem_singleton] at hmem
      subst hmem
      have he := decode_unique nodes (k + 1) f2 _ _ _ h hS
      subst he
      intro x hx
      exact hx
    | branch fc c0 c1 c2 c3 c4 =>
      obtain ⟨hg, h0, h1, h2, h3, h4⟩ := decode_branch_inv nodes k i fc c0 c1 c2 c3 c4 h
      rcases spans_branch_cases i fc c0 c1 c2 c3 c4 s hmem with rfl | hm0 | hm1 | hm2 | hm3 | hm4
      · have he := decode_unique nodes (k + 1) f2 _ _ _ h hS
        subst he
        intro x hx
        exact hx
      · intro x hx
        exact mem_spans_branch i fc c0 c1 c2 c3 c4 x (Or.inl (ih fc c0 h0 hm0 x hx))
      · intro x hx
        exact mem_spans_branch i fc c0 c1 c2 c3 c4 x
          (Or.inr (Or.inl (ih (fc + 1) c1 h1 hm1 x hx)))
      · intro x hx
        exact mem_spans_branch i fc c0 c1 c2 c3 c4 x
          (Or.inr (Or.inr (Or.inl (ih (fc + 2) c2 h2 hm2 x hx))))
      · intro x hx
        exact mem_spans_branch i fc c0 c1 c2 c3 c4 x
          (Or.inr (Or.inr (Or.inr (Or.inl (ih (fc + 3) c3 h3 hm3 x hx)))))
      · intro x hx
        exact mem_spans_branch i fc c0 c1 c2 c3 c4 x
          (Or.inr (Or.inr (Or.inr (Or.inr (ih (fc + 4) c4 h4 hm4 x hx)))))

theorem leavesEmpty_at_of_decode (nodes : List Node) (s f2 : Nat) (S : QTree)
    (hS : decodeTree nodes f2 s = some S) :
    ∀ f i U, decodeTree nodes f i = some U → s ∈ QTree.spans i U →
      U.leavesEmpty = true → S.leavesEmpty = true := by
  intro f
  induction f with
  | zero => intro i U h; simp [decodeTree] at h
  | succ k ih =>
    intro i U h hmem hemp
    cases U with
    | leaf n =>
      simp only [QTree.spans, List.mem_singleton] at hmem
      subst hmem
      have he := decode_unique nodes (k + 1) f2 _ _ _ h hS
      subst he
      exact hemp
    | branch fc c0 c1 c2 c3 c4 =>
      obtain ⟨hg, h0, h1, h2, h3, h4⟩ := decode_branch_inv nodes k i fc c0 c1 c2 c3 c4 h
      simp only [QTree.leavesEmpty, Bool.and_eq_true] at hemp
      obtain ⟨⟨⟨⟨he0, he1⟩, he2⟩, he3⟩, he4⟩ := hemp
      rcases spans_branch_cases i fc c0 c1 c2 c3 c4 s hmem with rfl | hm0 | hm1 | hm2 | hm3 | hm4
      · have he := decode_unique nodes (k + 1) f2 _ _ _ h hS
        subst he
        simp only [QTree.leavesEmpty, Bool.and_eq_true]
        exact ⟨⟨⟨⟨he0, he1⟩, he2⟩, he3⟩, he4⟩
      · exact ih fc c0 h0 hm0 he0
      · exact ih (fc + 1) c1 h1 hm1 he1
      · exact ih (fc + 2) c2 h2 hm2 he2
      · exact ih (fc + 3) c3 h3 hm3 he3
      · exact ih (fc + 4) c4 h4 hm4 he4

theorem spans_nodup_of_decode (nodes : List Node) (s f2 : Nat) (S : QTree)
    (hS : decodeTree nodes f2 s = some S) :
    ∀ f i U, decodeTree nodes f i = some U → (QTree.spans i U).Nodup →
      s ∈ QTree.spans i U → (QTree.spans s S).Nodup := by
  intro f
  induction f with
  | zero => intro i U h; simp [decodeTree] at h
  | succ k ih =>
    intro i U h hnd hmem
    cases U with
    | leaf n =>
      simp only [QTree.spans, List.mem_singleton] at hmem
      subst hmem
      have he := decode_unique nodes (k + 1) f2 _ _ _ h hS
      subst he
      exact hnd
    | branch fc c0 c1 c2 c3 c4 =>
      obtain ⟨hg, h0, h1, h2, h3, h4⟩ := decode_branch_inv nodes k i fc c0 c1 c2 c3 c4 h
      obtain ⟨_, ⟨hn0, hn1, hn2, hn3, hn4⟩, _⟩ :=
        spans_branch_nodup_parts i fc c0 c1 c2 c3 c4 hnd
      rcases spans_branch_cases i fc c0 c1 c2 c3 c4 s hmem with rfl | hm0 | hm1 | hm2 | hm3 | hm4
      · have he := decode_unique nodes (k + 1) f2 _ _ _ h hS
        subst he
        exact hnd
      · exact ih fc c0 h0 hn0 hm0
      · exact ih (fc + 1) c1 h1 hn1 hm1
      · exact ih (fc + 2) c2 h2 hn2 hm2
      · exact ih (fc + 3) c3 h3 hn3 hm3
      · exact ih (fc + 4) c4 h4 hn4 hm4

theorem decodedAt_children (t : QuadTree) (s fc : Nat) (c0 c1 c2 c3 c4 : QTree)
    (h : decodedAt t s = some (QTree.branch fc c0 c1 c2 c3 c4)) :
    decodedAt t fc = some c0 ∧ decodedAt t (fc + 1) = some c1 ∧
    decodedAt t (fc + 2) = some c2 ∧ decodedAt t (fc + 3) = some c3 ∧
    decodedAt t (fc + 4) = some c4 := by
  unfold decodedAt at *
  obtain ⟨_, h0, h1, h2, h3, h4⟩ :=
    decode_branch_inv t.nodes t.nodes.length s fc c0 c1 c2 c3 c4 h
  exact ⟨decode_mono _ _ _ _ _ (by omega) h0, decode_mono _ _ _ _ _ (by omega) h1,
    decode_mono _ _ _ _ _ (by omega) h2, decode_mono _ _ _ _ _ (by omega) h3,
    decode_mono _ _ _ _ _ (by omega) h4⟩

theorem decoded_shape (t : QuadTree) (c : Nat) (C : QTree)
    (h : decodedAt t c = some C) :
    (∃ n, C = QTree.leaf n ∧ t.nodeAt c = n ∧ (t.nodeAt c).is_branch = false ∧
      (t.nodeAt c).is_empty = (n.element_count == 0)) ∨
    (∃ fc d0 d1 d2 d3 d4, C = QTree.branch fc d0 d1 d2 d3 d4 ∧
      t.nodeAt c = ⟨fc, NODE_IS_BRANCH⟩ ∧ (t.nodeAt c).is_branch = true ∧
      (t.nodeAt c).is_empty = false) := by
  unfold decodedAt at h
  cases C with
  | leaf n =>
    left
    obtain ⟨hg, hb⟩ := decode_leaf_inv t.nodes t.nodes.length c n h
    have hrec : t.nodeAt c = n := nodeAt_of_decode_leaf t _ c n h
    refine ⟨n, rfl, hrec, ?_, by rw [hrec, Node.is_empty]⟩
    rw [hrec, Node.is_branch]
    simp [hb]
  | branch fc d0 d1 d2 d3 d4 =>
    right
    have hrec : t.nodeAt c = ⟨fc, NODE_IS_BRANCH⟩ :=
      nodeAt_of_decode_branch t _ c fc d0 d1 d2 d3 d4 h
    refine ⟨fc, d0, d1, d2, d3, d4, rfl, hrec, ?_, ?_⟩
    · rw [hrec]; simp [Node.is_branch]
    · rw [hrec]; simp [Node.is_empty, NODE_IS_BRANCH]

theorem nodesWF_elim (t : QuadTree) (h : t.nodesWF = true) :
    ∃ T chain, NodesOK t T chain ∧
      (t.reachableLeavesEmpty = true → T.leavesEmpty = true) := by
  unfold QuadTree.nodesWF at h
  cases hd : decodeTree t.nodes (t.nodes.length + 1) 0 with
  | none => rw [hd] at h; simp at h
  | some T =>
    rw [hd] at h
    cases hc : freeChainList t.nodes (t.nodes.length + 1) t.free_node with
    | none => rw [hc] at h; simp at h
    | some chain =>
      rw [hc] at h
      simp only [Bool.and_eq_true, decide_eq_true_eq, List.all_eq_true,
        List.mem_range] at h
      obtain ⟨⟨hnd, hbound⟩, hcover⟩ := h
      refine ⟨T, chain, ⟨hd, hc, hnd, ?_, ?_⟩, ?_⟩
      · intro i hi
        exact hbound i hi
      · intro i hi
        exact hcover i hi
      · intro hre
        unfold QuadTree.reachableLeavesEmpty at hre
        rw [hd] at hre
        exact hre

theorem fold_all (nodes : List Node) (s fc free_old f2 : Nat)
    (n0 n1 n2 n3 n4 : Node)
    (hS : decodeTree nodes f2 s = some (QTree.branch fc (QTree.leaf n0)
      (QTree.leaf n1) (QTree.leaf n2) (QTree.leaf n3) (QTree.leaf n4))) :
    ∀ f i U, decodeTree nodes f i = some U → (QTree.spans i U).Nodup →
      s ∈ QTree.spans i U →
      decodeTree ((nodes.set fc ⟨free_old, n0.element_count⟩).set s ⟨SENTINEL, 0⟩)
          f i = some (QTree.foldAt s i U) ∧
      (QTree.spans i U).Perm
        (QTree.spans i (QTree.foldAt s i U) ++ [fc, fc + 1, fc + 2, fc + 3, fc + 4]) ∧
      (QTree.foldAt s i U).branchCount + 1 = U.branchCount := by
  intro f
  induction f with
  | zero => intro i U h; simp [decodeTree] at h
  | succ k ih =>
    intro i U h hnd hs
    cases U with
    | leaf n =>
      simp only [QTree.spans, List.mem_singleton] at hs
      subst hs
      exact absurd (decode_unique nodes (k + 1) f2 _ _ _ h hS) (by simp)
    | branch fc' c0 c1 c2 c3 c4 =>
      obtain ⟨hg, h0, h1, h2, h3, h4⟩ := decode_branch_inv nodes k i fc' c0 c1 c2 c3 c4 h
      obtain ⟨⟨hi0, hi1, hi2, hi3, hi4⟩, ⟨hn0, hn1, hn2, hn3, hn4⟩,
          d01, d02, d03, d04, d12, d13, d14, d23, d24, d34⟩ :=
        spans_branch_nodup_parts i fc' c0 c1 c2 c3 c4 hnd
      rcases spans_branch_cases i fc' c0 c1 c2 c3 c4 s hs with rfl | hm | hm | hm | hm | hm
      · have he := decode_unique nodes (k + 1) f2 _ _ _ h hS
        rw [QTree.branch.injEq] at he
        obtain ⟨hfc, hc0, hc1, hc2, hc3, hc4⟩ := he
        subst hc0 hc1 hc2 hc3 hc4
        subst fc'
        have hlt : s < nodes.length := by
          obtain ⟨hl, -⟩ := List.getElem?_eq_some.mp hg
          exact hl
        have hset : ((nodes.set fc ⟨free_old, n0.element_count⟩).set s
            (⟨SENTINEL, 0⟩ : Node))[s]? = some ⟨SENTINEL, 0⟩ :=
          List.getElem?_set_self (by simpa using hlt)
        refine ⟨?_, ?_, ?_⟩
        · simp [decodeTree, hset, QTree.foldAt, NODE_IS_BRANCH]
        · simp [QTree.foldAt, QTree.spans]
        · simp [QTree.foldAt, QTree.branchCount]
      · have hgrp : ∀ x ∈ QTree.spans s (QTree.branch fc (QTree.leaf n0)
            (QTree.leaf n1) (QTree.leaf n2) (QTree.leaf n3) (QTree.leaf n4)),
            x ∈ QTree.spans fc' c0 :=
          spans_subset_of_decode nodes s f2 _ hS k fc' c0 h0 hm
        have hfcm : fc ∈ QTree.spans fc' c0 := hgrp fc (by simp [QTree.spans])
        have hine_s : i ≠ s := fun he => hi0 (he ▸ hm)
        have hine_fc : i ≠ fc := fun he => hi0 (he ▸ hfcm)
        have hsx1 : s ∉ QTree.spans (fc' + 1) c1 := fun hx => d01 hm hx
        have hsx2 : s ∉ QTree.spans (fc' + 2) c2 := fun hx => d02 hm hx
        have hsx3 : s ∉ QTree.spans (fc' + 3) c3 := fun hx => d03 hm hx
        have hsx4 : s ∉ QTree.spans (fc' + 4) c4 := fun hx => d04 hm hx
        have hfx1 : fc ∉ QTree.spans (fc' + 1) c1 := fun hx => d01 hfcm hx
        have hfx2 : fc ∉ QTree.spans (fc' + 2) c2 := fun hx => d02 hfcm hx
        have hfx3 : fc ∉ QTree.spans (fc' + 3) c3 := fun hx => d03 hfcm hx
        have hfx4 : fc ∉ QTree.spans (fc' + 4) c4 := fun hx => d04 hfcm hx
        have hgi : ((nodes.set fc ⟨free_old, n0.element_count⟩).set s
            (⟨SENTINEL, 0⟩ : Node))[i]? = some ⟨fc', NODE_IS_BRANCH⟩ := by
          rw [List.getElem?_set_ne (Ne.symm hine_s),
            List.getElem?_set_ne (Ne.symm hine_fc)]
          exact hg
        obtain ⟨e0, p0, b0⟩ := ih fc' c0 h0 hn0 hm
        have e1 := decode_frame s ⟨SENTINEL, 0⟩ _ k (fc' + 1) c1
          (decode_frame fc ⟨free_old, n0.element_count⟩ nodes k (fc' + 1) c1 h1 hfx1) hsx1
        have e2 := decode_frame s ⟨SENTINEL, 0⟩ _ k (fc' + 2) c2
          (decode_frame fc ⟨free_old, n0.element_count⟩ nodes k (fc' + 2) c2 h2 hfx2) hsx2
        have e3 := decode_frame s ⟨SENTINEL, 0⟩ _ k (fc' + 3) c3
          (decode_frame fc ⟨free_old, n0.element_count⟩ nodes k (fc' + 3) c3 h3 hfx3) hsx3
        have e4 := decode_frame s ⟨SENTINEL, 0⟩ _ k (fc' + 4) c4
          (decode_frame fc ⟨free_old, n0.element_count⟩ nodes k (fc' + 4) c4 h4 hfx4) hsx4
        have hfold : QTree.foldAt s i (QTree.branch fc' c0 c1 c2 c3 c4)
            = QTree.branch fc' (QTree.foldAt s fc' c0) c1 c2 c3 c4 := by
          simp [QTree.foldAt, hine_s, foldAt_id s _ c1 hsx1, foldAt_id s _ c2 hsx2,
            foldAt_id s _ c3 hsx3, foldAt_id s _ c4 hsx4]
        refine ⟨?_, ?_, ?_⟩
        · rw [hfold]
          simp [decodeTree, hgi, e0, e1, e2, e3, e4, NODE_IS_BRANCH]
        · rw [hfold]
          rw [← Multiset.coe_eq_coe] at p0 ⊢
          simp only [QTree.spans, ← Multiset.cons_coe, ← Multiset.coe_add,
            ← Multiset.singleton_add] at p0 ⊢
          rw [p0]
          abel
        · rw [hfold]
          simp only [QTree.branchCount] at b0 ⊢
          omega
      · have hgrp : ∀ x ∈ QTree.spans s (QTree.branch fc (QTree.leaf n0)
            (QTree.leaf n1) (QTree.leaf n2) (QTree.leaf n3) (QTree.leaf n4)),
            x ∈ QTree.spans (fc' + 1) c1 :=
          spans_subset_of_decode nodes s f2 _ hS k (fc' + 1) c1 h1 hm
        have hfcm : fc ∈ QTree.spans (fc' + 1) c1 := hgrp fc (by simp [QTree.spans])
        have hine_s : i ≠ s := fun he => hi1 (he ▸ hm)
        have hine_fc : i ≠ fc := fun he => hi1 (he ▸ hfcm)
        have hsx0 : s ∉ QTree.spans fc' c0 := fun hx => d01 hx hm
        have hsx2 : s ∉ QTree.spans (fc' + 2) c2 := fun hx => d12 hm hx
        have hsx3 : s ∉ QTree.spans (fc' + 3) c3 := fun hx => d13 hm hx
        have hsx4 : s ∉ QTree.spans (fc' + 4) c4 := fun hx => d14 hm hx
        have hfx0 : fc ∉ QTree.spans fc' c0 := fun hx => d01 hx hfcm
        have hfx2 : fc ∉ QTree.spans (fc' + 2) c2 := fun hx => d12 hfcm hx
        have hfx3 : fc ∉ QTree.spans (fc' + 3) c3 := fun hx => d13 hfcm hx
        have hfx4 : fc ∉ QTree.spans (fc' + 4) c4 := fun hx => d14 hfcm hx
        have hgi : ((nodes.set fc ⟨free_old, n0.element_count⟩).set s
            (⟨SENTINEL, 0⟩ : Node))[i]? = some ⟨fc', NODE_IS_BRANCH⟩ := by
          rw [List.getElem?_set_ne (Ne.symm hine_s),
            List.getElem?_set_ne (Ne.symm hine_fc)]
          exact hg
        obtain ⟨e1, p1, b1⟩ := ih (fc' + 1) c1 h1 hn1 hm
        have e0 := decode_frame s ⟨SENTINEL, 0⟩ _ k fc' c0
          (decode_frame fc ⟨free_old, n0.element_count⟩ nodes k fc' c0 h0 hfx0) hsx0
        have e2 := decode_frame s ⟨SENTINEL, 0⟩ _ k (fc' + 2) c2
          (decode_frame fc ⟨free_old, n0.element_count⟩ nodes k (fc' + 2) c2 h2 hfx2) hsx2
        have e3 := decode_frame s ⟨SENTINEL, 0⟩ _ k (fc' + 3) c3
          (decode_frame fc ⟨free_old, n0.element_count⟩ nodes k (fc' + 3) c3 h3 hfx3) hsx3
        have e4 := decode_frame s ⟨SENTINEL, 0⟩ _ k (fc' + 4) c4
          (decode_frame fc ⟨free_old, n0.element_count⟩ nodes k (fc' + 4) c4 h4 hfx4) hsx4
        have hfold : QTree.foldAt s i (QTree.branch fc' c0 c1 c2 c3 c4)
            = QTree.branch fc' c0 (QTree.foldAt s (fc' + 1) c1) c2 c3 c4 := by
          simp [QTree.foldAt, hine_s, foldAt_id s _ c0 hsx0, foldAt_id s _ c2 hsx2,
            foldAt_id s _ c3 hsx3, foldAt_id s _ c4 hsx4]
        refine ⟨?_, ?_, ?_⟩
        · rw [hfold]
          simp [decodeTree, hgi, e0, e1, e2, e3, e4, NODE_IS_BRANCH]
        · rw [hfold]
          rw [← Multiset.coe_eq_coe] at p1 ⊢
          simp only [QTree.spans, ← Multiset.cons_coe, ← Multiset.coe_add,
            ← Multiset.singleton_add] at p1 ⊢
          rw [p1]
          abel
        · rw [hfold]
          simp only [QTree.branchCount] at b1 ⊢
          omega
      · have hgrp : ∀ x ∈ QTree.spans s (QTree.branch fc (QTree.leaf n0)
            (QTree.leaf n1) (QTree.leaf n2) (QTree.leaf n3) (QTree.leaf n4)),
            x ∈ QTree.spans (fc' + 2) c2 :=
          spans_subset_of_decode nodes s f2 _ hS k (fc' + 2) c2 h2 hm
        have hfcm : fc ∈ QTree.spans (fc' + 2) c2 := hgrp fc (by simp [QTree.spans])
        have hine_s : i ≠ s := fun he => hi2 (he ▸ hm)
        have hine_fc : i ≠ fc := fun he => hi2 (he ▸ hfcm)
        have hsx0 : s ∉ QTree.spans fc' c0 := fun hx => d02 hx hm
        have hsx1 : s ∉ QTree.spans (fc' + 1) c1 := fun hx => d12 hx hm
        have hsx3 : s ∉ QTree.spans (fc' + 3) c3 := fun hx => d23 hm hx
        have hsx4 : s ∉ QTree.spans (fc' + 4) c4 := fun hx => d24 hm hx
        have hfx0 : fc ∉ QTree.spans fc' c0 := fun hx => d02 hx hfcm
        have hfx1 : fc ∉ QTree.spans (fc' + 1) c1 := fun hx => d12 hx hfcm
        have hfx3 : fc ∉ QTree.spans (fc' + 3) c3 := fun hx => d23 hfcm hx
        have hfx4 : fc ∉ QTree.spans (fc' + 4) c4 := fun hx => d24 hfcm hx
        have hgi : ((nodes.set fc ⟨free_old, n0.element_count⟩).set s
            (⟨SENTINEL, 0⟩ : Node))[i]? = some ⟨fc', NODE_IS_BRANCH⟩ := by
          rw [List.getElem?_set_ne (Ne.symm hine_s),
            List.getElem?_set_ne (Ne.symm hine_fc)]
          exact hg
        obtain ⟨e2, p2, b2⟩ := ih (fc' + 2) c2 h2 hn2 hm
        have e0 := decode_frame s ⟨SENTINEL, 0⟩ _ k fc' c0
          (decode_frame fc ⟨free_old, n0.element_count⟩ nodes k fc' c0 h0 hfx0) hsx0
        have e1 := decode_frame s ⟨SENTINEL, 0⟩ _ k (fc' + 1) c1
          (decode_frame fc ⟨free_old, n0.element_count⟩ nodes k (fc' + 1) c1 h1 hfx1) hsx1
        have e3 := decode_frame s ⟨SENTINEL, 0⟩ _ k (fc' + 3) c3
          (decode_frame fc ⟨free_old, n0.element_count⟩ nodes k (fc' + 3) c3 h3 hfx3) hsx3
        have e4 := decode_frame s ⟨SENTINEL, 0⟩ _ k (fc' + 4) c4
          (decode_frame fc ⟨free_old, n0.element_count⟩ nodes k (fc' + 4) c4 h4 hfx4) hsx4
        have hfold : QTree.foldAt s i (QTree.branch fc' c0 c1 c2 c3 c4)
            = QTree.branch fc' c0 c1 (QTree.foldAt s (fc' + 2) c2) c3 c4 := by
          simp [QTree.foldAt, hine_s, foldAt_id s _ c0 hsx0, foldAt_id s _ c1 hsx1,
            foldAt_id s _ c3 hsx3, foldAt_id s _ c4 hsx4]
        refine ⟨?_, ?_, ?_⟩
        · rw [hfold]
          simp [decodeTree, hgi, e0, e1, e2, e3, e4, NODE_IS_BRANCH]
        · rw [hfold]
          rw [← Multiset.coe_eq_coe] at p2 ⊢
          simp only [QTree.spans, ← Multiset.cons_coe, ← Multiset.coe_add,
            ← Multiset.singleton_add] at p2 ⊢
          rw [p2]
          abel
        · rw [hfold]
          simp only [QTree.branchCount] at b2 ⊢
          omega
      · have hgrp : ∀ x ∈ QTree.spans s (QTree.branch fc (QTree.leaf n0)
            (QTree.leaf n1) (QTree.leaf n2) (QTree.leaf n3) (QTree.leaf n4)),
            x ∈ QTree.spans (fc' + 3) c3 :=
          spans_subset_of_decode nodes s f2 _ hS k (fc' + 3) c3 h3 hm
        have hfcm : fc ∈ QTree.spans (fc' + 3) c3 := hgrp fc (by simp [QTree.spans])
        have hine_s : i ≠ s := fun he => hi3 (he ▸ hm)
        have hine_fc : i ≠ fc := fun he => hi3 (he ▸ hfcm)
        have hsx0 : s ∉ QTree.spans fc' c0 := fun hx => d03 hx hm
        have hsx1 : s ∉ QTree.spans (fc' + 1) c1 := fun hx => d13 hx hm
        have hsx2 : s ∉ QTree.spans (fc' + 2) c2 := fun hx => d23 hx hm
        have hsx4 : s ∉ QTree.spans (fc' + 4) c4 := fun hx => d34 hm hx
        have hfx0 : fc ∉ QTree.spans fc' c0 := fun hx => d03 hx hfcm
        have hfx1 : fc ∉ QTree.spans (fc' + 1) c1 := fun hx => d13 hx hfcm
        have hfx2 : fc ∉ QTree.spans (fc' + 2) c2 := fun hx => d23 hx hfcm
        have hfx4 : fc ∉ QTree.spans (fc' + 4) c4 := fun hx => d34 hfcm hx
        have hgi : ((nodes.set fc ⟨free_old, n0.element_count⟩).set s
            (⟨SENTINEL, 0⟩ : Node))[i]? = some ⟨fc', NODE_IS_BRANCH⟩ := by
          rw [List.getElem?_set_ne (Ne.symm hine_s),
            List.getElem?_set_ne (Ne.symm hine_fc)]
          exact hg
        obtain ⟨e3, p3, b3⟩ := ih (fc' + 3) c3 h3 hn3 hm
        have e0 := decode_frame s ⟨SENTINEL, 0⟩ _ k fc' c0
          (decode_frame fc ⟨free_old, n0.element_count⟩ nodes k fc' c0 h0 hfx0) hsx0
        have e1 := decode_frame s ⟨SENTINEL, 0⟩ _ k (fc' + 1) c1
          (decode_frame fc ⟨free_old, n0.element_count⟩ nodes k (fc' + 1) c1 h1 hfx1) hsx1
        have e2 := decode_frame s ⟨SENTINEL, 0⟩ _ k (fc' + 2) c2
          (decode_frame fc ⟨free_old, n0.element_count⟩ nodes k (fc' + 2) c2 h2 hfx2) hsx2
        have e4 := decode_frame s ⟨SENTINEL, 0⟩ _ k (fc' + 4) c4
          (decode_frame fc ⟨free_old, n0.element_count⟩ nodes k (fc' + 4) c4 h4 hfx4) hsx4
        have hfold : QTree.foldAt s i (QTree.branch fc' c0 c1 c2 c3 c4)
            = QTree.branch fc' c0 c1 c2 (QTree.foldAt s (fc' + 3) c3) c4 := by
          simp [QTree.foldAt, hine_s, foldAt_id s _ c0 hsx0, foldAt_id s _ c1 hsx1,
            foldAt_id s _ c2 hsx2, foldAt_id s _ c4 hsx4]
        refine ⟨?_, ?_, ?_⟩
        · rw [hfold]
          simp [decodeTree, hgi, e0, e1, e2, e3, e4, NODE_IS_BRANCH]
        · rw [hfold]
          rw [← Multiset.coe_eq_coe] at p3 ⊢
          simp only [QTree.spans, ← Multiset.cons_coe, ← Multiset.coe_add,
            ← Multiset.singleton_add] at p3 ⊢
          rw [p3]
          abel
        · rw [hfold]
          simp only [QTree.branchCount] at b3 ⊢
          omega
      · have hgrp : ∀ x ∈ QTree.spans s (QTree.branch fc (QTree.leaf n0)
            (QTree.leaf n1) (QTree.leaf n2) (QTree.leaf n3) (QTree.leaf n4)),
            x ∈ QTree.spans (fc' + 4) c4 :=
          spans_subset_of_decode nodes s f2 _ hS k (fc' + 4) c4 h4 hm
        have hfcm : fc ∈ QTree.spans (fc' + 4) c4 := hgrp fc (by simp [QTree.spans])
        have hine_s : i ≠ s := fun he => hi4 (he ▸ hm)
        have hine_fc : i ≠ fc := fun he => hi4 (he ▸ hfcm)
        have hsx0 : s ∉ QTree.spans fc' c0 := fun hx => d04 hx hm
        have hsx1 : s ∉ QTree.spans (fc' + 1) c1 := fun hx => d14 hx hm
        have hsx2 : s ∉ QTree.spans (fc' + 2) c2 := fun hx => d24 hx hm
        have hsx3 : s ∉ QTree.spans (fc' + 3) c3 := fun hx => d34 hx hm
        have hfx0 : fc ∉ QTree.spans fc' c0 := fun hx => d04 hx hfcm
        have hfx1 : fc ∉ QTree.spans (fc' + 1) c1 := fun hx => d14 hx hfcm
        have hfx2 : fc ∉ QTree.spans (fc' + 2) c2 := fun hx => d24 hx hfcm
        have hfx3 : fc ∉ QTree.spans (fc' + 3) c3 := fun hx => d34 hx hfcm
        have hgi : ((nodes.set fc ⟨free_old, n0.element_count⟩).set s
            (⟨SENTINEL, 0⟩ : Node))[i]? = some ⟨fc', NODE_IS_BRANCH⟩ := by
          rw [List.getElem?_set_ne (Ne.symm hine_s),
            List.getElem?_set_ne (Ne.symm hine_fc)]
          exact hg
        obtain ⟨e4, p4, b4⟩ := ih (fc' + 4) c4 h4 hn4 hm
        have e0 := decode_frame s ⟨SENTINEL, 0⟩ _ k fc' c0
          (decode_frame fc ⟨free_old, n0.element_count⟩ nodes k fc' c0 h0 hfx0) hsx0
        have e1 := decode_frame s ⟨SENTINEL, 0⟩ _ k (fc' + 1) c1
          (decode_frame fc ⟨free_old, n0.element_count⟩ nodes k (fc' + 1) c1 h1 hfx1) hsx1
        have e2 := decode_frame s ⟨SENTINEL, 0⟩ _ k (fc' + 2) c2
          (decode_frame fc ⟨free_old, n0.element_count⟩ nodes k (fc' + 2) c2 h2 hfx2) hsx2
        have e3 := decode_frame s ⟨SENTINEL, 0⟩ _ k (fc' + 3) c3
          (decode_frame fc ⟨free_old, n0.element_count⟩ nodes k (fc' + 3) c3 h3 hfx3) hsx3
        have hfold : QTree.foldAt s i (QTree.branch fc' c0 c1 c2 c3 c4)
            = QTree.branch fc' c0 c1 c2 c3 (QTree.foldAt s (fc' + 4) c4) := by
          simp [QTree.foldAt, hine_s, foldAt_id s _ c0 hsx0, foldAt_id s _ c1 hsx1,
            foldAt_id s _ c2 hsx2, foldAt_id s _ c3 hsx3]
        refine ⟨?_, ?_, ?_⟩
        · rw [hfold]
          simp [decodeTree, hgi, e0, e1, e2, e3, e4, NODE_IS_BRANCH]
        · rw [hfold]
          rw [← Multiset.coe_eq_coe] at p4 ⊢
          simp only [QTree.spans, ← Multiset.cons_coe, ← Multiset.coe_add,
            ← Multiset.singleton_add] at p4 ⊢
          rw [p4]
          abel
        · rw [hfold]
          simp only [QTree.branchCount] at b4 ⊢
          omega

theorem fold_step (t : QuadTree) (T : QTree) (chain : List Nat) (s fc : Nat)
    (n0 n1 n2 n3 n4 : Node)
    (hok : NodesOK t T chain)
    (hlen : t.nodes.length ≤ SENTINEL)
    (hS : decodedAt t s = some (QTree.branch fc (QTree.leaf n0) (QTree.leaf n1)
      (QTree.leaf n2) (QTree.leaf n3) (QTree.leaf n4)))
    (hsmem : s ∈ QTree.spans 0 T) :
    NodesOK { t with
        nodes := (t.nodes.set fc ⟨t.free_node, n0.element_count⟩).set s ⟨SENTINEL, 0⟩,
        free_node := fc }
      (QTree.foldAt s 0 T) (fc :: chain) := by
  obtain ⟨hd, hc, hnd, hbound, hcover⟩ := hok
  have hndT : (QTree.spans 0 T).Nodup := hnd.of_append_left
  unfold decodedAt at hS
  obtain ⟨hdec, hperm, hbc⟩ := fold_all t.nodes s fc t.free_node _ n0 n1 n2 n3 n4 hS
    (t.nodes.length + 1) 0 T hd hndT hsmem
  have hgrp_list : QTree.spans s (QTree.branch fc (QTree.leaf n0) (QTree.leaf n1)
      (QTree.leaf n2) (QTree.leaf n3) (QTree.leaf n4))
      = [s, fc, fc + 1, fc + 2, fc + 3, fc + 4] := by
    simp [QTree.spans]
  have hgrp_sub : ∀ x ∈ ([s, fc, fc + 1, fc + 2, fc + 3, fc + 4] : List Nat),
      x ∈ QTree.spans 0 T := by
    rw [← hgrp_list]
    exact spans_subset_of_decode t.nodes s _ _ hS _ 0 T hd hsmem
  have hgrp_nodup : ([s, fc, fc + 1, fc + 2, fc + 3, fc + 4] : List Nat).Nodup := by
    rw [← hgrp_list]
    exact spans_nodup_of_decode t.nodes s _ _ hS _ 0 T hd hndT hsmem
  have hs_ne_fc : s ≠ fc := by
    simp only [List.nodup_cons, List.mem_cons] at hgrp_nodup
    tauto
  have hfc_mem : fc ∈ QTree.spans 0 T := hgrp_sub fc (by simp)
  have hfc_lt : fc < t.nodes.length := hbound fc (List.mem_append_left _ hfc_mem)
  have hs_lt : s < t.nodes.length := hbound s (List.mem_append_left _ hsmem)
  have hfc_ne_sent : fc ≠ SENTINEL := Nat.ne_of_lt (lt_of_lt_of_le hfc_lt hlen)
  obtain ⟨-, -, hdisj⟩ := List.nodup_append.mp hnd
  have hs_chain : s ∉ chain := fun hx => hdisj hsmem (mem_flatMap_groupIdxs_self hx)
  have hfc_chain : fc ∉ chain := fun hx => hdisj hfc_mem (mem_flatMap_groupIdxs_self hx)
  have hc1 : freeChainList
      ((t.nodes.set fc ⟨t.free_node, n0.element_count⟩).set s ⟨SENTINEL, 0⟩)
      (t.nodes.length + 1) t.free_node = some chain :=
    freeChain_frame s ⟨SENTINEL, 0⟩ _ (t.nodes.length + 1) _ chain
      (freeChain_frame fc ⟨t.free_node, n0.element_count⟩ t.nodes
        (t.nodes.length + 1) t.free_node chain hc hfc_chain) hs_chain
  have hcovlen : (QTree.spans 0 T ++ chain.flatMap groupIdxs).length ≤ t.nodes.length := by
    have hsub : ∀ x ∈ QTree.spans 0 T ++ chain.flatMap groupIdxs,
        x ∈ List.range t.nodes.length := fun x hx => List.mem_range.mpr (hbound x hx)
    have := (List.subperm_of_subset hnd hsub).length_le
    simpa using this
  have hspan6 : 6 ≤ (QTree.spans 0 T).length := by
    have hsub : ∀ x ∈ ([s, fc, fc + 1, fc + 2, fc + 3, fc + 4] : List Nat),
        x ∈ QTree.spans 0 T := hgrp_sub
    have := (List.subperm_of_subset hgrp_nodup hsub).length_le
    simpa using this
  have hchain_lt : chain.length < t.nodes.length := by
    have hfl := flatMap_groupIdxs_length chain
    rw [List.length_append] at hcovlen
    omega
  have htail : freeChainList
      ((t.nodes.set fc ⟨t.free_node, n0.element_count⟩).set s ⟨SENTINEL, 0⟩)
      t.nodes.length t.free_node = some chain :=
    freeChain_fuel_min _ _ _ _ hc1 _ hchain_lt
  have hfc_rec : ((t.nodes.set fc ⟨t.free_node, n0.element_count⟩).set s
      (⟨SENTINEL, 0⟩ : Node))[fc]? = some ⟨t.free_node, n0.element_count⟩ := by
    rw [List.getElem?_set_ne hs_ne_fc]
    exact List.getElem?_set_self (by simpa using hfc_lt)
  have hlen' : ((t.nodes.set fc ⟨t.free_node, n0.element_count⟩).set s
      (⟨SENTINEL, 0⟩ : Node)).length = t.nodes.length := by
    simp
  have hflatcons : (fc :: chain).flatMap groupIdxs
      = [fc, fc + 1, fc + 2, fc + 3, fc + 4] ++ chain.flatMap groupIdxs := by
    simp [groupIdxs]
  have hcovperm : (QTree.spans 0 T ++ chain.flatMap groupIdxs).Perm
      (QTree.spans 0 (QTree.foldAt s 0 T) ++ (fc :: chain).flatMap groupIdxs) := by
    rw [hflatcons, ← Multiset.coe_eq_coe]
    rw [← Multiset.coe_eq_coe] at hperm
    simp only [← Multiset.coe_add] at hperm ⊢
    rw [hperm]
    abel
  refine ⟨?_, ?_, ?_, ?_, ?_⟩
  · show decodeTree _ _ 0 = _
    simp only [hlen']
    exact hdec
  · show freeChainList _ _ fc = some (fc :: chain)
    simp only [hlen']
    simp only [freeChainList, if_neg hfc_ne_sent, hfc_rec, htail, Option.map_some']
  · exact hcovperm.nodup hnd
  · intro i hi
    have : i < t.nodes.length := hbound i (hcovperm.mem_iff.mpr hi)
    simpa [hlen'] using this
  · intro i hi
    simp only [hlen'] at hi
    exact hcovperm.mem_iff.mp (hcover i hi)

theorem cleanup_loop_sim :
    ∀ (fuel : Nat) (t : QuadTree) (compacted : Bool) (stack : List Nat)
      (T : QTree) (chain : List Nat) (t2 : QuadTree) (c2 : Bool),
      NodesOK t T chain → T.leavesEmpty = true → t.nodes.length ≤ SENTINEL →
      StackOK t T stack → stackMeasure t stack < fuel →
      QuadTree.cleanup_loop fuel t compacted stack = (t2, c2) →
      ∃ T2 chain2,
        NodesOK t2 T2 chain2 ∧ T2.leavesEmpty = true ∧
        t2.nodes.length = t.nodes.length ∧
        T2.branchCount ≤ T.branchCount ∧
        (stack = [] → t2 = t ∧ c2 = compacted) ∧
        (stack ≠ [] → c2 = true ∧ T2.branchCount < T.branchCount) := by
  intro fuel
  induction fuel with
  | zero =>
    intro t compacted stack T chain t2 c2 _ _ _ _ hm
    omega
  | succ k ih =>
    intro t compacted stack T chain t2 c2 hok hemp hlen hst hm heq
    obtain ⟨hall_st, hndflat⟩ := hst
    cases stack with
    | nil =>
      simp only [QuadTree.cleanup_loop, Prod.mk.injEq] at heq
      obtain ⟨rfl, rfl⟩ := heq
      exact ⟨T, chain, hok, hemp, rfl, le_refl _,
        fun _ => ⟨rfl, rfl⟩, fun h => absurd rfl h⟩
    | cons s rest =>
      obtain ⟨hbrS, hsmem⟩ := hall_st s (List.mem_cons_self s rest)
      obtain ⟨fc, c0, c1, c2x, c3x, c4x, hdecS⟩ := hbrS
      have hd := hok.1
      have hndT : (QTree.spans 0 T).Nodup := hok.2.2.1.of_append_left
      have hdecS' : decodeTree t.nodes (t.nodes.length + 1) s
          = some (QTree.branch fc c0 c1 c2x c3x c4x) := hdecS
      have hrecs : t.nodeAt s = ⟨fc, NODE_IS_BRANCH⟩ :=
        nodeAt_of_decode_branch t _ s fc c0 c1 c2x c3x c4x hdecS'
      obtain ⟨e0, e1, e2, e3, e4⟩ := decodedAt_children t s fc c0 c1 c2x c3x c4x hdecS
      have hempS : (QTree.branch fc c0 c1 c2x c3x c4x).leavesEmpty = true :=
        leavesEmpty_at_of_decode t.nodes s _ _ hdecS' _ 0 T hd hsmem hemp
      have hempC : c0.leavesEmpty = true ∧ c1.leavesEmpty = true ∧
          c2x.leavesEmpty = true ∧ c3x.leavesEmpty = true ∧
          c4x.leavesEmpty = true := by
        simp only [QTree.leavesEmpty, Bool.and_eq_true] at hempS
        tauto
      have hsh0 := decoded_shape t fc c0 e0
      have hsh1 := decoded_shape t (fc + 1) c1 e1
      have hsh2 := decoded_shape t (fc + 2) c2x e2
      have hsh3 := decoded_shape t (fc + 3) c3x e3
      have hsh4 := decoded_shape t (fc + 4) c4x e4
      have hrel : ∀ cc ∈ ([fc, fc + 1, fc + 2, fc + 3, fc + 4] : List Nat),
          (t.nodeAt cc).is_empty = !(t.nodeAt cc).is_branch := by
        intro cc hcc
        simp only [List.mem_cons, List.not_mem_nil, or_false] at hcc
        rcases hcc with rfl | rfl | rfl | rfl | rfl
        · rcases hsh0 with ⟨n, heqn, -, hb, he⟩ | ⟨f2, d0, d1, d2, d3, d4, -, -, hb, he⟩
          · rw [hb, he]; subst heqn; simpa [QTree.leavesEmpty] using hempC.1
          · rw [hb, he]; rfl
        · rcases hsh1 with ⟨n, heqn, -, hb, he⟩ | ⟨f2, d0, d1, d2, d3, d4, -, -, hb, he⟩
          · rw [hb, he]; subst heqn; simpa [QTree.leavesEmpty] using hempC.2.1
          · rw [hb, he]; rfl
        · rcases hsh2 with ⟨n, heqn, -, hb, he⟩ | ⟨f2, d0, d1, d2, d3, d4, -, -, hb, he⟩
          · rw [hb, he]; subst heqn; simpa [QTree.leavesEmpty] using hempC.2.2.1
          · rw [hb, he]; rfl
        · rcases hsh3 with ⟨n, heqn, -, hb, he⟩ | ⟨f2, d0, d1, d2, d3, d4, -, -, hb, he⟩
          · rw [hb, he]; subst heqn; simpa [QTree.leavesEmpty] using hempC.2.2.2.1
          · rw [hb, he]; rfl
        · rcases hsh4 with ⟨n, heqn, -, hb, he⟩ | ⟨f2, d0, d1, d2, d3, d4, -, -, hb, he⟩
          · rw [hb, he]; subst heqn; simpa [QTree.leavesEmpty] using hempC.2.2.2.2
          · rw [hb, he]; rfl
      have hspansAt_s : spansAt t s
          = QTree.spans s (QTree.branch fc c0 c1 c2x c3x c4x) := by
        unfold spansAt
        rw [hdecS]
      have hspansAt_sub : ∀ x ∈ spansAt t s, x ∈ QTree.spans 0 T := by
        rw [hspansAt_s]
        exact spans_subset_of_decode t.nodes s _ _ hdecS' _ 0 T hd hsmem
      simp only [List.flatMap_cons] at hndflat
      obtain ⟨hnd_s, hnd_rest, hdisj_s_rest⟩ := List.nodup_append.mp hndflat
      have hsp0 : spansAt t fc = QTree.spans fc c0 := by
        unfold spansAt; rw [e0]
      have hsp1 : spansAt t (fc + 1) = QTree.spans (fc + 1) c1 := by
        unfold spansAt; rw [e1]
      have hsp2 : spansAt t (fc + 2) = QTree.spans (fc + 2) c2x := by
        unfold spansAt; rw [e2]
      have hsp3 : spansAt t (fc + 3) = QTree.spans (fc + 3) c3x := by
        unfold spansAt; rw [e3]
      have hsp4 : spansAt t (fc + 4) = QTree.spans (fc + 4) c4x := by
        unfold spansAt; rw [e4]
      have hbcAt_s : branchCountAt t s
          = (QTree.branch fc c0 c1 c2x c3x c4x).branchCount := by
        unfold branchCountAt
        rw [hdecS]
      have hchild_in_s : ∀ cc ∈ ([fc, fc + 1, fc + 2, fc + 3, fc + 4] : List Nat),
          ∀ x, x ∈ spansAt t cc → x ∈ spansAt t s := by
        intro cc hcc x hx
        rw [hspansAt_s]
        simp only [List.mem_cons, List.not_mem_nil, or_false] at hcc
        rcases hcc with rfl | rfl | rfl | rfl | rfl
        · exact mem_spans_branch s _ c0 c1 c2x c3x c4x x (Or.inl (by rw [← hsp0]; exact hx))
        · exact mem_spans_branch s _ c0 c1 c2x c3x c4x x
            (Or.inr (Or.inl (by rw [← hsp1]; exact hx)))
        · exact mem_spans_branch s _ c0 c1 c2x c3x c4x x
            (Or.inr (Or.inr (Or.inl (by rw [← hsp2]; exact hx))))
        · exact mem_spans_branch s _ c0 c1 c2x c3x c4x x
            (Or.inr (Or.inr (Or.inr (Or.inl (by rw [← hsp3]; exact hx)))))
        · exact mem_spans_branch s _ c0 c1 c2x c3x c4x x
            (Or.inr (Or.inr (Or.inr (Or.inr (by rw [← hsp4]; exact hx)))))
      simp only [QuadTree.cleanup_loop] at heq
      rw [hrecs] at heq
      simp only [Node.get_first_child_node_index] at heq
      by_cases h5 : (List.filter (fun c => (t.nodeAt c).is_empty)
          [fc, fc + 1, fc + 2, fc + 3, fc + 4]).length = 5
      · rw [if_pos h5] at heq
        have hall := filter_full [fc, fc + 1, fc + 2, fc + 3, fc + 4]
          (fun c => (t.nodeAt c).is_empty) (by simpa using h5)
        have hbfalse : ∀ cc ∈ ([fc, fc + 1, fc + 2, fc + 3, fc + 4] : List Nat),
            (t.nodeAt cc).is_branch = false := by
          intro cc hcc
          have h1 : (t.nodeAt cc).is_empty = true := hall cc hcc
          have h2 := hrel cc hcc
          rw [h1] at h2
          revert h2
          cases (t.nodeAt cc).is_branch <;> simp
        obtain ⟨n0, rfl, hr0, -, -⟩ := hsh0.resolve_right (by
          rintro ⟨f2, d0, d1, d2, d3, d4, -, -, hb, -⟩
          rw [hbfalse fc (by simp)] at hb
          exact Bool.false_ne_true hb)
        obtain ⟨n1, rfl, hr1, -, -⟩ := hsh1.resolve_right (by
          rintro ⟨f2, d0, d1, d2, d3, d4, -, -, hb, -⟩
          rw [hbfalse (fc + 1) (by simp)] at hb
          exact Bool.false_ne_true hb)
        obtain ⟨n2, rfl, hr2, -, -⟩ := hsh2.resolve_right (by
          rintro ⟨f2, d0, d1, d2, d3, d4, -, -, hb, -⟩
          rw [hbfalse (fc + 2) (by simp)] at hb
          exact Bool.false_ne_true hb)
        obtain ⟨n3, rfl, hr3, -, -⟩ := hsh3.resolve_right (by
          rintro ⟨f2, d0, d1, d2, d3, d4, -, -, hb, -⟩
          rw [hbfalse (fc + 3) (by simp)] at hb
          exact Bool.false_ne_true hb)
        obtain ⟨n4, rfl, hr4, -, -⟩ := hsh4.resolve_right (by
          rintro ⟨f2, d0, d1, d2, d3, d4, -, -, hb, -⟩
          rw [hbfalse (fc + 4) (by simp)] at hb
          exact Bool.false_ne_true hb)
        have hpushes : List.filter (fun c => (t.nodeAt c).is_branch)
            [fc, fc + 1, fc + 2, fc + 3, fc + 4] = [] := by
          rw [List.filter_eq_nil_iff]
          intro cc hcc
          rw [hbfalse cc hcc]
          simp
        rw [hpushes] at heq
        simp only [List.reverse_nil, List.nil_append] at heq
        rw [hr0] at heq
        obtain ⟨hdec2, hperm, hbcT⟩ := fold_all t.nodes s fc t.free_node _
          n0 n1 n2 n3 n4 hdecS' (t.nodes.length + 1) 0 T hd hndT hsmem
        have heq3 : QuadTree.cleanup_loop k { t with
            nodes := (t.nodes.set fc ⟨t.free_node, n0.element_count⟩).set s
              ⟨SENTINEL, 0⟩,
            free_node := fc } true rest = (t2, c2) := heq
        have hok3 : NodesOK { t with
            nodes := (t.nodes.set fc ⟨t.free_node, n0.element_count⟩).set s
              ⟨SENTINEL, 0⟩,
            free_node := fc } (QTree.foldAt s 0 T) (fc :: chain) :=
          fold_step t T chain s fc n0 n1 n2 n3 n4 hok hlen hdecS hsmem
        have hemp3 : (QTree.foldAt s 0 T).leavesEmpty = true :=
          leavesEmpty_foldAt s 0 T hemp
        have hlenset : ((t.nodes.set fc ⟨t.free_node, n0.element_count⟩).set s
            (⟨SENTINEL, 0⟩ : Node)).length = t.nodes.length := by
          simp
        have hsame : ∀ s2 ∈ rest, decodedAt { t with
            nodes := (t.nodes.set fc ⟨t.free_node, n0.element_count⟩).set s
              ⟨SENTINEL, 0⟩,
            free_node := fc } s2 = decodedAt t s2 := by
          intro s2 hs2
          obtain ⟨⟨fc2, d0, d1, d2, d3, d4, hdc2⟩, -⟩ :=
            hall_st s2 (List.mem_cons_of_mem s hs2)
          have hspAt2 : spansAt t s2
              = QTree.spans s2 (QTree.branch fc2 d0 d1 d2 d3 d4) := by
            unfold spansAt; rw [hdc2]
          have hs_not : s ∉ QTree.spans s2 (QTree.branch fc2 d0 d1 d2 d3 d4) :=
            fun hx => hdisj_s_rest (by rw [hspansAt_s]; exact spans_root_mem s _)
              (List.mem_flatMap_of_mem hs2 (by rw [hspAt2]; exact hx))
          have hfc_not : fc ∉ QTree.spans s2 (QTree.branch fc2 d0 d1 d2 d3 d4) :=
            fun hx => hdisj_s_rest
              (hchild_in_s fc (by simp) fc (by rw [hsp0]; exact spans_root_mem fc _))
              (List.mem_flatMap_of_mem hs2 (by rw [hspAt2]; exact hx))
          unfold decodedAt at hdc2 ⊢
          show decodeTree ((t.nodes.set fc ⟨t.free_node, n0.element_count⟩).set s
            ⟨SENTINEL, 0⟩) (((t.nodes.set fc ⟨t.free_node, n0.element_count⟩).set s
            (⟨SENTINEL, 0⟩ : Node)).length + 1) s2 = decodeTree t.nodes (t.nodes.length + 1) s2
          rw [hlenset, hdc2]
          exact decode_frame s ⟨SENTINEL, 0⟩ _ _ s2 _
            (decode_frame fc ⟨t.free_node, n0.element_count⟩ t.nodes _ s2 _ hdc2
              hfc_not) hs_not
        have hst3 : StackOK { t with
            nodes := (t.nodes.set fc ⟨t.free_node, n0.element_count⟩).set s
              ⟨SENTINEL, 0⟩,
            free_node := fc } (QTree.foldAt s 0 T) rest := by
          constructor
          · intro s2 hs2
            obtain ⟨⟨fc2, d0, d1, d2, d3, d4, hdc2⟩, hmem2⟩ :=
              hall_st s2 (List.mem_cons_of_mem s hs2)
            refine ⟨⟨fc2, d0, d1, d2, d3, d4, ?_⟩, ?_⟩
            · rw [hsame s2 hs2]; exact hdc2
            · have hs2self : s2 ∈ spansAt t s2 := by
                unfold spansAt; rw [hdc2]; exact spans_root_mem s2 _
              have hs2G : s2 ∉ ([fc, fc + 1, fc + 2, fc + 3, fc + 4] : List Nat) := by
                intro hx
                have hxs : s2 ∈ spansAt t s := by
                  refine hchild_in_s s2 hx s2 ?_
                  unfold spansAt; rw [hdc2]; exact spans_root_mem s2 _
                exact hdisj_s_rest hxs (List.mem_flatMap_of_mem hs2 hs2self)
              rcases List.mem_append.mp (hperm.mem_iff.mp hmem2) with h | h
              · exact h
              · exact absurd h hs2G
          · have hcong : rest.flatMap (spansAt { t with
                nodes := (t.nodes.set fc ⟨t.free_node, n0.element_count⟩).set s
                  ⟨SENTINEL, 0⟩,
                free_node := fc }) = rest.flatMap (spansAt t) :=
              flatMap_congr_mem (fun a ha => by unfold spansAt; rw [hsame a ha])
            rw [hcong]
            exact hnd_rest
        have hm3 : stackMeasure { t with
            nodes := (t.nodes.set fc ⟨t.free_node, n0.element_count⟩).set s
              ⟨SENTINEL, 0⟩,
            free_node := fc } rest < k := by
          have hcong : rest.map (branchCountAt { t with
              nodes := (t.nodes.set fc ⟨t.free_node, n0.element_count⟩).set s
                ⟨SENTINEL, 0⟩,
              free_node := fc }) = rest.map (branchCountAt t) :=
            map_congr_mem (fun a ha => by unfold branchCountAt; rw [hsame a ha])
          unfold stackMeasure at hm ⊢
          rw [hcong]
          simp only [List.map_cons, List.sum_cons] at hm
          rw [hbcAt_s] at hm
          simp only [QTree.branchCount] at hm
          omega
        have hlen3 : ({ t with
            nodes := (t.nodes.set fc ⟨t.free_node, n0.element_count⟩).set s
              ⟨SENTINEL, 0⟩,
            free_node := fc } : QuadTree).nodes.length ≤ SENTINEL := by
          simpa [hlenset] using hlen
        obtain ⟨T2, chain2, hok2, hemp2, hlen2, hble, hnil2, hcons2⟩ :=
          ih _ true rest _ _ t2 c2 hok3 hemp3 hlen3 hst3 hm3 heq3
        have hc2true : c2 = true := by
          by_cases hrest : rest = []
          · exact (hnil2 hrest).2
          · exact (hcons2 hrest).1
        refine ⟨T2, chain2, hok2, hemp2, ?_, by omega, ?_, ?_⟩
        · rw [hlen2]
          exact hlenset
        · intro h
          exact absurd h (List.cons_ne_nil s rest)
        · intro _
          exact ⟨hc2true, by omega⟩
      · rw [if_neg h5] at heq
        have hex : ∃ cc ∈ ([fc, fc + 1, fc + 2, fc + 3, fc + 4] : List Nat),
            (t.nodeAt cc).is_empty = false := by
          by_contra hno
          push_neg at hno
          have hallemp : ∀ cc ∈ ([fc, fc + 1, fc + 2, fc + 3, fc + 4] : List Nat),
              (t.nodeAt cc).is_empty = true := by
            intro cc hcc
            have := hno cc hcc
            revert this
            cases (t.nodeAt cc).is_empty <;> simp
          exact h5 (by rw [List.filter_eq_self.mpr hallemp]; rfl)
        obtain ⟨cc, hccmem, hccemp⟩ := hex
        have hccbr : (t.nodeAt cc).is_branch = true := by
          have h2 := hrel cc hccmem
          rw [hccemp] at h2
          revert h2
          cases (t.nodeAt cc).is_branch <;> simp
        have hccfilt : cc ∈ List.filter (fun c => (t.nodeAt c).is_branch)
            [fc, fc + 1, fc + 2, fc + 3, fc + 4] :=
          List.mem_filter.mpr ⟨hccmem, hccbr⟩
        have hp_ne : (List.filter (fun c => (t.nodeAt c).is_branch)
            [fc, fc + 1, fc + 2, fc + 3, fc + 4]).reverse ≠ [] := by
          simp only [Ne, List.reverse_eq_nil_iff]
          exact fun h => (List.ne_nil_of_mem hccfilt) h
        have hpush_fact : ∀ p ∈ (List.filter (fun c => (t.nodeAt c).is_branch)
            [fc, fc + 1, fc + 2, fc + 3, fc + 4]).reverse,
            isBranchAt t p ∧ p ∈ QTree.spans 0 T := by
          intro p hp
          rw [List.mem_reverse] at hp
          obtain ⟨hpmem, hpbr0⟩ := List.mem_filter.mp hp
          have hpbr : (t.nodeAt p).is_branch = true := hpbr0
          have hpT : p ∈ QTree.spans 0 T := hspansAt_sub p (by
            refine hchild_in_s p hpmem p ?_
            simp only [List.mem_cons, List.not_mem_nil, or_false] at hpmem
            rcases hpmem with rfl | rfl | rfl | rfl | rfl
            · rw [hsp0]; exact spans_root_mem _ _
            · rw [hsp1]; exact spans_root_mem _ _
            · rw [hsp2]; exact spans_root_mem _ _
            · rw [hsp3]; exact spans_root_mem _ _
            · rw [hsp4]; exact spans_root_mem _ _)
          refine ⟨?_, hpT⟩
          simp only [List.mem_cons, List.not_mem_nil, or_false] at hpmem
          rcases hpmem with rfl | rfl | rfl | rfl | rfl
          · rcases hsh0 with ⟨n, -, -, hb, -⟩ | ⟨f2, d0, d1, d2, d3, d4, hCeq, -, -, -⟩
            · rw [hb] at hpbr; exact absurd hpbr (by simp)
            · exact ⟨f2, d0, d1, d2, d3, d4, by rw [← hCeq]; exact e0⟩
          · rcases hsh1 with ⟨n, -, -, hb, -⟩ | ⟨f2, d0, d1, d2, d3, d4, hCeq, -, -, -⟩
            · rw [hb] at hpbr; exact absurd hpbr (by simp)
            · exact ⟨f2, d0, d1, d2, d3, d4, by rw [← hCeq]; exact e1⟩
          · rcases hsh2 with ⟨n, -, -, hb, -⟩ | ⟨f2, d0, d1, d2, d3, d4, hCeq, -, -, -⟩
            · rw [hb] at hpbr; exact absurd hpbr (by simp)
            · exact ⟨f2, d0, d1, d2, d3, d4, by rw [← hCeq]; exact e2⟩
          · rcases hsh3 with ⟨n, -, -, hb, -⟩ | ⟨f2, d0, d1, d2, d3, d4, hCeq, -, -, -⟩
            · rw [hb] at hpbr; exact absurd hpbr (by simp)
            · exact ⟨f2, d0, d1, d2, d3, d4, by rw [← hCeq]; exact e3⟩
          · rcases hsh4 with ⟨n, -, -, hb, -⟩ | ⟨f2, d0, d1, d2, d3, d4, hCeq, -, -, -⟩
            · rw [hb] at hpbr; exact absurd hpbr (by simp)
            · exact ⟨f2, d0, d1, d2, d3, d4, by rw [← hCeq]; exact e4⟩
        have hnd_children : (QTree.spans fc c0 ++ (QTree.spans (fc + 1) c1 ++
            (QTree.spans (fc + 2) c2x ++ (QTree.spans (fc + 3) c3x ++
              QTree.spans (fc + 4) c4x)))).Nodup := by
          have hns := hnd_s
          rw [hspansAt_s] at hns
          simp only [QTree.spans, List.nodup_cons] at hns
          have h2 := hns.2
          simpa [List.append_assoc] using h2
        have hchildflat : ([fc, fc + 1, fc + 2, fc + 3, fc + 4] : List Nat).flatMap
            (spansAt t) = QTree.spans fc c0 ++ (QTree.spans (fc + 1) c1 ++
            (QTree.spans (fc + 2) c2x ++ (QTree.spans (fc + 3) c3x ++
              QTree.spans (fc + 4) c4x))) := by
          simp [hsp0, hsp1, hsp2, hsp3, hsp4]
        have hfiltflat_nd : ((List.filter (fun c => (t.nodeAt c).is_branch)
            [fc, fc + 1, fc + 2, fc + 3, fc + 4]).flatMap (spansAt t)).Nodup :=
          List.Nodup.sublist (sublist_flatMap (spansAt t) (List.filter_sublist _))
            (by rw [hchildflat]; exact hnd_children)
        have hpushflat_nd : (((List.filter (fun c => (t.nodeAt c).is_branch)
            [fc, fc + 1, fc + 2, fc + 3, fc + 4]).reverse).flatMap (spansAt t)).Nodup := by
          have hpp := perm_flatMap (spansAt t) (List.reverse_perm
            (List.filter (fun c => (t.nodeAt c).is_branch)
              [fc, fc + 1, fc + 2, fc + 3, fc + 4]))
          exact hpp.symm.nodup hfiltflat_nd
        have hdisjPR : (((List.filter (fun c => (t.nodeAt c).is_branch)
            [fc, fc + 1, fc + 2, fc + 3, fc + 4]).reverse).flatMap (spansAt t)).Disjoint
            (rest.flatMap (spansAt t)) := by
          intro x hx hx2
          obtain ⟨p, hp, hxp⟩ := List.mem_flatMap.mp hx
          rw [List.mem_reverse] at hp
          obtain ⟨hpmem, -⟩ := List.mem_filter.mp hp
          exact hdisj_s_rest (hchild_in_s p hpmem x hxp) hx2
        have hnd3 : (((List.filter (fun c => (t.nodeAt c).is_branch)
            [fc, fc + 1, fc + 2, fc + 3, fc + 4]).reverse ++ rest).flatMap
            (spansAt t)).Nodup := by
          rw [List.flatMap_append]
          exact List.nodup_append.mpr ⟨hpushflat_nd, hnd_rest, hdisjPR⟩
        have hbc0 : ∀ cc2 ∈ ([fc, fc + 1, fc + 2, fc + 3, fc + 4] : List Nat),
            (t.nodeAt cc2).is_branch = false → branchCountAt t cc2 = 0 := by
          intro cc2 hcc2 hbf
          simp only [List.mem_cons, List.not_mem_nil, or_false] at hcc2
          rcases hcc2 with rfl | rfl | rfl | rfl | rfl
          · rcases hsh0 with ⟨n, hCeq, -, -, -⟩ | ⟨f2, d0, d1, d2, d3, d4, -, -, hb, -⟩
            · simp [branchCountAt, e0, hCeq, QTree.branchCount]
            · rw [hb] at hbf; exact absurd hbf (by simp)
          · rcases hsh1 with ⟨n, hCeq, -, -, -⟩ | ⟨f2, d0, d1, d2, d3, d4, -, -, hb, -⟩
            · simp [branchCountAt, e1, hCeq, QTree.branchCount]
            · rw [hb] at hbf; exact absurd hbf (by simp)
          · rcases hsh2 with ⟨n, hCeq, -, -, -⟩ | ⟨f2, d0, d1, d2, d3, d4, -, -, hb, -⟩
            · simp [branchCountAt, e2, hCeq, QTree.branchCount]
            · rw [hb] at hbf; exact absurd hbf (by simp)
          · rcases hsh3 with ⟨n, hCeq, -, -, -⟩ | ⟨f2, d0, d1, d2, d3, d4, -, -, hb, -⟩
            · simp [branchCountAt, e3, hCeq, QTree.branchCount]
            · rw [hb] at hbf; exact absurd hbf (by simp)
          · rcases hsh4 with ⟨n, hCeq, -, -, -⟩ | ⟨f2, d0, d1, d2, d3, d4, -, -, hb, -⟩
            · simp [branchCountAt, e4, hCeq, QTree.branchCount]
            · rw [hb] at hbf; exact absurd hbf (by simp)
        have hsum_pushes : (((List.filter (fun c => (t.nodeAt c).is_branch)
            [fc, fc + 1, fc + 2, fc + 3, fc + 4]).reverse).map (branchCountAt t)).sum
            = c0.branchCount + c1.branchCount + c2x.branchCount + c3x.branchCount
              + c4x.branchCount := by
          rw [List.map_reverse]
          rw [(List.reverse_perm _).sum_eq]
          rw [sum_map_filter_eq _ _ _ hbc0]
          have hb0 : branchCountAt t fc = c0.branchCount := by
            simp [branchCountAt, e0]
          have hb1 : branchCountAt t (fc + 1) = c1.branchCount := by
            simp [branchCountAt, e1]
          have hb2 : branchCountAt t (fc + 2) = c2x.branchCount := by
            simp [branchCountAt, e2]
          have hb3 : branchCountAt t (fc + 3) = c3x.branchCount := by
            simp [branchCountAt, e3]
          have hb4 : branchCountAt t (fc + 4) = c4x.branchCount := by
            simp [branchCountAt, e4]
          simp [hb0, hb1, hb2, hb3, hb4]
          omega
        have hm2 : stackMeasure t ((List.filter (fun c => (t.nodeAt c).is_branch)
            [fc, fc + 1, fc + 2, fc + 3, fc + 4]).reverse ++ rest) < k := by
          unfold stackMeasure at hm ⊢
          rw [List.map_append, List.sum_append, hsum_pushes]
          simp only [List.map_cons, List.sum_cons] at hm
          rw [hbcAt_s] at hm
          simp only [QTree.branchCount] at hm
          omega
        have hst2 : StackOK t T ((List.filter (fun c => (t.nodeAt c).is_branch)
            [fc, fc + 1, fc + 2, fc + 3, fc + 4]).reverse ++ rest) := by
          constructor
          · intro p hp
            rcases List.mem_append.mp hp with hp1 | hp2
            · exact hpush_fact p hp1
            · exact hall_st p (List.mem_cons_of_mem s hp2)
          · exact hnd3
        obtain ⟨T2, chain2, hok2, hemp2, hlen2, hble, hnil2, hcons2⟩ :=
          ih t compacted _ T chain t2 c2 hok hemp hlen hst2 hm2 heq
        have hne2 : (List.filter (fun c => (t.nodeAt c).is_branch)
            [fc, fc + 1, fc + 2, fc + 3, fc + 4]).reverse ++ rest ≠ [] := by
          intro h
          exact hp_ne (List.append_eq_nil.mp h).1
        obtain ⟨hc2, hlt2⟩ := hcons2 hne2
        exact ⟨T2, chain2, hok2, hemp2, hlen2, hble,
          fun h => absurd h (List.cons_ne_nil s rest), fun _ => ⟨hc2, hlt2⟩⟩

theorem cleanup_sim (t : QuadTree) (T : QTree) (chain : List Nat)
    (hok : NodesOK t T chain) (hemp : T.leavesEmpty = true)
    (hlen : t.nodes.length ≤ SENTINEL) :
    (∀ n, T = QTree.leaf n → t.cleanup = (false, t)) ∧
    (∀ fc c0 c1 c2x c3x c4x, T = QTree.branch fc c0 c1 c2x c3x c4x →
      ∃ t2 T2 chain2, t.cleanup = (true, t2) ∧ NodesOK t2 T2 chain2 ∧
        T2.leavesEmpty = true ∧ t2.nodes.length = t.nodes.length ∧
        T2.branchCount < T.branchCount) := by
  have hndT : (QTree.spans 0 T).Nodup := hok.2.2.1.of_append_left
  have hspan_le : (QTree.spans 0 T).length ≤ t.nodes.length := by
    have hsub : ∀ x ∈ QTree.spans 0 T, x ∈ List.range t.nodes.length :=
      fun x hx => List.mem_range.mpr (hok.2.2.2.1 x (List.mem_append_left _ hx))
    have := (List.subperm_of_subset hndT hsub).length_le
    simpa using this
  constructor
  · intro n hT
    subst hT
    obtain ⟨hg, hb⟩ := decode_leaf_inv t.nodes t.nodes.length 0 n hok.1
    have hrec : t.nodeAt 0 = n := nodeAt_of_decode_leaf t _ 0 n hok.1
    simp [QuadTree.cleanup, hrec, Node.is_leaf, Node.is_branch, hb]
  · intro fc c0 c1 c2x c3x c4x hT
    subst hT
    have hrec : t.nodeAt 0 = ⟨fc, NODE_IS_BRANCH⟩ :=
      nodeAt_of_decode_branch t _ 0 fc c0 c1 c2x c3x c4x hok.1
    have hleaf_false : (t.nodeAt 0).is_leaf = false := by
      rw [hrec]
      simp [Node.is_leaf, Node.is_branch]
    have hst : StackOK t (QTree.branch fc c0 c1 c2x c3x c4x) [0] := by
      constructor
      · intro s hs
        simp only [List.mem_singleton] at hs
        subst hs
        exact ⟨⟨fc, c0, c1, c2x, c3x, c4x, hok.1⟩, spans_root_mem 0 _⟩
      · have hsp : spansAt t 0 = QTree.spans 0 (QTree.branch fc c0 c1 c2x c3x c4x) := by
          unfold spansAt decodedAt
          rw [hok.1]
        simp only [List.flatMap_cons, List.flatMap_nil, List.append_nil, hsp]
        exact hndT
    have hmlt : stackMeasure t [0] < t.nodes.length + 1 := by
      have hb : branchCountAt t 0 = (QTree.branch fc c0 c1 c2x c3x c4x).branchCount := by
        unfold branchCountAt decodedAt
        rw [hok.1]
      have hble := branchCount_le_spans_length 0 (QTree.branch fc c0 c1 c2x c3x c4x)
      unfold stackMeasure
      simp only [List.map_cons, List.map_nil, List.sum_cons, List.sum_nil, hb]
      omega
    obtain ⟨T2, chain2, hok2, hemp2, hlen2, hble2, -, hcons⟩ :=
      cleanup_loop_sim (t.nodes.length + 1) t false [0]
        (QTree.branch fc c0 c1 c2x c3x c4x) chain
        (QuadTree.cleanup_loop (t.nodes.length + 1) t false [0]).1
        (QuadTree.cleanup_loop (t.nodes.length + 1) t false [0]).2
        hok hemp hlen hst hmlt rfl
    obtain ⟨hc2, hlt2⟩ := hcons (List.cons_ne_nil 0 [])
    refine ⟨(QuadTree.cleanup_loop (t.nodes.length + 1) t false [0]).1, T2, chain2,
      ?_, hok2, hemp2, hlen2, hlt2⟩
    simp only [QuadTree.cleanup, hleaf_false, Bool.false_eq_true, if_false]
    rw [hc2]

theorem iterateCleanup_sim :
    ∀ (m : Nat) (t : QuadTree) (T : QTree) (chain : List Nat),
      NodesOK t T chain → T.leavesEmpty = true → t.nodes.length ≤ SENTINEL →
      T.branchCount ≤ m →
      ∃ T2 chain2, NodesOK (QuadTree.iterateCleanup m t) T2 chain2 ∧
        T2.leavesEmpty = true ∧ (∃ n2, T2 = QTree.leaf n2) ∧
        (QuadTree.iterateCleanup m t).nodes.length ≤ SENTINEL := by
  intro m
  induction m with
  | zero =>
    intro t T chain hok hemp hlen hbc
    cases T with
    | leaf n => exact ⟨QTree.leaf n, chain, hok, hemp, ⟨n, rfl⟩, hlen⟩
    | branch fc c0 c1 c2x c3x c4x => simp [QTree.branchCount] at hbc
  | succ m ih =>
    intro t T chain hok hemp hlen hbc
    obtain ⟨hleafc, hbranchc⟩ := cleanup_sim t T chain hok hemp hlen
    cases T with
    | leaf n =>
      have hcl := hleafc n rfl
      have hstep : QuadTree.iterateCleanup (m + 1) t
          = QuadTree.iterateCleanup m (t.cleanup).2 := rfl
      rw [hstep, hcl]
      exact ih t (QTree.leaf n) chain hok hemp hlen (by simp [QTree.branchCount])
    | branch fc c0 c1 c2x c3x c4x =>
      obtain ⟨t2, T2, chain2, hcl, hok2, hemp2, hlen2, hbc2⟩ :=
        hbranchc fc c0 c1 c2x c3x c4x rfl
      have hstep : QuadTree.iterateCleanup (m + 1) t
          = QuadTree.iterateCleanup m (t.cleanup).2 := rfl
      rw [hstep, hcl]
      refine ih t2 T2 chain2 hok2 hemp2 (by rw [hlen2]; exact hlen) ?_
      have : (QTree.branch fc c0 c1 c2x c3x c4x).branchCount ≤ m + 1 := hbc
      omega

/-- C8: on a quadtree whose node vector is structurally well formed
(`nodesWF`: the root decodes to a tree, the free chain decodes, and together
they cover every node index exactly once) and all of whose reachable leaves
are empty — the state left by a sequence of inserts followed by successful
removals of every element — repeatedly calling `cleanup` converges to the
minimal tree: after some number of calls the node at index 0 is a leaf with
element count zero, one further `cleanup` call returns `false` and leaves
the tree unchanged, and every other node index lies on the
free-node-group list. -/
theorem C8_cleanup_converges (t : QuadTree)
    (hwf : t.nodesWF = true) (hempty : t.reachableLeavesEmpty = true)
    (hlen : t.nodes.length ≤ SENTINEL) :
    ∃ m, ((QuadTree.iterateCleanup m t).nodeAt 0).is_leaf = true ∧
      ((QuadTree.iterateCleanup m t).nodeAt 0).element_count = 0 ∧
      (QuadTree.iterateCleanup m t).cleanup = (false, QuadTree.iterateCleanup m t) ∧
      ∃ chain2, freeChainList (QuadTree.iterateCleanup m t).nodes
          ((QuadTree.iterateCleanup m t).nodes.length + 1)
          (QuadTree.iterateCleanup m t).free_node = some chain2 ∧
        ∀ i, 0 < i → i < (QuadTree.iterateCleanup m t).nodes.length →
          i ∈ chain2.flatMap groupIdxs := by
  obtain ⟨T, chain, hok, hre⟩ := nodesWF_elim t hwf
  have hemp := hre hempty
  obtain ⟨T2, chain2, hok2, hemp2, ⟨n2, rfl⟩, hlen2⟩ :=
    iterateCleanup_sim T.branchCount t T chain hok hemp hlen (le_refl _)
  have hrec : (QuadTree.iterateCleanup T.branchCount t).nodeAt 0 = n2 :=
    nodeAt_of_decode_leaf _ _ 0 n2 hok2.1
  obtain ⟨hg, hb⟩ := decode_leaf_inv _ _ 0 n2 hok2.1
  have hcnt : n2.element_count = 0 := by
    simpa [QTree.leavesEmpty] using hemp2
  refine ⟨T.branchCount, ?_, ?_, ?_, chain2, hok2.2.1, ?_⟩
  · rw [hrec]
    simp [Node.is_leaf, Node.is_branch, hcnt, NODE_IS_BRANCH]
  · rw [hrec]
    exact hcnt
  · exact (cleanup_sim _ (QTree.leaf n2) chain2 hok2 hemp2 hlen2).1 n2 rfl
  · intro i h0 hilen
    have hcov := hok2.2.2.2.2 i hilen
    rcases List.mem_append.mp hcov with h | h
    · simp only [QTree.spans, List.mem_singleton] at h
      omega
    · exact h

theorem C8_cleanup_converges_witness :
    ∃ m, ((QuadTree.iterateCleanup m cleanupWitnessTree).nodeAt 0).is_leaf = true ∧
      ((QuadTree.iterateCleanup m cleanupWitnessTree).nodeAt 0).element_count = 0 ∧
      (QuadTree.iterateCleanup m cleanupWitnessTree).cleanup
        = (false, QuadTree.iterateCleanup m cleanupWitnessTree) ∧
      ∃ chain2, freeChainList (QuadTree.iterateCleanup m cleanupWitnessTree).nodes
          ((QuadTree.iterateCleanup m cleanupWitnessTree).nodes.length + 1)
          (QuadTree.iterateCleanup m cleanupWitnessTree).free_node = some chain2 ∧
        ∀ i, 0 < i → i < (QuadTree.iterateCleanup m cleanupWitnessTree).nodes.length →
          i ∈ chain2.flatMap groupIdxs :=
  C8_cleanup_converges cleanupWitnessTree (by decide) (by decide) (by decide)

theorem mem_ite_nil_right_list {α : Type} (b : Bool) (F : α) (x : α) :
    (x ∈ (if b then [F] else [])) ↔ b = true ∧ x = F := by
  cases b <;> simp

theorem mem_ite_nil_gen {α : Type} (b : Bool) (L : List α) (x : α) :
    (x ∈ (if b then L else [])) ↔ b = true ∧ x ∈ L := by
  cases b <;> simp

theorem NodeData.new_index (c : CenteredAABB) (i d : Nat) (b : Bool) :
    (NodeData.new c i d b).index = i := rfl

theorem NodeData.new_crect (c : CenteredAABB) (i d : Nat) (b : Bool) :
    (NodeData.new c i d b).crect = c := rfl

theorem qVisits_leaf (nodes : List Node) (rect : AABB) (f i : Nat) (n : Node)
    (cell : CenteredAABB) (h : decodeTree nodes f i = some (QTree.leaf n)) :
    qVisits nodes rect f cell i = [(i, cell)] := by
  cases f with
  | zero => simp [decodeTree] at h
  | succ k =>
    obtain ⟨hg, hb⟩ := decode_leaf_inv nodes k i n h
    simp [qVisits, hg, hb]

theorem qVisits_branch (nodes : List Node) (rect : AABB) (k i fc : Nat)
    (c0 c1 c2 c3 c4 : QTree) (cell : CenteredAABB)
    (h : decodeTree nodes (k + 1) i = some (QTree.branch fc c0 c1 c2 c3 c4)) :
    qVisits nodes rect (k + 1) cell i =
      (let q := cell.explore_quadrants_aabb rect
      qVisits nodes rect k (cell.split_child 0) fc ++
      (if q.atIdx 1 then qVisits nodes rect k (cell.split_child 1) (fc + 1) else []) ++
      (if q.atIdx 2 then qVisits nodes rect k (cell.split_child 2) (fc + 2) else []) ++
      (if q.atIdx 3 then qVisits nodes rect k (cell.split_child 3) (fc + 3) else []) ++
      (if q.atIdx 4 then qVisits nodes rect k (cell.split_child 4) (fc + 4) else [])) := by
  obtain ⟨hg, h0, h1, h2, h3, h4⟩ := decode_branch_inv nodes k i fc c0 c1 c2 c3 c4 h
  simp [qVisits, hg, NODE_IS_BRANCH]

theorem qVisits_mono (nodes : List Node) (rect : AABB) :
    ∀ f f2 i T cell, decodeTree nodes f i = some T → f ≤ f2 →
      qVisits nodes rect f2 cell i = qVisits nodes rect f cell i := by
  intro f
  induction f with
  | zero => intro f2 i T cell h; simp [decodeTree] at h
  | succ k ih =>
    intro f2 i T cell h hle
    obtain ⟨m, rfl⟩ : ∃ m, f2 = m + 1 := ⟨f2 - 1, by omega⟩
    cases T with
    | leaf n =>
      rw [qVisits_leaf nodes rect (k + 1) i n cell h,
        qVisits_leaf nodes rect (m + 1) i n cell
          (decode_mono nodes (k + 1) (m + 1) i _ (by omega) h)]
    | branch fc c0 c1 c2 c3 c4 =>
      obtain ⟨hg, h0, h1, h2, h3, h4⟩ := decode_branch_inv nodes k i fc c0 c1 c2 c3 c4 h
      rw [qVisits_branch nodes rect k i fc c0 c1 c2 c3 c4 cell h,
        qVisits_branch nodes rect m i fc c0 c1 c2 c3 c4 cell
          (decode_mono nodes (k + 1) (m + 1) i _ (by omega) h)]
      simp only
      rw [ih m fc c0 _ h0 (by omega), ih m (fc + 1) c1 _ h1 (by omega),
        ih m (fc + 2) c2 _ h2 (by omega), ih m (fc + 3) c3 _ h3 (by omega),
        ih m (fc + 4) c4 _ h4 (by omega)]

theorem find_leaves_query_sim (t : QuadTree) (rect : AABB) :
    ∀ (fuel : Nat) (stack acc : List NodeData),
      (∀ fr ∈ stack, ∃ S, decodedAt t fr.index = some S) →
      (stack.map (fun fr => (spansAt t fr.index).length)).sum < fuel →
      ∀ x : Nat,
        (∃ nd ∈ QuadTree.find_leaves_loop t rect .Query fuel stack acc, nd.index = x)
          ↔ (∃ nd ∈ acc, nd.index = x) ∨
            ∃ fr ∈ stack, ∃ c,
              (x, c) ∈ qVisits t.nodes rect (t.nodes.length + 1) fr.crect fr.index := by
  intro fuel
  induction fuel with
  | zero =>
    intro stack acc _ hm
    omega
  | succ k ih =>
    intro stack acc hdec hm x
    cases stack with
    | nil =>
      simp [QuadTree.find_leaves_loop]
    | cons fr rest =>
      obtain ⟨S, hS⟩ := hdec fr (List.mem_cons_self fr rest)
      have hrest_dec : ∀ fr2 ∈ rest, ∃ S2, decodedAt t fr2.index = some S2 :=
        fun fr2 h2 => hdec fr2 (List.mem_cons_of_mem fr h2)
      have hspl : spansAt t fr.index = QTree.spans fr.index S := by
        unfold spansAt
        rw [hS]
      cases S with
      | leaf n =>
        have hrec : t.nodeAt fr.index = n := nodeAt_of_decode_leaf t _ fr.index n hS
        obtain ⟨hg, hb⟩ := decode_leaf_inv t.nodes t.nodes.length fr.index n hS
        have hleaf : (t.nodeAt fr.index).is_leaf = true := by
          rw [hrec]
          simp [Node.is_leaf, Node.is_branch, hb]
        have hq : qVisits t.nodes rect (t.nodes.length + 1) fr.crect fr.index
            = [(fr.index, fr.crect)] := qVisits_leaf t.nodes rect _ fr.index n fr.crect hS
        have hm2 : (rest.map (fun fr2 => (spansAt t fr2.index).length)).sum < k := by
          simp only [List.map_cons, List.sum_cons, hspl, QTree.spans] at hm
          simp at hm
          omega
        have hstep : QuadTree.find_leaves_loop t rect .Query (k + 1) (fr :: rest) acc
            = QuadTree.find_leaves_loop t rect .Query k rest (fr :: acc) := by
          simp [QuadTree.find_leaves_loop, hleaf]
        rw [hstep, ih rest (fr :: acc) hrest_dec hm2 x]
        constructor
        · rintro (⟨nd, hnd, hx⟩ | ⟨fr2, h2, c, hc⟩)
          · rcases List.mem_cons.mp hnd with rfl | hnd2
            · exact Or.inr ⟨nd, List.mem_cons_self _ _, nd.crect, by rw [hq]; simp [hx]⟩
            · exact Or.inl ⟨nd, hnd2, hx⟩
          · exact Or.inr ⟨fr2, List.mem_cons_of_mem fr h2, c, hc⟩
        · rintro (⟨nd, hnd, hx⟩ | ⟨fr2, hfr2, c, hc⟩)
          · exact Or.inl ⟨nd, List.mem_cons_of_mem fr hnd, hx⟩
          · rcases List.mem_cons.mp hfr2 with rfl | h2
            · rw [hq] at hc
              simp only [List.mem_singleton, Prod.mk.injEq] at hc
              exact Or.inl ⟨fr2, List.mem_cons_self _ _, hc.1.symm⟩
            · exact Or.inr ⟨fr2, h2, c, hc⟩
      | branch fc c0 c1 c2 c3 c4 =>
        have hrec : t.nodeAt fr.index = ⟨fc, NODE_IS_BRANCH⟩ :=
          nodeAt_of_decode_branch t _ fr.index fc c0 c1 c2 c3 c4 hS
        have hleaf : (t.nodeAt fr.index).is_leaf = false := by
          rw [hrec]
          simp [Node.is_leaf, Node.is_branch]
        obtain ⟨hg2, h0, h1, h2, h3, h4⟩ :=
          decode_branch_inv t.nodes t.nodes.length fr.index fc c0 c1 c2 c3 c4 hS
        obtain ⟨e0, e1, e2, e3, e4⟩ := decodedAt_children t fr.index fc c0 c1 c2 c3 c4 hS
        have hq := qVisits_branch t.nodes rect t.nodes.length fr.index fc c0 c1 c2 c3 c4
          fr.crect hS
        rw [← qVisits_mono t.nodes rect t.nodes.length (t.nodes.length + 1) fc c0
            (fr.crect.split_child 0) h0 (by omega),
          ← qVisits_mono t.nodes rect t.nodes.length (t.nodes.length + 1) (fc + 1) c1
            (fr.crect.split_child 1) h1 (by omega),
          ← qVisits_mono t.nodes rect t.nodes.length (t.nodes.length + 1) (fc + 2) c2
            (fr.crect.split_child 2) h2 (by omega),
          ← qVisits_mono t.nodes rect t.nodes.length (t.nodes.length + 1) (fc + 3) c3
            (fr.crect.split_child 3) h3 (by omega),
          ← qVisits_mono t.nodes rect t.nodes.length (t.nodes.length + 1) (fc + 4) c4
            (fr.crect.split_child 4) h4 (by omega)] at hq
        have hsp0 : spansAt t fc = QTree.spans fc c0 := by
          unfold spansAt
          rw [e0]
        have hsp1 : spansAt t (fc + 1) = QTree.spans (fc + 1) c1 := by
          unfold spansAt
          rw [e1]
        have hsp2 : spansAt t (fc + 2) = QTree.spans (fc + 2) c2 := by
          unfold spansAt
          rw [e2]
        have hsp3 : spansAt t (fc + 3) = QTree.spans (fc + 3) c3 := by
          unfold spansAt
          rw [e3]
        have hsp4 : spansAt t (fc + 4) = QTree.spans (fc + 4) c4 := by
          unfold spansAt
          rw [e4]
        have hpush_eq : QuadTree.collect_relevant_quadrants fr fc
            (fr.crect.explore_quadrants_aabb rect) .Query
            = NodeData.new (fr.crect.split_child 0) fc fr.depth false ::
              ((if (fr.crect.explore_quadrants_aabb rect).atIdx 1 then
                  [NodeData.new (fr.crect.split_child 1) (fc + 1) (fr.depth + 1) true]
                else []) ++
              (if (fr.crect.explore_quadrants_aabb rect).atIdx 2 then
                  [NodeData.new (fr.crect.split_child 2) (fc + 2) (fr.depth + 1) true]
                else []) ++
              (if (fr.crect.explore_quadrants_aabb rect).atIdx 3 then
                  [NodeData.new (fr.crect.split_child 3) (fc + 3) (fr.depth + 1) true]
                else []) ++
              (if (fr.crect.explore_quadrants_aabb rect).atIdx 4 then
                  [NodeData.new (fr.crect.split_child 4) (fc + 4) (fr.depth + 1) true]
                else [])) := by
          by_cases hb1 : (fr.crect.explore_quadrants_aabb rect).atIdx 1 <;>
            by_cases hb2 : (fr.crect.explore_quadrants_aabb rect).atIdx 2 <;>
            by_cases hb3 : (fr.crect.explore_quadrants_aabb rect).atIdx 3 <;>
            by_cases hb4 : (fr.crect.explore_quadrants_aabb rect).atIdx 4 <;>
            simp [QuadTree.collect_relevant_quadrants,
              QuadTree.collect_relevant_quadrants_for_query, hb1, hb2, hb3, hb4,
              List.range_succ]
        have hstep : QuadTree.find_leaves_loop t rect .Query (k + 1) (fr :: rest) acc
            = QuadTree.find_leaves_loop t rect .Query k
              (QuadTree.collect_relevant_quadrants fr fc
                (fr.crect.explore_quadrants_aabb rect) .Query ++ rest) acc := by
          simp [QuadTree.find_leaves_loop, hleaf, hrec, Node.get_first_child_node_index,
            Node.is_leaf, Node.is_branch]
        have hsumite : ∀ (b : Bool) (F : NodeData),
            (((if b then [F] else []) : List NodeData).map
              (fun fr2 => (spansAt t fr2.index).length)).sum
              = if b then (spansAt t F.index).length else 0 := by
          intro b F
          cases b <;> simp
        have hdec2 : ∀ fr2 ∈ QuadTree.collect_relevant_quadrants fr fc
            (fr.crect.explore_quadrants_aabb rect) .Query ++ rest,
            ∃ S2, decodedAt t fr2.index = some S2 := by
          intro fr2 hfr2
          rcases List.mem_append.mp hfr2 with hp | hp
          · rw [hpush_eq] at hp
            simp only [List.mem_cons, List.mem_append, mem_ite_nil_right_list] at hp
            rcases hp with rfl | (((⟨-, rfl⟩ | ⟨-, rfl⟩) | ⟨-, rfl⟩) | ⟨-, rfl⟩) <;>
              simp only [NodeData.new_index]
            · exact ⟨c0, e0⟩
            · exact ⟨c1, e1⟩
            · exact ⟨c2, e2⟩
            · exact ⟨c3, e3⟩
            · exact ⟨c4, e4⟩
          · exact hrest_dec fr2 hp
        have hm2 : ((QuadTree.collect_relevant_quadrants fr fc
            (fr.crect.explore_quadrants_aabb rect) .Query ++ rest).map
              (fun fr2 => (spansAt t fr2.index).length)).sum < k := by
          rw [hpush_eq]
          simp only [List.map_append, List.sum_append, List.map_cons, List.sum_cons,
            hsumite, NodeData.new_index]
          simp only [List.map_cons, List.sum_cons, hspl, QTree.spans,
            List.length_cons, List.length_append] at hm
          rw [hsp0, hsp1, hsp2, hsp3, hsp4]
          split_ifs <;> omega
        rw [hstep, ih _ acc hdec2 hm2 x]
        constructor
        · rintro (hacc | ⟨fr2, hfr2, c, hc⟩)
          · exact Or.inl hacc
          · rcases List.mem_append.mp hfr2 with hp | hp
            · rw [hpush_eq] at hp
              simp only [List.mem_cons, List.mem_append, mem_ite_nil_right_list] at hp
              refine Or.inr ⟨fr, List.mem_cons_self fr rest, c, ?_⟩
              rw [hq]
              simp only [List.mem_append, mem_ite_nil_gen]
              rcases hp with rfl | (((⟨hflag, rfl⟩ | ⟨hflag, rfl⟩) | ⟨hflag, rfl⟩) | ⟨hflag, rfl⟩) <;>
                simp only [NodeData.new_index, NodeData.new_crect] at hc
              · exact Or.inl (Or.inl (Or.inl (Or.inl hc)))
              · exact Or.inl (Or.inl (Or.inl (Or.inr ⟨hflag, hc⟩)))
              · exact Or.inl (Or.inl (Or.inr ⟨hflag, hc⟩))
              · exact Or.inl (Or.inr ⟨hflag, hc⟩)
              · exact Or.inr ⟨hflag, hc⟩
            · exact Or.inr ⟨fr2, List.mem_cons_of_mem fr hp, c, hc⟩
        · rintro (hacc | ⟨fr2, hfr2, c, hc⟩)
          · exact Or.inl hacc
          · rcases List.mem_cons.mp hfr2 with rfl | hp
            · rw [hq] at hc
              simp only [List.mem_append, mem_ite_nil_gen] at hc
              rcases hc with ((((hc | ⟨hflag, hc⟩) | ⟨hflag, hc⟩) | ⟨hflag, hc⟩) | ⟨hflag, hc⟩)
              · refine Or.inr ⟨NodeData.new (fr2.crect.split_child 0) fc fr2.depth false,
                  List.mem_append_left _ (by rw [hpush_eq]; exact List.mem_cons_self _ _),
                  c, hc⟩
              · refine Or.inr ⟨NodeData.new (fr2.crect.split_child 1) (fc + 1)
                  (fr2.depth + 1) true, List.mem_append_left _ ?_, c, hc⟩
                rw [hpush_eq]
                refine List.mem_cons_of_mem _ (List.mem_append_left _
                  (List.mem_append_left _ (List.mem_append_left _ ?_)))
                rw [hflag]
                simp
              · refine Or.inr ⟨NodeData.new (fr2.crect.split_child 2) (fc + 2)
                  (fr2.depth + 1) true, List.mem_append_left _ ?_, c, hc⟩
                rw [hpush_eq]
                refine List.mem_cons_of_mem _ (List.mem_append_left _
                  (List.mem_append_left _ (List.mem_append_right _ ?_)))
                rw [hflag]
                simp
              · refine Or.inr ⟨NodeData.new (fr2.crect.split_child 3) (fc + 3)
                  (fr2.depth + 1) true, List.mem_append_left _ ?_, c, hc⟩
                rw [hpush_eq]
                refine List.mem_cons_of_mem _ (List.mem_append_left _
                  (List.mem_append_right _ ?_))
                rw [hflag]
                simp
              · refine Or.inr ⟨NodeData.new (fr2.crect.split_child 4) (fc + 4)
                  (fr2.depth + 1) true, List.mem_append_left _ ?_, c, hc⟩
                rw [hpush_eq]
                refine List.mem_cons_of_mem _ (List.mem_append_right _ ?_)
                rw [hflag]
                simp
            · exact Or.inr ⟨fr2, List.mem_append_right _ hp, c, hc⟩

theorem intersect_leaf_loop_sim (t : QuadTree) (rect : AABB) :
    ∀ (fuel head : Nat) (hs acc : List Nat),
      elemChain t.element_nodes fuel head = some hs →
      t.intersect_leaf_loop rect fuel head acc
        = acc ++ (hs.filter (fun h => rect.intersects_with (rectAt t (handleIdx t h)))).map
            (fun h => idAt t (handleIdx t h)) := by
  intro fuel
  induction fuel with
  | zero => intro head hs acc h; simp [elemChain] at h
  | succ k ih =>
    intro head hs acc h
    by_cases hsent : head = SENTINEL
    · subst hsent
      simp only [elemChain, if_true, eq_self_iff_true, Option.some.injEq] at h
      subst h
      simp [QuadTree.intersect_leaf_loop]
    · simp only [elemChain, if_neg hsent] at h
      cases hn : t.element_nodes.atIdx head with
      | none => rw [hn] at h; simp at h
      | some node =>
        rw [hn] at h
        simp only [Option.map_eq_some'] at h
        obtain ⟨rest, hrest, rfl⟩ := h
        have hhi : handleIdx t head = node.element_idx := by
          unfold handleIdx
          rw [hn]
          rfl
        rw [QuadTree.intersect_leaf_loop]
        simp only [if_neg hsent, hn, Option.getD_some]
        have hre : ((t.element_rects.atIdx node.element_idx).getD (AABB.new 0 0 0 0))
            = rectAt t node.element_idx := rfl
        have hid : ((t.element_ids.atIdx node.element_idx).getD 0)
            = idAt t node.element_idx := rfl
        rw [hre, hid]
        by_cases htest : rect.intersects_with (rectAt t node.element_idx) = true
        · rw [if_pos htest, ih node.next rest _ hrest]
          simp only [List.filter_cons, hhi, htest, if_true, List.map_cons]
          simp [List.append_assoc]
        · have htest' : rect.intersects_with (rectAt t node.element_idx) = false := by
            revert htest
            cases rect.intersects_with (rectAt t node.element_idx) <;> simp
          rw [if_neg (by simp [htest']), ih node.next rest _ hrest]
          simp only [List.filter_cons, hhi, htest']
          simp

theorem intersect_from_leaves_sim (t : QuadTree) (rect : AABB) :
    ∀ (fuel : Nat) (leaves : List NodeData) (acc : List Nat),
      leaves.length < fuel →
      (∀ leaf ∈ leaves, ∃ hs, elemChain t.element_nodes
        (t.element_nodes.data.length + 1)
        ((t.nodeAt leaf.index).first_child_or_element) = some hs) →
      t.intersect_from_leaves rect fuel leaves acc
        = acc ++ leaves.flatMap (fun leaf => leafContrib t rect leaf.index) := by
  intro fuel
  induction fuel with
  | zero => intro leaves acc h; omega
  | succ k ih =>
    intro leaves acc hlen hch
    cases leaves with
    | nil => simp [QuadTree.intersect_from_leaves]
    | cons leaf rest =>
      obtain ⟨hs, hhs⟩ := hch leaf (List.mem_cons_self leaf rest)
      rw [QuadTree.intersect_from_leaves]
      rw [intersect_leaf_loop_sim t rect _ _ hs acc hhs]
      rw [ih rest _ (by simp at hlen; omega)
        (fun l hl => hch l (List.mem_cons_of_mem leaf hl))]
      have hcontrib : leafContrib t rect leaf.index
          = (hs.filter (fun h => rect.intersects_with (rectAt t (handleIdx t h)))).map
            (fun h => idAt t (handleIdx t h)) := by
        unfold leafContrib
        rw [hhs]
      rw [List.flatMap_cons, hcontrib, List.append_assoc]

theorem spans_len_le (t : QuadTree) (T : QTree) (chain : List Nat)
    (hok : NodesOK t T chain) : (QTree.spans 0 T).length ≤ t.nodes.length := by
  have hndT : (QTree.spans 0 T).Nodup := hok.2.2.1.of_append_left
  have hsub : ∀ x ∈ QTree.spans 0 T, x ∈ List.range t.nodes.length :=
    fun x hx => List.mem_range.mpr (hok.2.2.2.1 x (List.mem_append_left _ hx))
  have := (List.subperm_of_subset hndT hsub).length_le
  simpa using this

theorem qVisits_sub_leafIdxs (nodes : List Node) (rect : AABB) :
    ∀ (f j : Nat) (U : QTree) (cell : CenteredAABB) (i : Nat) (c : CenteredAABB),
      decodeTree nodes f j = some U → (i, c) ∈ qVisits nodes rect f cell j →
      i ∈ QTree.leafIdxs j U := by
  intro f
  induction f with
  | zero => intro j U cell i c h; simp [decodeTree] at h
  | succ k ih =>
    intro j U cell i c h hm
    cases U with
    | leaf n =>
      rw [qVisits_leaf nodes rect (k + 1) j n cell h] at hm
      simp only [List.mem_singleton, Prod.mk.injEq] at hm
      simp [QTree.leafIdxs, hm.1]
    | branch fc c0 c1 c2 c3 c4 =>
      obtain ⟨hg, h0, h1, h2, h3, h4⟩ := decode_branch_inv nodes k j fc c0 c1 c2 c3 c4 h
      rw [qVisits_branch nodes rect k j fc c0 c1 c2 c3 c4 cell h] at hm
      simp only [List.mem_append, mem_ite_nil_gen] at hm
      simp only [QTree.leafIdxs, List.mem_append]
      rcases hm with ((((hm | ⟨-, hm⟩) | ⟨-, hm⟩) | ⟨-, hm⟩) | ⟨-, hm⟩)
      · exact Or.inl (Or.inl (Or.inl (Or.inl (ih fc c0 _ i c h0 hm))))
      · exact Or.inl (Or.inl (Or.inl (Or.inr (ih (fc + 1) c1 _ i c h1 hm))))
      · exact Or.inl (Or.inl (Or.inr (ih (fc + 2) c2 _ i c h2 hm)))
      · exact Or.inl (Or.inr (ih (fc + 3) c3 _ i c h3 hm))
      · exact Or.inr (ih (fc + 4) c4 _ i c h4 hm)

theorem chainsOf_lookup (t : QuadTree) :
    ∀ (idxs : List Nat) (chains : List (Nat × List Nat)),
      chainsOf t idxs = some chains →
      ∀ i ∈ idxs, ∃ hs, elemChain t.element_nodes (t.element_nodes.data.length + 1)
        ((t.nodeAt i).first_child_or_element) = some hs ∧ (i, hs) ∈ chains := by
  intro idxs
  induction idxs with
  | nil => intro chains h i hi; simp at hi
  | cons j rest ih =>
    intro chains h i hi
    simp only [chainsOf] at h
    cases hc : elemChain t.element_nodes (t.element_nodes.data.length + 1)
        ((t.nodeAt j).first_child_or_element) with
    | none => rw [hc] at h; simp at h
    | some hs =>
      rw [hc] at h
      simp only [Option.map_eq_some'] at h
      obtain ⟨restch, hrest, rfl⟩ := h
      rcases List.mem_cons.mp hi with rfl | hi2
      · exact ⟨hs, hc, List.mem_cons_self _ _⟩
      · obtain ⟨hs2, h1, h2⟩ := ih restch hrest i hi2
        exact ⟨hs2, h1, List.mem_cons_of_mem _ h2⟩

theorem intersect_aabb_mem (t : QuadTree) (rect : AABB) (T : QTree)
    (chain : List Nat) (chains : List (Nat × List Nat))
    (hok : NodesOK t T chain)
    (hch : chainsOf t (QTree.leafIdxs 0 T) = some chains) :
    ∀ x, x ∈ t.intersect_aabb rect ↔
      ∃ i c, (i, c) ∈ qVisits t.nodes rect (t.nodes.length + 1)
          (t.get_root_node_data).crect 0 ∧ x ∈ leafContrib t rect i := by
  intro x
  have hroot_idx : (t.get_root_node_data).index = 0 := rfl
  have hdec0 : decodedAt t 0 = some T := hok.1
  have hstack : ∀ fr ∈ [t.get_root_node_data], ∃ S, decodedAt t fr.index = some S := by
    intro fr hfr
    simp only [List.mem_singleton] at hfr
    subst hfr
    exact ⟨T, hdec0⟩
  have hmsr : (([t.get_root_node_data]).map
      (fun fr => (spansAt t fr.index).length)).sum < t.nodes.length + 1 := by
    have hsp : spansAt t (t.get_root_node_data).index = QTree.spans 0 T := by
      rw [hroot_idx]
      unfold spansAt
      rw [hdec0]
    simp only [List.map_cons, List.map_nil, List.sum_cons, List.sum_nil, hsp]
    have := spans_len_le t T chain hok
    omega
  have hsim := find_leaves_query_sim t rect (t.nodes.length + 1)
    [t.get_root_node_data] [] hstack hmsr
  have hleafmem : ∀ nd ∈ t.find_leaves_aabb t.get_root_node_data rect .Query,
      ∃ c, (nd.index, c) ∈ qVisits t.nodes rect (t.nodes.length + 1)
        (t.get_root_node_data).crect 0 := by
    intro nd hnd
    have := (hsim nd.index).mp ⟨nd, hnd, rfl⟩
    rcases this with ⟨nd2, h2, -⟩ | ⟨fr, hfr, c, hc⟩
    · simp at h2
    · simp only [List.mem_singleton] at hfr
      subst hfr
      rw [hroot_idx] at hc
      exact ⟨c, hc⟩
  have hchains : ∀ leaf ∈ t.find_leaves_aabb t.get_root_node_data rect .Query,
      ∃ hs, elemChain t.element_nodes (t.element_nodes.data.length + 1)
        ((t.nodeAt leaf.index).first_child_or_element) = some hs := by
    intro leaf hleaf
    obtain ⟨c, hc⟩ := hleafmem leaf hleaf
    have hidx := qVisits_sub_leafIdxs t.nodes rect (t.nodes.length + 1) 0 T
      (t.get_root_node_data).crect leaf.index c hdec0 hc
    obtain ⟨hs, h1, -⟩ := chainsOf_lookup t _ chains hch leaf.index hidx
    exact ⟨hs, h1⟩
  have hres : t.intersect_aabb rect
      = (t.find_leaves_aabb t.get_root_node_data rect .Query).flatMap
          (fun leaf => leafContrib t rect leaf.index) := by
    unfold QuadTree.intersect_aabb
    rw [intersect_from_leaves_sim t rect _ _ [] (by omega) hchains]
    simp
  rw [hres]
  rw [List.mem_flatMap]
  constructor
  · rintro ⟨nd, hnd, hx⟩
    obtain ⟨c, hc⟩ := hleafmem nd hnd
    exact ⟨nd.index, c, hc, hx⟩
  · rintro ⟨i, c, hc, hx⟩
    have := (hsim i).mpr (Or.inr ⟨t.get_root_node_data, List.mem_singleton.mpr rfl, c,
      by rw [hroot_idx]; exact hc⟩)
    obtain ⟨nd, hnd, rfl⟩ := this
    exact ⟨nd, hnd, hx⟩

theorem chainsOf_eq_map (t : QuadTree) :
    ∀ (L : List Nat) (chains : List (Nat × List Nat)),
      chainsOf t L = some chains → chains = L.map (fun i => (i, chainD t i)) := by
  intro L
  induction L with
  | nil => intro chains h; simp [chainsOf] at h; simp [h.symm]
  | cons j rest ih =>
    intro chains h
    simp only [chainsOf] at h
    cases hc : elemChain t.element_nodes (t.element_nodes.data.length + 1)
        ((t.nodeAt j).first_child_or_element) with
    | none => rw [hc] at h; simp at h
    | some hs =>
      rw [hc] at h
      simp only [Option.map_eq_some'] at h
      obtain ⟨restch, hrest, rfl⟩ := h
      have hcd : chainD t j = hs := by simp [chainD, chainAt, hc]
      simp [ih restch hrest, hcd]

theorem chainsOf_isSome_of (t : QuadTree) :
    ∀ (L : List Nat) (chains : List (Nat × List Nat)),
      chainsOf t L = some chains → ∀ i ∈ L, (chainAt t i).isSome := by
  intro L
  induction L with
  | nil => intro chains _ i hi; simp at hi
  | cons j rest ih =>
    intro chains h i hi
    simp only [chainsOf] at h
    cases hc : elemChain t.element_nodes (t.element_nodes.data.length + 1)
        ((t.nodeAt j).first_child_or_element) with
    | none => rw [hc] at h; simp at h
    | some hs =>
      rw [hc] at h
      simp only [Option.map_eq_some'] at h
      obtain ⟨restch, hrest, rfl⟩ := h
      rcases List.mem_cons.mp hi with rfl | hi2
      · simp [chainAt, hc]
      · exact ih restch hrest i hi2

theorem chainsOf_of_some (t : QuadTree) :
    ∀ L : List Nat, (∀ i ∈ L, (chainAt t i).isSome) →
      chainsOf t L = some (L.map (fun i => (i, chainD t i))) := by
  intro L
  induction L with
  | nil => intro _; rfl
  | cons j rest ih =>
    intro h
    have hj := h j (List.mem_cons_self _ _)
    cases hc : chainAt t j with
    | none => rw [hc] at hj; simp at hj
    | some hs =>
      have hc' : elemChain t.element_nodes (t.element_nodes.data.length + 1)
          ((t.nodeAt j).first_child_or_element) = some hs := hc
      have hcd : chainD t j = hs := by simp [chainD, hc]
      simp only [chainsOf, hc', ih (fun i hi => h i (List.mem_cons_of_mem _ hi)),
        Option.map_some', List.map_cons, hcd]

theorem flatMap_snd_map (L : List Nat) (f : Nat → List Nat) :
    ((L.map (fun i => (i, f i))).flatMap Prod.snd) = L.flatMap f := by
  induction L with
  | nil => rfl
  | cons j rest ih => simp [List.flatMap_cons, ih]

theorem elemsWF_elim (t : QuadTree) (h : elemsWF t = true) :
    ∃ T chain, ElemsOK t T chain := by
  unfold elemsWF at h
  simp only [Bool.and_eq_true] at h
  obtain ⟨⟨⟨⟨⟨⟨⟨⟨⟨⟨⟨hwf, hlen1⟩, hlen2⟩, hlen3⟩, hlen4⟩, hffeq⟩, hffi⟩, hffr⟩,
    hffe⟩, hro⟩, hstored⟩, hfree⟩ := h
  obtain ⟨T, chain, ⟨hd, hc, hnd, hlt, hall⟩, -⟩ := nodesWF_elim t hwf
  have hss : storedState t = chainsOf t (QTree.leafIdxs 0 T) := by
    unfold storedState
    rw [show decodedAt t 0 = some T from hd]
  cases hcs : chainsOf t (QTree.leafIdxs 0 T) with
  | none => rw [hss, hcs] at hstored; simp at hstored
  | some chains =>
    rw [hss, hcs] at hstored
    have hmap := chainsOf_eq_map t _ _ hcs
    subst hmap
    rw [hc] at hfree
    simp only [Bool.and_eq_true, decide_eq_true_eq, List.all_eq_true,
      beq_iff_eq, flatMap_snd_map] at hstored hfree
    obtain ⟨⟨⟨⟨⟨⟨⟨hhnd, hhlive⟩, hcnt⟩, hixnd⟩, hixgood⟩, hlock⟩, hliff⟩, henliff⟩ :=
      hstored
    refine ⟨T, chain, ?_⟩
    refine
      { dec0 := hd
        fchain := hc
        cover_nodup := hnd
        cover_lt := hlt
        cover_all := hall
        len_nodes := by simpa using hlen1
        len_en := by simpa using hlen2
        len_ids := by simpa using hlen3
        len_eq := by simpa using hlen4
        ff_eq := by simpa using hffeq
        ffok_ids := hffi
        ffok_rects := hffr
        ffok_en := hffe
        rootok := hro
        chains_some := chainsOf_isSome_of t _ _ hcs
        handles_nodup := by simpa [handlesOf] using hhnd
        handles_live := by
          intro hh hmem
          exact hhlive hh (by simpa [handlesOf] using hmem)
        counts := ?_
        idxs_nodup := by simpa [handlesOf] using hixnd
        idxs_good := ?_
        live_lockstep := ?_
        live_iff := ?_
        en_live_iff := ?_
        freegroups := ?_ }
    · intro i hi
      have := hcnt (i, chainD t i) (List.mem_map.mpr ⟨i, hi, rfl⟩)
      simpa using this
    · intro j hj
      have := hixgood j (by simpa [handlesOf] using hj)
      simp only [Bool.and_eq_true] at this
      exact ⟨this.1.1.1.1, this.1.1.1.2, this.1.1.2, this.1.2, this.2⟩
    · intro j hj
      have := hlock j (List.mem_range.mpr hj)
      exact this
    · intro j hj
      have := hliff j (List.mem_range.mpr hj)
      rw [this]
      simp [handlesOf]
    · intro hh hhlt
      have := henliff hh (List.mem_range.mpr hhlt)
      rw [this]
      simp [handlesOf]
    · intro g hg
      have := hfree g hg
      simp only [Bool.and_eq_true, beq_iff_eq] at this
      exact ⟨this.1.1.1.1, this.1.1.1.2, this.1.1.2, this.1.2, this.2⟩

theorem visOK_elim (t : QuadTree) (h : visOK t = true) : VisP t := by
  intro T hT i hi hne
  rw [visOK, hT] at h
  have := List.all_eq_true.mp h i hi
  rcases (Bool.or_eq_true _ _).mp this with h0 | h1
  · exact absurd (by simpa using h0) hne
  · obtain ⟨p, hp, hpe⟩ := List.any_eq_true.mp h1
    exact ⟨p.2, by
      have : p.1 = i := by simpa using hpe
      simpa [this.symm] using hp⟩

theorem storedIds_char (t : QuadTree) (T : QTree)
    (hd : decodedAt t 0 = some T)
    (hsome : ∀ i ∈ QTree.leafIdxs 0 T, (chainAt t i).isSome) :
    storedIds t = (handlesOf t (QTree.leafIdxs 0 T)).map
      (fun h => idAt t (handleIdx t h)) := by
  have hss : storedState t = some ((QTree.leafIdxs 0 T).map
      (fun i => (i, chainD t i))) := by
    unfold storedState
    rw [hd]
    exact chainsOf_of_some t _ hsome
  rw [storedIds, hss]
  simp [flatMap_snd_map, handlesOf]

theorem atIdx_lt {T : Type} (fl : FreeList T) (x : Nat) (v : T)
    (h : fl.atIdx x = some v) : x < fl.data.length := by
  by_contra hge
  have : fl.data.getD x (.next SENTINEL) = .next SENTINEL :=
    List.getD_eq_default _ _ (by omega)
  rw [FreeList.atIdx, this] at h
  simp at h

theorem elemChain_inv (en : FreeList QuadTreeElementNode) (f h : Nat)
    (hs : List Nat) (hch : elemChain en (f + 1) h = some hs) (hne : h ≠ SENTINEL) :
    ∃ node rest, en.atIdx h = some node ∧ hs = h :: rest ∧
      elemChain en f node.next = some rest := by
  simp only [elemChain, if_neg hne] at hch
  cases ha : en.atIdx h with
  | none => rw [ha] at hch; simp at hch
  | some node =>
    rw [ha] at hch
    simp only [Option.map_eq_some'] at hch
    obtain ⟨rest, hrest, rfl⟩ := hch
    exact ⟨node, rest, rfl, rfl, hrest⟩

theorem elemChain_mono (en : FreeList QuadTreeElementNode) :
    ∀ f f2 h hs, f ≤ f2 → elemChain en f h = some hs →
      elemChain en f2 h = some hs := by
  intro f
  induction f with
  | zero => intro f2 h hs _ hc; simp [elemChain] at hc
  | succ k ih =>
    intro f2 h hs hle hc
    obtain ⟨m, rfl⟩ : ∃ m, f2 = m + 1 := ⟨f2 - 1, by omega⟩
    by_cases hne : h = SENTINEL
    · subst hne
      simp only [elemChain, if_pos rfl] at hc ⊢
      exact hc
    · obtain ⟨node, rest, ha, rfl, hrest⟩ := elemChain_inv en k h _ hc hne
      simp only [elemChain, if_neg hne, ha, ih m _ _ (by omega) hrest,
        Option.map_some']

theorem elemChain_congr (en en' : FreeList QuadTreeElementNode) :
    ∀ f h hs, elemChain en f h = some hs →
      (∀ x ∈ hs, en'.atIdx x = en.atIdx x) →
      elemChain en' f h = some hs := by
  intro f
  induction f with
  | zero => intro h hs hc; simp [elemChain] at hc
  | succ k ih =>
    intro h hs hc hagree
    by_cases hne : h = SENTINEL
    · subst hne
      simp only [elemChain, if_pos rfl] at hc ⊢
      exact hc
    · obtain ⟨node, rest, ha, rfl, hrest⟩ := elemChain_inv en k h _ hc hne
      have ha' : en'.atIdx h = some node := by
        rw [hagree h (List.mem_cons_self _ _), ha]
      simp only [elemChain, if_neg hne, ha',
        ih _ _ hrest (fun x hx => hagree x (List.mem_cons_of_mem _ hx)),
        Option.map_some']

theorem elemChain_mem (en : FreeList QuadTreeElementNode) :
    ∀ f h hs, elemChain en f h = some hs →
      ∀ x ∈ hs, x ≠ SENTINEL ∧ ∃ nd, en.atIdx x = some nd := by
  intro f
  induction f with
  | zero => intro h hs hc; simp [elemChain] at hc
  | succ k ih =>
    intro h hs hc x hx
    by_cases hne : h = SENTINEL
    · subst hne
      simp only [elemChain, eq_self_iff_true, if_true, Option.some.injEq] at hc
      subst hc
      simp at hx
    · obtain ⟨node, rest, ha, rfl, hrest⟩ := elemChain_inv en k h _ hc hne
      rcases List.mem_cons.mp hx with rfl | hx2
      · exact ⟨hne, node, ha⟩
      · exact ih _ _ hrest x hx2

theorem decode_append (nodes l : List Node) :
    ∀ f i S, decodeTree nodes f i = some S → decodeTree (nodes ++ l) f i = some S := by
  intro f
  induction f with
  | zero => intro i S h; simp [decodeTree] at h
  | succ k ih =>
    intro i S h
    cases S with
    | leaf n =>
      obtain ⟨hg, hb⟩ := decode_leaf_inv nodes k i n h
      have hlt : i < nodes.length := by
        by_contra hge
        rw [List.getElem?_eq_none (by omega)] at hg
        simp at hg
      have hg' : (nodes ++ l)[i]? = some n := by
        rw [List.getElem?_append_left hlt]
        exact hg
      simp [decodeTree, hg', hb]
    | branch fc c0 c1 c2 c3 c4 =>
      obtain ⟨hg, h0, h1, h2, h3, h4⟩ := decode_branch_inv nodes k i fc c0 c1 c2 c3 c4 h
      have hlt : i < nodes.length := by
        by_contra hge
        rw [List.getElem?_eq_none (by omega)] at hg
        simp at hg
      have hg' : (nodes ++ l)[i]? = some ⟨fc, NODE_IS_BRANCH⟩ := by
        rw [List.getElem?_append_left hlt]
        exact hg
      simp [decodeTree, hg', ih _ _ h0, ih _ _ h1, ih _ _ h2, ih _ _ h3, ih _ _ h4,
        NODE_IS_BRANCH]

theorem freeChain_append (nodes l : List Node) :
    ∀ f g chain, freeChainList nodes f g = some chain →
      freeChainList (nodes ++ l) f g = some chain := by
  intro f
  induction f with
  | zero => intro g chain h; simp [freeChainList] at h
  | succ k ih =>
    intro g chain h
    by_cases hs : g = SENTINEL
    · subst hs
      simp only [freeChainList, if_pos rfl] at h ⊢
      exact h
    · obtain ⟨node, rest, hg, rfl, hrest⟩ := freeChain_inv nodes k g chain h hs
      have hlt : g < nodes.length := by
        by_contra hge
        rw [List.getElem?_eq_none (by omega)] at hg
        simp at hg
      have hg' : (nodes ++ l)[g]? = some node := by
        rw [List.getElem?_append_left hlt]
        exact hg
      simp [freeChainList, if_neg hs, hg', ih _ _ hrest]

theorem leafIdxs_sublist_spans : ∀ (i : Nat) (S : QTree),
    (QTree.leafIdxs i S).Sublist (QTree.spans i S) := by
  intro i S
  induction S generalizing i with
  | leaf n => simp [QTree.leafIdxs, QTree.spans]
  | branch fc c0 c1 c2 c3 c4 ih0 ih1 ih2 ih3 ih4 =>
    simp only [QTree.leafIdxs, QTree.spans]
    refine List.Sublist.cons _ ?_
    exact ((((ih0 fc).append (ih1 (fc + 1))).append (ih2 (fc + 2))).append
      (ih3 (fc + 3))).append (ih4 (fc + 4))

theorem graftAt_id (g fc : Nat) : ∀ (i : Nat) (S : QTree),
    g ∉ QTree.spans i S → graftAt g fc i S = S := by
  intro i S
  induction S generalizing i with
  | leaf n =>
    intro hg
    simp only [QTree.spans, List.mem_singleton] at hg
    simp [graftAt, Ne.symm hg]
  | branch f c0 c1 c2 c3 c4 ih0 ih1 ih2 ih3 ih4 =>
    intro hg
    simp only [QTree.spans, List.mem_cons, List.mem_append] at hg
    push_neg at hg
    obtain ⟨hgi, ⟨⟨⟨hg0, hg1⟩, hg2⟩, hg3⟩, hg4⟩ := hg
    simp [graftAt, ih0 f hg0, ih1 (f + 1) hg1, ih2 (f + 2) hg2, ih3 (f + 3) hg3,
      ih4 (f + 4) hg4]

theorem setLeafAt_spans (g : Nat) (x : Node) : ∀ (i : Nat) (S : QTree),
    QTree.spans i (setLeafAt g x i S) = QTree.spans i S := by
  intro i S
  induction S generalizing i with
  | leaf n =>
    by_cases hg : i = g <;> simp [setLeafAt, hg, QTree.spans]
  | branch f c0 c1 c2 c3 c4 ih0 ih1 ih2 ih3 ih4 =>
    simp [setLeafAt, QTree.spans, ih0 f, ih1 (f + 1), ih2 (f + 2), ih3 (f + 3),
      ih4 (f + 4)]

theorem setLeafAt_leafIdxs (g : Nat) (x : Node) : ∀ (i : Nat) (S : QTree),
    QTree.leafIdxs i (setLeafAt g x i S) = QTree.leafIdxs i S := by
  intro i S
  induction S generalizing i with
  | leaf n =>
    by_cases hg : i = g <;> simp [setLeafAt, hg, QTree.leafIdxs]
  | branch f c0 c1 c2 c3 c4 ih0 ih1 ih2 ih3 ih4 =>
    simp [setLeafAt, QTree.leafIdxs, ih0 f, ih1 (f + 1), ih2 (f + 2), ih3 (f + 3),
      ih4 (f + 4)]

theorem decode_set_leaf (nodes : List Node) (g : Nat) (x nOld : Node)
    (hgold : nodes[g]? = some nOld) (holdleaf : nOld.element_count ≠ NODE_IS_BRANCH)
    (hxleaf : x.element_count ≠ NODE_IS_BRANCH) :
    ∀ f i S, decodeTree nodes f i = some S →
      decodeTree (nodes.set g x) f i = some (setLeafAt g x i S) := by
  intro f
  induction f with
  | zero => intro i S h; simp [decodeTree] at h
  | succ k ih =>
    intro i S h
    cases S with
    | leaf n =>
      obtain ⟨hg, hb⟩ := decode_leaf_inv nodes k i n h
      by_cases hig : i = g
      · subst hig
        have hlt : i < nodes.length := by
          by_contra hge
          rw [List.getElem?_eq_none (by omega)] at hg
          simp at hg
        have hx : (nodes.set i x)[i]? = some x := by
          rw [List.getElem?_set_self hlt]
        simp [decodeTree, hx, hxleaf, setLeafAt]
      · have hx : (nodes.set g x)[i]? = some n := by
          rw [List.getElem?_set_ne (by omega)]
          exact hg
        simp [decodeTree, hx, hb, setLeafAt, hig]
    | branch fc c0 c1 c2 c3 c4 =>
      obtain ⟨hg, h0, h1, h2, h3, h4⟩ := decode_branch_inv nodes k i fc c0 c1 c2 c3 c4 h
      have hig : i ≠ g := by
        intro he
        subst he
        rw [hg] at hgold
        obtain rfl := (Option.some.injEq _ _).mp hgold.symm
        simp at holdleaf
      have hx : (nodes.set g x)[i]? = some ⟨fc, NODE_IS_BRANCH⟩ := by
        rw [List.getElem?_set_ne (by omega)]
        exact hg
      simp [decodeTree, hx, ih _ _ h0, ih _ _ h1, ih _ _ h2, ih _ _ h3, ih _ _ h4,
        NODE_IS_BRANCH, setLeafAt]

theorem decode_graft (nodes nodes2 : List Node) (g fc : Nat) (nOld : Node)
    (hgold : nodes[g]? = some nOld) (holdleaf : nOld.element_count ≠ NODE_IS_BRANCH)
    (hg2 : nodes2[g]? = some ⟨fc, NODE_IS_BRANCH⟩)
    (hch : ∀ k, k < 5 → nodes2[fc + k]? = some Node.default) :
    ∀ f i S f2, decodeTree nodes f i = some S →
      (∀ j ∈ QTree.spans i S, j ≠ g → nodes2[j]? = nodes[j]?) → f < f2 →
      decodeTree nodes2 f2 i = some (graftAt g fc i S) := by
  intro f
  induction f with
  | zero => intro i S f2 h; simp [decodeTree] at h
  | succ k ih =>
    intro i S f2 h hagree hf2
    obtain ⟨m, rfl⟩ : ∃ m, f2 = m + 1 := ⟨f2 - 1, by omega⟩
    have hkm : k < m := by omega
    cases S with
    | leaf n =>
      obtain ⟨hg, hb⟩ := decode_leaf_inv nodes k i n h
      by_cases hig : i = g
      · subst hig
        have hc0 := hch 0 (by omega)
        have hc1 := hch 1 (by omega)
        have hc2 := hch 2 (by omega)
        have hc3 := hch 3 (by omega)
        have hc4 := hch 4 (by omega)
        rw [Nat.add_zero] at hc0
        have hleafd : ∀ j, nodes2[j]? = some Node.default →
            decodeTree nodes2 m j = some (.leaf Node.default) := by
          intro j hj
          obtain ⟨m2, rfl⟩ : ∃ m2, m = m2 + 1 := ⟨m - 1, by omega⟩
          simp [decodeTree, hj, Node.default, NODE_IS_BRANCH]
        simp only [graftAt, if_pos rfl]
        simp [decodeTree, hg2, NODE_IS_BRANCH, hleafd fc hc0, hleafd (fc + 1) hc1,
          hleafd (fc + 2) hc2, hleafd (fc + 3) hc3, hleafd (fc + 4) hc4]
      · have hx : nodes2[i]? = some n := by
          rw [hagree i (by simp [QTree.spans]) hig]
          exact hg
        simp [decodeTree, hx, hb, graftAt, hig]
    | branch f0 c0 c1 c2 c3 c4 =>
      obtain ⟨hg, h0, h1, h2, h3, h4⟩ := decode_branch_inv nodes k i f0 c0 c1 c2 c3 c4 h
      have hig : i ≠ g := by
        intro he
        subst he
        rw [hg] at hgold
        obtain rfl := (Option.some.injEq _ _).mp hgold.symm
        simp at holdleaf
      have hx : nodes2[i]? = some ⟨f0, NODE_IS_BRANCH⟩ := by
        rw [hagree i (by simp [QTree.spans]) hig]
        exact hg
      have ha0 : ∀ j ∈ QTree.spans f0 c0, j ≠ g → nodes2[j]? = nodes[j]? :=
        fun j hj => hagree j (by simp [QTree.spans, hj])
      have ha1 : ∀ j ∈ QTree.spans (f0 + 1) c1, j ≠ g → nodes2[j]? = nodes[j]? :=
        fun j hj => hagree j (by simp [QTree.spans, hj])
      have ha2 : ∀ j ∈ QTree.spans (f0 + 2) c2, j ≠ g → nodes2[j]? = nodes[j]? :=
        fun j hj => hagree j (by simp [QTree.spans, hj])
      have ha3 : ∀ j ∈ QTree.spans (f0 + 3) c3, j ≠ g → nodes2[j]? = nodes[j]? :=
        fun j hj => hagree j (by simp [QTree.spans, hj])
      have ha4 : ∀ j ∈ QTree.spans (f0 + 4) c4, j ≠ g → nodes2[j]? = nodes[j]? :=
        fun j hj => hagree j (by simp [QTree.spans, hj])
      simp [decodeTree, hx, ih _ _ m h0 ha0 hkm, ih _ _ m h1 ha1 hkm,
        ih _ _ m h2 ha2 hkm, ih _ _ m h3 ha3 hkm, ih _ _ m h4 ha4 hkm,
        NODE_IS_BRANCH, graftAt]

theorem spans_graft_ms (g fc : Nat) (N : List Nat)
    (hN : N = [fc, fc + 1, fc + 2, fc + 3, fc + 4]) : ∀ (i : Nat) (S : QTree),
    (QTree.spans i S).Nodup → g ∈ QTree.leafIdxs i S →
    ((QTree.spans i (graftAt g fc i S) : List Nat) : Multiset Nat) =
      ((QTree.spans i S : List Nat) : Multiset Nat) + ((N : List Nat) : Multiset Nat) := by
  intro i S
  induction S generalizing i with
  | leaf n =>
    intro _ hg
    simp only [QTree.leafIdxs, List.mem_singleton] at hg
    subst hg
    subst hN
    simp only [graftAt, if_pos rfl, QTree.spans]
    rw [Multiset.coe_add, Multiset.coe_eq_coe]
    simp
  | branch f c0 c1 c2 c3 c4 ih0 ih1 ih2 ih3 ih4 =>
    intro hnd hg
    obtain ⟨⟨hni0, hni1, hni2, hni3, hni4⟩, ⟨hnd0, hnd1, hnd2, hnd3, hnd4⟩,
      d01, d02, d03, d04, d12, d13, d14, d23, d24, d34⟩ :=
      spans_branch_nodup_parts i f c0 c1 c2 c3 c4 hnd
    simp only [QTree.leafIdxs, List.mem_append] at hg
    simp only [graftAt, QTree.spans]
    simp only [← Multiset.cons_coe, ← Multiset.coe_add, ← Multiset.singleton_add]
    rcases hg with ((((hg0 | hg1) | hg2) | hg3) | hg4)
    · have hgs := (leafIdxs_sublist_spans f c0).subset hg0
      rw [graftAt_id g fc _ _ (fun hc => d01 hgs hc),
        graftAt_id g fc _ _ (fun hc => d02 hgs hc),
        graftAt_id g fc _ _ (fun hc => d03 hgs hc),
        graftAt_id g fc _ _ (fun hc => d04 hgs hc)]
      have hpm := ih0 f hnd0 hg0
      calc ({i} : Multiset Nat) + (((QTree.spans f (graftAt g fc f c0) : List Nat) : Multiset Nat) +
            ↑(QTree.spans (f + 1) c1) + ↑(QTree.spans (f + 2) c2) +
            ↑(QTree.spans (f + 3) c3) + ↑(QTree.spans (f + 4) c4))
          = ((QTree.spans f (graftAt g fc f c0) : List Nat) : Multiset Nat) +
            (({i} : Multiset Nat) + (↑(QTree.spans (f + 1) c1) + ↑(QTree.spans (f + 2) c2) +
            ↑(QTree.spans (f + 3) c3) + ↑(QTree.spans (f + 4) c4))) := by abel
        _ = (((QTree.spans f c0 : List Nat) : Multiset Nat) + ↑N) +
            (({i} : Multiset Nat) + (↑(QTree.spans (f + 1) c1) + ↑(QTree.spans (f + 2) c2) +
            ↑(QTree.spans (f + 3) c3) + ↑(QTree.spans (f + 4) c4))) := by rw [hpm]
        _ = _ := by abel
    · have hgs := (leafIdxs_sublist_spans (f + 1) c1).subset hg1
      rw [graftAt_id g fc f c0 (fun hc => d01 hc hgs),
        graftAt_id g fc _ _ (fun hc => d12 hgs hc),
        graftAt_id g fc _ _ (fun hc => d13 hgs hc),
        graftAt_id g fc _ _ (fun hc => d14 hgs hc)]
      have hpm := ih1 (f + 1) hnd1 hg1
      calc ({i} : Multiset Nat) + (((QTree.spans f c0 : List Nat) : Multiset Nat) +
            ↑(QTree.spans (f + 1) (graftAt g fc (f + 1) c1)) + ↑(QTree.spans (f + 2) c2) +
            ↑(QTree.spans (f + 3) c3) + ↑(QTree.spans (f + 4) c4))
          = ((QTree.spans (f + 1) (graftAt g fc (f + 1) c1) : List Nat) : Multiset Nat) +
            (({i} : Multiset Nat) + (↑(QTree.spans f c0) + ↑(QTree.spans (f + 2) c2) +
            ↑(QTree.spans (f + 3) c3) + ↑(QTree.spans (f + 4) c4))) := by abel
        _ = (((QTree.spans (f + 1) c1 : List Nat) : Multiset Nat) + ↑N) +
            (({i} : Multiset Nat) + (↑(QTree.spans f c0) + ↑(QTree.spans (f + 2) c2) +
            ↑(QTree.spans (f + 3) c3) + ↑(QTree.spans (f + 4) c4))) := by rw [hpm]
        _ = _ := by abel
    · have hgs := (leafIdxs_sublist_spans (f + 2) c2).subset hg2
      rw [graftAt_id g fc f c0 (fun hc => d02 hc hgs),
        graftAt_id g fc (f + 1) c1 (fun hc => d12 hc hgs),
        graftAt_id g fc _ _ (fun hc => d23 hgs hc),
        graftAt_id g fc _ _ (fun hc => d24 hgs hc)]
      have hpm := ih2 (f + 2) hnd2 hg2
      calc ({i} : Multiset Nat) + (((QTree.spans f c0 : List Nat) : Multiset Nat) +
            ↑(QTree.spans (f + 1) c1) + ↑(QTree.spans (f + 2) (graftAt g fc (f + 2) c2)) +
            ↑(QTree.spans (f + 3) c3) + ↑(QTree.spans (f + 4) c4))
          = ((QTree.spans (f + 2) (graftAt g fc (f + 2) c2) : List Nat) : Multiset Nat) +
            (({i} : Multiset Nat) + (↑(QTree.spans f c0) + ↑(QTree.spans (f + 1) c1) +
            ↑(QTree.spans (f + 3) c3) + ↑(QTree.spans (f + 4) c4))) := by abel
        _ = (((QTree.spans (f + 2) c2 : List Nat) : Multiset Nat) + ↑N) +
            (({i} : Multiset Nat) + (↑(QTree.spans f c0) + ↑(QTree.spans (f + 1) c1) +
            ↑(QTree.spans (f + 3) c3) + ↑(QTree.spans (f + 4) c4))) := by rw [hpm]
        _ = _ := by abel
    · have hgs := (leafIdxs_sublist_spans (f + 3) c3).subset hg3
      rw [graftAt_id g fc f c0 (fun hc => d03 hc hgs),
        graftAt_id g fc (f + 1) c1 (fun hc => d13 hc hgs),
        graftAt_id g fc (f + 2) c2 (fun hc => d23 hc hgs),
        graftAt_id g fc _ _ (fun hc => d34 hgs hc)]
      have hpm := ih3 (f + 3) hnd3 hg3
      calc ({i} : Multiset Nat) + (((QTree.spans f c0 : List Nat) : Multiset Nat) +
            ↑(QTree.spans (f + 1) c1) + ↑(QTree.spans (f + 2) c2) +
            ↑(QTree.spans (f + 3) (graftAt g fc (f + 3) c3)) + ↑(QTree.spans (f + 4) c4))
          = ((QTree.spans (f + 3) (graftAt g fc (f + 3) c3) : List Nat) : Multiset Nat) +
            (({i} : Multiset Nat) + (↑(QTree.spans f c0) + ↑(QTree.spans (f + 1) c1) +
            ↑(QTree.spans (f + 2) c2) + ↑(QTree.spans (f + 4) c4))) := by abel
        _ = (((QTree.spans (f + 3) c3 : List Nat) : Multiset Nat) + ↑N) +
            (({i} : Multiset Nat) + (↑(QTree.spans f c0) + ↑(QTree.spans (f + 1) c1) +
            ↑(QTree.spans (f + 2) c2) + ↑(QTree.spans (f + 4) c4))) := by rw [hpm]
        _ = _ := by abel
    · have hgs := (leafIdxs_sublist_spans (f + 4) c4).subset hg4
      rw [graftAt_id g fc f c0 (fun hc => d04 hc hgs),
        graftAt_id g fc (f + 1) c1 (fun hc => d14 hc hgs),
        graftAt_id g fc (f + 2) c2 (fun hc => d24 hc hgs),
        graftAt_id g fc (f + 3) c3 (fun hc => d34 hc hgs)]
      have hpm := ih4 (f + 4) hnd4 hg4
      calc ({i} : Multiset Nat) + (((QTree.spans f c0 : List Nat) : Multiset Nat) +
            ↑(QTree.spans (f + 1) c1) + ↑(QTree.spans (f + 2) c2) +
            ↑(QTree.spans (f + 3) c3) + ↑(QTree.spans (f + 4) (graftAt g fc (f + 4) c4)))
          = ((QTree.spans (f + 4) (graftAt g fc (f + 4) c4) : List Nat) : Multiset Nat) +
            (({i} : Multiset Nat) + (↑(QTree.spans f c0) + ↑(QTree.spans (f + 1) c1) +
            ↑(QTree.spans (f + 2) c2) + ↑(QTree.spans (f + 3) c3))) := by abel
        _ = (((QTree.spans (f + 4) c4 : List Nat) : Multiset Nat) + ↑N) +
            (({i} : Multiset Nat) + (↑(QTree.spans f c0) + ↑(QTree.spans (f + 1) c1) +
            ↑(QTree.spans (f + 2) c2) + ↑(QTree.spans (f + 3) c3))) := by rw [hpm]
        _ = _ := by abel

theorem leafIdxs_graft_ms (g fc : Nat) (N : List Nat)
    (hN : N = [fc, fc + 1, fc + 2, fc + 3, fc + 4]) : ∀ (i : Nat) (S : QTree),
    (QTree.spans i S).Nodup → g ∈ QTree.leafIdxs i S →
    ((QTree.leafIdxs i (graftAt g fc i S) : List Nat) : Multiset Nat) + {g} =
      ((N : List Nat) : Multiset Nat) + ((QTree.leafIdxs i S : List Nat) : Multiset Nat) := by
  intro i S
  induction S generalizing i with
  | leaf n =>
    intro _ hg
    simp only [QTree.leafIdxs, List.mem_singleton] at hg
    subst hg
    subst hN
    simp only [graftAt, if_pos rfl, QTree.leafIdxs]
    rw [show ({g} : Multiset Nat) = (([g] : List Nat) : Multiset Nat) from rfl,
      Multiset.coe_add, Multiset.coe_add, Multiset.coe_eq_coe]
    simp
  | branch f c0 c1 c2 c3 c4 ih0 ih1 ih2 ih3 ih4 =>
    intro hnd hg
    obtain ⟨⟨hni0, hni1, hni2, hni3, hni4⟩, ⟨hnd0, hnd1, hnd2, hnd3, hnd4⟩,
      d01, d02, d03, d04, d12, d13, d14, d23, d24, d34⟩ :=
      spans_branch_nodup_parts i f c0 c1 c2 c3 c4 hnd
    simp only [QTree.leafIdxs, List.mem_append] at hg
    simp only [graftAt, QTree.leafIdxs]
    simp only [← Multiset.coe_add]
    rcases hg with ((((hg0 | hg1) | hg2) | hg3) | hg4)
    · have hgs := (leafIdxs_sublist_spans f c0).subset hg0
      rw [graftAt_id g fc _ _ (fun hc => d01 hgs hc),
        graftAt_id g fc _ _ (fun hc => d02 hgs hc),
        graftAt_id g fc _ _ (fun hc => d03 hgs hc),
        graftAt_id g fc _ _ (fun hc => d04 hgs hc)]
      have hpm := ih0 f hnd0 hg0
      calc ((QTree.leafIdxs f (graftAt g fc f c0) : List Nat) : Multiset Nat) +
            ↑(QTree.leafIdxs (f + 1) c1) + ↑(QTree.leafIdxs (f + 2) c2) +
            ↑(QTree.leafIdxs (f + 3) c3) + ↑(QTree.leafIdxs (f + 4) c4) + {g}
          = (((QTree.leafIdxs f (graftAt g fc f c0) : List Nat) : Multiset Nat) + {g}) +
            (↑(QTree.leafIdxs (f + 1) c1) + ↑(QTree.leafIdxs (f + 2) c2) +
            ↑(QTree.leafIdxs (f + 3) c3) + ↑(QTree.leafIdxs (f + 4) c4)) := by abel
        _ = (((N : List Nat) : Multiset Nat) + ↑(QTree.leafIdxs f c0)) +
            (↑(QTree.leafIdxs (f + 1) c1) + ↑(QTree.leafIdxs (f + 2) c2) +
            ↑(QTree.leafIdxs (f + 3) c3) + ↑(QTree.leafIdxs (f + 4) c4)) := by rw [hpm]
        _ = _ := by abel
    · have hgs := (leafIdxs_sublist_spans (f + 1) c1).subset hg1
      rw [graftAt_id g fc f c0 (fun hc => d01 hc hgs),
        graftAt_id g fc _ _ (fun hc => d12 hgs hc),
        graftAt_id g fc _ _ (fun hc => d13 hgs hc),
        graftAt_id g fc _ _ (fun hc => d14 hgs hc)]
      have hpm := ih1 (f + 1) hnd1 hg1
      calc ((QTree.leafIdxs f c0 : List Nat) : Multiset Nat) +
            ↑(QTree.leafIdxs (f + 1) (graftAt g fc (f + 1) c1)) + ↑(QTree.leafIdxs (f + 2) c2) +
            ↑(QTree.leafIdxs (f + 3) c3) + ↑(QTree.leafIdxs (f + 4) c4) + {g}
          = (((QTree.leafIdxs (f + 1) (graftAt g fc (f + 1) c1) : List Nat) : Multiset Nat) + {g}) +
            (↑(QTree.leafIdxs f c0) + ↑(QTree.leafIdxs (f + 2) c2) +
            ↑(QTree.leafIdxs (f + 3) c3) + ↑(QTree.leafIdxs (f + 4) c4)) := by abel
        _ = (((N : List Nat) : Multiset Nat) + ↑(QTree.leafIdxs (f + 1) c1)) +
            (↑(QTree.leafIdxs f c0) + ↑(QTree.leafIdxs (f + 2) c2) +
            ↑(QTree.leafIdxs (f + 3) c3) + ↑(QTree.leafIdxs (f + 4) c4)) := by rw [hpm]
        _ = _ := by abel
    · have hgs := (leafIdxs_sublist_spans (f + 2) c2).subset hg2
      rw [graftAt_id g fc f c0 (fun hc => d02 hc hgs),
        graftAt_id g fc (f + 1) c1 (fun hc => d12 hc hgs),
        graftAt_id g fc _ _ (fun hc => d23 hgs hc),
        graftAt_id g fc _ _ (fun hc => d24 hgs hc)]
      have hpm := ih2 (f + 2) hnd2 hg2
      calc ((QTree.leafIdxs f c0 : List Nat) : Multiset Nat) +
            ↑(QTree.leafIdxs (f + 1) c1) + ↑(QTree.leafIdxs (f + 2) (graftAt g fc (f + 2) c2)) +
            ↑(QTree.leafIdxs (f + 3) c3) + ↑(QTree.leafIdxs (f + 4) c4) + {g}
          = (((QTree.leafIdxs (f + 2) (graftAt g fc (f + 2) c2) : List Nat) : Multiset Nat) + {g}) +
            (↑(QTree.leafIdxs f c0) + ↑(QTree.leafIdxs (f + 1) c1) +
            ↑(QTree.leafIdxs (f + 3) c3) + ↑(QTree.leafIdxs (f + 4) c4)) := by abel
        _ = (((N : List Nat) : Multiset Nat) + ↑(QTree.leafIdxs (f + 2) c2)) +
            (↑(QTree.leafIdxs f c0) + ↑(QTree.leafIdxs (f + 1) c1) +
            ↑(QTree.leafIdxs (f + 3) c3) + ↑(QTree.leafIdxs (f + 4) c4)) := by rw [hpm]
        _ = _ := by abel
    · have hgs := (leafIdxs_sublist_spans (f + 3) c3).subset hg3
      rw [graftAt_id g fc f c0 (fun hc => d03 hc hgs),
        graftAt_id g fc (f + 1) c1 (fun hc => d13 hc hgs),
        graftAt_id g fc (f + 2) c2 (fun hc => d23 hc hgs),
        graftAt_id g fc _ _ (fun hc => d34 hgs hc)]
      have hpm := ih3 (f + 3) hnd3 hg3
      calc ((QTree.leafIdxs f c0 : List Nat) : Multiset Nat) +
            ↑(QTree.leafIdxs (f + 1) c1) + ↑(QTree.leafIdxs (f + 2) c2) +
            ↑(QTree.leafIdxs (f + 3) (graftAt g fc (f + 3) c3)) +
            ↑(QTree.leafIdxs (f + 4) c4) + {g}
          = (((QTree.leafIdxs (f + 3) (graftAt g fc (f + 3) c3) : List Nat) : Multiset Nat) + {g}) +
            (↑(QTree.leafIdxs f c0) + ↑(QTree.leafIdxs (f + 1) c1) +
            ↑(QTree.leafIdxs (f + 2) c2) + ↑(QTree.leafIdxs (f + 4) c4)) := by abel
        _ = (((N : List Nat) : Multiset Nat) + ↑(QTree.leafIdxs (f + 3) c3)) +
            (↑(QTree.leafIdxs f c0) + ↑(QTree.leafIdxs (f + 1) c1) +
            ↑(QTree.leafIdxs (f + 2) c2) + ↑(QTree.leafIdxs (f + 4) c4)) := by rw [hpm]
        _ = _ := by abel
    · have hgs := (leafIdxs_sublist_spans (f + 4) c4).subset hg4
      rw [graftAt_id g fc f c0 (fun hc => d04 hc hgs),
        graftAt_id g fc (f + 1) c1 (fun hc => d14 hc hgs),
        graftAt_id g fc (f + 2) c2 (fun hc => d24 hc hgs),
        graftAt_id g fc (f + 3) c3 (fun hc => d34 hc hgs)]
      have hpm := ih4 (f + 4) hnd4 hg4
      calc ((QTree.leafIdxs f c0 : List Nat) : Multiset Nat) +
            ↑(QTree.leafIdxs (f + 1) c1) + ↑(QTree.leafIdxs (f + 2) c2) +
            ↑(QTree.leafIdxs (f + 3) c3) +
            ↑(QTree.leafIdxs (f + 4) (graftAt g fc (f + 4) c4)) + {g}
          = (((QTree.leafIdxs (f + 4) (graftAt g fc (f + 4) c4) : List Nat) : Multiset Nat) + {g}) +
            (↑(QTree.leafIdxs f c0) + ↑(QTree.leafIdxs (f + 1) c1) +
            ↑(QTree.leafIdxs (f + 2) c2) + ↑(QTree.leafIdxs (f + 3) c3)) := by abel
        _ = (((N : List Nat) : Multiset Nat) + ↑(QTree.leafIdxs (f + 4) c4)) +
            (↑(QTree.leafIdxs f c0) + ↑(QTree.leafIdxs (f + 1) c1) +
            ↑(QTree.leafIdxs (f + 2) c2) + ↑(QTree.leafIdxs (f + 3) c3)) := by rw [hpm]
        _ = _ := by abel

theorem spans_length_pos : ∀ (i : Nat) (S : QTree), 0 < (QTree.spans i S).length := by
  intro i S
  cases S <;> simp [QTree.spans]

theorem qVisitsT_mem_leafIdxs (Q : AABB) : ∀ (S : QTree) (cell : CenteredAABB)
    (i j : Nat) (c : CenteredAABB), (j, c) ∈ qVisitsT Q cell i S →
    j ∈ QTree.leafIdxs i S := by
  intro S
  induction S with
  | leaf n =>
    intro cell i j c h
    simp only [qVisitsT, List.mem_singleton, Prod.mk.injEq] at h
    simp [QTree.leafIdxs, h.1]
  | branch fc c0 c1 c2 c3 c4 ih0 ih1 ih2 ih3 ih4 =>
    intro cell i j c h
    simp only [qVisitsT, List.mem_append, mem_ite_nil_gen] at h
    simp only [QTree.leafIdxs, List.mem_append]
    rcases h with ((((h0 | ⟨-, h1⟩) | ⟨-, h2⟩) | ⟨-, h3⟩) | ⟨-, h4⟩)
    · exact Or.inl (Or.inl (Or.inl (Or.inl (ih0 _ _ _ _ h0))))
    · exact Or.inl (Or.inl (Or.inl (Or.inr (ih1 _ _ _ _ h1))))
    · exact Or.inl (Or.inl (Or.inr (ih2 _ _ _ _ h2)))
    · exact Or.inl (Or.inr (ih3 _ _ _ _ h3))
    · exact Or.inr (ih4 _ _ _ _ h4)

theorem qVisits_decode (nodes : List Node) (rect : AABB) :
    ∀ f f2 cell s S, decodeTree nodes f2 s = some S → (QTree.spans s S).length < f →
      qVisits nodes rect f cell s = qVisitsT rect cell s S := by
  intro f
  induction f with
  | zero =>
    intro f2 cell s S _ hlen
    exact absurd hlen (by have := spans_length_pos s S; omega)
  | succ k ih =>
    intro f2 cell s S hdec hlen
    obtain ⟨m, rfl⟩ : ∃ m, f2 = m + 1 := ⟨f2 - 1, by
      cases hz : f2 with
      | zero => rw [hz] at hdec; simp [decodeTree] at hdec
      | succ mm => omega⟩
    cases S with
    | leaf n =>
      obtain ⟨hg, hb⟩ := decode_leaf_inv nodes m s n hdec
      simp [qVisits, hg, hb, qVisitsT]
    | branch fc c0 c1 c2 c3 c4 =>
      obtain ⟨hg, h0, h1, h2, h3, h4⟩ := decode_branch_inv nodes m s fc c0 c1 c2 c3 c4 hdec
      have hlen' : ∀ cj ij, (QTree.spans ij cj).length ≤
          (QTree.spans fc c0).length + (QTree.spans (fc + 1) c1).length +
          (QTree.spans (fc + 2) c2).length + (QTree.spans (fc + 3) c3).length +
          (QTree.spans (fc + 4) c4).length ∨ True := fun _ _ => Or.inr trivial
      have hsum : (QTree.spans fc c0).length + (QTree.spans (fc + 1) c1).length +
          (QTree.spans (fc + 2) c2).length + (QTree.spans (fc + 3) c3).length +
          (QTree.spans (fc + 4) c4).length < k := by
        have : (QTree.spans s (QTree.branch fc c0 c1 c2 c3 c4)).length =
            1 + ((QTree.spans fc c0).length + (QTree.spans (fc + 1) c1).length +
            (QTree.spans (fc + 2) c2).length + (QTree.spans (fc + 3) c3).length +
            (QTree.spans (fc + 4) c4).length) := by
          simp [QTree.spans]
          omega
        omega
      have e0 := ih m (cell.split_child 0) fc c0 h0 (by omega)
      have e1 := ih m (cell.split_child 1) (fc + 1) c1 h1 (by omega)
      have e2 := ih m (cell.split_child 2) (fc + 2) c2 h2 (by omega)
      have e3 := ih m (cell.split_child 3) (fc + 3) c3 h3 (by omega)
      have e4 := ih m (cell.split_child 4) (fc + 4) c4 h4 (by omega)
      simp [qVisits, hg, NODE_IS_BRANCH, e0, e1, e2, e3, e4, qVisitsT]

theorem qVisitsT_setLeafAt (Q : AABB) (g : Nat) (x : Node) :
    ∀ (S : QTree) (cell : CenteredAABB) (i : Nat),
      qVisitsT Q cell i (setLeafAt g x i S) = qVisitsT Q cell i S := by
  intro S
  induction S with
  | leaf n =>
    intro cell i
    by_cases hg : i = g <;> simp [setLeafAt, hg, qVisitsT]
  | branch fc c0 c1 c2 c3 c4 ih0 ih1 ih2 ih3 ih4 =>
    intro cell i
    simp [setLeafAt, qVisitsT, ih0, ih1, ih2, ih3, ih4]

theorem mTargetT_setLeafAt (rect : AABB) (g : Nat) (x : Node) :
    ∀ (S : QTree) (nd : NodeData),
      mTargetT rect nd (setLeafAt g x nd.index S) = mTargetT rect nd S := by
  intro S
  induction S with
  | leaf n =>
    intro nd
    by_cases hg : nd.index = g <;> simp [setLeafAt, hg, mTargetT]
  | branch fc c0 c1 c2 c3 c4 ih0 ih1 ih2 ih3 ih4 =>
    intro nd
    simp only [setLeafAt, mTargetT]
    have e0 := ih0 (NodeData.new (nd.crect.split_child 0) (fc + 0) 0 false)
    have e1 := ih1 (NodeData.new (nd.crect.split_child 1) (fc + 1) (nd.depth + 1) true)
    have e2 := ih2 (NodeData.new (nd.crect.split_child 2) (fc + 2) (nd.depth + 1) true)
    have e3 := ih3 (NodeData.new (nd.crect.split_child 3) (fc + 3) (nd.depth + 1) true)
    have e4 := ih4 (NodeData.new (nd.crect.split_child 4) (fc + 4) (nd.depth + 1) true)
    rw [NodeData.new_index] at e0 e1 e2 e3 e4
    simp only [Nat.add_zero] at e0 e1 e2 e3 e4
    split_ifs <;> simp [e0, e1, e2, e3, e4]

theorem mTargetT_decode_leaf (t : QuadTree) (rect : AABB) :
    ∀ (S : QTree) (nd : NodeData), decodedAt t nd.index = some S →
    ∃ n, decodedAt t (mTargetT rect nd S).index = some (QTree.leaf n) ∧
      (mTargetT rect nd S).index ∈ QTree.leafIdxs nd.index S := by
  intro S
  induction S with
  | leaf n =>
    intro nd hdec
    exact ⟨n, by simpa [mTargetT] using hdec, by simp [mTargetT, QTree.leafIdxs]⟩
  | branch fc c0 c1 c2 c3 c4 ih0 ih1 ih2 ih3 ih4 =>
    intro nd hdec
    obtain ⟨d0, d1, d2, d3, d4⟩ := decodedAt_children t nd.index fc c0 c1 c2 c3 c4 hdec
    by_cases hq0 : (nd.crect.explore_quadrants_aabb rect).this
    · obtain ⟨n, hn, hm⟩ := ih0 (NodeData.new (nd.crect.split_child 0) (fc + 0) 0 false)
        (by rw [NodeData.new_index, Nat.add_zero]; exact d0)
      rw [NodeData.new_index, Nat.add_zero] at hm
      refine ⟨n, by simpa [mTargetT, hq0] using hn, ?_⟩
      simp only [mTargetT, hq0, if_pos, QTree.leafIdxs, List.mem_append]
      exact Or.inl (Or.inl (Or.inl (Or.inl hm)))
    · by_cases hq1 : (nd.crect.explore_quadrants_aabb rect).top_left
      · obtain ⟨n, hn, hm⟩ :=
          ih1 (NodeData.new (nd.crect.split_child 1) (fc + 1) (nd.depth + 1) true)
          (by rw [NodeData.new_index]; exact d1)
        rw [NodeData.new_index] at hm
        refine ⟨n, by simpa [mTargetT, hq0, hq1] using hn, ?_⟩
        simp only [mTargetT, hq0, hq1, if_pos, if_neg, if_false, QTree.leafIdxs,
          List.mem_append, Bool.false_eq_true]
        exact Or.inl (Or.inl (Or.inl (Or.inr hm)))
      · by_cases hq2 : (nd.crect.explore_quadrants_aabb rect).top_right
        · obtain ⟨n, hn, hm⟩ :=
            ih2 (NodeData.new (nd.crect.split_child 2) (fc + 2) (nd.depth + 1) true)
            (by rw [NodeData.new_index]; exact d2)
          rw [NodeData.new_index] at hm
          refine ⟨n, by simpa [mTargetT, hq0, hq1, hq2] using hn, ?_⟩
          simp only [mTargetT, hq0, hq1, hq2, if_pos, if_neg, if_false, QTree.leafIdxs,
            List.mem_append, Bool.false_eq_true]
          exact Or.inl (Or.inl (Or.inr hm))
        · by_cases hq3 : (nd.crect.explore_quadrants_aabb rect).bottom_left
          · obtain ⟨n, hn, hm⟩ :=
              ih3 (NodeData.new (nd.crect.split_child 3) (fc + 3) (nd.depth + 1) true)
              (by rw [NodeData.new_index]; exact d3)
            rw [NodeData.new_index] at hm
            refine ⟨n, by simpa [mTargetT, hq0, hq1, hq2, hq3] using hn, ?_⟩
            simp only [mTargetT, hq0, hq1, hq2, hq3, if_pos, if_neg, if_false,
              QTree.leafIdxs, List.mem_append, Bool.false_eq_true]
            exact Or.inl (Or.inr hm)
          · obtain ⟨n, hn, hm⟩ :=
              ih4 (NodeData.new (nd.crect.split_child 4) (fc + 4) (nd.depth + 1) true)
              (by rw [NodeData.new_index]; exact d4)
            rw [NodeData.new_index] at hm
            refine ⟨n, by simpa [mTargetT, hq0, hq1, hq2, hq3] using hn, ?_⟩
            simp only [mTargetT, hq0, hq1, hq2, hq3, if_pos, if_neg, if_false,
              QTree.leafIdxs, List.mem_append, Bool.false_eq_true]
            exact Or.inr hm

theorem mTargetT_mem (rect : AABB) : ∀ (S : QTree) (nd : NodeData),
    (mTargetT rect nd S).index ∈ QTree.leafIdxs nd.index S := by
  intro S
  induction S with
  | leaf n => intro nd; simp [mTargetT, QTree.leafIdxs]
  | branch fc c0 c1 c2 c3 c4 ih0 ih1 ih2 ih3 ih4 =>
    intro nd
    have e0 := ih0 (NodeData.new (nd.crect.split_child 0) (fc + 0) 0 false)
    have e1 := ih1 (NodeData.new (nd.crect.split_child 1) (fc + 1) (nd.depth + 1) true)
    have e2 := ih2 (NodeData.new (nd.crect.split_child 2) (fc + 2) (nd.depth + 1) true)
    have e3 := ih3 (NodeData.new (nd.crect.split_child 3) (fc + 3) (nd.depth + 1) true)
    have e4 := ih4 (NodeData.new (nd.crect.split_child 4) (fc + 4) (nd.depth + 1) true)
    rw [NodeData.new_index] at e0 e1 e2 e3 e4
    rw [Nat.add_zero] at e0
    simp only [mTargetT, QTree.leafIdxs, List.mem_append]
    split_ifs
    · exact Or.inl (Or.inl (Or.inl (Or.inl e0)))
    · exact Or.inl (Or.inl (Or.inl (Or.inr e1)))
    · exact Or.inl (Or.inl (Or.inr e2))
    · exact Or.inl (Or.inr e3)
    · exact Or.inr e4

theorem qVisitsT_graft_keep (Q : AABB) (g fc : Nat) : ∀ (S : QTree) (cell : CenteredAABB)
    (i j : Nat) (c : CenteredAABB), (j, c) ∈ qVisitsT Q cell i S → j ≠ g →
    (j, c) ∈ qVisitsT Q cell i (graftAt g fc i S) := by
  intro S
  induction S with
  | leaf n =>
    intro cell i j c h hne
    simp only [qVisitsT, List.mem_singleton, Prod.mk.injEq] at h
    obtain ⟨rfl, rfl⟩ := h
    simp [graftAt, hne, qVisitsT]
  | branch fcB c0 c1 c2 c3 c4 ih0 ih1 ih2 ih3 ih4 =>
    intro cell i j c h hne
    simp only [qVisitsT, List.mem_append, mem_ite_nil_gen] at h
    simp only [graftAt, qVisitsT, List.mem_append, mem_ite_nil_gen]
    rcases h with ((((h0 | ⟨hf, h1⟩) | ⟨hf, h2⟩) | ⟨hf, h3⟩) | ⟨hf, h4⟩)
    · exact Or.inl (Or.inl (Or.inl (Or.inl (ih0 _ _ _ _ h0 hne))))
    · exact Or.inl (Or.inl (Or.inl (Or.inr ⟨hf, ih1 _ _ _ _ h1 hne⟩)))
    · exact Or.inl (Or.inl (Or.inr ⟨hf, ih2 _ _ _ _ h2 hne⟩))
    · exact Or.inl (Or.inr ⟨hf, ih3 _ _ _ _ h3 hne⟩)
    · exact Or.inr ⟨hf, ih4 _ _ _ _ h4 hne⟩

theorem qVisitsT_graft_new (Q : AABB) (g fc : Nat) : ∀ (S : QTree) (cell : CenteredAABB)
    (i : Nat) (c : CenteredAABB), (g, c) ∈ qVisitsT Q cell i S →
    ((fc, c.split_child 0) ∈ qVisitsT Q cell i (graftAt g fc i S) ∧
     ∀ o, (o = 1 ∨ o = 2 ∨ o = 3 ∨ o = 4) → (c.explore_quadrants_aabb Q).atIdx o = true →
       (fc + o, c.split_child o) ∈ qVisitsT Q cell i (graftAt g fc i S)) := by
  intro S
  induction S with
  | leaf n =>
    intro cell i c h
    simp only [qVisitsT, List.mem_singleton, Prod.mk.injEq] at h
    obtain ⟨rfl, rfl⟩ := h
    constructor
    · simp [graftAt, qVisitsT, QTree.leafIdxs]
    · intro o ho hflag
      rcases ho with rfl | rfl | rfl | rfl <;>
        simp [graftAt, qVisitsT, hflag, QTree.leafIdxs]
  | branch fcB c0 c1 c2 c3 c4 ih0 ih1 ih2 ih3 ih4 =>
    intro cell i c h
    simp only [qVisitsT, List.mem_append, mem_ite_nil_gen] at h
    rcases h with ((((h0 | ⟨hf, h1⟩) | ⟨hf, h2⟩) | ⟨hf, h3⟩) | ⟨hf, h4⟩)
    · obtain ⟨k0, k1⟩ := ih0 _ _ _ h0
      constructor
      · simp only [graftAt, qVisitsT, List.mem_append]
        exact Or.inl (Or.inl (Or.inl (Or.inl k0)))
      · intro o ho hflag
        simp only [graftAt, qVisitsT, List.mem_append]
        exact Or.inl (Or.inl (Or.inl (Or.inl (k1 o ho hflag))))
    · obtain ⟨k0, k1⟩ := ih1 _ _ _ h1
      constructor
      · simp only [graftAt, qVisitsT, List.mem_append, mem_ite_nil_gen]
        exact Or.inl (Or.inl (Or.inl (Or.inr ⟨hf, k0⟩)))
      · intro o ho hflag
        simp only [graftAt, qVisitsT, List.mem_append, mem_ite_nil_gen]
        exact Or.inl (Or.inl (Or.inl (Or.inr ⟨hf, k1 o ho hflag⟩)))
    · obtain ⟨k0, k1⟩ := ih2 _ _ _ h2
      constructor
      · simp only [graftAt, qVisitsT, List.mem_append, mem_ite_nil_gen]
        exact Or.inl (Or.inl (Or.inr ⟨hf, k0⟩))
      · intro o ho hflag
        simp only [graftAt, qVisitsT, List.mem_append, mem_ite_nil_gen]
        exact Or.inl (Or.inl (Or.inr ⟨hf, k1 o ho hflag⟩))
    · obtain ⟨k0, k1⟩ := ih3 _ _ _ h3
      constructor
      · simp only [graftAt, qVisitsT, List.mem_append, mem_ite_nil_gen]
        exact Or.inl (Or.inr ⟨hf, k0⟩)
      · intro o ho hflag
        simp only [graftAt, qVisitsT, List.mem_append, mem_ite_nil_gen]
        exact Or.inl (Or.inr ⟨hf, k1 o ho hflag⟩)
    · obtain ⟨k0, k1⟩ := ih4 _ _ _ h4
      constructor
      · simp only [graftAt, qVisitsT, List.mem_append, mem_ite_nil_gen]
        exact Or.inr ⟨hf, k0⟩
      · intro o ho hflag
        simp only [graftAt, qVisitsT, List.mem_append, mem_ite_nil_gen]
        exact Or.inr ⟨hf, k1 o ho hflag⟩

theorem mTargetT_graft (rect : AABB) (g fc : Nat) : ∀ (S : QTree) (nd : NodeData),
    (QTree.spans nd.index S).Nodup → (mTargetT rect nd S).index = g →
    mTargetT rect nd (graftAt g fc nd.index S) =
      mTargetT rect (mTargetT rect nd S)
        (QTree.branch fc (QTree.leaf Node.default) (QTree.leaf Node.default)
          (QTree.leaf Node.default) (QTree.leaf Node.default) (QTree.leaf Node.default)) := by
  intro S
  induction S with
  | leaf n =>
    intro nd _ hg
    simp only [mTargetT] at hg
    simp only [graftAt, hg, if_pos, mTargetT]
  | branch fcB c0 c1 c2 c3 c4 ih0 ih1 ih2 ih3 ih4 =>
    intro nd hnd hg
    obtain ⟨-, ⟨hnd0, hnd1, hnd2, hnd3, hnd4⟩, -⟩ :=
      spans_branch_nodup_parts nd.index fcB c0 c1 c2 c3 c4 hnd
    by_cases hq0 : (nd.crect.explore_quadrants_aabb rect).this
    · have hg' : (mTargetT rect
          (NodeData.new (nd.crect.split_child 0) (fcB + 0) 0 false) c0).index = g := by
        simpa [mTargetT, hq0] using hg
      have hrec := ih0 (NodeData.new (nd.crect.split_child 0) (fcB + 0) 0 false)
        (by rw [NodeData.new_index, Nat.add_zero]; exact hnd0) hg'
      rw [NodeData.new_index, Nat.add_zero] at hrec
      simp only [graftAt, mTargetT, hq0, if_true]
      exact hrec
    · by_cases hq1 : (nd.crect.explore_quadrants_aabb rect).top_left
      · have hg' : (mTargetT rect
            (NodeData.new (nd.crect.split_child 1) (fcB + 1) (nd.depth + 1) true) c1).index
            = g := by
          simpa [mTargetT, hq0, hq1] using hg
        have hrec := ih1 (NodeData.new (nd.crect.split_child 1) (fcB + 1) (nd.depth + 1) true)
          (by rw [NodeData.new_index]; exact hnd1) hg'
        rw [NodeData.new_index] at hrec
        simp only [graftAt, mTargetT, hq0, hq1, if_true, if_false, Bool.false_eq_true]
        exact hrec
      · by_cases hq2 : (nd.crect.explore_quadrants_aabb rect).top_right
        · have hg' : (mTargetT rect
              (NodeData.new (nd.crect.split_child 2) (fcB + 2) (nd.depth + 1) true) c2).index
              = g := by
            simpa [mTargetT, hq0, hq1, hq2] using hg
          have hrec := ih2 (NodeData.new (nd.crect.split_child 2) (fcB + 2) (nd.depth + 1) true)
            (by rw [NodeData.new_index]; exact hnd2) hg'
          rw [NodeData.new_index] at hrec
          simp only [graftAt, mTargetT, hq0, hq1, hq2, if_true, if_false, Bool.false_eq_true]
          exact hrec
        · by_cases hq3 : (nd.crect.explore_quadrants_aabb rect).bottom_left
          · have hg' : (mTargetT rect
                (NodeData.new (nd.crect.split_child 3) (fcB + 3) (nd.depth + 1) true) c3).index
                = g := by
              simpa [mTargetT, hq0, hq1, hq2, hq3] using hg
            have hrec := ih3 (NodeData.new (nd.crect.split_child 3) (fcB + 3) (nd.depth + 1) true)
              (by rw [NodeData.new_index]; exact hnd3) hg'
            rw [NodeData.new_index] at hrec
            simp only [graftAt, mTargetT, hq0, hq1, hq2, hq3, if_true, if_false,
              Bool.false_eq_true]
            exact hrec
          · have hg' : (mTargetT rect
                (NodeData.new (nd.crect.split_child 4) (fcB + 4) (nd.depth + 1) true) c4).index
                = g := by
              simpa [mTargetT, hq0, hq1, hq2, hq3] using hg
            have hrec := ih4 (NodeData.new (nd.crect.split_child 4) (fcB + 4) (nd.depth + 1) true)
              (by rw [NodeData.new_index]; exact hnd4) hg'
            rw [NodeData.new_index] at hrec
            simp only [graftAt, mTargetT, hq0, hq1, hq2, hq3, if_true, if_false,
              Bool.false_eq_true]
            exact hrec

theorem cells_agree (rect Q : AABB) : ∀ (S : QTree) (nd : NodeData) (c : CenteredAABB),
    (QTree.spans nd.index S).Nodup →
    ((mTargetT rect nd S).index, c) ∈ qVisitsT Q nd.crect nd.index S →
    c = (mTargetT rect nd S).crect := by
  intro S
  induction S with
  | leaf n =>
    intro nd c _ h
    simp only [mTargetT, qVisitsT, List.mem_singleton, Prod.mk.injEq] at h
    simp [mTargetT, h.2]
  | branch fcB c0 c1 c2 c3 c4 ih0 ih1 ih2 ih3 ih4 =>
    intro nd c hnd h
    obtain ⟨-, ⟨hnd0, hnd1, hnd2, hnd3, hnd4⟩,
      d01, d02, d03, d04, d12, d13, d14, d23, d24, d34⟩ :=
      spans_branch_nodup_parts nd.index fcB c0 c1 c2 c3 c4 hnd
    by_cases hq0 : (nd.crect.explore_quadrants_aabb rect).this
    · have htgt : mTargetT rect nd (QTree.branch fcB c0 c1 c2 c3 c4) =
          mTargetT rect (NodeData.new (nd.crect.split_child 0) (fcB + 0) 0 false) c0 := by
        simp [mTargetT, hq0]
      rw [htgt] at h ⊢
      have hm := mTargetT_mem rect c0 (NodeData.new (nd.crect.split_child 0) (fcB + 0) 0 false)
      rw [NodeData.new_index, Nat.add_zero] at hm
      have hgs := (leafIdxs_sublist_spans fcB c0).subset hm
      simp only [qVisitsT, List.mem_append, mem_ite_nil_gen] at h
      rcases h with ((((h0 | ⟨-, h1⟩) | ⟨-, h2⟩) | ⟨-, h3⟩) | ⟨-, h4⟩)
      · refine ih0 (NodeData.new (nd.crect.split_child 0) (fcB + 0) 0 false) c ?_ ?_
        · rw [NodeData.new_index, Nat.add_zero]; exact hnd0
        · simpa using h0
      · exact (d01 hgs ((leafIdxs_sublist_spans (fcB + 1) c1).subset (qVisitsT_mem_leafIdxs Q c1 _ _ _ _ h1))).elim
      · exact (d02 hgs ((leafIdxs_sublist_spans (fcB + 2) c2).subset (qVisitsT_mem_leafIdxs Q c2 _ _ _ _ h2))).elim
      · exact (d03 hgs ((leafIdxs_sublist_spans (fcB + 3) c3).subset (qVisitsT_mem_leafIdxs Q c3 _ _ _ _ h3))).elim
      · exact (d04 hgs ((leafIdxs_sublist_spans (fcB + 4) c4).subset (qVisitsT_mem_leafIdxs Q c4 _ _ _ _ h4))).elim
    · by_cases hq1 : (nd.crect.explore_quadrants_aabb rect).top_left
      · have htgt : mTargetT rect nd (QTree.branch fcB c0 c1 c2 c3 c4) =
            mTargetT rect (NodeData.new (nd.crect.split_child 1) (fcB + 1) (nd.depth + 1) true) c1 := by
          simp [mTargetT, hq0, hq1]
        rw [htgt] at h ⊢
        have hm := mTargetT_mem rect c1 (NodeData.new (nd.crect.split_child 1) (fcB + 1) (nd.depth + 1) true)
        rw [NodeData.new_index] at hm
        have hgs := (leafIdxs_sublist_spans (fcB + 1) c1).subset hm
        simp only [qVisitsT, List.mem_append, mem_ite_nil_gen] at h
        rcases h with ((((h0 | ⟨-, h1⟩) | ⟨-, h2⟩) | ⟨-, h3⟩) | ⟨-, h4⟩)
        · exact (d01 ((leafIdxs_sublist_spans fcB c0).subset (qVisitsT_mem_leafIdxs Q c0 _ _ _ _ h0)) hgs).elim
        · refine ih1 (NodeData.new (nd.crect.split_child 1) (fcB + 1) (nd.depth + 1) true) c ?_ ?_
          · rw [NodeData.new_index]; exact hnd1
          · simpa using h1
        · exact (d12 hgs ((leafIdxs_sublist_spans (fcB + 2) c2).subset (qVisitsT_mem_leafIdxs Q c2 _ _ _ _ h2))).elim
        · exact (d13 hgs ((leafIdxs_sublist_spans (fcB + 3) c3).subset (qVisitsT_mem_leafIdxs Q c3 _ _ _ _ h3))).elim
        · exact (d14 hgs ((leafIdxs_sublist_spans (fcB + 4) c4).subset (qVisitsT_mem_leafIdxs Q c4 _ _ _ _ h4))).elim
      · by_cases hq2 : (nd.crect.explore_quadrants_aabb rect).top_right
        · have htgt : mTargetT rect nd (QTree.branch fcB c0 c1 c2 c3 c4) =
              mTargetT rect (NodeData.new (nd.crect.split_child 2) (fcB + 2) (nd.depth + 1) true) c2 := by
            simp [mTargetT, hq0, hq1, hq2]
          rw [htgt] at h ⊢
          have hm := mTargetT_mem rect c2 (NodeData.new (nd.crect.split_child 2) (fcB + 2) (nd.depth + 1) true)
          rw [NodeData.new_index] at hm
          have hgs := (leafIdxs_sublist_spans (fcB + 2) c2).subset hm
          simp only [qVisitsT, List.mem_append, mem_ite_nil_gen] at h
          rcases h with ((((h0 | ⟨-, h1⟩) | ⟨-, h2⟩) | ⟨-, h3⟩) | ⟨-, h4⟩)
          · exact (d02 ((leafIdxs_sublist_spans fcB c0).subset (qVisitsT_mem_leafIdxs Q c0 _ _ _ _ h0)) hgs).elim
          · exact (d12 ((leafIdxs_sublist_spans (fcB + 1) c1).subset (qVisitsT_mem_leafIdxs Q c1 _ _ _ _ h1)) hgs).elim
          · refine ih2 (NodeData.new (nd.crect.split_child 2) (fcB + 2) (nd.depth + 1) true) c ?_ ?_
            · rw [NodeData.new_index]; exact hnd2
            · simpa using h2
          · exact (d23 hgs ((leafIdxs_sublist_spans (fcB + 3) c3).subset (qVisitsT_mem_leafIdxs Q c3 _ _ _ _ h3))).elim
          · exact (d24 hgs ((leafIdxs_sublist_spans (fcB + 4) c4).subset (qVisitsT_mem_leafIdxs Q c4 _ _ _ _ h4))).elim
        · by_cases hq3 : (nd.crect.explore_quadrants_aabb rect).bottom_left
          · have htgt : mTargetT rect nd (QTree.branch fcB c0 c1 c2 c3 c4) =
                mTargetT rect (NodeData.new (nd.crect.split_child 3) (fcB + 3) (nd.depth + 1) true) c3 := by
              simp [mTargetT, hq0, hq1, hq2, hq3]
            rw [htgt] at h ⊢
            have hm := mTargetT_mem rect c3 (NodeData.new (nd.crect.split_child 3) (fcB + 3) (nd.depth + 1) true)
            rw [NodeData.new_index] at hm
            have hgs := (leafIdxs_sublist_spans (fcB + 3) c3).subset hm
            simp only [qVisitsT, List.mem_append, mem_ite_nil_gen] at h
            rcases h with ((((h0 | ⟨-, h1⟩) | ⟨-, h2⟩) | ⟨-, h3⟩) | ⟨-, h4⟩)
            · exact (d03 ((leafIdxs_sublist_spans fcB c0).subset (qVisitsT_mem_leafIdxs Q c0 _ _ _ _ h0)) hgs).elim
            · exact (d13 ((leafIdxs_sublist_spans (fcB + 1) c1).subset (qVisitsT_mem_leafIdxs Q c1 _ _ _ _ h1)) hgs).elim
            · exact (d23 ((leafIdxs_sublist_spans (fcB + 2) c2).subset (qVisitsT_mem_leafIdxs Q c2 _ _ _ _ h2)) hgs).elim
            · refine ih3 (NodeData.new (nd.crect.split_child 3) (fcB + 3) (nd.depth + 1) true) c ?_ ?_
              · rw [NodeData.new_index]; exact hnd3
              · simpa using h3
            · exact (d34 hgs ((leafIdxs_sublist_spans (fcB + 4) c4).subset (qVisitsT_mem_leafIdxs Q c4 _ _ _ _ h4))).elim
          · have htgt : mTargetT rect nd (QTree.branch fcB c0 c1 c2 c3 c4) =
                mTargetT rect (NodeData.new (nd.crect.split_child 4) (fcB + 4) (nd.depth + 1) true) c4 := by
              simp [mTargetT, hq0, hq1, hq2, hq3]
            rw [htgt] at h ⊢
            have hm := mTargetT_mem rect c4 (NodeData.new (nd.crect.split_child 4) (fcB + 4) (nd.depth + 1) true)
            rw [NodeData.new_index] at hm
            have hgs := (leafIdxs_sublist_spans (fcB + 4) c4).subset hm
            simp only [qVisitsT, List.mem_append, mem_ite_nil_gen] at h
            rcases h with ((((h0 | ⟨-, h1⟩) | ⟨-, h2⟩) | ⟨-, h3⟩) | ⟨-, h4⟩)
            · exact (d04 ((leafIdxs_sublist_spans fcB c0).subset (qVisitsT_mem_leafIdxs Q c0 _ _ _ _ h0)) hgs).elim
            · exact (d14 ((leafIdxs_sublist_spans (fcB + 1) c1).subset (qVisitsT_mem_leafIdxs Q c1 _ _ _ _ h1)) hgs).elim
            · exact (d24 ((leafIdxs_sublist_spans (fcB + 2) c2).subset (qVisitsT_mem_leafIdxs Q c2 _ _ _ _ h2)) hgs).elim
            · exact (d34 ((leafIdxs_sublist_spans (fcB + 3) c3).subset (qVisitsT_mem_leafIdxs Q c3 _ _ _ _ h3)) hgs).elim
            · refine ih4 (NodeData.new (nd.crect.split_child 4) (fcB + 4) (nd.depth + 1) true) c ?_ ?_
              · rw [NodeData.new_index]; exact hnd4
              · simpa using h4

theorem find_leaves_loop_nil (t : QuadTree) (rect : AABB) (hint : FindLeafHint) :
    ∀ fuel acc, t.find_leaves_loop rect hint fuel [] acc = acc := by
  intro fuel acc
  cases fuel <;> rfl

theorem decode_leaf_count (t : QuadTree) (i : Nat) (n : Node)
    (h : decodedAt t i = some (QTree.leaf n)) :
    n.element_count ≠ NODE_IS_BRANCH := by
  unfold decodedAt at h
  cases hz : t.nodes.length + 1 with
  | zero => omega
  | succ k =>
    rw [hz] at h
    exact (decode_leaf_inv t.nodes k i n h).2

theorem find_leaves_mutate_sim (t : QuadTree) (rect : AABB) :
    ∀ fuel nd S acc, decodedAt t nd.index = some S →
      (QTree.spans nd.index S).length < fuel →
      t.find_leaves_loop rect .Mutate fuel [nd] acc = mTargetT rect nd S :: acc := by
  intro fuel
  induction fuel with
  | zero =>
    intro nd S acc _ hlen
    exact absurd hlen (by have := spans_length_pos nd.index S; omega)
  | succ k ih =>
    intro nd S acc hdec hlen
    cases S with
    | leaf n =>
      have hrec : t.nodeAt nd.index = n := nodeAt_of_decode_leaf t _ nd.index n hdec
      have hleaf : (t.nodeAt nd.index).is_leaf = true := by
        rw [hrec]
        simp [Node.is_leaf, Node.is_branch, decode_leaf_count t nd.index n hdec]
      rw [QuadTree.find_leaves_loop, if_pos hleaf, find_leaves_loop_nil]
      simp [mTargetT]
    | branch fc c0 c1 c2 c3 c4 =>
      have hrec : t.nodeAt nd.index = ⟨fc, NODE_IS_BRANCH⟩ :=
        nodeAt_of_decode_branch t _ nd.index fc c0 c1 c2 c3 c4 hdec
      have hleaf : (t.nodeAt nd.index).is_leaf = false := by
        rw [hrec]
        simp [Node.is_leaf, Node.is_branch]
      obtain ⟨d0, d1, d2, d3, d4⟩ := decodedAt_children t nd.index fc c0 c1 c2 c3 c4 hdec
      have hsum : (QTree.spans fc c0).length + (QTree.spans (fc + 1) c1).length +
          (QTree.spans (fc + 2) c2).length + (QTree.spans (fc + 3) c3).length +
          (QTree.spans (fc + 4) c4).length < k := by
        have : (QTree.spans nd.index (QTree.branch fc c0 c1 c2 c3 c4)).length =
            1 + ((QTree.spans fc c0).length + (QTree.spans (fc + 1) c1).length +
            (QTree.spans (fc + 2) c2).length + (QTree.spans (fc + 3) c3).length +
            (QTree.spans (fc + 4) c4).length) := by
          simp [QTree.spans]
          omega
        omega
      rw [QuadTree.find_leaves_loop, if_neg (by rw [hleaf]; exact Bool.false_ne_true)]
      rw [hrec]
      show t.find_leaves_loop rect .Mutate k
        (QuadTree.collect_relevant_quadrants nd
          (Node.get_first_child_node_index ⟨fc, NODE_IS_BRANCH⟩)
          (nd.crect.explore_quadrants_aabb rect) .Mutate ++ []) acc = _
      rw [List.append_nil]
      simp only [QuadTree.collect_relevant_quadrants,
        QuadTree.collect_relevant_quadrants_for_mutation, Node.get_first_child_node_index]
      by_cases hq0 : (nd.crect.explore_quadrants_aabb rect).this
      · simp only [hq0, if_true]
        norm_num
        rw [ih (NodeData.new (nd.crect.split_child 0) fc 0 false) c0 acc
          (by rw [NodeData.new_index]; exact d0)
          (by rw [NodeData.new_index]; omega)]
        simp [mTargetT, hq0]
      · by_cases hq1 : (nd.crect.explore_quadrants_aabb rect).top_left
        · simp only [hq0, hq1, if_true, if_false, Bool.false_eq_true]
          norm_num
          rw [ih (NodeData.new (nd.crect.split_child 1) (fc + 1) (nd.depth + 1) true) c1 acc
            (by rw [NodeData.new_index]; exact d1)
            (by rw [NodeData.new_index]; omega)]
          simp [mTargetT, hq0, hq1]
        · by_cases hq2 : (nd.crect.explore_quadrants_aabb rect).top_right
          · simp only [hq0, hq1, hq2, if_true, if_false, Bool.false_eq_true]
            norm_num
            rw [ih (NodeData.new (nd.crect.split_child 2) (fc + 2) (nd.depth + 1) true) c2 acc
              (by rw [NodeData.new_index]; exact d2)
              (by rw [NodeData.new_index]; omega)]
            simp [mTargetT, hq0, hq1, hq2]
          · by_cases hq3 : (nd.crect.explore_quadrants_aabb rect).bottom_left
            · simp only [hq0, hq1, hq2, hq3, if_true, if_false, Bool.false_eq_true]
              norm_num
              rw [ih (NodeData.new (nd.crect.split_child 3) (fc + 3) (nd.depth + 1) true) c3 acc
                (by rw [NodeData.new_index]; exact d3)
                (by rw [NodeData.new_index]; omega)]
              simp [mTargetT, hq0, hq1, hq2, hq3]
            · simp only [hq0, hq1, hq2, hq3, if_true, if_false, Bool.false_eq_true]
              norm_num
              rw [ih (NodeData.new (nd.crect.split_child 4) (fc + 4) (nd.depth + 1) true) c4 acc
                (by rw [NodeData.new_index]; exact d4)
                (by rw [NodeData.new_index]; omega)]
              simp [mTargetT, hq0, hq1, hq2, hq3]

theorem find_leaves_aabb_mutate (t : QuadTree) (rect : AABB) (nd : NodeData) (S : QTree)
    (hdec : decodedAt t nd.index = some S)
    (hlen : (QTree.spans nd.index S).length < t.nodes.length + 1) :
    t.find_leaves_aabb nd rect .Mutate = [mTargetT rect nd S] := by
  unfold QuadTree.find_leaves_aabb
  rw [find_leaves_mutate_sim t rect _ nd S [] hdec hlen]

theorem wrap32_id (v : Int) (h1 : -(2 ^ 31) ≤ v) (h2 : v < 2 ^ 31) : wrap32 v = v := by
  unfold wrap32
  omega

theorem rootOK_elim (root : QuadRect) (h : rootOK root = true) :
    (-(2 ^ 30) ≤ root.l ∧ root.l < 2 ^ 30) ∧ (-(2 ^ 30) ≤ root.t ∧ root.t < 2 ^ 30) ∧
    0 ≤ root.hx ∧ 0 ≤ root.hy ∧
    (-(2 ^ 30) ≤ root.l + root.hx ∧ root.l + root.hx < 2 ^ 30) ∧
    (-(2 ^ 30) ≤ root.t + root.hy ∧ root.t + root.hy < 2 ^ 30) := by
  simp only [rootOK, coordOK, Bool.and_eq_true, decide_eq_true_eq] at h
  tauto

theorem root_toAABB (root : QuadRect) (h : rootOK root = true) :
    root.toAABB = AABB.new root.l root.t (root.l + root.hx) (root.t + root.hy) := by
  obtain ⟨⟨hl1, hl2⟩, ⟨ht1, ht2⟩, hx, hy, ⟨hr1, hr2⟩, ⟨hb1, hb2⟩⟩ := rootOK_elim root h
  unfold QuadRect.toAABB
  rw [wrap32_id _ (by omega) (by omega), wrap32_id _ (by omega) (by omega)]

theorem rectInRoot_elim (root : QuadRect) (r : AABB) (h : rectInRoot root r = true)
    (hok : rootOK root = true) :
    root.l ≤ r.tl.x ∧ root.t ≤ r.tl.y ∧ r.br.x ≤ root.l + root.hx ∧
      r.br.y ≤ root.t + root.hy := by
  obtain ⟨⟨hl1, hl2⟩, ⟨ht1, ht2⟩, hx, hy, ⟨hr1, hr2⟩, ⟨hb1, hb2⟩⟩ := rootOK_elim root hok
  simp only [rectInRoot, Bool.and_eq_true, decide_eq_true_eq] at h
  rw [wrap32_id _ (by omega) (by omega), wrap32_id _ (by omega) (by omega)] at h
  tauto

theorem root_intersects (root : QuadRect) (r : AABB) (hok : rootOK root = true)
    (hor : rectOriented r = true) (hin : rectInRoot root r = true) :
    root.toAABB.intersects_with r = true := by
  obtain ⟨hL, hT, hR, hB⟩ := rectInRoot_elim root r hin hok
  obtain ⟨⟨hl1, hl2⟩, ⟨ht1, ht2⟩, hx, hy, ⟨hr1, hr2⟩, ⟨hb1, hb2⟩⟩ := rootOK_elim root hok
  simp only [rectOriented, Bool.and_eq_true, decide_eq_true_eq] at hor
  obtain ⟨hox, hoy⟩ := hor
  rw [root_toAABB root hok]
  simp only [AABB.intersects_with, AABB.new, Bool.or_eq_true, Bool.and_eq_true,
    decide_eq_true_eq]
  have hmx : Max.max r.tl.x r.tl.x ≤ r.tl.x := by omega
  by_cases hdx : r.tl.x = r.br.x
  · refine Or.inr ⟨⟨by simp [hdx], ?_⟩, ?_⟩
    · simp only [max_le_iff, le_min_iff]
      omega
    · simp only [max_le_iff, le_min_iff]
      omega
  · by_cases hdy : r.tl.y = r.br.y
    · refine Or.inr ⟨⟨by simp [hdy], ?_⟩, ?_⟩
      · simp only [max_le_iff, le_min_iff]
        omega
      · simp only [max_le_iff, le_min_iff]
        omega
    · refine Or.inl ⟨?_, ?_⟩
      · simp only [max_lt_iff, lt_min_iff]
        omega
      · simp only [max_lt_iff, lt_min_iff]
        omega

theorem contains_of_inRoot (root : QuadRect) (r : AABB) (hok : rootOK root = true)
    (hor : rectOriented r = true) (hco : rectCoordsOK r = true)
    (hin : rectInRoot root r = true) : root.contains r = true := by
  obtain ⟨hL, hT, hR, hB⟩ := rectInRoot_elim root r hin hok
  obtain ⟨⟨hl1, hl2⟩, ⟨ht1, ht2⟩, hx, hy, ⟨hr1, hr2⟩, ⟨hb1, hb2⟩⟩ := rootOK_elim root hok
  simp only [rectOriented, Bool.and_eq_true, decide_eq_true_eq] at hor
  simp only [rectCoordsOK, coordOK, Bool.and_eq_true, decide_eq_true_eq] at hco
  obtain ⟨⟨⟨⟨hc1, hc2⟩, hc3, hc4⟩, hc5, hc6⟩, hc7, hc8⟩ := hco
  simp only [QuadRect.contains, Bool.and_eq_true, decide_eq_true_eq, ge_iff_le]
  rw [wrap32_id (r.tl.x + r.br.x) (by omega) (by omega),
    wrap32_id (r.tl.y + r.br.y) (by omega) (by omega),
    wrap32_id _ (by omega) (by omega), wrap32_id _ (by omega) (by omega)]
  have hdiv : ∀ x : Int, asr1 x = x / 2 := by
    intro x
    unfold asr1
    rw [Int.fdiv_eq_ediv]
    norm_num
  rw [hdiv, hdiv]
  refine ⟨⟨⟨?_, ?_⟩, ?_⟩, ?_⟩ <;> omega

theorem from_tests_atIdx :
    ∀ l t r b : Bool,
      ((Quadrants.from_tests l t r b).atIdx 1 = (t && l)) ∧
      ((Quadrants.from_tests l t r b).atIdx 2 = (t && r)) ∧
      ((Quadrants.from_tests l t r b).atIdx 3 = (b && l)) ∧
      ((Quadrants.from_tests l t r b).atIdx 4 = (b && r)) ∧
      ((Quadrants.from_tests l t r b).this = ((l && r) || (t && b))) ∧
      ((Quadrants.from_tests l t r b).top_left = (t && l)) ∧
      ((Quadrants.from_tests l t r b).top_right = (t && r)) ∧
      ((Quadrants.from_tests l t r b).bottom_left = false) ∧
      ((Quadrants.from_tests l t r b).bottom_right = false) := by
  decide

theorem routeOffset_cases (mx my : Int) (r : AABB) (hor : rectOriented r = true) :
    (routeOffset mx my r = 0 ∧ ((r.tl.y ≤ my ∧ my < r.br.y) ∨ (r.tl.x ≤ mx ∧ mx < r.br.x))) ∨
    (routeOffset mx my r = 1 ∧ r.tl.y ≤ my ∧ r.tl.x ≤ mx) ∨
    (routeOffset mx my r = 2 ∧ r.tl.y ≤ my ∧ mx < r.br.x) ∨
    (routeOffset mx my r = 3 ∧ my < r.br.y ∧ r.tl.x ≤ mx) ∨
    (routeOffset mx my r = 4 ∧ my < r.br.y ∧ mx < r.br.x) := by
  simp only [rectOriented, Bool.and_eq_true, decide_eq_true_eq] at hor
  simp only [routeOffset, Bool.and_eq_true, Bool.or_eq_true, decide_eq_true_eq]
  split_ifs with h0 h1 h2 h3
  · simp only [Bool.and_eq_true, Bool.or_eq_true, decide_eq_true_eq] at h0
    refine Or.inl ⟨rfl, ?_⟩
    omega
  · simp only [Bool.and_eq_true, decide_eq_true_eq] at h1
    exact Or.inr (Or.inl ⟨rfl, h1.1, h1.2⟩)
  · simp only [Bool.and_eq_true, decide_eq_true_eq] at h2
    exact Or.inr (Or.inr (Or.inl ⟨rfl, h2.1, by omega⟩))
  · simp only [Bool.and_eq_true, decide_eq_true_eq] at h3
    exact Or.inr (Or.inr (Or.inr (Or.inl ⟨rfl, by omega, h3.2⟩)))
  · simp only [Bool.and_eq_true, Bool.or_eq_true, decide_eq_true_eq, not_and, not_or,
      not_le, not_lt] at h0 h1 h2 h3
    refine Or.inr (Or.inr (Or.inr (Or.inr ⟨rfl, ?_, ?_⟩))) <;> omega

theorem route_flag (root : QuadRect) (r : AABB) (cell : CenteredAABB) (o : Nat)
    (hok : rootOK root = true) (hor : rectOriented r = true)
    (hin : rectInRoot root r = true) (ho : o = 1 ∨ o = 2 ∨ o = 3 ∨ o = 4)
    (hr : routeOffset cell.center_x cell.center_y r = o) :
    (cell.explore_quadrants_aabb root.toAABB).atIdx o = true := by
  obtain ⟨hL, hT, hR, hB⟩ := rectInRoot_elim root r hin hok
  rw [root_toAABB root hok]
  unfold CenteredAABB.explore_quadrants_aabb
  obtain ⟨f1, f2, f3, f4, -⟩ := from_tests_atIdx
    (decide ((AABB.new root.l root.t (root.l + root.hx) (root.t + root.hy)).tl.x ≤ cell.center_x))
    (decide ((AABB.new root.l root.t (root.l + root.hx) (root.t + root.hy)).tl.y ≤ cell.center_y))
    (decide ((AABB.new root.l root.t (root.l + root.hx) (root.t + root.hy)).br.x > cell.center_x))
    (decide ((AABB.new root.l root.t (root.l + root.hx) (root.t + root.hy)).br.y > cell.center_y))
  rcases routeOffset_cases cell.center_x cell.center_y r hor with
    ⟨h, -⟩ | ⟨h, hy, hx⟩ | ⟨h, hy, hx⟩ | ⟨h, hy, hx⟩ | ⟨h, hy, hx⟩ <;>
    rcases ho with rfl | rfl | rfl | rfl <;>
    first
      | omega
      | (rw [hr] at h; omega)
      | skip
  all_goals rw [hr] at h
  · rw [f1]
    simp only [AABB.new, Bool.and_eq_true, decide_eq_true_eq]
    constructor <;> omega
  · rw [f2]
    simp only [AABB.new, Bool.and_eq_true, decide_eq_true_eq]
    constructor <;> omega
  · rw [f3]
    simp only [AABB.new, Bool.and_eq_true, decide_eq_true_eq]
    constructor <;> omega
  · rw [f4]
    simp only [AABB.new, Bool.and_eq_true, decide_eq_true_eq]
    constructor <;> omega

theorem atIdx_getElem {T : Type} (fl : FreeList T) (k : Nat) :
    fl.atIdx k = match fl.data[k]? with
      | some (.element v) => some v
      | some (.next _) => none
      | none => none := by
  unfold FreeList.atIdx
  rw [List.getD_eq_getElem?_getD]
  cases h : fl.data[k]? with
  | none => simp
  | some c => cases c <;> simp

theorem freelist_insert_spec {T : Type} (fl : FreeList T) (v : T)
    (hff : ffOK fl = true) :
    ((fl.insert v).2.data.length = fl.data.length ∨
      (fl.insert v).2.data.length = fl.data.length + 1) ∧
    (fl.insert v).1 < (fl.insert v).2.data.length ∧
    fl.data.length ≤ (fl.insert v).2.data.length ∧
    (fl.insert v).2.first_free = SENTINEL ∧
    ffOK (fl.insert v).2 = true ∧
    liveAt fl (fl.insert v).1 = false ∧
    (fl.insert v).2.atIdx (fl.insert v).1 = some v ∧
    (∀ k, k ≠ (fl.insert v).1 → (fl.insert v).2.atIdx k = fl.atIdx k) ∧
    (fl.first_free ≠ SENTINEL → (fl.insert v).2.data.length = fl.data.length) := by
  by_cases hf : fl.first_free = SENTINEL
  · have hins : fl.insert v = (fl.data.length, ⟨fl.data ++ [.element v], fl.first_free⟩) := by
      unfold FreeList.insert
      simp [hf]
    rw [hins]
    simp only []
    refine ⟨Or.inr (by simp), by simp, by simp, by rw [hf], ?_, ?_, ?_, ?_,
      fun hc => absurd hf hc⟩
    · unfold ffOK
      simp [hf]
    · rw [liveAt, atIdx_getElem, List.getElem?_eq_none (le_refl _)]
      rfl
    · rw [atIdx_getElem]
      simp only []
      rw [List.getElem?_append_right (le_refl _)]
      simp
    · intro k hk
      rw [atIdx_getElem, atIdx_getElem]
      simp only []
      by_cases hkl : k < fl.data.length
      · rw [List.getElem?_append_left hkl]
      · have h1 : (fl.data ++ [FreeElement.element v])[k]? = none :=
          List.getElem?_eq_none (by simp; omega)
        have h2 : fl.data[k]? = none := List.getElem?_eq_none (by omega)
        rw [h1, h2]
  · unfold ffOK at hff
    rw [if_neg hf] at hff
    by_cases hlt : fl.first_free < fl.data.length
    · rw [dif_pos hlt] at hff
      cases hcell : fl.data.get ⟨fl.first_free, hlt⟩ with
      | element w => rw [hcell] at hff; simp at hff
      | next nx =>
        rw [hcell] at hff
        have hnx : nx = SENTINEL := by simpa using hff
        rw [List.get_eq_getElem] at hcell
        have hgd : fl.data[fl.first_free]?.getD (FreeElement.next SENTINEL) =
            FreeElement.next nx := by
          rw [List.getElem?_eq_getElem hlt]
          simpa using hcell
        have hins : fl.insert v =
            (fl.first_free, ⟨fl.data.set fl.first_free (.element v), nx⟩) := by
          unfold FreeList.insert
          rw [if_pos hf]
          simp [hgd]
        rw [hins]
        simp only []
        refine ⟨Or.inl (by simp), by simp [hlt], by simp, hnx, ?_, ?_, ?_, ?_,
          fun _ => by simp⟩
        · unfold ffOK
          simp [hnx]
        · rw [liveAt, atIdx_getElem, List.getElem?_eq_getElem hlt]
          simp [hcell]
        · rw [atIdx_getElem]
          simp only []
          rw [List.getElem?_set_self (by simpa using hlt)]
        · intro k hk
          rw [atIdx_getElem, atIdx_getElem]
          simp only []
          rw [List.getElem?_set_ne (Ne.symm hk)]
    · rw [dif_neg hlt] at hff
      simp at hff

theorem freelist_erase_spec {T : Type} (fl : FreeList T) (n : Nat)
    (hlt : n < fl.data.length) :
    (fl.erase n).data.length = fl.data.length ∧
    (fl.erase n).first_free = n ∧
    ffOK (fl.erase n) = true ∧
    (fl.erase n).atIdx n = none ∧
    (∀ k, k ≠ n → (fl.erase n).atIdx k = fl.atIdx k) := by
  have hne : fl.data.isEmpty = false := by
    cases hd : fl.data with
    | nil => rw [hd] at hlt; simp at hlt
    | cons a l => simp
  have hers : fl.erase n = ⟨fl.data.set n (.next SENTINEL), n⟩ := by
    unfold FreeList.erase
    simp [hne]
  rw [hers]
  refine ⟨by simp, rfl, ?_, ?_, ?_⟩
  · unfold ffOK
    by_cases hns : n = SENTINEL
    · simp [hns]
    · rw [if_neg (by simpa using hns)]
      rw [dif_pos (by simpa using hlt)]
      have hcell : (fl.data.set n (FreeElement.next SENTINEL)).get
          ⟨n, by simpa using hlt⟩ = FreeElement.next SENTINEL := by
        rw [List.get_eq_getElem]
        rw [List.getElem_set_self]
      rw [hcell]
      simp
  · rw [atIdx_getElem]
    simp only []
    rw [List.getElem?_set_self (by simpa using hlt)]
  · intro k hk
    rw [atIdx_getElem, atIdx_getElem]
    simp only []
    rw [List.getElem?_set_ne (Ne.symm hk)]

theorem elemChain_fuel_of_length (en : FreeList QuadTreeElementNode) :
    ∀ f h hs, elemChain en f h = some hs →
      ∀ f2, hs.length < f2 → elemChain en f2 h = some hs := by
  intro f
  induction f with
  | zero => intro h hs hc; simp [elemChain] at hc
  | succ k ih =>
    intro h hs hc f2 hlen
    obtain ⟨m, rfl⟩ : ∃ m, f2 = m + 1 := ⟨f2 - 1, by omega⟩
    by_cases hne : h = SENTINEL
    · subst hne
      simp only [elemChain, eq_self_iff_true, if_true, Option.some.injEq] at hc
      subst hc
      simp [elemChain]
    · obtain ⟨node, rest, ha, rfl, hrest⟩ := elemChain_inv en k h _ hc hne
      simp only [List.length_cons] at hlen
      simp only [elemChain, if_neg hne, ha, ih _ _ hrest m (by omega), Option.map_some']

theorem chainAt_eq_of (t t' : QuadTree) (i : Nat) (hs : List Nat)
    (hc : chainAt t i = some hs)
    (hhead : (t'.nodeAt i).first_child_or_element = (t.nodeAt i).first_child_or_element)
    (hlen : hs.length < t'.element_nodes.data.length + 1)
    (hagree : ∀ x ∈ hs, t'.element_nodes.atIdx x = t.element_nodes.atIdx x) :
    chainAt t' i = some hs := by
  unfold chainAt at *
  rw [hhead]
  exact elemChain_fuel_of_length _ _ _ _
    (elemChain_congr _ _ _ _ _ hc hagree) _ hlen

theorem chainAt_cons (t t' : QuadTree) (i hE jx : Nat) (hs : List Nat)
    (hc : chainAt t i = some hs)
    (hhead : (t'.nodeAt i).first_child_or_element = hE)
    (hcell : t'.element_nodes.atIdx hE =
      some ⟨(t.nodeAt i).first_child_or_element, jx⟩)
    (hne : hE ≠ SENTINEL)
    (hlen : hs.length + 1 < t'.element_nodes.data.length + 1)
    (hagree : ∀ x ∈ hs, t'.element_nodes.atIdx x = t.element_nodes.atIdx x) :
    chainAt t' i = some (hE :: hs) := by
  unfold chainAt at *
  rw [hhead]
  have hrest : elemChain t'.element_nodes t'.element_nodes.data.length
      ((t.nodeAt i).first_child_or_element) = some hs :=
    elemChain_fuel_of_length _ _ _ _
      (elemChain_congr _ _ _ _ _ hc hagree) _ (by omega)
  simp [elemChain, if_neg hne, hcell, hrest]

theorem assign_eq_route (t : QuadTree) (mx my : Int) (fcI jx : Nat) (r : AABB)
    (hor : rectOriented r = true) :
    t.assign_element_to_child_nodes mx my fcI jx r =
      t.insert_element_in_child_node (fcI + routeOffset mx my r) jx := by
  simp only [rectOriented, Bool.and_eq_true, decide_eq_true_eq] at hor
  simp only [QuadTree.assign_element_to_child_nodes, routeOffset]
  split_ifs with h1 h2 h3 h4 h5 <;> try rfl
  exfalso
  simp only [Bool.and_eq_true, Bool.or_eq_true, decide_eq_true_eq, not_and, not_or,
    not_le, not_lt] at h1 h2 h3 h4 h5
  omega

theorem routeOffset_lt5 (mx my : Int) (r : AABB) : routeOffset mx my r < 5 := by
  simp only [routeOffset]
  split_ifs <;> omega

theorem nodup_length_le_of_lt (l : List Nat) (n : Nat) (hnd : l.Nodup)
    (hlt : ∀ x ∈ l, x < n) : l.length ≤ n := by
  have := (List.subperm_of_subset hnd
    (fun x hx => List.mem_range.mpr (hlt x hx))).length_le
  simpa using this

theorem distribute_loop_sim (mx my : Int) (fc : Nat) :
    ∀ (hs : List Nat) (fuel : Nat) (t : QuadTree) (h : Nat) (cs : Nat → List Nat),
    elemChain t.element_nodes (t.element_nodes.data.length + 1) h = some hs →
    hs.Nodup →
    ffOK t.element_nodes = true →
    (∀ o, o < 5 → chainAt t (fc + o) = some (cs o)) →
    (∀ o, o < 5 → (t.nodeAt (fc + o)).element_count = (cs o).length) →
    (∀ o, o < 5 → (cs o).Nodup) →
    (∀ o, o < 5 → ∀ x ∈ cs o, x ∉ hs) →
    (∀ o, o < 5 → ∀ x ∈ cs o, x < t.element_nodes.data.length) →
    (∀ x ∈ hs, rectOriented (rectAt t (handleIdx t x)) = true) →
    (∀ o, o < 5 → fc + o < t.nodes.length) →
    (t.element_nodes.data.length + 1 < SENTINEL ∨
      (t.element_nodes.first_free ≠ SENTINEL ∧
        t.element_nodes.data.length < SENTINEL)) →
    hs.length < fuel →
    ∃ N : Nat → List Nat,
      (∀ o, o < 5 → chainAt (QuadTree.distribute_loop mx my fc fuel t h) (fc + o) =
        some (N o ++ cs o)) ∧
      (∀ o, o < 5 → ((QuadTree.distribute_loop mx my fc fuel t h).nodeAt (fc + o)).element_count =
        (N o ++ cs o).length) ∧
      (QuadTree.distribute_loop mx my fc fuel t h).nodes.length = t.nodes.length ∧
      (∀ j, (∀ o, o < 5 → j ≠ fc + o) →
        (QuadTree.distribute_loop mx my fc fuel t h).nodes[j]? = t.nodes[j]?) ∧
      t.element_nodes.data.length ≤
        (QuadTree.distribute_loop mx my fc fuel t h).element_nodes.data.length ∧
      (QuadTree.distribute_loop mx my fc fuel t h).element_nodes.data.length ≤
        t.element_nodes.data.length + 1 ∧
      (t.element_nodes.first_free ≠ SENTINEL →
        (QuadTree.distribute_loop mx my fc fuel t h).element_nodes.data.length =
          t.element_nodes.data.length) ∧
      ffOK (QuadTree.distribute_loop mx my fc fuel t h).element_nodes = true ∧
      (∀ x, x ∉ hs → (∀ o, o < 5 → x ∉ N o) →
        (QuadTree.distribute_loop mx my fc fuel t h).element_nodes.atIdx x =
          t.element_nodes.atIdx x) ∧
      (∀ x ∈ hs, (∀ o, o < 5 → x ∉ N o) →
        (QuadTree.distribute_loop mx my fc fuel t h).element_nodes.atIdx x = none) ∧
      (∀ o, o < 5 → ∀ x ∈ N o, x ∈ hs ∨ liveAt t.element_nodes x = false) ∧
      (N 0 ++ N 1 ++ N 2 ++ N 3 ++ N 4).Nodup ∧
      ((N 0 ++ N 1 ++ N 2 ++ N 3 ++ N 4).map
        (handleIdx (QuadTree.distribute_loop mx my fc fuel t h))).Perm (hs.map (handleIdx t)) ∧
      (∀ o, o < 5 → ∀ x ∈ N o,
        routeOffset mx my (rectAt (QuadTree.distribute_loop mx my fc fuel t h)
          (handleIdx (QuadTree.distribute_loop mx my fc fuel t h) x)) = o) ∧
      (QuadTree.distribute_loop mx my fc fuel t h).element_ids = t.element_ids ∧
      (QuadTree.distribute_loop mx my fc fuel t h).element_rects = t.element_rects ∧
      (QuadTree.distribute_loop mx my fc fuel t h).root_rect = t.root_rect ∧
      (QuadTree.distribute_loop mx my fc fuel t h).free_node = t.free_node ∧
      (QuadTree.distribute_loop mx my fc fuel t h).max_num_elements = t.max_num_elements ∧
      (QuadTree.distribute_loop mx my fc fuel t h).smallest_cell_size = t.smallest_cell_size ∧
      (QuadTree.distribute_loop mx my fc fuel t h).max_depth = t.max_depth := by
  intro hs
  induction hs with
  | nil =>
    intro fuel t h cs hdec _ hffok hcs hcount _ _ _ _ _ _ hfuel
    obtain ⟨k, rfl⟩ : ∃ k, fuel = k + 1 := ⟨fuel - 1, by omega⟩
    have hne : h = SENTINEL := by
      by_contra hne
      obtain ⟨node, rest, -, heq, -⟩ :=
        elemChain_inv t.element_nodes _ h _ hdec hne
      simp at heq
    have hloop : QuadTree.distribute_loop mx my fc (k + 1) t h = t := by
      rw [QuadTree.distribute_loop, if_pos hne]
    rw [hloop]
    exact ⟨fun _ => [], fun o ho => by simpa using hcs o ho, fun o ho => by
      simpa using hcount o ho, rfl, fun j _ => rfl, le_refl _, by omega,
      fun _ => rfl, hffok, fun x hx _ => rfl, by simp, fun o ho x hx => by simp at hx,
      by simp, by simp, fun o ho x hx => by simp at hx, rfl, rfl, rfl, rfl, rfl,
      rfl, rfl⟩
  | cons hh hs2 ih =>
    intro fuel t h cs hdec hnd hffok hcs hcount hcsnd hdisj hcslt hor hfc hcap hfuel
    obtain ⟨k, rfl⟩ : ∃ k, fuel = k + 1 := ⟨fuel - 1, by omega⟩
    have hne : h ≠ SENTINEL := by
      intro hcon
      rw [hcon] at hdec
      simp only [elemChain, eq_self_iff_true, if_true, Option.some.injEq] at hdec
      exact List.cons_ne_nil _ _ hdec.symm
    obtain ⟨nodeH, rest, ha, heq, hrest⟩ :=
      elemChain_inv t.element_nodes _ h _ hdec hne
    obtain ⟨rfl, rfl⟩ : hh = h ∧ hs2 = rest := by simpa using heq
    have hh_ni : hh ∉ hs2 := (List.nodup_cons.mp hnd).1
    have hnd2 : hs2.Nodup := (List.nodup_cons.mp hnd).2
    have hread : (t.element_nodes.atIdx hh).getD ⟨SENTINEL, SENTINEL⟩ = nodeH := by
      rw [ha]; rfl
    have hjx : handleIdx t hh = nodeH.element_idx := by
      unfold handleIdx
      rw [ha]
      rfl
    have horh : rectOriented (rectAt t nodeH.element_idx) = true := by
      rw [← hjx]
      exact hor hh (List.mem_cons_self _ _)
    have hlive_hh : liveAt t.element_nodes hh = true := by
      unfold liveAt
      rw [ha]
      rfl
    have hh_lt : hh < t.element_nodes.data.length := atIdx_lt _ _ _ ha
    have hlive_hs : ∀ x ∈ hh :: hs2, ∃ nd, t.element_nodes.atIdx x = some nd := by
      intro x hx
      exact (elemChain_mem t.element_nodes _ _ _ hdec x hx).2
    have hhs_lt : ∀ x ∈ hh :: hs2, x < t.element_nodes.data.length := by
      intro x hx
      obtain ⟨nd, hx'⟩ := hlive_hs x hx
      exact atIdx_lt _ _ _ hx'
    set ro := routeOffset mx my (rectAt t nodeH.element_idx) with hrodef
    have hro5 : ro < 5 := routeOffset_lt5 _ _ _
    have hfcro : fc + ro < t.nodes.length := hfc ro hro5
    obtain ⟨hlen1or, hnewh_lt, hlen1_ge, hff1, hffok1, hnewh_dead, hnewh_cell,
        hagree1, hff_len1⟩ :=
      freelist_insert_spec t.element_nodes
        ⟨(t.nodeAt (fc + ro)).first_child_or_element, nodeH.element_idx⟩ hffok
    set newh := (t.element_nodes.insert
      ⟨(t.nodeAt (fc + ro)).first_child_or_element, nodeH.element_idx⟩).1 with hnewhdef
    set e1 := (t.element_nodes.insert
      ⟨(t.nodeAt (fc + ro)).first_child_or_element, nodeH.element_idx⟩).2 with he1def
    have hlen1_le : e1.data.length ≤ t.element_nodes.data.length + 1 := by
      rcases hlen1or with h1 | h1 <;> omega
    have hnewh_ne_sent : newh ≠ SENTINEL := by
      have hS : newh < SENTINEL := by
        rcases hcap with hc1 | ⟨hc2, hc3⟩
        · omega
        · have he := hff_len1 hc2
          omega
      omega
    have hnewh_ne_hh : newh ≠ hh := by
      intro hc
      have hd := hnewh_dead
      rw [hc, hlive_hh] at hd
      simp at hd
    have hmem_ne_newh : ∀ x ∈ hh :: hs2, x ≠ newh := by
      intro x hx hcon
      obtain ⟨nd, hx'⟩ := hlive_hs x hx
      rw [hcon] at hx'
      have hd := hnewh_dead
      unfold liveAt at hd
      rw [hx'] at hd
      simp at hd
    have hcs_live : ∀ o, o < 5 → ∀ x ∈ cs o, ∃ nd, t.element_nodes.atIdx x = some nd := by
      intro o ho x hx
      have hc := hcs o ho
      unfold chainAt at hc
      exact (elemChain_mem t.element_nodes _ _ _ hc x hx).2
    have hcs_ne_newh : ∀ o, o < 5 → ∀ x ∈ cs o, x ≠ newh := by
      intro o ho x hx hcon
      obtain ⟨nd, hx'⟩ := hcs_live o ho x hx
      rw [hcon] at hx'
      have hd := hnewh_dead
      unfold liveAt at hd
      rw [hx'] at hd
      simp at hd
    have hcs_ne_hh : ∀ o, o < 5 → ∀ x ∈ cs o, x ≠ hh := by
      intro o ho x hx hcon
      exact hdisj o ho x hx (by rw [hcon]; exact List.mem_cons_self _ _)
    set t1 := t.insert_element_in_child_node (fc + ro) nodeH.element_idx with ht1def
    set t2 := { t1 with element_nodes := t1.element_nodes.erase hh } with ht2def
    obtain ⟨hlen2, hff2, hffok2, hdead2, hagree2⟩ :=
      freelist_erase_spec e1 hh (by omega)
    have ht2len : t2.element_nodes.data.length = e1.data.length := hlen2
    have hff2' : t2.element_nodes.first_free = hh := hff2
    have hffok2' : ffOK t2.element_nodes = true := hffok2
    have hagree_t2 : ∀ x, x ≠ hh → x ≠ newh →
        t2.element_nodes.atIdx x = t.element_nodes.atIdx x := by
      intro x hx1 hx2
      have h1 : t2.element_nodes.atIdx x = e1.atIdx x := hagree2 x hx1
      rw [h1, hagree1 x hx2]
    have hcell_t2 : t2.element_nodes.atIdx newh =
        some ⟨(t.nodeAt (fc + ro)).first_child_or_element, nodeH.element_idx⟩ := by
      have h1 : t2.element_nodes.atIdx newh = e1.atIdx newh := hagree2 newh hnewh_ne_hh
      rw [h1]
      exact hnewh_cell
    have ht2node_ro : t2.nodeAt (fc + ro) =
        ⟨newh, (t.nodeAt (fc + ro)).element_count + 1⟩ := by
      show (t.nodes.set (fc + ro) ⟨newh, (t.nodeAt (fc + ro)).element_count + 1⟩).getD
        (fc + ro) Node.default = _
      rw [List.getD_eq_getElem?_getD, List.getElem?_set_self (by simpa using hfcro)]
      rfl
    have ht2node_ne : ∀ j, j ≠ fc + ro → t2.nodeAt j = t.nodeAt j := by
      intro j hj
      show (t.nodes.set (fc + ro) ⟨newh, (t.nodeAt (fc + ro)).element_count + 1⟩).getD
        j Node.default = t.nodes.getD j Node.default
      rw [List.getD_eq_getElem?_getD, List.getD_eq_getElem?_getD,
        List.getElem?_set_ne (Ne.symm hj)]
    have ht2nlen : t2.nodes.length = t.nodes.length := by
      show (t.nodes.set (fc + ro) ⟨newh, (t.nodeAt (fc + ro)).element_count + 1⟩).length = _
      simp
    have hnewh_notin_cs : newh ∉ cs ro := fun hmem => (hcs_ne_newh ro hro5 newh hmem) rfl
    have hext : (newh :: cs ro).Nodup :=
      List.nodup_cons.mpr ⟨hnewh_notin_cs, hcsnd ro hro5⟩
    have hextlen : (newh :: cs ro).length ≤ e1.data.length :=
      nodup_length_le_of_lt _ _ hext (by
        intro x hx
        rcases List.mem_cons.mp hx with rfl | hx2
        · exact hnewh_lt
        · have := hcslt ro hro5 x hx2
          omega)
    have hstep : QuadTree.distribute_loop mx my fc (k + 1) t hh =
        QuadTree.distribute_loop mx my fc k t2 nodeH.next := by
      simp only [QuadTree.distribute_loop]
      rw [if_neg hne]
      simp only [hread]
      rw [show ((t.element_rects.atIdx nodeH.element_idx).getD (AABB.new 0 0 0 0)) =
        rectAt t nodeH.element_idx from rfl]
      rw [assign_eq_route t mx my fc nodeH.element_idx (rectAt t nodeH.element_idx) horh]
    rw [hstep]
    have hrest2 : elemChain t2.element_nodes (t2.element_nodes.data.length + 1)
        nodeH.next = some hs2 := by
      have hag : ∀ x ∈ hs2, t2.element_nodes.atIdx x = t.element_nodes.atIdx x :=
        fun x hx => hagree_t2 x (fun hc => hh_ni (hc ▸ hx))
          (hmem_ne_newh x (List.mem_cons_of_mem _ hx))
      have hcg := elemChain_congr t.element_nodes t2.element_nodes _ _ _ hrest hag
      have hb : hs2.length ≤ t.element_nodes.data.length :=
        nodup_length_le_of_lt _ _ hnd2
          (fun x hx => hhs_lt x (List.mem_cons_of_mem _ hx))
      refine elemChain_fuel_of_length _ _ _ _ hcg _ ?_
      rw [ht2len]
      omega
    set cs2 : Nat → List Nat := fun o => if o = ro then newh :: cs o else cs o with hcs2def
    have hcs2 : ∀ o, o < 5 → chainAt t2 (fc + o) = some (cs2 o) := by
      intro o ho
      by_cases hco : o = ro
      · subst hco
        simp only [hcs2def, if_true]
        refine chainAt_cons t t2 (fc + ro) newh nodeH.element_idx (cs ro) (hcs ro ho)
          (by rw [ht2node_ro]) hcell_t2 hnewh_ne_sent ?_ ?_
        · rw [ht2len]
          have hb := hextlen
          simp only [List.length_cons] at hb
          omega
        · intro x hx
          exact hagree_t2 x (hcs_ne_hh ro ho x hx) (hcs_ne_newh ro ho x hx)
      · simp only [hcs2def]
        rw [if_neg hco]
        refine chainAt_eq_of t t2 (fc + o) (cs o) (hcs o ho) ?_ ?_ ?_
        · rw [ht2node_ne (fc + o) (by omega)]
        · rw [ht2len]
          have hb := nodup_length_le_of_lt _ _ (hcsnd o ho) (hcslt o ho)
          omega
        · intro x hx
          exact hagree_t2 x (hcs_ne_hh o ho x hx) (hcs_ne_newh o ho x hx)
    have hcount2 : ∀ o, o < 5 → (t2.nodeAt (fc + o)).element_count = (cs2 o).length := by
      intro o ho
      by_cases hco : o = ro
      · subst hco
        simp only [hcs2def, if_true]
        rw [ht2node_ro]
        show (t.nodeAt (fc + ro)).element_count + 1 = (newh :: cs ro).length
        rw [hcount ro ho]
        simp
      · simp only [hcs2def]
        rw [if_neg hco, ht2node_ne (fc + o) (by omega)]
        exact hcount o ho
    have hcsnd2 : ∀ o, o < 5 → (cs2 o).Nodup := by
      intro o ho
      by_cases hco : o = ro
      · subst hco
        simp only [hcs2def, if_true]
        exact hext
      · simp only [hcs2def]
        rw [if_neg hco]
        exact hcsnd o ho
    have hdisj2 : ∀ o, o < 5 → ∀ x ∈ cs2 o, x ∉ hs2 := by
      intro o ho x hx hmem
      simp only [hcs2def] at hx
      by_cases hco : o = ro
      · rw [if_pos hco] at hx
        rcases List.mem_cons.mp hx with rfl | hx2
        · exact (hmem_ne_newh newh (List.mem_cons_of_mem _ hmem)) rfl
        · exact hdisj o ho x hx2 (List.mem_cons_of_mem _ hmem)
      · rw [if_neg hco] at hx
        exact hdisj o ho x hx (List.mem_cons_of_mem _ hmem)
    have hcslt2 : ∀ o, o < 5 → ∀ x ∈ cs2 o, x < t2.element_nodes.data.length := by
      intro o ho x hx
      rw [ht2len]
      simp only [hcs2def] at hx
      by_cases hco : o = ro
      · rw [if_pos hco] at hx
        rcases List.mem_cons.mp hx with rfl | hx2
        · exact hnewh_lt
        · have := hcslt o ho x hx2
          omega
      · rw [if_neg hco] at hx
        have := hcslt o ho x hx
        omega
    have hor2 : ∀ x ∈ hs2, rectOriented (rectAt t2 (handleIdx t2 x)) = true := by
      intro x hx
      have hagx : t2.element_nodes.atIdx x = t.element_nodes.atIdx x :=
        hagree_t2 x (fun hc => hh_ni (hc ▸ hx))
          (hmem_ne_newh x (List.mem_cons_of_mem _ hx))
      have hidx : handleIdx t2 x = handleIdx t x := by
        unfold handleIdx
        rw [hagx]
      rw [hidx]
      rw [show rectAt t2 (handleIdx t x) = rectAt t (handleIdx t x) from rfl]
      exact hor x (List.mem_cons_of_mem _ hx)
    have hfc2 : ∀ o, o < 5 → fc + o < t2.nodes.length := by
      intro o ho
      rw [ht2nlen]
      exact hfc o ho
    have hcap2 : t2.element_nodes.data.length + 1 < SENTINEL ∨
        (t2.element_nodes.first_free ≠ SENTINEL ∧
          t2.element_nodes.data.length < SENTINEL) := by
      right
      refine ⟨by rw [hff2']; exact hne, ?_⟩
      rw [ht2len]
      rcases hcap with hc1 | ⟨hc2, hc3⟩
      · omega
      · rw [hff_len1 hc2]
        exact hc3
    have hfuel2 : hs2.length < k := by
      have h5 := hfuel
      simp only [List.length_cons] at h5
      omega
    obtain ⟨N', hN1, hN2, hN3, hN4, hN5, hN6, hN7, hN8, hN9, hN10, hN11, hN12,
        hN13, hN14, hN15, hN16, hN17, hN18, hN19, hN20, hN21⟩ :=
      ih k t2 nodeH.next cs2 hrest2 hnd2 hffok2' hcs2 hcount2 hcsnd2 hdisj2
        hcslt2 hor2 hfc2 hcap2 hfuel2
    set u := QuadTree.distribute_loop mx my fc k t2 nodeH.next with hudef
    have hulen : u.element_nodes.data.length = e1.data.length := by
      have h7 := hN7 (by rw [hff2']; exact hne)
      rw [ht2len] at h7
      exact h7
    have hnewh_notin_N' : ∀ o, o < 5 → newh ∉ N' o := by
      intro o ho hmem
      rcases hN11 o ho newh hmem with hmem2 | hdead
      · exact (hmem_ne_newh newh (List.mem_cons_of_mem _ hmem2)) rfl
      · unfold liveAt at hdead
        rw [hcell_t2] at hdead
        simp at hdead
    have hsrcN' : ∀ o, o < 5 → ∀ x ∈ N' o,
        x ∈ hh :: hs2 ∨ liveAt t.element_nodes x = false := by
      intro o ho x hx1
      rcases hN11 o ho x hx1 with hmem | hdead
      · exact Or.inl (List.mem_cons_of_mem _ hmem)
      · by_cases hxh : x = hh
        · exact Or.inl (by rw [hxh]; exact List.mem_cons_self _ _)
        · by_cases hxn : x = newh
          · right
            rw [hxn]
            exact hnewh_dead
          · right
            have hag := hagree_t2 x hxh hxn
            unfold liveAt at hdead ⊢
            rw [hag] at hdead
            exact hdead
    have hu_newh : handleIdx u newh = nodeH.element_idx := by
      unfold handleIdx
      rw [hN9 newh (fun hc => (hmem_ne_newh newh (List.mem_cons_of_mem _ hc)) rfl)
        hnewh_notin_N', hcell_t2]
      rfl
    have hperm_ins : ((if (0 : Nat) = ro then N' 0 ++ [newh] else N' 0) ++
        (if (1 : Nat) = ro then N' 1 ++ [newh] else N' 1) ++
        (if (2 : Nat) = ro then N' 2 ++ [newh] else N' 2) ++
        (if (3 : Nat) = ro then N' 3 ++ [newh] else N' 3) ++
        (if (4 : Nat) = ro then N' 4 ++ [newh] else N' 4)).Perm
        ((N' 0 ++ N' 1 ++ N' 2 ++ N' 3 ++ N' 4) ++ [newh]) := by
      rw [← Multiset.coe_eq_coe]
      have hcase : ro = 0 ∨ ro = 1 ∨ ro = 2 ∨ ro = 3 ∨ ro = 4 := by omega
      rcases hcase with hc | hc | hc | hc | hc <;>
      · rw [hc]
        simp only [reduceIte]
        simp only [← Multiset.coe_add]
        abel
    have hnd_all : ((N' 0 ++ N' 1 ++ N' 2 ++ N' 3 ++ N' 4) ++ [newh]).Nodup := by
      refine List.Nodup.append hN12 (List.nodup_singleton _) ?_
      intro a ha2 hb
      rw [List.mem_singleton.mp hb] at ha2
      simp only [List.mem_append] at ha2
      rcases ha2 with ((((h0 | h1) | h2) | h3) | h4)
      · exact hnewh_notin_N' 0 (by norm_num) h0
      · exact hnewh_notin_N' 1 (by norm_num) h1
      · exact hnewh_notin_N' 2 (by norm_num) h2
      · exact hnewh_notin_N' 3 (by norm_num) h3
      · exact hnewh_notin_N' 4 (by norm_num) h4
    set N : Nat → List Nat := fun o => if o = ro then N' o ++ [newh] else N' o with hNdef
    refine ⟨N, ?_, ?_, ?_, ?_, ?_, ?_, ?_, ?_, ?_, ?_, ?_, ?_, ?_, ?_, ?_, ?_,
      ?_, ?_, ?_, ?_, ?_⟩
    · intro o ho
      have h1 := hN1 o ho
      simp only [hcs2def] at h1
      simp only [hNdef]
      by_cases hco : o = ro
      · rw [if_pos hco] at h1 ⊢
        rw [h1]
        simp
      · rw [if_neg hco] at h1 ⊢
        exact h1
    · intro o ho
      have h1 := hN2 o ho
      simp only [hcs2def] at h1
      simp only [hNdef]
      by_cases hco : o = ro
      · rw [if_pos hco] at h1 ⊢
        rw [h1]
        simp only [List.length_append, List.length_cons, List.length_nil]
        omega
      · rw [if_neg hco] at h1 ⊢
        exact h1
    · rw [hN3]
      exact ht2nlen
    · intro j hj
      rw [hN4 j hj]
      show (t.nodes.set (fc + ro) ⟨newh, (t.nodeAt (fc + ro)).element_count + 1⟩)[j]? =
        t.nodes[j]?
      rw [List.getElem?_set_ne (Ne.symm (hj ro hro5))]
    · rw [hulen]
      exact hlen1_ge
    · rw [hulen]
      exact hlen1_le
    · intro hc
      rw [hulen]
      exact hff_len1 hc
    · exact hN8
    · intro x hx hxN
      have hxN' : ∀ o, o < 5 → x ∉ N' o := by
        intro o ho hmem
        have hno := hxN o ho
        simp only [hNdef] at hno
        by_cases hco : o = ro
        · rw [if_pos hco] at hno
          exact hno (List.mem_append_left _ hmem)
        · rw [if_neg hco] at hno
          exact hno hmem
      have hxnewh : x ≠ newh := by
        intro hc
        have hno := hxN ro hro5
        simp only [hNdef, if_true] at hno
        exact hno (List.mem_append_right _ (by simp [hc]))
      have hx2 : x ∉ hs2 := fun hc => hx (List.mem_cons_of_mem _ hc)
      rw [hN9 x hx2 hxN']
      exact hagree_t2 x (fun hc => hx (by rw [hc]; exact List.mem_cons_self _ _)) hxnewh
    · intro x hx hxN
      have hxN' : ∀ o, o < 5 → x ∉ N' o := by
        intro o ho hmem
        have hno := hxN o ho
        simp only [hNdef] at hno
        by_cases hco : o = ro
        · rw [if_pos hco] at hno
          exact hno (List.mem_append_left _ hmem)
        · rw [if_neg hco] at hno
          exact hno hmem
      rcases List.mem_cons.mp hx with rfl | hx2
      · rw [hN9 x hh_ni hxN']
        exact hdead2
      · exact hN10 x hx2 hxN'
    · intro o ho x hx
      simp only [hNdef] at hx
      by_cases hco : o = ro
      · rw [if_pos hco] at hx
        rcases List.mem_append.mp hx with hx1 | hx1
        · exact hsrcN' o ho x hx1
        · right
          rw [List.mem_singleton.mp hx1]
          exact hnewh_dead
      · rw [if_neg hco] at hx
        exact hsrcN' o ho x hx
    · simp only [hNdef]
      exact hperm_ins.symm.nodup hnd_all
    · simp only [hNdef]
      refine (hperm_ins.map (handleIdx u)).trans ?_
      rw [List.map_append]
      have hmape : List.map (handleIdx u) [newh] = [nodeH.element_idx] := by
        simp [hu_newh]
      rw [hmape]
      have h2 : List.map (handleIdx t2) hs2 = List.map (handleIdx t) hs2 :=
        List.map_congr_left (fun x hx => by
          unfold handleIdx
          rw [hagree_t2 x (fun hc => hh_ni (hc ▸ hx))
            (hmem_ne_newh x (List.mem_cons_of_mem _ hx))])
      have h3 := hN13
      rw [h2] at h3
      refine (h3.append_right [nodeH.element_idx]).trans ?_
      have h4 : List.map (handleIdx t) (hh :: hs2) =
          nodeH.element_idx :: List.map (handleIdx t) hs2 := by
        rw [List.map_cons, hjx]
      rw [h4]
      exact List.perm_append_comm
    · intro o ho x hx
      simp only [hNdef] at hx
      by_cases hco : o = ro
      · rw [if_pos hco] at hx
        rcases List.mem_append.mp hx with hx1 | hx1
        · exact hN14 o ho x hx1
        · rw [List.mem_singleton.mp hx1, hu_newh]
          have hrectu : rectAt u nodeH.element_idx = rectAt t nodeH.element_idx := by
            unfold rectAt
            rw [show u.element_rects = t.element_rects from hN16.trans rfl]
          rw [hrectu, hco]
      · rw [if_neg hco] at hx
        exact hN14 o ho x hx
    · exact hN15.trans rfl
    · exact hN16.trans rfl
    · exact hN17.trans rfl
    · exact hN18.trans rfl
    · exact hN19.trans rfl
    · exact hN20.trans rfl
    · exact hN21.trans rfl

theorem decode_fuel_spans (nodes : List Node) :
    ∀ f i S, decodeTree nodes f i = some S →
      ∀ f2, (QTree.spans i S).length < f2 → decodeTree nodes f2 i = some S := by
  intro f
  induction f with
  | zero => intro i S h; simp [decodeTree] at h
  | succ k ih =>
    intro i S h f2 hf2
    obtain ⟨m, rfl⟩ : ∃ m, f2 = m + 1 := ⟨f2 - 1, by
      have := spans_length_pos i S
      omega⟩
    cases S with
    | leaf n =>
      obtain ⟨hg, hb⟩ := decode_leaf_inv nodes k i n h
      simp [decodeTree, hg, hb]
    | branch fc c0 c1 c2 c3 c4 =>
      obtain ⟨hg, h0, h1, h2, h3, h4⟩ := decode_branch_inv nodes k i fc c0 c1 c2 c3 c4 h
      have hlen : (QTree.spans i (QTree.branch fc c0 c1 c2 c3 c4)).length =
          1 + ((QTree.spans fc c0).length + (QTree.spans (fc + 1) c1).length +
          (QTree.spans (fc + 2) c2).length + (QTree.spans (fc + 3) c3).length +
          (QTree.spans (fc + 4) c4).length) := by
        simp [QTree.spans]
        omega
      have hq0 := spans_length_pos fc c0
      have hq1 := spans_length_pos (fc + 1) c1
      have hq2 := spans_length_pos (fc + 2) c2
      have hq3 := spans_length_pos (fc + 3) c3
      have hq4 := spans_length_pos (fc + 4) c4
      have e0 := ih fc c0 h0 m (by omega)
      have e1 := ih (fc + 1) c1 h1 m (by omega)
      have e2 := ih (fc + 2) c2 h2 m (by omega)
      have e3 := ih (fc + 3) c3 h3 m (by omega)
      have e4 := ih (fc + 4) c4 h4 m (by omega)
      simp [decodeTree, hg, NODE_IS_BRANCH, e0, e1, e2, e3, e4]

theorem eq_set5 {α : Type} (d : α) (l1 l2 : List α) (fc : Nat)
    (hlen : l2.length = l1.length)
    (hin : fc + 4 < l1.length)
    (hagree : ∀ j, (∀ o, o < 5 → j ≠ fc + o) → l2[j]? = l1[j]?) :
    l2 = ((((l1.set fc (l2.getD fc d)).set (fc + 1) (l2.getD (fc + 1) d)).set
      (fc + 2) (l2.getD (fc + 2) d)).set (fc + 3) (l2.getD (fc + 3) d)).set
      (fc + 4) (l2.getD (fc + 4) d) := by
  have hself : ∀ o, o < 5 → l2[fc + o]? = some (l2.getD (fc + o) d) := by
    intro o ho
    rw [List.getD_eq_getElem?_getD, List.getElem?_eq_getElem (by omega)]
    simp
  apply List.ext_getElem?
  intro j
  by_cases h4 : j = fc + 4
  · subst h4
    rw [List.getElem?_set_self (by simp; omega)]
    exact hself 4 (by omega)
  · rw [List.getElem?_set_ne (Ne.symm h4)]
    by_cases h3 : j = fc + 3
    · subst h3
      rw [List.getElem?_set_self (by simp; omega)]
      exact hself 3 (by omega)
    · rw [List.getElem?_set_ne (Ne.symm h3)]
      by_cases h2 : j = fc + 2
      · subst h2
        rw [List.getElem?_set_self (by simp; omega)]
        exact hself 2 (by omega)
      · rw [List.getElem?_set_ne (Ne.symm h2)]
        by_cases h1 : j = fc + 1
        · subst h1
          rw [List.getElem?_set_self (by simp; omega)]
          exact hself 1 (by omega)
        · rw [List.getElem?_set_ne (Ne.symm h1)]
          by_cases h0 : j = fc
          · subst h0
            rw [List.getElem?_set_self (by omega)]
            have := hself 0 (by omega)
            rw [Nat.add_zero] at this
            exact this
          · rw [List.getElem?_set_ne (Ne.symm h0)]
            refine hagree j ?_
            intro o ho
            interval_cases o <;> simp_all [Nat.add_zero]

theorem flatMap_congr (f g : Nat → List Nat) : ∀ (l : List Nat),
    (∀ x ∈ l, f x = g x) → l.flatMap f = l.flatMap g := by
  intro l
  induction l with
  | nil => intro _; rfl
  | cons a l ih =>
    intro h
    simp only [List.flatMap_cons, h a (List.mem_cons_self _ _),
      ih (fun x hx => h x (List.mem_cons_of_mem _ hx))]

theorem nodup_of_flatMap_mem (f : Nat → List Nat) : ∀ (l : List Nat) (a : Nat),
    (l.flatMap f).Nodup → a ∈ l → (f a).Nodup := by
  intro l
  induction l with
  | nil => intro a _ h; simp at h
  | cons b l ih =>
    intro a hnd ha
    rw [List.flatMap_cons] at hnd
    rcases List.mem_cons.mp ha with rfl | ha2
    · exact hnd.of_append_left
    · exact ih a hnd.of_append_right ha2

theorem mTargetT_branch_any (rect : AABB) (nd : NodeData) (fc : Nat)
    (a0 a1 a2 a3 a4 b0 b1 b2 b3 b4 : Node) :
    mTargetT rect nd (QTree.branch fc (QTree.leaf a0) (QTree.leaf a1) (QTree.leaf a2)
      (QTree.leaf a3) (QTree.leaf a4)) =
    mTargetT rect nd (QTree.branch fc (QTree.leaf b0) (QTree.leaf b1) (QTree.leaf b2)
      (QTree.leaf b3) (QTree.leaf b4)) := by
  simp only [mTargetT]

theorem nodes_getElem (t : QuadTree) (j : Nat) (h : j < t.nodes.length) :
    t.nodes[j]? = some (t.nodeAt j) := by
  unfold QuadTree.nodeAt
  rw [List.getD_eq_getElem?_getD, List.getElem?_eq_getElem h]
  simp

theorem grp5_nodup (a : Nat) : ([a, a + 1, a + 2, a + 3, a + 4] : List Nat).Nodup := by
  simp

theorem disjoint_of_flatMap_nodup (f : Nat → List Nat) : ∀ (l : List Nat) (a b x : Nat),
    (l.flatMap f).Nodup → a ∈ l → b ∈ l → x ∈ f a → x ∈ f b → a = b := by
  intro l
  induction l with
  | nil => intro a b x _ ha; simp at ha
  | cons c l ih =>
    intro a b x hnd ha hb hxa hxb
    rw [List.flatMap_cons] at hnd
    have hd := (List.nodup_append.mp hnd).2.2
    rcases List.mem_cons.mp ha with rfl | ha2
    · rcases List.mem_cons.mp hb with rfl | hb2
      · rfl
      · exact absurd (List.mem_flatMap.mpr ⟨b, hb2, hxb⟩) (fun hc => hd hxa hc)
    · rcases List.mem_cons.mp hb with rfl | hb2
      · exact absurd (List.mem_flatMap.mpr ⟨a, ha2, hxa⟩) (fun hc => hd hxb hc)
      · exact ih a b x (List.nodup_append.mp hnd).2.1 ha2 hb2 hxa hxb

theorem nodeAt_congr (t1 t2 : QuadTree) (j : Nat)
    (h : t1.nodes[j]? = t2.nodes[j]?) : t1.nodeAt j = t2.nodeAt j := by
  unfold QuadTree.nodeAt
  rw [List.getD_eq_getElem?_getD, List.getD_eq_getElem?_getD, h]

theorem ensure_interface (t : QuadTree) (T : QTree) (chain : List Nat)
    (hok : ElemsOK t T chain) :
    ∃ fcI tA chain2,
      t.ensure_child_nodes_exist = (fcI, tA) ∧
      tA.element_nodes = t.element_nodes ∧
      tA.element_ids = t.element_ids ∧
      tA.element_rects = t.element_rects ∧
      tA.root_rect = t.root_rect ∧
      tA.max_num_elements = t.max_num_elements ∧
      tA.smallest_cell_size = t.smallest_cell_size ∧
      tA.max_depth = t.max_depth ∧
      freeChainList tA.nodes (tA.nodes.length + 1) tA.free_node = some chain2 ∧
      fcI + 4 < tA.nodes.length ∧
      (∀ k, k < 5 → tA.nodes[fcI + k]? = some Node.default) ∧
      (∀ j, (∀ k, k < 5 → j ≠ fcI + k) → tA.nodes[j]? = t.nodes[j]?) ∧
      (∀ x ∈ chain2, x ∈ chain) ∧
      (∀ x ∈ chain2.flatMap groupIdxs, ∀ k, k < 5 → x ≠ fcI + k) ∧
      (∀ x ∈ chain2.flatMap groupIdxs, x ∈ chain.flatMap groupIdxs) ∧
      (QTree.spans 0 T ++ ([fcI, fcI + 1, fcI + 2, fcI + 3, fcI + 4] ++
        chain2.flatMap groupIdxs)).Nodup ∧
      (∀ i ∈ QTree.spans 0 T ++ ([fcI, fcI + 1, fcI + 2, fcI + 3, fcI + 4] ++
        chain2.flatMap groupIdxs), i < tA.nodes.length) ∧
      (∀ i, i < tA.nodes.length → i ∈ QTree.spans 0 T ++
        ([fcI, fcI + 1, fcI + 2, fcI + 3, fcI + 4] ++ chain2.flatMap groupIdxs)) ∧
      tA.nodes.length ≤ t.nodes.length + 5 ∧
      t.nodes.length ≤ tA.nodes.length := by
  by_cases hfn : t.free_node = SENTINEL
  · -- append a fresh group of five default leaves
    have hch0 : chain = [] := by
      have hc := hok.fchain
      rw [hfn] at hc
      have h2 : (some [] : Option (List Nat)) = some chain := by
        rw [← hc]
        simp [freeChainList]
      simpa using h2.symm
    have hens0 : t.ensure_child_nodes_exist = (t.nodes.length,
        { t with nodes := t.nodes ++ [Node.default, Node.default, Node.default,
          Node.default, Node.default] }) := by
      unfold QuadTree.ensure_child_nodes_exist
      rw [if_neg (not_not_intro hfn)]
    have hcovlt_sp : ∀ j ∈ QTree.spans 0 T, j < t.nodes.length :=
      fun j hj => hok.cover_lt j (List.mem_append_left _ hj)
    refine ⟨t.nodes.length, _, [], hens0, rfl, rfl, rfl, rfl, rfl, rfl, rfl,
      ?_, ?_, ?_, ?_, ?_, ?_, ?_, ?_, ?_, ?_, ?_, ?_⟩
    · show freeChainList _ (_ + 1) t.free_node = some []
      rw [hfn]
      simp [freeChainList]
    · simp only [List.length_append, List.length_cons, List.length_nil]
      omega
    · intro k hk
      show (t.nodes ++ _)[t.nodes.length + k]? = some Node.default
      rw [List.getElem?_append_right (by omega)]
      have he : t.nodes.length + k - t.nodes.length = k := by omega
      rw [he]
      interval_cases k <;> rfl
    · intro j hj
      show (t.nodes ++ _)[j]? = t.nodes[j]?
      by_cases hlt : j < t.nodes.length
      · rw [List.getElem?_append_left hlt]
      · have h1 : t.nodes[j]? = none := List.getElem?_eq_none (by omega)
        have h2 : (t.nodes ++ [Node.default, Node.default, Node.default,
            Node.default, Node.default])[j]? = none := by
          refine List.getElem?_eq_none ?_
          simp only [List.length_append, List.length_cons, List.length_nil]
          have h5 : j ≠ t.nodes.length + 0 := by simpa using hj 0 (by omega)
          have h6 : j ≠ t.nodes.length + 1 := hj 1 (by omega)
          have h7 : j ≠ t.nodes.length + 2 := hj 2 (by omega)
          have h8 : j ≠ t.nodes.length + 3 := hj 3 (by omega)
          have h9 : j ≠ t.nodes.length + 4 := hj 4 (by omega)
          omega
        rw [h1, h2]
    · intro x hx
      simp at hx
    · intro x hx
      simp at hx
    · intro x hx
      simp at hx
    · simp only [List.flatMap_nil, List.append_nil]
      refine List.Nodup.append hok.cover_nodup.of_append_left (grp5_nodup _) ?_
      intro a ha hb
      have hlt := hcovlt_sp a ha
      simp at hb
      omega
    · intro i hi
      simp only [List.flatMap_nil, List.append_nil, List.mem_append] at hi
      show i < (t.nodes ++ _).length
      simp only [List.length_append, List.length_cons, List.length_nil]
      rcases hi with hi | hi
      · have := hcovlt_sp i hi
        omega
      · simp at hi
        omega
    · intro i hi
      show i ∈ _
      simp only [List.flatMap_nil, List.append_nil, List.mem_append]
      have hi' : i < t.nodes.length + 5 := by
        simpa [List.length_append] using hi
      by_cases hlt : i < t.nodes.length
      · left
        have := hok.cover_all i hlt
        rw [hch0] at this
        simpa using this
      · right
        simp only [List.mem_cons, List.mem_singleton]
        omega
    · show (t.nodes ++ _).length ≤ t.nodes.length + 5
      simp
    · show t.nodes.length ≤ (t.nodes ++ _).length
      simp
  · -- recycle the first free node group
    obtain ⟨node1, ctail, hnode1, hchainshape, hctail⟩ :=
      freeChain_inv t.nodes t.nodes.length t.free_node chain hok.fchain hfn
    have hfc_grp : ∀ k, k < 5 → t.free_node + k ∈ chain.flatMap groupIdxs := by
      intro k hk
      rw [hchainshape]
      simp only [List.flatMap_cons, List.mem_append]
      left
      unfold groupIdxs
      interval_cases k <;> simp
    have hfc_lt : ∀ k, k < 5 → t.free_node + k < t.nodes.length := by
      intro k hk
      exact hok.cover_lt _ (List.mem_append_right _ (hfc_grp k hk))
    have hfree1 := hok.freegroups t.free_node
      (by rw [hchainshape]; exact List.mem_cons_self _ _)
    have hens0 : t.ensure_child_nodes_exist = (t.free_node,
        { t with nodes := t.nodes.set t.free_node Node.default,
                 free_node := (t.nodeAt t.free_node).first_child_or_element }) := by
      unfold QuadTree.ensure_child_nodes_exist
      rw [if_pos hfn]
    have hcovnd := hok.cover_nodup
    rw [hchainshape] at hcovnd
    simp only [List.flatMap_cons] at hcovnd
    have hdisj2 : (groupIdxs t.free_node).Disjoint (ctail.flatMap groupIdxs) :=
      (List.nodup_append.mp hcovnd.of_append_right).2.2
    have hfcI_notin_ctail : t.free_node ∉ ctail := by
      intro hmem
      have h1 : t.free_node ∈ groupIdxs t.free_node := by
        unfold groupIdxs
        simp
      have h2 : t.free_node ∈ ctail.flatMap groupIdxs :=
        List.mem_flatMap.mpr ⟨t.free_node, hmem, h1⟩
      exact hdisj2 h1 h2
    have hgrp_ne : ∀ x ∈ ctail.flatMap groupIdxs, ∀ k, k < 5 →
        x ≠ t.free_node + k := by
      intro x hx k hk hcon
      refine hdisj2 ?_ hx
      unfold groupIdxs
      rw [hcon]
      interval_cases k <;> simp
    have htAfree_eq : (t.nodeAt t.free_node).first_child_or_element =
        node1.first_child_or_element := by
      unfold QuadTree.nodeAt
      rw [List.getD_eq_getElem?_getD, hnode1]
      rfl
    refine ⟨t.free_node, _, ctail, hens0, rfl, rfl, rfl, rfl, rfl, rfl, rfl,
      ?_, ?_, ?_, ?_, ?_, ?_, ?_, ?_, ?_, ?_, ?_, ?_⟩
    · show freeChainList (t.nodes.set t.free_node Node.default)
        ((t.nodes.set t.free_node Node.default).length + 1)
        ((t.nodeAt t.free_node).first_child_or_element) = some ctail
      rw [htAfree_eq, List.length_set]
      exact freeChain_mono _ _ _ _ _ (by omega)
        (freeChain_frame _ _ _ _ _ _ hctail hfcI_notin_ctail)
    · show t.free_node + 4 < (t.nodes.set t.free_node Node.default).length
      rw [List.length_set]
      exact hfc_lt 4 (by omega)
    · intro k hk
      have hklt := hfc_lt k hk
      show (t.nodes.set t.free_node Node.default)[t.free_node + k]? = some Node.default
      by_cases hk0 : k = 0
      · subst hk0
        rw [Nat.add_zero] at hklt ⊢
        rw [List.getElem?_set_self hklt]
      · rw [List.getElem?_set_ne (by omega)]
        obtain ⟨-, hd1, hd2, hd3, hd4⟩ := hfree1
        have hdef : t.nodeAt (t.free_node + k) = Node.default := by
          interval_cases k
          · exact absurd rfl hk0
          · exact hd1
          · exact hd2
          · exact hd3
          · exact hd4
        rw [nodes_getElem t _ hklt, hdef]
    · intro j hj
      show (t.nodes.set t.free_node Node.default)[j]? = t.nodes[j]?
      have h0 : j ≠ t.free_node := by
        have := hj 0 (by omega)
        omega
      rw [List.getElem?_set_ne (Ne.symm h0)]
    · intro x hx
      rw [hchainshape]
      exact List.mem_cons_of_mem _ hx
    · exact hgrp_ne
    · intro x hx
      rw [hchainshape]
      simp only [List.flatMap_cons, List.mem_append]
      right
      exact hx
    · show (QTree.spans 0 T ++ ([t.free_node, t.free_node + 1, t.free_node + 2,
        t.free_node + 3, t.free_node + 4] ++ ctail.flatMap groupIdxs)).Nodup
      have : groupIdxs t.free_node = [t.free_node, t.free_node + 1, t.free_node + 2,
          t.free_node + 3, t.free_node + 4] := rfl
      rw [← this]
      exact hcovnd
    · intro i hi
      show i < (t.nodes.set t.free_node Node.default).length
      rw [List.length_set]
      refine hok.cover_lt i ?_
      rw [hchainshape]
      simp only [List.flatMap_cons]
      exact hi
    · intro i hi
      rw [List.length_set] at hi
      have := hok.cover_all i hi
      rw [hchainshape] at this
      simp only [List.flatMap_cons] at this
      exact this
    · show (t.nodes.set t.free_node Node.default).length ≤ t.nodes.length + 5
      rw [List.length_set]
      omega
    · show t.nodes.length ≤ (t.nodes.set t.free_node Node.default).length
      rw [List.length_set]

theorem decode_branch_intro (nodes : List Node) (f i fc : Nat)
    (c0 c1 c2 c3 c4 : QTree)
    (hg : nodes[i]? = some ⟨fc, NODE_IS_BRANCH⟩)
    (h0 : decodeTree nodes f fc = some c0)
    (h1 : decodeTree nodes f (fc + 1) = some c1)
    (h2 : decodeTree nodes f (fc + 2) = some c2)
    (h3 : decodeTree nodes f (fc + 3) = some c3)
    (h4 : decodeTree nodes f (fc + 4) = some c4) :
    decodeTree nodes (f + 1) i = some (QTree.branch fc c0 c1 c2 c3 c4) := by
  simp [decodeTree, hg, NODE_IS_BRANCH, h0, h1, h2, h3, h4]

theorem split_step (t : QuadTree) (T : QTree) (chain : List Nat)
    (leaf : NodeData) (nL : Node)
    (hok : ElemsOK t T chain)
    (hvis : VisP t)
    (hdecL : decodedAt t leaf.index = some (QTree.leaf nL))
    (hmemL : leaf.index ∈ QTree.leafIdxs 0 T)
    (hvisL : (leaf.index, leaf.crect) ∈ qVis t)
    (hcapN : t.nodes.length + 5 ≤ SENTINEL)
    (hcapE : t.element_nodes.data.length + 1 < SENTINEL) :
    ∃ (T2 : QTree) (chain2 : List Nat) (N : Nat → List Nat),
      ElemsOK (t.distribute_elements_to_child_nodes leaf) T2 chain2 ∧
      VisP (t.distribute_elements_to_child_nodes leaf) ∧
      (t.distribute_elements_to_child_nodes leaf).element_ids = t.element_ids ∧
      (t.distribute_elements_to_child_nodes leaf).element_rects = t.element_rects ∧
      (t.distribute_elements_to_child_nodes leaf).root_rect = t.root_rect ∧
      (t.distribute_elements_to_child_nodes leaf).max_num_elements =
        t.max_num_elements ∧
      (t.distribute_elements_to_child_nodes leaf).smallest_cell_size =
        t.smallest_cell_size ∧
      (t.distribute_elements_to_child_nodes leaf).max_depth = t.max_depth ∧
      (t.distribute_elements_to_child_nodes leaf).nodes.length ≤ t.nodes.length + 5 ∧
      t.nodes.length ≤ (t.distribute_elements_to_child_nodes leaf).nodes.length ∧
      (t.distribute_elements_to_child_nodes leaf).element_nodes.data.length ≤
        t.element_nodes.data.length + 1 ∧
      t.element_nodes.data.length ≤
        (t.distribute_elements_to_child_nodes leaf).element_nodes.data.length ∧
      ((handlesOf (t.distribute_elements_to_child_nodes leaf) (QTree.leafIdxs 0 T2)).map
        (handleIdx (t.distribute_elements_to_child_nodes leaf))).Perm
        ((handlesOf t (QTree.leafIdxs 0 T)).map (handleIdx t)) ∧
      decodedAt (t.distribute_elements_to_child_nodes leaf) leaf.index =
        some (QTree.branch (t.ensure_child_nodes_exist).1
          (QTree.leaf ((t.distribute_elements_to_child_nodes leaf).nodeAt
            (t.ensure_child_nodes_exist).1))
          (QTree.leaf ((t.distribute_elements_to_child_nodes leaf).nodeAt
            ((t.ensure_child_nodes_exist).1 + 1)))
          (QTree.leaf ((t.distribute_elements_to_child_nodes leaf).nodeAt
            ((t.ensure_child_nodes_exist).1 + 2)))
          (QTree.leaf ((t.distribute_elements_to_child_nodes leaf).nodeAt
            ((t.ensure_child_nodes_exist).1 + 3)))
          (QTree.leaf ((t.distribute_elements_to_child_nodes leaf).nodeAt
            ((t.ensure_child_nodes_exist).1 + 4)))) ∧
      (∀ o, o < 5 →
        chainAt (t.distribute_elements_to_child_nodes leaf)
          ((t.ensure_child_nodes_exist).1 + o) = some (N o) ∧
        ((t.distribute_elements_to_child_nodes leaf).nodeAt
          ((t.ensure_child_nodes_exist).1 + o)).element_count = (N o).length ∧
        (t.ensure_child_nodes_exist).1 + o ∈ QTree.leafIdxs 0 T2) ∧
      (∀ (rect2 : AABB) (nd0 : NodeData), nd0.index = 0 →
        (mTargetT rect2 nd0 T).index = leaf.index →
        mTargetT rect2 nd0 T2 = mTargetT rect2 (mTargetT rect2 nd0 T)
          (QTree.branch (t.ensure_child_nodes_exist).1
            (QTree.leaf Node.default) (QTree.leaf Node.default) (QTree.leaf Node.default)
            (QTree.leaf Node.default) (QTree.leaf Node.default))) := by
  have hndspans : (QTree.spans 0 T).Nodup := hok.cover_nodup.of_append_left
  have hgspan : leaf.index ∈ QTree.spans 0 T := (leafIdxs_sublist_spans 0 T).subset hmemL
  have hglt : leaf.index < t.nodes.length :=
    hok.cover_lt _ (List.mem_append_left _ hgspan)
  have hnodesg : t.nodes[leaf.index]? = some nL := by
    have h1 := hdecL
    unfold decodedAt at h1
    exact (decode_leaf_inv t.nodes t.nodes.length leaf.index nL h1).1
  have hleafcount : nL.element_count ≠ NODE_IS_BRANCH := decode_leaf_count t _ nL hdecL
  have ht_node_g : t.nodeAt leaf.index = nL := by
    unfold QuadTree.nodeAt
    rw [List.getD_eq_getElem?_getD, hnodesg]
    rfl
  obtain ⟨hsL, hchL⟩ : ∃ l, chainAt t leaf.index = some l :=
    Option.isSome_iff_exists.mp (hok.chains_some _ hmemL)
  have hchDg : chainD t leaf.index = hsL := by simp [chainD, hchL]
  have hsub_handles : ∀ x ∈ hsL, x ∈ handlesOf t (QTree.leafIdxs 0 T) := by
    intro x hx
    exact List.mem_flatMap.mpr ⟨leaf.index, hmemL, by rw [hchDg]; exact hx⟩
  have hndL : hsL.Nodup := by
    have h1 := nodup_of_flatMap_mem (chainD t) (QTree.leafIdxs 0 T) leaf.index
      hok.handles_nodup hmemL
    rwa [hchDg] at h1
  have hliveL : ∀ x ∈ hsL, liveAt t.element_nodes x = true :=
    fun x hx => hok.handles_live x (hsub_handles x hx)
  have hltL : ∀ x ∈ hsL, x < t.element_nodes.data.length := by
    intro x hx
    have h1 := hliveL x hx
    unfold liveAt at h1
    cases ha : t.element_nodes.atIdx x with
    | none => rw [ha] at h1; simp at h1
    | some v => exact atIdx_lt _ _ _ ha
  have hlenL : hsL.length ≤ t.element_nodes.data.length :=
    nodup_length_le_of_lt _ _ hndL hltL
  have hndLT : (QTree.leafIdxs 0 T).Nodup :=
    (leafIdxs_sublist_spans 0 T).nodup hndspans
  obtain ⟨fcI, tA, chain2, hens, htAen, htAids, htArects, htAroot, htAmax, htAsmall,
      htAdepth, htAchain, htAlen4, htAg5, htAagree, htAsub, htAgrp, htAgrpmem,
      htAcovnd, htAcovlt, htAcovall, htAlen_le, htAlen_ge⟩ :=
    ensure_interface t T chain hok
  have hspans_ne_grp : ∀ j ∈ QTree.spans 0 T, ∀ k, k < 5 → j ≠ fcI + k := by
    intro j hj k hk hcon
    have h1 : j ∈ [fcI, fcI + 1, fcI + 2, fcI + 3, fcI + 4] := by
      rw [hcon]
      interval_cases k <;> simp
    exact (List.nodup_append.mp htAcovnd).2.2 hj (List.mem_append_left _ h1)
  set tB := tA.setNode leaf.index (Node.make_branch fcI) with htBdef
  have htBnodes : tB.nodes = tA.nodes.set leaf.index ⟨fcI, NODE_IS_BRANCH⟩ := rfl
  have htBen : tB.element_nodes = t.element_nodes := htAen
  have htBids : tB.element_ids = t.element_ids := htAids
  have htBrects : tB.element_rects = t.element_rects := htArects
  have htBroot : tB.root_rect = t.root_rect := htAroot
  have htBfree : tB.free_node = tA.free_node := rfl
  have hglt2 : leaf.index < tA.nodes.length := by omega
  have htBlen : tB.nodes.length = tA.nodes.length := by
    rw [htBnodes]
    simp
  have htBg : tB.nodes[leaf.index]? = some ⟨fcI, NODE_IS_BRANCH⟩ := by
    rw [htBnodes, List.getElem?_set_self hglt2]
  have htBg5 : ∀ k, k < 5 → tB.nodes[fcI + k]? = some Node.default := by
    intro k hk
    rw [htBnodes, List.getElem?_set_ne (hspans_ne_grp _ hgspan k hk)]
    exact htAg5 k hk
  have htBagree : ∀ j ∈ QTree.spans 0 T, j ≠ leaf.index →
      tB.nodes[j]? = t.nodes[j]? := by
    intro j hj hne
    rw [htBnodes, List.getElem?_set_ne (Ne.symm hne)]
    exact htAagree j (hspans_ne_grp j hj)
  have hgraftlen : (QTree.spans 0 (graftAt leaf.index fcI 0 T)).length =
      (QTree.spans 0 T).length + 5 := by
    have hms := spans_graft_ms leaf.index fcI [fcI, fcI + 1, fcI + 2, fcI + 3, fcI + 4]
      rfl 0 T hndspans hmemL
    have h2 := congrArg Multiset.card hms
    simpa using h2
  have hcovbound : (QTree.spans 0 T).length + 5 + (chain2.flatMap groupIdxs).length ≤
      tA.nodes.length := by
    have h1 := nodup_length_le_of_lt _ _ htAcovnd htAcovlt
    simp only [List.length_append, List.length_cons, List.length_nil] at h1
    omega
  have hdecB : decodeTree tB.nodes (tB.nodes.length + 1) 0 =
      some (graftAt leaf.index fcI 0 T) := by
    have h1 := decode_graft t.nodes tB.nodes leaf.index fcI nL hnodesg hleafcount htBg
      htBg5 (t.nodes.length + 1) 0 T (t.nodes.length + 2) hok.dec0 htBagree (by omega)
    refine decode_fuel_spans tB.nodes _ _ _ h1 _ ?_
    rw [htBlen, hgraftlen]
    omega
  have hg_notin_chain2 : leaf.index ∉ chain2 := by
    intro hmem
    have h2 : leaf.index ∈ chain2.flatMap groupIdxs :=
      List.mem_flatMap.mpr ⟨leaf.index, hmem, by unfold groupIdxs; simp⟩
    exact (List.nodup_append.mp hok.cover_nodup).2.2 hgspan (htAgrpmem _ h2)
  have hchainB : freeChainList tB.nodes (tB.nodes.length + 1) tB.free_node =
      some chain2 := by
    have h1 := freeChain_frame leaf.index ⟨fcI, NODE_IS_BRANCH⟩ tA.nodes
      (tA.nodes.length + 1) tA.free_node chain2 htAchain hg_notin_chain2
    rw [htBnodes, htBfree,
      show (tA.nodes.set leaf.index (⟨fcI, NODE_IS_BRANCH⟩ : Node)).length =
        tA.nodes.length by simp]
    exact h1
  have hfst : (t.ensure_child_nodes_exist).1 = fcI := by rw [hens]
  have hstep : t.distribute_elements_to_child_nodes leaf =
      QuadTree.distribute_loop leaf.crect.center_x leaf.crect.center_y fcI
        (tB.element_nodes.data.length + 1) tB nL.first_child_or_element := by
    have htAg_node : tA.nodeAt leaf.index = nL := by
      refine (nodeAt_congr tA t leaf.index ?_).trans ht_node_g
      exact htAagree leaf.index (hspans_ne_grp _ hgspan)
    unfold QuadTree.distribute_elements_to_child_nodes
    rw [hens]
    simp only [htAg_node, Node.get_first_element_node_index]
  have hdecChain : elemChain tB.element_nodes (tB.element_nodes.data.length + 1)
      nL.first_child_or_element = some hsL := by
    rw [htBen]
    have h1 := hchL
    unfold chainAt at h1
    rw [ht_node_g] at h1
    exact h1
  have horL : ∀ x ∈ hsL, rectOriented (rectAt tB (handleIdx tB x)) = true := by
    intro x hx
    have hidx : handleIdx tB x = handleIdx t x := by
      unfold handleIdx
      rw [htBen]
    have hrect : rectAt tB (handleIdx t x) = rectAt t (handleIdx t x) := by
      unfold rectAt
      rw [htBrects]
    rw [hidx, hrect]
    have hmemidx : handleIdx t x ∈ (handlesOf t (QTree.leafIdxs 0 T)).map (handleIdx t) :=
      List.mem_map.mpr ⟨x, hsub_handles x hx, rfl⟩
    exact (hok.idxs_good _ hmemidx).2.2.1
  obtain ⟨N, hD1, hD2, hD3, hD4, hD5, hD6, hD7, hD8, hD9, hD10, hD11, hD12, hD13,
      hD14, hD15, hD16, hD17, hD18, hD19, hD20, hD21⟩ :=
    distribute_loop_sim leaf.crect.center_x leaf.crect.center_y fcI hsL
      (tB.element_nodes.data.length + 1) tB nL.first_child_or_element (fun _ => [])
      hdecChain hndL (by rw [htBen]; exact hok.ffok_en)
      (by
        intro o ho
        have hnode : tB.nodeAt (fcI + o) = Node.default := by
          unfold QuadTree.nodeAt
          rw [List.getD_eq_getElem?_getD, htBg5 o ho]
          rfl
        unfold chainAt
        rw [hnode]
        show elemChain tB.element_nodes (tB.element_nodes.data.length + 1) SENTINEL =
          some []
        simp [elemChain])
      (by
        intro o ho
        have hnode : tB.nodeAt (fcI + o) = Node.default := by
          unfold QuadTree.nodeAt
          rw [List.getD_eq_getElem?_getD, htBg5 o ho]
          rfl
        rw [hnode]
        rfl)
      (fun o ho => List.nodup_nil)
      (fun o ho x hx => absurd hx (List.not_mem_nil x))
      (fun o ho x hx => absurd hx (List.not_mem_nil x))
      horL
      (by
        intro o ho
        rw [htBlen]
        omega)
      (Or.inl (by rw [htBen]; exact hcapE))
      (by
        rw [htBen]
        omega)
  rw [hstep, hfst]
  set u := QuadTree.distribute_loop leaf.crect.center_x leaf.crect.center_y fcI
    (tB.element_nodes.data.length + 1) tB nL.first_child_or_element with hudef
  have hulen_nodes : u.nodes.length = tA.nodes.length := by rw [hD3, htBlen]
  have hchild_chain : ∀ o, o < 5 → chainAt u (fcI + o) = some (N o) := by
    intro o ho
    have h1 := hD1 o ho
    simpa using h1
  have hchild_count : ∀ o, o < 5 → (u.nodeAt (fcI + o)).element_count = (N o).length := by
    intro o ho
    have h1 := hD2 o ho
    simpa using h1
  have hchild_live : ∀ o, o < 5 → ∀ x ∈ N o,
      ∃ nd, u.element_nodes.atIdx x = some nd := by
    intro o ho x hx
    have hc := hchild_chain o ho
    unfold chainAt at hc
    exact (elemChain_mem _ _ _ _ hc x hx).2
  have hchild_lt : ∀ o, o < 5 → ∀ x ∈ N o, x < u.element_nodes.data.length := by
    intro o ho x hx
    obtain ⟨nd, hnd⟩ := hchild_live o ho x hx
    exact atIdx_lt _ _ _ hnd
  have hulen_en : u.element_nodes.data.length ≤ t.element_nodes.data.length + 1 := by
    have h1 := hD6
    rw [htBen] at h1
    exact h1
  have hulen_en_ge : t.element_nodes.data.length ≤ u.element_nodes.data.length := by
    have h1 := hD5
    rw [htBen] at h1
    exact h1
  have hchild_nd : ∀ o, o < 5 → (N o).Nodup := by
    intro o ho
    interval_cases o
    · exact hD12.of_append_left.of_append_left.of_append_left.of_append_left
    · exact hD12.of_append_left.of_append_left.of_append_left.of_append_right
    · exact hD12.of_append_left.of_append_left.of_append_right
    · exact hD12.of_append_left.of_append_right
    · exact hD12.of_append_right
  have hcount_ne_branch : ∀ o, o < 5 →
      (u.nodeAt (fcI + o)).element_count ≠ NODE_IS_BRANCH := by
    intro o ho
    rw [hchild_count o ho]
    have h1 : (N o).length ≤ u.element_nodes.data.length :=
      nodup_length_le_of_lt _ _ (hchild_nd o ho) (hchild_lt o ho)
    intro hcon
    have h2 : NODE_IS_BRANCH = SENTINEL := rfl
    omega
  have hx_leaf : ∀ o, o < 5 → u.nodes[fcI + o]? = some (u.nodeAt (fcI + o)) := by
    intro o ho
    refine nodes_getElem u _ ?_
    rw [hulen_nodes]
    omega
  have hnodeAt_getD : ∀ j, u.nodes.getD j Node.default = u.nodeAt j := fun j => rfl
  have hueq : u.nodes = ((((tB.nodes.set fcI (u.nodeAt fcI)).set
      (fcI + 1) (u.nodeAt (fcI + 1))).set
      (fcI + 2) (u.nodeAt (fcI + 2))).set
      (fcI + 3) (u.nodeAt (fcI + 3))).set
      (fcI + 4) (u.nodeAt (fcI + 4)) := by
    have h1 := eq_set5 Node.default tB.nodes u.nodes fcI hD3 (by rw [htBlen]; omega) hD4
    simpa only [hnodeAt_getD] using h1
  have hBleafdef : Node.default.element_count ≠ NODE_IS_BRANCH := by
    show (0 : Nat) ≠ NODE_IS_BRANCH
    unfold NODE_IS_BRANCH
    omega
  have hdec1 : decodeTree (tB.nodes.set fcI (u.nodeAt fcI)) (tB.nodes.length + 1) 0 =
      some (setLeafAt fcI (u.nodeAt fcI) 0 (graftAt leaf.index fcI 0 T)) := by
    refine decode_set_leaf tB.nodes fcI (u.nodeAt fcI) Node.default ?_ hBleafdef
      (hcount_ne_branch 0 (by omega)) _ _ _ hdecB
    have h1 := htBg5 0 (by omega)
    rwa [Nat.add_zero] at h1
  have hn1g : (tB.nodes.set fcI (u.nodeAt fcI))[fcI + 1]? = some Node.default := by
    rw [List.getElem?_set_ne (by omega)]
    exact htBg5 1 (by omega)
  have hdec2 := decode_set_leaf _ (fcI + 1) (u.nodeAt (fcI + 1)) Node.default hn1g
    hBleafdef (hcount_ne_branch 1 (by omega)) _ _ _ hdec1
  have hn2g : ((tB.nodes.set fcI (u.nodeAt fcI)).set (fcI + 1)
      (u.nodeAt (fcI + 1)))[fcI + 2]? = some Node.default := by
    rw [List.getElem?_set_ne (by omega), List.getElem?_set_ne (by omega)]
    exact htBg5 2 (by omega)
  have hdec3 := decode_set_leaf _ (fcI + 2) (u.nodeAt (fcI + 2)) Node.default hn2g
    hBleafdef (hcount_ne_branch 2 (by omega)) _ _ _ hdec2
  have hn3g : (((tB.nodes.set fcI (u.nodeAt fcI)).set (fcI + 1)
      (u.nodeAt (fcI + 1))).set (fcI + 2) (u.nodeAt (fcI + 2)))[fcI + 3]? =
      some Node.default := by
    rw [List.getElem?_set_ne (by omega), List.getElem?_set_ne (by omega),
      List.getElem?_set_ne (by omega)]
    exact htBg5 3 (by omega)
  have hdec4 := decode_set_leaf _ (fcI + 3) (u.nodeAt (fcI + 3)) Node.default hn3g
    hBleafdef (hcount_ne_branch 3 (by omega)) _ _ _ hdec3
  have hn4g : ((((tB.nodes.set fcI (u.nodeAt fcI)).set (fcI + 1)
      (u.nodeAt (fcI + 1))).set (fcI + 2) (u.nodeAt (fcI + 2))).set (fcI + 3)
      (u.nodeAt (fcI + 3)))[fcI + 4]? = some Node.default := by
    rw [List.getElem?_set_ne (by omega), List.getElem?_set_ne (by omega),
      List.getElem?_set_ne (by omega), List.getElem?_set_ne (by omega)]
    exact htBg5 4 (by omega)
  have hdec5 := decode_set_leaf _ (fcI + 4) (u.nodeAt (fcI + 4)) Node.default hn4g
    hBleafdef (hcount_ne_branch 4 (by omega)) _ _ _ hdec4
  have hudec : decodedAt u 0 = some
      (setLeafAt (fcI + 4) (u.nodeAt (fcI + 4)) 0
        (setLeafAt (fcI + 3) (u.nodeAt (fcI + 3)) 0
          (setLeafAt (fcI + 2) (u.nodeAt (fcI + 2)) 0
            (setLeafAt (fcI + 1) (u.nodeAt (fcI + 1)) 0
              (setLeafAt fcI (u.nodeAt fcI) 0 (graftAt leaf.index fcI 0 T)))))) := by
    unfold decodedAt
    rw [hD3, hueq]
    exact hdec5
  set T2 := setLeafAt (fcI + 4) (u.nodeAt (fcI + 4)) 0
      (setLeafAt (fcI + 3) (u.nodeAt (fcI + 3)) 0
        (setLeafAt (fcI + 2) (u.nodeAt (fcI + 2)) 0
          (setLeafAt (fcI + 1) (u.nodeAt (fcI + 1)) 0
            (setLeafAt fcI (u.nodeAt fcI) 0 (graftAt leaf.index fcI 0 T))))) with hT2def
  have hspansT2 : QTree.spans 0 T2 = QTree.spans 0 (graftAt leaf.index fcI 0 T) := by
    rw [hT2def, setLeafAt_spans, setLeafAt_spans, setLeafAt_spans, setLeafAt_spans,
      setLeafAt_spans]
  have hleafT2 : QTree.leafIdxs 0 T2 = QTree.leafIdxs 0 (graftAt leaf.index fcI 0 T) := by
    rw [hT2def, setLeafAt_leafIdxs, setLeafAt_leafIdxs, setLeafAt_leafIdxs,
      setLeafAt_leafIdxs, setLeafAt_leafIdxs]
  have hLTsplit : (QTree.leafIdxs 0 T).Perm
      (leaf.index :: (QTree.leafIdxs 0 T).erase leaf.index) :=
    List.perm_cons_erase hmemL
  have hL2perm : (QTree.leafIdxs 0 T2).Perm
      ([fcI, fcI + 1, fcI + 2, fcI + 3, fcI + 4] ++
        (QTree.leafIdxs 0 T).erase leaf.index) := by
    rw [hleafT2, ← Multiset.coe_eq_coe]
    have hms := leafIdxs_graft_ms leaf.index fcI [fcI, fcI + 1, fcI + 2, fcI + 3, fcI + 4]
      rfl 0 T hndspans hmemL
    have h2 : ((QTree.leafIdxs 0 T : List Nat) : Multiset Nat) =
        ({leaf.index} : Multiset Nat) +
          (((QTree.leafIdxs 0 T).erase leaf.index : List Nat) : Multiset Nat) := by
      rw [show ((QTree.leafIdxs 0 T : List Nat) : Multiset Nat) =
        ((leaf.index :: (QTree.leafIdxs 0 T).erase leaf.index : List Nat) : Multiset Nat)
        from Multiset.coe_eq_coe.mpr hLTsplit]
      simp [← Multiset.cons_coe, ← Multiset.singleton_add]
    have h3 : ((QTree.leafIdxs 0 (graftAt leaf.index fcI 0 T) : List Nat) : Multiset Nat) +
        {leaf.index} = (([fcI, fcI + 1, fcI + 2, fcI + 3, fcI + 4] ++
          (QTree.leafIdxs 0 T).erase leaf.index : List Nat) : Multiset Nat) +
        {leaf.index} := by
      rw [hms, h2]
      simp only [← Multiset.coe_add]
      abel
    exact add_right_cancel h3
  have hchild_mem_L2 : ∀ o, o < 5 → fcI + o ∈ QTree.leafIdxs 0 T2 := by
    intro o ho
    rw [hL2perm.mem_iff]
    refine List.mem_append_left _ ?_
    interval_cases o <;> simp
  have hL2cases : ∀ i ∈ QTree.leafIdxs 0 T2, (∃ o, o < 5 ∧ i = fcI + o) ∨
      (i ≠ leaf.index ∧ i ∈ QTree.leafIdxs 0 T) := by
    intro i hi
    rw [hL2perm.mem_iff] at hi
    rcases List.mem_append.mp hi with h1 | h1
    · left
      simp at h1
      rcases h1 with h | h | h | h | h
      · exact ⟨0, by omega, by omega⟩
      · exact ⟨1, by omega, by omega⟩
      · exact ⟨2, by omega, by omega⟩
      · exact ⟨3, by omega, by omega⟩
      · exact ⟨4, by omega, by omega⟩
    · right
      exact hndLT.mem_erase_iff.mp h1
  have hrectu : ∀ j, rectAt u j = rectAt t j := by
    intro j
    unfold rectAt
    rw [hD16, htBrects]
  have hidsu : u.element_ids = t.element_ids := by rw [hD15, htBids]
  have hrectsu : u.element_rects = t.element_rects := by rw [hD16, htBrects]
  have hrootu : u.root_rect = t.root_rect := by rw [hD17, htBroot]
  have hold_node : ∀ j ∈ QTree.spans 0 T, j ≠ leaf.index → u.nodeAt j = t.nodeAt j := by
    intro j hj hne
    refine nodeAt_congr u t j ?_
    rw [hD4 j (fun o ho => hspans_ne_grp j hj o ho), htBagree j hj hne]
  have hold_chain_cells : ∀ j ∈ QTree.leafIdxs 0 T, j ≠ leaf.index →
      ∀ x ∈ chainD t j, u.element_nodes.atIdx x = t.element_nodes.atIdx x := by
    intro j hj hne x hx
    have hx_handle : x ∈ handlesOf t (QTree.leafIdxs 0 T) :=
      List.mem_flatMap.mpr ⟨j, hj, hx⟩
    have hxlive : liveAt t.element_nodes x = true := hok.handles_live x hx_handle
    have hx_not_hsL : x ∉ hsL := by
      intro hcon
      have h1 := disjoint_of_flatMap_nodup (chainD t) (QTree.leafIdxs 0 T) j leaf.index x
        hok.handles_nodup hj hmemL hx (by rw [hchDg]; exact hcon)
      exact hne h1
    have hx_not_N : ∀ o, o < 5 → x ∉ N o := by
      intro o ho hcon
      rcases hD11 o ho x hcon with hmem | hdead
      · exact hx_not_hsL hmem
      · rw [htBen] at hdead
        rw [hxlive] at hdead
        simp at hdead
    have h1 := hD9 x hx_not_hsL hx_not_N
    rw [htBen] at h1
    exact h1
  have hold_chain : ∀ j ∈ QTree.leafIdxs 0 T, j ≠ leaf.index →
      chainAt u j = some (chainD t j) := by
    intro j hj hne
    have hchj : chainAt t j = some (chainD t j) := by
      have h1 := hok.chains_some j hj
      cases hc : chainAt t j with
      | none => rw [hc] at h1; simp at h1
      | some l => simp [chainD, hc]
    refine chainAt_eq_of t u j (chainD t j) hchj ?_ ?_ ?_
    · rw [hold_node j ((leafIdxs_sublist_spans 0 T).subset hj) hne]
    · have hnd_j : (chainD t j).Nodup :=
        nodup_of_flatMap_mem (chainD t) _ j hok.handles_nodup hj
      have hlt_j : ∀ x ∈ chainD t j, x < t.element_nodes.data.length := by
        intro x hx
        have hxlive := hok.handles_live x (List.mem_flatMap.mpr ⟨j, hj, hx⟩)
        unfold liveAt at hxlive
        cases ha : t.element_nodes.atIdx x with
        | none => rw [ha] at hxlive; simp at hxlive
        | some v => exact atIdx_lt _ _ _ ha
      have h1 := nodup_length_le_of_lt _ _ hnd_j hlt_j
      omega
    · exact hold_chain_cells j hj hne
  have hold_count : ∀ j ∈ QTree.leafIdxs 0 T, j ≠ leaf.index →
      (u.nodeAt j).element_count = (chainD t j).length := by
    intro j hj hne
    rw [hold_node j ((leafIdxs_sublist_spans 0 T).subset hj) hne]
    exact hok.counts j hj
  have hchainDu_child : ∀ o, o < 5 → chainD u (fcI + o) = N o := by
    intro o ho
    simp [chainD, hchild_chain o ho]
  have hchainDu_old : ∀ j ∈ QTree.leafIdxs 0 T, j ≠ leaf.index →
      chainD u j = chainD t j := by
    intro j hj hne
    simp [chainD, hold_chain j hj hne]
  have hmemflatten : ∀ o, o < 5 → ∀ x ∈ N o,
      x ∈ N 0 ++ N 1 ++ N 2 ++ N 3 ++ N 4 := by
    intro o ho x hx
    simp only [List.mem_append]
    interval_cases o
    · exact Or.inl (Or.inl (Or.inl (Or.inl hx)))
    · exact Or.inl (Or.inl (Or.inl (Or.inr hx)))
    · exact Or.inl (Or.inl (Or.inr hx))
    · exact Or.inl (Or.inr hx)
    · exact Or.inr hx
  have hflatten_mem : ∀ a, a ∈ N 0 ++ N 1 ++ N 2 ++ N 3 ++ N 4 →
      ∃ o, o < 5 ∧ a ∈ N o := by
    intro a ha
    simp only [List.mem_append] at ha
    rcases ha with ((((h | h) | h) | h) | h)
    · exact ⟨0, by omega, h⟩
    · exact ⟨1, by omega, h⟩
    · exact ⟨2, by omega, h⟩
    · exact ⟨3, by omega, h⟩
    · exact ⟨4, by omega, h⟩
  have hhandlesu : (handlesOf u (QTree.leafIdxs 0 T2)).Perm
      ((N 0 ++ N 1 ++ N 2 ++ N 3 ++ N 4) ++
        ((QTree.leafIdxs 0 T).erase leaf.index).flatMap (chainD t)) := by
    unfold handlesOf
    refine (perm_flatMap (chainD u) hL2perm).trans ?_
    rw [List.flatMap_append]
    have h1 : ([fcI, fcI + 1, fcI + 2, fcI + 3, fcI + 4].flatMap (chainD u)) =
        N 0 ++ N 1 ++ N 2 ++ N 3 ++ N 4 := by
      have hc0 := hchainDu_child 0 (by omega)
      have hc1 := hchainDu_child 1 (by omega)
      have hc2 := hchainDu_child 2 (by omega)
      have hc3 := hchainDu_child 3 (by omega)
      have hc4 := hchainDu_child 4 (by omega)
      rw [Nat.add_zero] at hc0
      simp [List.flatMap_cons, hc0, hc1, hc2, hc3, hc4, List.append_assoc]
    have h2 : (((QTree.leafIdxs 0 T).erase leaf.index).flatMap (chainD u)) =
        (((QTree.leafIdxs 0 T).erase leaf.index).flatMap (chainD t)) :=
      flatMap_congr _ _ _ (fun j hj => hchainDu_old j (hndLT.mem_erase_iff.mp hj).2
        (hndLT.mem_erase_iff.mp hj).1)
    rw [h1, h2]
  have hhandlest : (handlesOf t (QTree.leafIdxs 0 T)).Perm
      (hsL ++ ((QTree.leafIdxs 0 T).erase leaf.index).flatMap (chainD t)) := by
    unfold handlesOf
    refine (perm_flatMap (chainD t) hLTsplit).trans ?_
    rw [List.flatMap_cons, hchDg]
  have heflat_handle : ∀ a ∈ ((QTree.leafIdxs 0 T).erase leaf.index).flatMap (chainD t),
      a ∈ handlesOf t (QTree.leafIdxs 0 T) ∧ a ∉ hsL := by
    intro a ha
    obtain ⟨j, hj, haj⟩ := List.mem_flatMap.mp ha
    obtain ⟨hjne, hjmem⟩ := hndLT.mem_erase_iff.mp hj
    refine ⟨List.mem_flatMap.mpr ⟨j, hjmem, haj⟩, ?_⟩
    intro hcon
    exact hjne (disjoint_of_flatMap_nodup (chainD t) _ j leaf.index a
      hok.handles_nodup hjmem hmemL haj (by rw [hchDg]; exact hcon))
  have hhandles_nodup_u : (handlesOf u (QTree.leafIdxs 0 T2)).Nodup := by
    refine hhandlesu.symm.nodup ?_
    refine List.Nodup.append hD12 (hhandlest.nodup hok.handles_nodup).of_append_right ?_
    intro a haN haE
    obtain ⟨o, ho, hNo⟩ := hflatten_mem a haN
    obtain ⟨hahand, hanotL⟩ := heflat_handle a haE
    rcases hD11 o ho a hNo with hmem | hdead
    · exact hanotL hmem
    · rw [htBen] at hdead
      have hlive := hok.handles_live a hahand
      rw [hlive] at hdead
      simp at hdead
  have hmap_old : ∀ x ∈ ((QTree.leafIdxs 0 T).erase leaf.index).flatMap (chainD t),
      handleIdx u x = handleIdx t x := by
    intro x hx
    obtain ⟨j, hj, hxj⟩ := List.mem_flatMap.mp hx
    unfold handleIdx
    rw [hold_chain_cells j (hndLT.mem_erase_iff.mp hj).2
      (hndLT.mem_erase_iff.mp hj).1 x hxj]
  have hmapN : ((N 0 ++ N 1 ++ N 2 ++ N 3 ++ N 4).map (handleIdx u)).Perm
      (hsL.map (handleIdx t)) := by
    have h1 := hD13
    have h2 : hsL.map (handleIdx tB) = hsL.map (handleIdx t) :=
      List.map_congr_left (fun x hx => by unfold handleIdx; rw [htBen])
    rw [h2] at h1
    exact h1
  have hidxperm : ((handlesOf u (QTree.leafIdxs 0 T2)).map (handleIdx u)).Perm
      ((handlesOf t (QTree.leafIdxs 0 T)).map (handleIdx t)) := by
    have hL := hhandlesu.map (handleIdx u)
    rw [List.map_append] at hL
    have hR := hhandlest.map (handleIdx t)
    rw [List.map_append] at hR
    refine (hL.trans ?_).trans hR.symm
    refine List.Perm.append hmapN ?_
    rw [List.map_congr_left hmap_old]
  have hchains_some_u : ∀ i ∈ QTree.leafIdxs 0 T2, (chainAt u i).isSome := by
    intro i hi
    rcases hL2cases i hi with ⟨o, ho, rfl⟩ | ⟨hne, hm⟩
    · rw [hchild_chain o ho]
      rfl
    · rw [hold_chain i hm hne]
      rfl
  have hcounts_u : ∀ i ∈ QTree.leafIdxs 0 T2,
      (u.nodeAt i).element_count = (chainD u i).length := by
    intro i hi
    rcases hL2cases i hi with ⟨o, ho, rfl⟩ | ⟨hne, hm⟩
    · rw [hchild_count o ho, hchainDu_child o ho]
    · rw [hold_count i hm hne, hchainDu_old i hm hne]
  have hhandles_live_u : ∀ h2 ∈ handlesOf u (QTree.leafIdxs 0 T2),
      liveAt u.element_nodes h2 = true := by
    intro h2 hmem
    rw [hhandlesu.mem_iff] at hmem
    rcases List.mem_append.mp hmem with h3 | h3
    · obtain ⟨o, ho, hN⟩ := hflatten_mem h2 h3
      obtain ⟨nd, hnd⟩ := hchild_live o ho h2 hN
      unfold liveAt
      rw [hnd]
      rfl
    · obtain ⟨j, hj, hxj⟩ := List.mem_flatMap.mp h3
      obtain ⟨hjne, hjmem⟩ := hndLT.mem_erase_iff.mp hj
      have h4 := hold_chain_cells j hjmem hjne h2 hxj
      unfold liveAt
      rw [h4]
      have hlive_t := hok.handles_live h2 (List.mem_flatMap.mpr ⟨j, hjmem, hxj⟩)
      unfold liveAt at hlive_t
      exact hlive_t
  have hidxs_good_u : ∀ j ∈ (handlesOf u (QTree.leafIdxs 0 T2)).map (handleIdx u),
      liveAt u.element_ids j = true ∧ liveAt u.element_rects j = true ∧
      rectOriented (rectAt u j) = true ∧ rectInRoot u.root_rect (rectAt u j) = true ∧
      rectCoordsOK (rectAt u j) = true := by
    intro j hj
    have hjold : j ∈ (handlesOf t (QTree.leafIdxs 0 T)).map (handleIdx t) :=
      hidxperm.mem_iff.mp hj
    rw [hidsu, hrectsu, hrectu j, hrootu]
    exact hok.idxs_good j hjold
  have hen_live_iff_u : ∀ h2, h2 < u.element_nodes.data.length →
      (liveAt u.element_nodes h2 = true ↔
        h2 ∈ handlesOf u (QTree.leafIdxs 0 T2)) := by
    intro h2 hlt
    constructor
    · intro hlive
      by_contra hmem
      have hnotN : ∀ o, o < 5 → h2 ∉ N o := by
        intro o ho hcon
        refine hmem ?_
        rw [hhandlesu.mem_iff]
        exact List.mem_append_left _ (hmemflatten o ho h2 hcon)
      have hnotE : h2 ∉ ((QTree.leafIdxs 0 T).erase leaf.index).flatMap (chainD t) := by
        intro hcon
        refine hmem ?_
        rw [hhandlesu.mem_iff]
        exact List.mem_append_right _ hcon
      by_cases hsl : h2 ∈ hsL
      · have hdead := hD10 h2 hsl hnotN
        unfold liveAt at hlive
        rw [hdead] at hlive
        simp at hlive
      · have huntouched := hD9 h2 hsl hnotN
        rw [htBen] at huntouched
        unfold liveAt at hlive
        rw [huntouched] at hlive
        by_cases hlt2 : h2 < t.element_nodes.data.length
        · have hmem_old := (hok.en_live_iff h2 hlt2).mp (by unfold liveAt; exact hlive)
          rw [hhandlest.mem_iff] at hmem_old
          rcases List.mem_append.mp hmem_old with h3 | h3
          · exact hsl h3
          · exact hnotE h3
        · have hnone : t.element_nodes.atIdx h2 = none := by
            unfold FreeList.atIdx
            rw [List.getD_eq_getElem?_getD, List.getElem?_eq_none (by omega)]
            rfl
          rw [hnone] at hlive
          simp at hlive
    · intro hmem
      exact hhandles_live_u h2 hmem
  have hlive_iff_u : ∀ j, j < u.element_ids.data.length →
      (liveAt u.element_ids j = true ↔
        j ∈ (handlesOf u (QTree.leafIdxs 0 T2)).map (handleIdx u)) := by
    intro j hj
    rw [hidsu] at hj ⊢
    rw [hok.live_iff j hj]
    exact hidxperm.mem_iff.symm
  have hspansperm : (QTree.spans 0 T2).Perm
      (QTree.spans 0 T ++ [fcI, fcI + 1, fcI + 2, fcI + 3, fcI + 4]) := by
    rw [hspansT2, ← Multiset.coe_eq_coe]
    have hms2 := spans_graft_ms leaf.index fcI [fcI, fcI + 1, fcI + 2, fcI + 3, fcI + 4]
      rfl 0 T hndspans hmemL
    rw [hms2]
    simp only [← Multiset.coe_add]
  have hcoverperm : (QTree.spans 0 T2 ++ chain2.flatMap groupIdxs).Perm
      (QTree.spans 0 T ++ ([fcI, fcI + 1, fcI + 2, fcI + 3, fcI + 4] ++
        chain2.flatMap groupIdxs)) := by
    refine (hspansperm.append_right _).trans ?_
    rw [List.append_assoc]
  have hcover_nodup_u : (QTree.spans 0 T2 ++ chain2.flatMap groupIdxs).Nodup :=
    hcoverperm.symm.nodup htAcovnd
  have hcover_lt_u : ∀ i ∈ QTree.spans 0 T2 ++ chain2.flatMap groupIdxs,
      i < u.nodes.length := by
    intro i hi
    rw [hulen_nodes]
    exact htAcovlt i (hcoverperm.mem_iff.mp hi)
  have hcover_all_u : ∀ i, i < u.nodes.length →
      i ∈ QTree.spans 0 T2 ++ chain2.flatMap groupIdxs := by
    intro i hi
    rw [hulen_nodes] at hi
    exact hcoverperm.mem_iff.mpr (htAcovall i hi)
  have hchainU : freeChainList u.nodes (u.nodes.length + 1) u.free_node =
      some chain2 := by
    have hnotin : ∀ o, o < 5 → fcI + o ∉ chain2 := by
      intro o ho hmem
      have h2 : fcI + o ∈ chain2.flatMap groupIdxs :=
        List.mem_flatMap.mpr ⟨fcI + o, hmem, by unfold groupIdxs; simp⟩
      exact htAgrp _ h2 o ho rfl
    have hn0 : fcI ∉ chain2 := by
      have h1 := hnotin 0 (by omega)
      rwa [Nat.add_zero] at h1
    have h1 := freeChain_frame fcI (u.nodeAt fcI) tB.nodes (tB.nodes.length + 1)
      tB.free_node chain2 hchainB hn0
    have h2 := freeChain_frame (fcI + 1) (u.nodeAt (fcI + 1)) _ _ _ _ h1
      (hnotin 1 (by omega))
    have h3 := freeChain_frame (fcI + 2) (u.nodeAt (fcI + 2)) _ _ _ _ h2
      (hnotin 2 (by omega))
    have h4 := freeChain_frame (fcI + 3) (u.nodeAt (fcI + 3)) _ _ _ _ h3
      (hnotin 3 (by omega))
    have h5 := freeChain_frame (fcI + 4) (u.nodeAt (fcI + 4)) _ _ _ _ h4
      (hnotin 4 (by omega))
    rw [hD18, hueq]
    simp only [List.length_set]
    exact h5
  have hfreegroups_u : ∀ g2 ∈ chain2, (u.nodeAt g2).element_count = 0 ∧
      u.nodeAt (g2 + 1) = Node.default ∧ u.nodeAt (g2 + 2) = Node.default ∧
      u.nodeAt (g2 + 3) = Node.default ∧ u.nodeAt (g2 + 4) = Node.default := by
    intro g2 hg2
    have hold := hok.freegroups g2 (htAsub g2 hg2)
    have hpos : ∀ m, m < 5 → u.nodeAt (g2 + m) = t.nodeAt (g2 + m) := by
      intro m hm
      have hgm : g2 + m ∈ chain2.flatMap groupIdxs :=
        List.mem_flatMap.mpr ⟨g2, hg2, by unfold groupIdxs; interval_cases m <;> simp⟩
      have hgm_t : g2 + m ∈ chain.flatMap groupIdxs := htAgrpmem _ hgm
      have hne_g : leaf.index ≠ g2 + m := by
        intro hcon
        exact (List.nodup_append.mp hok.cover_nodup).2.2 (hcon ▸ hgspan) hgm_t
      refine nodeAt_congr u t _ ?_
      rw [hD4 _ (fun o ho => htAgrp _ hgm o ho), htBnodes,
        List.getElem?_set_ne hne_g]
      exact htAagree _ (fun k hk => htAgrp _ hgm k hk)
    have hp0 := hpos 0 (by omega)
    rw [Nat.add_zero] at hp0
    rw [hp0, hpos 1 (by omega), hpos 2 (by omega), hpos 3 (by omega), hpos 4 (by omega)]
    exact hold
  have hqvist : qVis t = qVisitsT t.root_rect.toAABB (rootCellOf t) 0 T := by
    unfold qVis
    refine qVisits_decode t.nodes _ _ _ _ _ _ hok.dec0 ?_
    have h1 := spans_len_le t T chain
      ⟨hok.dec0, hok.fchain, hok.cover_nodup, hok.cover_lt, hok.cover_all⟩
    omega
  have hspansT2len : (QTree.spans 0 T2).length = (QTree.spans 0 T).length + 5 := by
    rw [hspansT2, hgraftlen]
  have hqvisu : qVis u = qVisitsT t.root_rect.toAABB (rootCellOf t) 0 T2 := by
    unfold qVis
    have hQ : u.root_rect.toAABB = t.root_rect.toAABB := by rw [hrootu]
    have hcell : rootCellOf u = rootCellOf t := by
      unfold rootCellOf QuadTree.get_root_node_data
      rw [hrootu]
    rw [hQ, hcell]
    refine qVisits_decode u.nodes _ _ _ _ _ _ hudec ?_
    rw [hspansT2len, hulen_nodes]
    omega
  have hqT2graft : qVisitsT t.root_rect.toAABB (rootCellOf t) 0 T2 =
      qVisitsT t.root_rect.toAABB (rootCellOf t) 0 (graftAt leaf.index fcI 0 T) := by
    rw [hT2def, qVisitsT_setLeafAt, qVisitsT_setLeafAt, qVisitsT_setLeafAt,
      qVisitsT_setLeafAt, qVisitsT_setLeafAt]
  have hvisL' : (leaf.index, leaf.crect) ∈
      qVisitsT t.root_rect.toAABB (rootCellOf t) 0 T := by
    rw [← hqvist]
    exact hvisL
  obtain ⟨hnew0, hnewflag⟩ := qVisitsT_graft_new t.root_rect.toAABB leaf.index fcI T
    (rootCellOf t) 0 leaf.crect hvisL'
  have hvisu : VisP u := by
    intro T' hT' i hi hcnt
    have hT2eq : T' = T2 := by
      have h1 := hudec
      rw [hT'] at h1
      exact (Option.some.injEq _ _).mp h1
    subst hT2eq
    rcases hL2cases i hi with ⟨o, ho, rfl⟩ | ⟨hne, hm⟩
    · have hcne : N o ≠ [] := by
        intro hcon
        rw [hchild_count o ho, hcon] at hcnt
        simp at hcnt
      obtain ⟨x, hx⟩ := List.exists_mem_of_ne_nil (N o) hcne
      by_cases ho0 : o = 0
      · subst ho0
        refine ⟨leaf.crect.split_child 0, ?_⟩
        rw [hqvisu, hqT2graft]
        simpa using hnew0
      · have hroute := hD14 o ho x hx
        have hroute' : routeOffset leaf.crect.center_x leaf.crect.center_y
            (rectAt t (handleIdx u x)) = o := by
          rw [← hrectu (handleIdx u x)]
          exact hroute
        have hxhand : x ∈ handlesOf u (QTree.leafIdxs 0 T2) := by
          rw [hhandlesu.mem_iff]
          exact List.mem_append_left _ (hmemflatten o ho x hx)
        have hgood := hok.idxs_good (handleIdx u x)
          (hidxperm.mem_iff.mp (List.mem_map.mpr ⟨x, hxhand, rfl⟩))
        have hflag := route_flag t.root_rect (rectAt t (handleIdx u x)) leaf.crect o
          hok.rootok hgood.2.2.1 hgood.2.2.2.1 (by omega) hroute'
        refine ⟨leaf.crect.split_child o, ?_⟩
        rw [hqvisu, hqT2graft]
        exact hnewflag o (by omega) hflag
    · have hcnt_t : (t.nodeAt i).element_count ≠ 0 := by
        rw [← hold_node i ((leafIdxs_sublist_spans 0 T).subset hm) hne]
        exact hcnt
      obtain ⟨c, hc⟩ := hvis T hok.dec0 i hm hcnt_t
      rw [hqvist] at hc
      refine ⟨c, ?_⟩
      rw [hqvisu, hqT2graft]
      exact qVisitsT_graft_keep t.root_rect.toAABB leaf.index fcI T (rootCellOf t)
        0 i c hc hne
  have hchild_dec : ∀ o, o < 5 → ∀ f, decodeTree u.nodes (f + 1) (fcI + o) =
      some (QTree.leaf (u.nodeAt (fcI + o))) := by
    intro o ho f
    simp [decodeTree, hx_leaf o ho, hcount_ne_branch o ho]
  have hdecg : decodedAt u leaf.index = some (QTree.branch fcI
      (QTree.leaf (u.nodeAt fcI)) (QTree.leaf (u.nodeAt (fcI + 1)))
      (QTree.leaf (u.nodeAt (fcI + 2))) (QTree.leaf (u.nodeAt (fcI + 3)))
      (QTree.leaf (u.nodeAt (fcI + 4)))) := by
    have hgu : u.nodes[leaf.index]? = some ⟨fcI, NODE_IS_BRANCH⟩ := by
      rw [hD4 leaf.index (fun o ho => hspans_ne_grp _ hgspan o ho)]
      exact htBg
    unfold decodedAt
    obtain ⟨m, hm⟩ : ∃ m, u.nodes.length = m + 1 := ⟨u.nodes.length - 1, by
      have h9 : fcI + 4 < u.nodes.length := by rw [hulen_nodes]; omega
      omega⟩
    have hc0 := hchild_dec 0 (by omega) m
    have hc1 := hchild_dec 1 (by omega) m
    have hc2 := hchild_dec 2 (by omega) m
    have hc3 := hchild_dec 3 (by omega) m
    have hc4 := hchild_dec 4 (by omega) m
    rw [Nat.add_zero] at hc0
    rw [hm]
    exact decode_branch_intro u.nodes (m + 1) leaf.index fcI _ _ _ _ _ hgu
      hc0 hc1 hc2 hc3 hc4
  have hcomp : ∀ (rect2 : AABB) (nd0 : NodeData), nd0.index = 0 →
      (mTargetT rect2 nd0 T).index = leaf.index →
      mTargetT rect2 nd0 T2 = mTargetT rect2 (mTargetT rect2 nd0 T)
        (QTree.branch fcI (QTree.leaf Node.default) (QTree.leaf Node.default)
          (QTree.leaf Node.default) (QTree.leaf Node.default)
          (QTree.leaf Node.default)) := by
    intro rect2 nd0 h0 hgidx
    have hsl : ∀ (g2 : Nat) (x : Node) (S : QTree),
        mTargetT rect2 nd0 (setLeafAt g2 x 0 S) = mTargetT rect2 nd0 S := by
      intro g2 x S
      have h1 := mTargetT_setLeafAt rect2 g2 x S nd0
      rw [h0] at h1
      exact h1
    rw [hT2def, hsl, hsl, hsl, hsl, hsl]
    have h3 := mTargetT_graft rect2 leaf.index fcI T nd0 (by rw [h0]; exact hndspans) hgidx
    rw [h0] at h3
    exact h3
  refine ⟨T2, chain2, N, ?_, hvisu, hidsu, hrectsu, hrootu, hD19.trans htAmax,
    hD20.trans htAsmall, hD21.trans htAdepth,
    (by rw [hulen_nodes]; exact htAlen_le),
    (by rw [hulen_nodes]; exact htAlen_ge), hulen_en, hulen_en_ge, hidxperm, hdecg,
    (fun o ho => ⟨hchild_chain o ho, hchild_count o ho, hchild_mem_L2 o ho⟩), hcomp⟩
  exact
    { dec0 := hudec
      fchain := hchainU
      cover_nodup := hcover_nodup_u
      cover_lt := hcover_lt_u
      cover_all := hcover_all_u
      len_nodes := by rw [hulen_nodes]; omega
      len_en := by omega
      len_ids := by rw [hidsu]; exact hok.len_ids
      len_eq := by rw [hidsu, hrectsu]; exact hok.len_eq
      ff_eq := by rw [hidsu, hrectsu]; exact hok.ff_eq
      ffok_ids := by rw [hidsu]; exact hok.ffok_ids
      ffok_rects := by rw [hrectsu]; exact hok.ffok_rects
      ffok_en := hD8
      rootok := by rw [hrootu]; exact hok.rootok
      chains_some := hchains_some_u
      handles_nodup := hhandles_nodup_u
      handles_live := hhandles_live_u
      counts := hcounts_u
      idxs_nodup := hidxperm.symm.nodup hok.idxs_nodup
      idxs_good := hidxs_good_u
      live_lockstep := by rw [hidsu, hrectsu]; exact hok.live_lockstep
      live_iff := hlive_iff_u
      en_live_iff := hen_live_iff_u
      freegroups := hfreegroups_u }

theorem insert_cells {T : Type} (fl : FreeList T) (v : T) (x : Nat) (w : T)
    (h : ((fl.insert v).2).atIdx x = some w) : w = v ∨ fl.atIdx x = some w := by
  by_cases hff : fl.first_free ≠ SENTINEL
  · have hins : (fl.insert v).2.data = fl.data.set fl.first_free (.element v) := by
      unfold FreeList.insert
      rw [if_pos hff]
    rw [atIdx_getElem, hins] at h
    by_cases hx : x = fl.first_free
    · by_cases hlt : fl.first_free < fl.data.length
      · rw [hx, List.getElem?_set_self hlt] at h
        simp at h
        exact Or.inl h.symm
      · rw [List.set_eq_of_length_le (by omega)] at h
        refine Or.inr ?_
        rw [atIdx_getElem]
        exact h
    · rw [List.getElem?_set_ne (Ne.symm hx)] at h
      refine Or.inr ?_
      rw [atIdx_getElem]
      exact h
  · have hins : (fl.insert v).2.data = fl.data ++ [.element v] := by
      unfold FreeList.insert
      rw [if_neg hff]
    rw [atIdx_getElem, hins] at h
    rcases Nat.lt_trichotomy x fl.data.length with hlt | heq | hgt
    · rw [List.getElem?_append_left hlt] at h
      refine Or.inr ?_
      rw [atIdx_getElem]
      exact h
    · rw [heq, List.getElem?_concat_length] at h
      simp at h
      exact Or.inl h.symm
    · rw [List.getElem?_eq_none (by simp; omega)] at h
      simp at h

theorem erase_cells {T : Type} (fl : FreeList T) (n x : Nat) (w : T)
    (h : (fl.erase n).atIdx x = some w) : fl.atIdx x = some w := by
  by_cases he : fl.data.isEmpty
  · have hers : fl.erase n = ⟨fl.data, SENTINEL⟩ := by
      unfold FreeList.erase
      simp [he]
    rw [hers, atIdx_getElem] at h
    rw [atIdx_getElem]
    exact h
  · have hers : fl.erase n = ⟨fl.data.set n (.next SENTINEL), n⟩ := by
      unfold FreeList.erase
      simp [he]
    rw [hers, atIdx_getElem] at h
    simp only at h
    by_cases hx : x = n
    · by_cases hlt : n < fl.data.length
      · rw [hx, List.getElem?_set_self hlt] at h
        simp at h
      · rw [List.set_eq_of_length_le (by omega)] at h
        rw [atIdx_getElem]
        exact h
    · rw [List.getElem?_set_ne (Ne.symm hx)] at h
      rw [atIdx_getElem]
      exact h

theorem set_getD_self {α : Type} (l : List α) (i : Nat) (d : α) (h : i < l.length) :
    l.set i (l.getD i d) = l := by
  apply List.ext_getElem?
  intro j
  by_cases hj : j = i
  · subst hj
    rw [List.getElem?_set_self h, List.getD_eq_getElem?_getD,
      List.getElem?_eq_getElem h]
    simp
  · rw [List.getElem?_set_ne (Ne.symm hj)]

theorem assign_fields (t : QuadTree) (mx my : Int) (fc jx : Nat) (r : AABB) :
    (t.assign_element_to_child_nodes mx my fc jx r).element_ids = t.element_ids ∧
    (t.assign_element_to_child_nodes mx my fc jx r).element_rects = t.element_rects ∧
    (t.assign_element_to_child_nodes mx my fc jx r).root_rect = t.root_rect ∧
    (t.assign_element_to_child_nodes mx my fc jx r).free_node = t.free_node ∧
    (t.assign_element_to_child_nodes mx my fc jx r).max_num_elements =
      t.max_num_elements ∧
    (t.assign_element_to_child_nodes mx my fc jx r).smallest_cell_size =
      t.smallest_cell_size ∧
    (t.assign_element_to_child_nodes mx my fc jx r).max_depth = t.max_depth := by
  simp only [QuadTree.assign_element_to_child_nodes, QuadTree.insert_element_in_child_node]
  split_ifs <;> exact ⟨rfl, rfl, rfl, rfl, rfl, rfl, rfl⟩

theorem assign_cells (t : QuadTree) (mx my : Int) (fc jx : Nat) (r : AABB)
    (x : Nat) (nd : QuadTreeElementNode)
    (h : (t.assign_element_to_child_nodes mx my fc jx r).element_nodes.atIdx x =
      some nd) :
    nd.element_idx = jx ∨ t.element_nodes.atIdx x = some nd := by
  simp only [QuadTree.assign_element_to_child_nodes,
    QuadTree.insert_element_in_child_node] at h
  split_ifs at h <;>
    first
      | exact Or.inr h
      | (rcases insert_cells _ _ _ _ h with he | he
         · exact Or.inl (by rw [he])
         · exact Or.inr he)

theorem assign_comp (t1 t2 : QuadTree) (mx my : Int) (fc jx : Nat) (r : AABB)
    (h_en : t1.element_nodes = t2.element_nodes)
    (h_nodes : t1.nodes = t2.nodes) :
    (t1.assign_element_to_child_nodes mx my fc jx r).element_nodes =
      (t2.assign_element_to_child_nodes mx my fc jx r).element_nodes ∧
    (t1.assign_element_to_child_nodes mx my fc jx r).nodes =
      (t2.assign_element_to_child_nodes mx my fc jx r).nodes := by
  simp only [QuadTree.assign_element_to_child_nodes,
    QuadTree.insert_element_in_child_node, QuadTree.nodeAt]
  rw [h_en, h_nodes]
  split_ifs <;> first | exact ⟨rfl, rfl⟩ | exact ⟨h_en, h_nodes⟩

theorem distribute_loop_step (mx my : Int) (fc k : Nat) (t : QuadTree) (h : Nat)
    (hs : ¬(h = SENTINEL)) :
    QuadTree.distribute_loop mx my fc (k + 1) t h =
    QuadTree.distribute_loop mx my fc k
      { t.assign_element_to_child_nodes mx my fc
          ((t.element_nodes.atIdx h).getD ⟨SENTINEL, SENTINEL⟩).element_idx
          ((t.element_rects.atIdx
            ((t.element_nodes.atIdx h).getD ⟨SENTINEL, SENTINEL⟩).element_idx).getD
            (AABB.new 0 0 0 0)) with
        element_nodes := (t.assign_element_to_child_nodes mx my fc
          ((t.element_nodes.atIdx h).getD ⟨SENTINEL, SENTINEL⟩).element_idx
          ((t.element_rects.atIdx
            ((t.element_nodes.atIdx h).getD ⟨SENTINEL, SENTINEL⟩).element_idx).getD
            (AABB.new 0 0 0 0))).element_nodes.erase h }
      ((t.element_nodes.atIdx h).getD ⟨SENTINEL, SENTINEL⟩).next := by
  simp only [QuadTree.distribute_loop]
  rw [if_neg hs]

theorem distribute_loop_fields (mx my : Int) (fc : Nat) :
    ∀ (fuel : Nat) (t : QuadTree) (h : Nat),
      (QuadTree.distribute_loop mx my fc fuel t h).element_ids = t.element_ids ∧
      (QuadTree.distribute_loop mx my fc fuel t h).element_rects = t.element_rects ∧
      (QuadTree.distribute_loop mx my fc fuel t h).root_rect = t.root_rect ∧
      (QuadTree.distribute_loop mx my fc fuel t h).free_node = t.free_node ∧
      (QuadTree.distribute_loop mx my fc fuel t h).max_num_elements =
        t.max_num_elements ∧
      (QuadTree.distribute_loop mx my fc fuel t h).smallest_cell_size =
        t.smallest_cell_size ∧
      (QuadTree.distribute_loop mx my fc fuel t h).max_depth = t.max_depth := by
  intro fuel
  induction fuel with
  | zero => intro t h; exact ⟨rfl, rfl, rfl, rfl, rfl, rfl, rfl⟩
  | succ k ih =>
    intro t h
    by_cases hsent : h = SENTINEL
    · have hstep : QuadTree.distribute_loop mx my fc (k + 1) t h = t := by
        simp only [QuadTree.distribute_loop]
        rw [if_pos hsent]
      rw [hstep]
      exact ⟨rfl, rfl, rfl, rfl, rfl, rfl, rfl⟩
    · rw [distribute_loop_step mx my fc k t h hsent]
      obtain ⟨g1, g2, g3, g4, g5, g6, g7⟩ := ih
        { t.assign_element_to_child_nodes mx my fc
            ((t.element_nodes.atIdx h).getD ⟨SENTINEL, SENTINEL⟩).element_idx
            ((t.element_rects.atIdx
              ((t.element_nodes.atIdx h).getD ⟨SENTINEL, SENTINEL⟩).element_idx).getD
              (AABB.new 0 0 0 0)) with
          element_nodes := (t.assign_element_to_child_nodes mx my fc
            ((t.element_nodes.atIdx h).getD ⟨SENTINEL, SENTINEL⟩).element_idx
            ((t.element_rects.atIdx
              ((t.element_nodes.atIdx h).getD ⟨SENTINEL, SENTINEL⟩).element_idx).getD
              (AABB.new 0 0 0 0))).element_nodes.erase h }
        ((t.element_nodes.atIdx h).getD ⟨SENTINEL, SENTINEL⟩).next
      obtain ⟨f1, f2, f3, f4, f5, f6, f7⟩ := assign_fields t mx my fc
        ((t.element_nodes.atIdx h).getD ⟨SENTINEL, SENTINEL⟩).element_idx
        ((t.element_rects.atIdx
          ((t.element_nodes.atIdx h).getD ⟨SENTINEL, SENTINEL⟩).element_idx).getD
          (AABB.new 0 0 0 0))
      refine ⟨?_, ?_, ?_, ?_, ?_, ?_, ?_⟩
      · rw [g1]; exact f1
      · rw [g2]; exact f2
      · rw [g3]; exact f3
      · rw [g4]; exact f4
      · rw [g5]; exact f5
      · rw [g6]; exact f6
      · rw [g7]; exact f7

theorem distribute_loop_comp (mx my : Int) (fc jE : Nat) (hjs : jE ≠ SENTINEL) :
    ∀ (fuel : Nat) (t1 t2 : QuadTree) (h : Nat),
      t1.element_nodes = t2.element_nodes →
      t1.nodes = t2.nodes →
      t1.free_node = t2.free_node →
      (∀ j, j ≠ jE → t1.element_rects.atIdx j = t2.element_rects.atIdx j) →
      (∀ x nd, t2.element_nodes.atIdx x = some nd → nd.element_idx ≠ jE) →
      (QuadTree.distribute_loop mx my fc fuel t1 h).element_nodes =
        (QuadTree.distribute_loop mx my fc fuel t2 h).element_nodes ∧
      (QuadTree.distribute_loop mx my fc fuel t1 h).nodes =
        (QuadTree.distribute_loop mx my fc fuel t2 h).nodes ∧
      (QuadTree.distribute_loop mx my fc fuel t1 h).free_node =
        (QuadTree.distribute_loop mx my fc fuel t2 h).free_node := by
  intro fuel
  induction fuel with
  | zero => intro t1 t2 h h_en h_nodes h_free _ _; exact ⟨h_en, h_nodes, h_free⟩
  | succ k ih =>
    intro t1 t2 h h_en h_nodes h_free hagree href
    by_cases hsent : h = SENTINEL
    · have hstep1 : QuadTree.distribute_loop mx my fc (k + 1) t1 h = t1 := by
        simp only [QuadTree.distribute_loop]
        rw [if_pos hsent]
      have hstep2 : QuadTree.distribute_loop mx my fc (k + 1) t2 h = t2 := by
        simp only [QuadTree.distribute_loop]
        rw [if_pos hsent]
      rw [hstep1, hstep2]
      exact ⟨h_en, h_nodes, h_free⟩
    · rw [distribute_loop_step mx my fc k t1 h hsent,
        distribute_loop_step mx my fc k t2 h hsent]
      rw [h_en]
      have hjx : ((t2.element_nodes.atIdx h).getD
          ⟨SENTINEL, SENTINEL⟩).element_idx ≠ jE := by
        cases ha : t2.element_nodes.atIdx h with
        | none =>
          simp only [ha, Option.getD_none]
          exact fun hc => hjs hc.symm
        | some nd =>
          simp only [ha, Option.getD_some]
          exact href h nd ha
      have hrr : (t1.element_rects.atIdx ((t2.element_nodes.atIdx h).getD
            ⟨SENTINEL, SENTINEL⟩).element_idx).getD (AABB.new 0 0 0 0) =
          (t2.element_rects.atIdx ((t2.element_nodes.atIdx h).getD
            ⟨SENTINEL, SENTINEL⟩).element_idx).getD (AABB.new 0 0 0 0) := by
        rw [hagree _ hjx]
      rw [hrr]
      obtain ⟨ha_en, ha_nodes⟩ := assign_comp t1 t2 mx my fc
        ((t2.element_nodes.atIdx h).getD ⟨SENTINEL, SENTINEL⟩).element_idx
        ((t2.element_rects.atIdx ((t2.element_nodes.atIdx h).getD
          ⟨SENTINEL, SENTINEL⟩).element_idx).getD (AABB.new 0 0 0 0))
        h_en h_nodes
      obtain ⟨f1a, f2a, f3a, f4a, f5a, f6a, f7a⟩ := assign_fields t1 mx my fc
        ((t2.element_nodes.atIdx h).getD ⟨SENTINEL, SENTINEL⟩).element_idx
        ((t2.element_rects.atIdx ((t2.element_nodes.atIdx h).getD
          ⟨SENTINEL, SENTINEL⟩).element_idx).getD (AABB.new 0 0 0 0))
      obtain ⟨f1b, f2b, f3b, f4b, f5b, f6b, f7b⟩ := assign_fields t2 mx my fc
        ((t2.element_nodes.atIdx h).getD ⟨SENTINEL, SENTINEL⟩).element_idx
        ((t2.element_rects.atIdx ((t2.element_nodes.atIdx h).getD
          ⟨SENTINEL, SENTINEL⟩).element_idx).getD (AABB.new 0 0 0 0))
      refine ih _ _ _ ?_ ?_ ?_ ?_ ?_
      · show ((t1.assign_element_to_child_nodes mx my fc _ _).element_nodes.erase h) =
          ((t2.assign_element_to_child_nodes mx my fc _ _).element_nodes.erase h)
        rw [ha_en]
      · show (t1.assign_element_to_child_nodes mx my fc _ _).nodes =
          (t2.assign_element_to_child_nodes mx my fc _ _).nodes
        exact ha_nodes
      · show (t1.assign_element_to_child_nodes mx my fc _ _).free_node =
          (t2.assign_element_to_child_nodes mx my fc _ _).free_node
        rw [f4a, f4b, h_free]
      · intro j hj
        show (t1.assign_element_to_child_nodes mx my fc _ _).element_rects.atIdx j =
          (t2.assign_element_to_child_nodes mx my fc _ _).element_rects.atIdx j
        rw [f2a, f2b]
        exact hagree j hj
      · intro x nd hx
        have hx' : ((t2.assign_element_to_child_nodes mx my fc
            ((t2.element_nodes.atIdx h).getD ⟨SENTINEL, SENTINEL⟩).element_idx
            ((t2.element_rects.atIdx ((t2.element_nodes.atIdx h).getD
              ⟨SENTINEL, SENTINEL⟩).element_idx).getD
              (AABB.new 0 0 0 0))).element_nodes).atIdx x = some nd :=
          erase_cells _ h x nd hx
        rcases assign_cells t2 mx my fc _ _ x nd hx' with he | he
        · rw [he]; exact hjx
        · exact href x nd he

theorem ensure_comp (t1 t2 : QuadTree)
    (h_nodes : t1.nodes = t2.nodes) (h_free : t1.free_node = t2.free_node) :
    (t1.ensure_child_nodes_exist).1 = (t2.ensure_child_nodes_exist).1 ∧
    (t1.ensure_child_nodes_exist).2.nodes = (t2.ensure_child_nodes_exist).2.nodes ∧
    (t1.ensure_child_nodes_exist).2.free_node =
      (t2.ensure_child_nodes_exist).2.free_node ∧
    (t1.ensure_child_nodes_exist).2.element_nodes = t1.element_nodes ∧
    (t1.ensure_child_nodes_exist).2.element_ids = t1.element_ids ∧
    (t1.ensure_child_nodes_exist).2.element_rects = t1.element_rects ∧
    (t1.ensure_child_nodes_exist).2.root_rect = t1.root_rect ∧
    (t1.ensure_child_nodes_exist).2.max_num_elements = t1.max_num_elements ∧
    (t1.ensure_child_nodes_exist).2.smallest_cell_size = t1.smallest_cell_size ∧
    (t1.ensure_child_nodes_exist).2.max_depth = t1.max_depth := by
  simp only [QuadTree.ensure_child_nodes_exist, QuadTree.nodeAt]
  rw [h_free, h_nodes]
  split_ifs <;> exact ⟨rfl, rfl, rfl, rfl, rfl, rfl, rfl, rfl, rfl, rfl⟩

theorem ensure_fields (t : QuadTree) :
    (t.ensure_child_nodes_exist).2.element_nodes = t.element_nodes ∧
    (t.ensure_child_nodes_exist).2.element_ids = t.element_ids ∧
    (t.ensure_child_nodes_exist).2.element_rects = t.element_rects ∧
    (t.ensure_child_nodes_exist).2.root_rect = t.root_rect ∧
    (t.ensure_child_nodes_exist).2.max_num_elements = t.max_num_elements ∧
    (t.ensure_child_nodes_exist).2.smallest_cell_size = t.smallest_cell_size ∧
    (t.ensure_child_nodes_exist).2.max_depth = t.max_depth := by
  simp only [QuadTree.ensure_child_nodes_exist]
  split_ifs <;> exact ⟨rfl, rfl, rfl, rfl, rfl, rfl, rfl⟩

theorem distribute_fields (t : QuadTree) (p : NodeData) :
    (t.distribute_elements_to_child_nodes p).element_ids = t.element_ids ∧
    (t.distribute_elements_to_child_nodes p).element_rects = t.element_rects ∧
    (t.distribute_elements_to_child_nodes p).root_rect = t.root_rect ∧
    (t.distribute_elements_to_child_nodes p).max_num_elements = t.max_num_elements ∧
    (t.distribute_elements_to_child_nodes p).smallest_cell_size =
      t.smallest_cell_size ∧
    (t.distribute_elements_to_child_nodes p).max_depth = t.max_depth := by
  obtain ⟨e1, e2, e3, e4, e5, e6, e7⟩ := ensure_fields t
  simp only [QuadTree.distribute_elements_to_child_nodes]
  obtain ⟨g1, g2, g3, g4, g5, g6, g7⟩ := distribute_loop_fields
    (p.crect.center_x) (p.crect.center_y) (t.ensure_child_nodes_exist).1
    ((((t.ensure_child_nodes_exist).2.setNode p.index
        (Node.make_branch (t.ensure_child_nodes_exist).1)).element_nodes.data.length + 1))
    ((t.ensure_child_nodes_exist).2.setNode p.index
      (Node.make_branch (t.ensure_child_nodes_exist).1))
    (((t.ensure_child_nodes_exist).2.nodeAt p.index).get_first_element_node_index)
  refine ⟨?_, ?_, ?_, ?_, ?_, ?_⟩
  · rw [g1]; exact e2
  · rw [g2]; exact e3
  · rw [g3]; exact e4
  · rw [g5]; exact e5
  · rw [g6]; exact e6
  · rw [g7]; exact e7

theorem distribute_swap (t1 t2 : QuadTree) (p : NodeData) (jE : Nat)
    (hjs : jE ≠ SENTINEL)
    (h_en : t1.element_nodes = t2.element_nodes)
    (h_nodes : t1.nodes = t2.nodes)
    (h_free : t1.free_node = t2.free_node)
    (hagree : ∀ j, j ≠ jE → t1.element_rects.atIdx j = t2.element_rects.atIdx j)
    (href : ∀ x nd, t2.element_nodes.atIdx x = some nd → nd.element_idx ≠ jE) :
    (t1.distribute_elements_to_child_nodes p).element_nodes =
      (t2.distribute_elements_to_child_nodes p).element_nodes ∧
    (t1.distribute_elements_to_child_nodes p).nodes =
      (t2.distribute_elements_to_child_nodes p).nodes ∧
    (t1.distribute_elements_to_child_nodes p).free_node =
      (t2.distribute_elements_to_child_nodes p).free_node := by
  obtain ⟨hc1, hc2, hc3, hc4, hc5, hc6, hc7, hc8, hc9, hc10⟩ :=
    ensure_comp t1 t2 h_nodes h_free
  obtain ⟨hd4, hd5, hd6, hd7, hd8, hd9, hd10⟩ := ensure_fields t2
  simp only [QuadTree.distribute_elements_to_child_nodes]
  have hB_en : ((t1.ensure_child_nodes_exist).2.setNode p.index
      (Node.make_branch (t2.ensure_child_nodes_exist).1)).element_nodes =
      ((t2.ensure_child_nodes_exist).2.setNode p.index
        (Node.make_branch (t2.ensure_child_nodes_exist).1)).element_nodes := by
    show (t1.ensure_child_nodes_exist).2.element_nodes =
      (t2.ensure_child_nodes_exist).2.element_nodes
    rw [hc4, hd4, h_en]
  have hB_nodes : ((t1.ensure_child_nodes_exist).2.setNode p.index
      (Node.make_branch (t2.ensure_child_nodes_exist).1)).nodes =
      ((t2.ensure_child_nodes_exist).2.setNode p.index
        (Node.make_branch (t2.ensure_child_nodes_exist).1)).nodes := by
    show (t1.ensure_child_nodes_exist).2.nodes.set p.index _ =
      (t2.ensure_child_nodes_exist).2.nodes.set p.index _
    rw [hc2]
  have hB_free : ((t1.ensure_child_nodes_exist).2.setNode p.index
      (Node.make_branch (t2.ensure_child_nodes_exist).1)).free_node =
      ((t2.ensure_child_nodes_exist).2.setNode p.index
        (Node.make_branch (t2.ensure_child_nodes_exist).1)).free_node := by
    show (t1.ensure_child_nodes_exist).2.free_node =
      (t2.ensure_child_nodes_exist).2.free_node
    exact hc3
  have hfuel : ((t1.ensure_child_nodes_exist).2.setNode p.index
      (Node.make_branch (t2.ensure_child_nodes_exist).1)).element_nodes.data.length =
      ((t2.ensure_child_nodes_exist).2.setNode p.index
        (Node.make_branch (t2.ensure_child_nodes_exist).1)).element_nodes.data.length := by
    rw [hB_en]
  have hstart : ((t1.ensure_child_nodes_exist).2.nodeAt p.index).get_first_element_node_index =
      ((t2.ensure_child_nodes_exist).2.nodeAt p.index).get_first_element_node_index := by
    rw [nodeAt_congr (t1.ensure_child_nodes_exist).2 (t2.ensure_child_nodes_exist).2
      p.index (by rw [hc2])]
  rw [hc1, hfuel, hstart]
  refine distribute_loop_comp p.crect.center_x p.crect.center_y
    (t2.ensure_child_nodes_exist).1 jE hjs _ _ _ _ hB_en hB_nodes hB_free ?_ ?_
  · intro j hj
    show ((t1.ensure_child_nodes_exist).2.element_rects).atIdx j =
      ((t2.ensure_child_nodes_exist).2.element_rects).atIdx j
    rw [hc6, hd6]
    exact hagree j hj
  · intro x nd hx
    have hx2 : (t2.ensure_child_nodes_exist).2.element_nodes.atIdx x = some nd := hx
    rw [hd4] at hx2
    exact href x nd hx2

theorem find_leaves_loop_comp (t1 t2 : QuadTree) (rect : AABB) (hint : FindLeafHint)
    (h_nodes : t1.nodes = t2.nodes) :
    ∀ (fuel : Nat) (stack acc : List NodeData),
      t1.find_leaves_loop rect hint fuel stack acc =
        t2.find_leaves_loop rect hint fuel stack acc := by
  have hnd : ∀ i, t1.nodeAt i = t2.nodeAt i := by
    intro i
    unfold QuadTree.nodeAt
    rw [h_nodes]
  intro fuel
  induction fuel with
  | zero => intro stack acc; rfl
  | succ k ih =>
    intro stack acc
    cases stack with
    | nil => rfl
    | cons nd rest =>
      show (if (t1.nodeAt nd.index).is_leaf then _ else _) =
        (if (t2.nodeAt nd.index).is_leaf then _ else _)
      rw [hnd nd.index]
      by_cases hl : (t2.nodeAt nd.index).is_leaf
      · rw [if_pos hl, if_pos hl]
        exact ih rest (nd :: acc)
      · rw [if_neg hl, if_neg hl]
        exact ih _ acc

theorem find_leaves_aabb_comp (t1 t2 : QuadTree) (root : NodeData) (rect : AABB)
    (hint : FindLeafHint) (h_nodes : t1.nodes = t2.nodes) :
    t1.find_leaves_aabb root rect hint = t2.find_leaves_aabb root rect hint := by
  unfold QuadTree.find_leaves_aabb
  rw [h_nodes]
  exact find_leaves_loop_comp t1 t2 rect hint h_nodes _ _ _

theorem collect_ids_char (t : QuadTree) (T : QTree) (chain : List Nat)
    (hok : ElemsOK t T chain) (hvis : VisP t) :
    ∀ x, x ∈ t.collect_ids ↔ x ∈ storedIds t := by
  intro x
  have hnok : NodesOK t T chain :=
    ⟨hok.dec0, hok.fchain, hok.cover_nodup, hok.cover_lt, hok.cover_all⟩
  have hch : chainsOf t (QTree.leafIdxs 0 T) =
      some ((QTree.leafIdxs 0 T).map (fun i => (i, chainD t i))) :=
    chainsOf_of_some t _ hok.chains_some
  have hmem := intersect_aabb_mem t t.root_rect.toAABB T chain _ hnok hch
  have hsid := storedIds_char t T hok.dec0 hok.chains_some
  unfold QuadTree.collect_ids
  rw [hmem x, hsid]
  constructor
  · rintro ⟨i, c, hc, hx⟩
    have hidx : i ∈ QTree.leafIdxs 0 T :=
      qVisits_sub_leafIdxs t.nodes t.root_rect.toAABB _ 0 T
        (t.get_root_node_data).crect i c hok.dec0 hc
    unfold leafContrib at hx
    obtain ⟨hs, hhs⟩ := Option.isSome_iff_exists.mp (hok.chains_some i hidx)
    have hhs' : elemChain t.element_nodes (t.element_nodes.data.length + 1)
        ((t.nodeAt i).first_child_or_element) = some hs := hhs
    rw [hhs'] at hx
    simp only [List.mem_map, List.mem_filter] at hx
    obtain ⟨hh, ⟨hmemh, -⟩, rfl⟩ := hx
    refine List.mem_map.mpr ⟨hh, ?_, rfl⟩
    refine List.mem_flatMap.mpr ⟨i, hidx, ?_⟩
    rw [show chainD t i = hs by simp [chainD, chainAt, hhs']]
    exact hmemh
  · intro hx
    obtain ⟨hh, hmemh, rfl⟩ := List.mem_map.mp hx
    obtain ⟨i, hidx, hhi⟩ := List.mem_flatMap.mp hmemh
    obtain ⟨hs, hhs⟩ := Option.isSome_iff_exists.mp (hok.chains_some i hidx)
    have hcd : chainD t i = hs := by simp [chainD, hhs]
    have hcnt : (t.nodeAt i).element_count ≠ 0 := by
      rw [hok.counts i hidx, hcd]
      have : hh ∈ hs := by rw [← hcd]; exact hhi
      cases hs with
      | nil => simp at this
      | cons a l => simp
    obtain ⟨c, hc⟩ := hvis T hok.dec0 i hidx hcnt
    refine ⟨i, c, ?_, ?_⟩
    · unfold qVis rootCellOf at hc
      exact hc
    · unfold leafContrib
      have hhs' : elemChain t.element_nodes (t.element_nodes.data.length + 1)
          ((t.nodeAt i).first_child_or_element) = some hs := hhs
      rw [hhs']
      have hhs2 : hh ∈ hs := by rwa [hcd] at hhi
      refine List.mem_map.mpr ⟨hh, List.mem_filter.mpr ⟨hhs2, ?_⟩, rfl⟩
      have hgood := hok.idxs_good (handleIdx t hh)
        (List.mem_map.mpr ⟨hh, List.mem_flatMap.mpr ⟨i, hidx, hhi⟩, rfl⟩)
      obtain ⟨-, -, hor, hin, -⟩ := hgood
      simpa using root_intersects t.root_rect (rectAt t (handleIdx t hh))
        hok.rootok hor hin

theorem mTargetT_branch5 (rect : AABB) (nd : NodeData) (fc : Nat)
    (a0 a1 a2 a3 a4 : Node) :
    (mTargetT rect nd (QTree.branch fc (QTree.leaf a0) (QTree.leaf a1) (QTree.leaf a2)
      (QTree.leaf a3) (QTree.leaf a4))).can_split = false ∨
    ((mTargetT rect nd (QTree.branch fc (QTree.leaf a0) (QTree.leaf a1) (QTree.leaf a2)
      (QTree.leaf a3) (QTree.leaf a4))).can_split = true ∧
     (mTargetT rect nd (QTree.branch fc (QTree.leaf a0) (QTree.leaf a1) (QTree.leaf a2)
      (QTree.leaf a3) (QTree.leaf a4))).depth = nd.depth + 1) := by
  simp only [mTargetT]
  split_ifs <;> simp [NodeData.new]

theorem can_split_further_elim (nd : NodeData) (s m : Nat)
    (h : nd.can_split_further s m = true) :
    nd.can_split = true ∧ nd.depth < m := by
  simp only [NodeData.can_split_further, Bool.and_eq_true, decide_eq_true_eq] at h
  exact ⟨h.1.1, h.2⟩

theorem rootCellOf_congr (t1 t2 : QuadTree) (h : t1.root_rect = t2.root_rect) :
    rootCellOf t1 = rootCellOf t2 := by
  unfold rootCellOf QuadTree.get_root_node_data
  rw [h]

theorem insert_main_loop_nil (rect : AABB) (e : Nat) (m : Nat) (t : QuadTree) :
    QuadTree.insert_main_loop rect e m t [] = t := by
  cases m <;> rfl

theorem insert_rounds (rect : AABB) (jE : Nat) (ids1 : FreeList Nat)
    (rects1 : FreeList AABB) (hjs : jE ≠ SENTINEL) :
    ∀ (fuel : Nat) (tr tg : QuadTree) (T : QTree) (chain : List Nat)
      (nd0 nd : NodeData) (S : QTree),
      ElemsOK tg T chain →
      VisP tg →
      tr.element_nodes = tg.element_nodes →
      tr.nodes = tg.nodes →
      tr.free_node = tg.free_node →
      tr.root_rect = tg.root_rect →
      tr.max_num_elements = tg.max_num_elements →
      tr.smallest_cell_size = tg.smallest_cell_size →
      tr.max_depth = tg.max_depth →
      tr.element_ids = ids1 →
      tr.element_rects = rects1 →
      (∀ j, j ≠ jE → rects1.atIdx j = tg.element_rects.atIdx j) →
      liveAt tg.element_ids jE = false →
      0 < tg.max_num_elements →
      nd0.index = 0 →
      nd0.crect = rootCellOf tg →
      decodedAt tg nd.index = some S →
      nd.index ∈ QTree.spans 0 T →
      mTargetT rect nd S = mTargetT rect nd0 T →
      1 ≤ fuel →
      ((mTargetT rect nd0 T).can_split = true →
        tg.max_depth + 2 ≤ fuel + (mTargetT rect nd0 T).depth) →
      tg.nodes.length + 5 * fuel ≤ SENTINEL →
      tg.element_nodes.data.length + fuel < SENTINEL →
      ∃ (tg2 : QuadTree) (T2 : QTree) (chain2 : List Nat),
        ElemsOK tg2 T2 chain2 ∧
        VisP tg2 ∧
        tg2.element_ids = tg.element_ids ∧
        tg2.element_rects = tg.element_rects ∧
        tg2.root_rect = tg.root_rect ∧
        tg2.max_num_elements = tg.max_num_elements ∧
        tg2.smallest_cell_size = tg.smallest_cell_size ∧
        tg2.max_depth = tg.max_depth ∧
        tg2.element_nodes.data.length + 1 < SENTINEL ∧
        tg2.nodes.length ≤ SENTINEL ∧
        (mTargetT rect nd0 T2).index ∈ QTree.leafIdxs 0 T2 ∧
        (QuadTree.insert_main_loop rect jE fuel tr [nd]).element_nodes =
          (tg2.element_nodes.insert
            ⟨(tg2.nodeAt (mTargetT rect nd0 T2).index).first_child_or_element, jE⟩).2 ∧
        (QuadTree.insert_main_loop rect jE fuel tr [nd]).nodes =
          tg2.nodes.set (mTargetT rect nd0 T2).index
            ⟨(tg2.element_nodes.insert
              ⟨(tg2.nodeAt (mTargetT rect nd0 T2).index).first_child_or_element, jE⟩).1,
             (tg2.nodeAt (mTargetT rect nd0 T2).index).element_count + 1⟩ ∧
        (QuadTree.insert_main_loop rect jE fuel tr [nd]).free_node = tg2.free_node ∧
        (QuadTree.insert_main_loop rect jE fuel tr [nd]).element_ids = ids1 ∧
        (QuadTree.insert_main_loop rect jE fuel tr [nd]).element_rects = rects1 ∧
        (QuadTree.insert_main_loop rect jE fuel tr [nd]).root_rect = tg.root_rect ∧
        (QuadTree.insert_main_loop rect jE fuel tr [nd]).max_num_elements =
          tg.max_num_elements ∧
        (QuadTree.insert_main_loop rect jE fuel tr [nd]).smallest_cell_size =
          tg.smallest_cell_size ∧
        (QuadTree.insert_main_loop rect jE fuel tr [nd]).max_depth = tg.max_depth := by
  intro fuel
  induction fuel with
  | zero =>
    intro tr tg T chain nd0 nd S _ _ _ _ _ _ _ _ _ _ _ _ _ _ _ _ _ _ _ hfge _ _ _
    omega
  | succ k ih =>
    intro tr tg T chain nd0 nd S hok hvis hren hrn hrf hrr hrm hrs hrd hrids hrrects
      hagree hjdead hmaxpos hnd0i hnd0c hdecS hndspan hmtg hfge hdepth hcapN hcapE
    have hdec0 : decodedAt tg 0 = some T := hok.dec0
    have hndspans : (QTree.spans 0 T).Nodup := hok.cover_nodup.of_append_left
    have hnodeAt : ∀ i, tr.nodeAt i = tg.nodeAt i := by
      intro i
      unfold QuadTree.nodeAt
      rw [hrn]
    have hSnd : (QTree.spans nd.index S).Nodup :=
      spans_nodup_of_decode tg.nodes nd.index _ S hdecS _ 0 T hdec0 hndspans hndspan
    have hSsub : ∀ x ∈ QTree.spans nd.index S, x ∈ QTree.spans 0 T :=
      spans_subset_of_decode tg.nodes nd.index _ S hdecS _ 0 T hdec0 hndspan
    have hSlen : (QTree.spans nd.index S).length < tg.nodes.length + 1 := by
      have := nodup_length_le_of_lt _ tg.nodes.length hSnd
        (fun x hx => hok.cover_lt x (List.mem_append_left _ (hSsub x hx)))
      omega
    have hfind : tr.find_leaves_aabb nd rect .Mutate = [mTargetT rect nd0 T] := by
      rw [find_leaves_aabb_comp tr tg nd rect .Mutate hrn,
        find_leaves_aabb_mutate tg rect nd S hdecS hSlen, hmtg]
    obtain ⟨nF, hdecF0, hmemF0⟩ := mTargetT_decode_leaf tg rect T nd0 (by rw [hnd0i]; exact hdec0)
    rw [hnd0i] at hmemF0
    have hgspanF : (mTargetT rect nd0 T).index ∈ QTree.spans 0 T :=
      (leafIdxs_sublist_spans 0 T).subset hmemF0
    have hFlt : (mTargetT rect nd0 T).index < tg.nodes.length :=
      hok.cover_lt _ (List.mem_append_left _ hgspanF)
    have hmain : QuadTree.insert_main_loop rect jE (k + 1) tr [nd] =
        QuadTree.insert_main_loop rect jE k
          (QuadTree.insert_leaves_loop rect jE
            ((tr.find_leaves_aabb nd rect .Mutate).length + 1) tr
            (tr.find_leaves_aabb nd rect .Mutate) []).1
          ((QuadTree.insert_leaves_loop rect jE
            ((tr.find_leaves_aabb nd rect .Mutate).length + 1) tr
            (tr.find_leaves_aabb nd rect .Mutate) []).2 ++ []) := by
      simp only [QuadTree.insert_main_loop]
    have hloop : QuadTree.insert_leaves_loop rect jE
        ([mTargetT rect nd0 T].length + 1) tr [mTargetT rect nd0 T] [] =
        if (!decide ((tr.nodeAt (mTargetT rect nd0 T).index).element_count ≥
              tr.max_num_elements) ||
            !((mTargetT rect nd0 T).can_split_further tr.smallest_cell_size
              tr.max_depth)) = true then
          ({ tr with
              element_nodes := (tr.element_nodes.insert
                ⟨(tr.nodeAt (mTargetT rect nd0 T).index).first_child_or_element,
                  jE⟩).2,
              nodes := tr.nodes.set (mTargetT rect nd0 T).index
                ⟨(tr.element_nodes.insert
                  ⟨(tr.nodeAt (mTargetT rect nd0 T).index).first_child_or_element,
                    jE⟩).1,
                 (tr.nodeAt (mTargetT rect nd0 T).index).element_count + 1⟩ }, [])
        else
          (tr.distribute_elements_to_child_nodes (mTargetT rect nd0 T),
            [mTargetT rect nd0 T]) := by
      rfl
    rw [hmain, hfind, hloop]
    by_cases hms : (!decide ((tr.nodeAt (mTargetT rect nd0 T).index).element_count ≥
          tr.max_num_elements) ||
        !((mTargetT rect nd0 T).can_split_further tr.smallest_cell_size
          tr.max_depth)) = true
    · rw [if_pos hms]
      simp only [List.nil_append]
      rw [insert_main_loop_nil]
      refine ⟨tg, T, chain, hok, hvis, rfl, rfl, rfl, rfl, rfl, rfl,
        by omega, by omega, hmemF0, ?_, ?_, ?_, ?_, ?_, ?_, ?_, ?_, ?_⟩
      · show (tr.element_nodes.insert
            ⟨(tr.nodeAt (mTargetT rect nd0 T).index).first_child_or_element, jE⟩).2 = _
        rw [hren, hnodeAt]
      · show tr.nodes.set (mTargetT rect nd0 T).index _ = _
        rw [hrn, hren, hnodeAt]
      · show tr.free_node = tg.free_node
        exact hrf
      · show tr.element_ids = ids1
        exact hrids
      · show tr.element_rects = rects1
        exact hrrects
      · show tr.root_rect = tg.root_rect
        exact hrr
      · show tr.max_num_elements = tg.max_num_elements
        exact hrm
      · show tr.smallest_cell_size = tg.smallest_cell_size
        exact hrs
      · show tr.max_depth = tg.max_depth
        exact hrd
    · rw [if_neg hms]
      have hmsf : decide ((tr.nodeAt (mTargetT rect nd0 T).index).element_count ≥
            tr.max_num_elements) = true ∧
          (mTargetT rect nd0 T).can_split_further tr.smallest_cell_size
            tr.max_depth = true := by
        rcases Bool.eq_false_or_eq_true (decide
          ((tr.nodeAt (mTargetT rect nd0 T).index).element_count ≥
            tr.max_num_elements)) with h1 | h1 <;>
        rcases Bool.eq_false_or_eq_true ((mTargetT rect nd0 T).can_split_further
          tr.smallest_cell_size tr.max_depth) with h2 | h2 <;>
          simp [h1, h2] at hms ⊢
      have hfull : (tg.nodeAt (mTargetT rect nd0 T).index).element_count ≥
          tg.max_num_elements := by
        have h1 := of_decide_eq_true hmsf.1
        rw [hnodeAt, hrm] at h1
        exact h1
      have hsplit : (mTargetT rect nd0 T).can_split_further tg.smallest_cell_size
          tg.max_depth = true := by
        have := hmsf.2
        rw [hrs, hrd] at this
        exact this
      obtain ⟨hFcs, hFdlt⟩ := can_split_further_elim _ _ _ hsplit
      have hcnt0 : (tg.nodeAt (mTargetT rect nd0 T).index).element_count ≠ 0 := by
        omega
      obtain ⟨c, hc⟩ := hvis T hdec0 _ hmemF0 hcnt0
      have hnok : NodesOK tg T chain :=
        ⟨hok.dec0, hok.fchain, hok.cover_nodup, hok.cover_lt, hok.cover_all⟩
      have hqv : qVisits tg.nodes tg.root_rect.toAABB (tg.nodes.length + 1)
          (rootCellOf tg) 0 = qVisitsT tg.root_rect.toAABB (rootCellOf tg) 0 T := by
        refine qVisits_decode tg.nodes tg.root_rect.toAABB _ _ (rootCellOf tg) 0 T
          hok.dec0 ?_
        have := spans_len_le tg T chain hnok
        omega
      have hcT : ((mTargetT rect nd0 T).index, c) ∈
          qVisitsT tg.root_rect.toAABB nd0.crect nd0.index T := by
        rw [hnd0c, hnd0i]
        unfold qVis at hc
        rw [hqv] at hc
        exact hc
      have hcpin : c = (mTargetT rect nd0 T).crect := by
        refine cells_agree rect tg.root_rect.toAABB T nd0 c ?_ hcT
        rw [hnd0i]
        exact hndspans
      have hvisL : ((mTargetT rect nd0 T).index, (mTargetT rect nd0 T).crect) ∈
          qVis tg := by
        rw [← hcpin]
        exact hc
      obtain ⟨T2, chain2, N, c1, c2, c3, c4, c5, c6, c7, c8, c9, c10, c11, c12,
        c13, c14, c15, c16⟩ :=
        split_step tg T chain (mTargetT rect nd0 T) nF hok hvis hdecF0 hmemF0 hvisL
          (by omega) (by omega)
      have href : ∀ x ndc, tg.element_nodes.atIdx x = some ndc →
          ndc.element_idx ≠ jE := by
        intro x ndc hx hcon
        have hlive : liveAt tg.element_nodes x = true := by
          unfold liveAt
          rw [hx]
          rfl
        have hxlen : x < tg.element_nodes.data.length := atIdx_lt _ _ _ hx
        have hmem : x ∈ handlesOf tg (QTree.leafIdxs 0 T) :=
          (hok.en_live_iff x hxlen).mp hlive
        have hgood := hok.idxs_good (handleIdx tg x)
          (List.mem_map.mpr ⟨x, hmem, rfl⟩)
        have hhx : handleIdx tg x = ndc.element_idx := by
          unfold handleIdx
          rw [hx]
          rfl
        rw [hhx, hcon] at hgood
        rw [hgood.1] at hjdead
        simp at hjdead
      have hagree' : ∀ j, j ≠ jE → tr.element_rects.atIdx j =
          tg.element_rects.atIdx j := by
        intro j hj
        rw [hrrects]
        exact hagree j hj
      obtain ⟨hsw_en, hsw_nodes, hsw_free⟩ :=
        distribute_swap tr tg (mTargetT rect nd0 T) jE hjs hren hrn hrf hagree' href
      obtain ⟨hdf1, hdf2, hdf3, hdf4, hdf5, hdf6⟩ :=
        distribute_fields tr (mTargetT rect nd0 T)
      have hglt1 : (mTargetT rect nd0 T).index <
          (tg.distribute_elements_to_child_nodes (mTargetT rect nd0 T)).nodes.length := by
        omega
      have hspanF2 : (mTargetT rect nd0 T).index ∈ QTree.spans 0 T2 := by
        rcases List.mem_append.mp (c1.cover_all _ hglt1) with hsp | hgp
        · exact hsp
        · exfalso
          obtain ⟨g, hg, hgi⟩ := List.mem_flatMap.mp hgp
          have hfg := c1.freegroups g hg
          rcases decoded_shape _ _ _ c14 with ⟨n2, heq, -, -, -⟩ | ⟨fc2, d0, d1, d2, d3, d4, -, hrec, -, -⟩
          · exact QTree.noConfusion heq
          · simp only [groupIdxs, List.mem_cons, List.mem_singleton] at hgi
            rcases hgi with he | he | he | he | he | he
            · rw [← he, hrec] at hfg
              have := hfg.1
              simp [NODE_IS_BRANCH] at this
            · rw [← he, hrec] at hfg
              have := hfg.2.1
              rw [show (⟨fc2, NODE_IS_BRANCH⟩ : Node) = Node.default ↔ False by
                simp [Node.default, NODE_IS_BRANCH, SENTINEL]] at this
              exact this
            · rw [← he, hrec] at hfg
              have := hfg.2.2.1
              rw [show (⟨fc2, NODE_IS_BRANCH⟩ : Node) = Node.default ↔ False by
                simp [Node.default, NODE_IS_BRANCH, SENTINEL]] at this
              exact this
            · rw [← he, hrec] at hfg
              have := hfg.2.2.2.1
              rw [show (⟨fc2, NODE_IS_BRANCH⟩ : Node) = Node.default ↔ False by
                simp [Node.default, NODE_IS_BRANCH, SENTINEL]] at this
              exact this
            · rw [← he, hrec] at hfg
              have := hfg.2.2.2.2
              rw [show (⟨fc2, NODE_IS_BRANCH⟩ : Node) = Node.default ↔ False by
                simp [Node.default, NODE_IS_BRANCH, SENTINEL]] at this
              exact this
            · simp at he
      have hmtg2 : mTargetT rect (mTargetT rect nd0 T)
          (QTree.branch (tg.ensure_child_nodes_exist).1
            (QTree.leaf ((tg.distribute_elements_to_child_nodes
              (mTargetT rect nd0 T)).nodeAt (tg.ensure_child_nodes_exist).1))
            (QTree.leaf ((tg.distribute_elements_to_child_nodes
              (mTargetT rect nd0 T)).nodeAt ((tg.ensure_child_nodes_exist).1 + 1)))
            (QTree.leaf ((tg.distribute_elements_to_child_nodes
              (mTargetT rect nd0 T)).nodeAt ((tg.ensure_child_nodes_exist).1 + 2)))
            (QTree.leaf ((tg.distribute_elements_to_child_nodes
              (mTargetT rect nd0 T)).nodeAt ((tg.ensure_child_nodes_exist).1 + 3)))
            (QTree.leaf ((tg.distribute_elements_to_child_nodes
              (mTargetT rect nd0 T)).nodeAt ((tg.ensure_child_nodes_exist).1 + 4)))) =
          mTargetT rect nd0 T2 := by
        rw [mTargetT_branch_any rect (mTargetT rect nd0 T)
          (tg.ensure_child_nodes_exist).1 _ _ _ _ _
          Node.default Node.default Node.default Node.default Node.default]
        exact (c16 rect nd0 hnd0i rfl).symm
      have hkge : 1 ≤ k := by
        have := hdepth hFcs
        omega
      have hdepth2 : (mTargetT rect nd0 T2).can_split = true →
          (tg.distribute_elements_to_child_nodes (mTargetT rect nd0 T)).max_depth + 2 ≤
            k + (mTargetT rect nd0 T2).depth := by
        intro hcs2
        rw [c8]
        have hd1 := hdepth hFcs
        rw [← hmtg2] at hcs2 ⊢
        rcases mTargetT_branch5 rect (mTargetT rect nd0 T)
          (tg.ensure_child_nodes_exist).1
          ((tg.distribute_elements_to_child_nodes
            (mTargetT rect nd0 T)).nodeAt (tg.ensure_child_nodes_exist).1)
          ((tg.distribute_elements_to_child_nodes
            (mTargetT rect nd0 T)).nodeAt ((tg.ensure_child_nodes_exist).1 + 1))
          ((tg.distribute_elements_to_child_nodes
            (mTargetT rect nd0 T)).nodeAt ((tg.ensure_child_nodes_exist).1 + 2))
          ((tg.distribute_elements_to_child_nodes
            (mTargetT rect nd0 T)).nodeAt ((tg.ensure_child_nodes_exist).1 + 3))
          ((tg.distribute_elements_to_child_nodes
            (mTargetT rect nd0 T)).nodeAt ((tg.ensure_child_nodes_exist).1 + 4)) with
          hcs | ⟨-, hdep⟩
        · rw [hcs2] at hcs
          exact absurd hcs (by simp)
        · rw [hdep]
          omega
      obtain ⟨tg2, T3, chain3, b1, b2, b3, b4, b5, b6, b7, b8, b9, b10, b11, b12,
        b13, b14, b15, b16, b17, b18, b19, b20⟩ :=
        ih (tr.distribute_elements_to_child_nodes (mTargetT rect nd0 T))
          (tg.distribute_elements_to_child_nodes (mTargetT rect nd0 T))
          T2 chain2 nd0 (mTargetT rect nd0 T) _
          c1 c2 hsw_en hsw_nodes hsw_free
          (by rw [hdf3, hrr, c5]) (by rw [hdf4, hrm, c6]) (by rw [hdf5, hrs, c7])
          (by rw [hdf6, hrd, c8]) (by rw [hdf1, hrids]) (by rw [hdf2, hrrects])
          (by intro j hj; rw [c4]; exact hagree j hj)
          (by rw [c3]; exact hjdead)
          (by rw [c6]; exact hmaxpos)
          hnd0i
          (by rw [hnd0c]; exact rootCellOf_congr _ _ c5.symm)
          c14 hspanF2 hmtg2 hkge hdepth2
          (by omega) (by omega)
      simp only [List.append_nil]
      refine ⟨tg2, T3, chain3, b1, b2, ?_, ?_, ?_, ?_, ?_, ?_, b9, b10, b11, b12,
        b13, b14, b15, b16, ?_, ?_, ?_, ?_⟩
      · rw [b3, c3]
      · rw [b4, c4]
      · rw [b5, c5]
      · rw [b6, c6]
      · rw [b7, c7]
      · rw [b8, c8]
      · rw [b17, c5]
      · rw [b18, c6]
      · rw [b19, c7]
      · rw [b20, c8]

end SP
